import Mathlib

/-!
# A 16-bit software CPU and its two-pass assembler

Shallow embedding of `cpu.c` / `cpu.h` (the execution engine) and of
`assembler.c` / `assembler.h` (the two-pass assembler), followed by theorems
about them.

Conventions of the embedding.

* Machine integers are natural numbers; every place where the C code truncates
  (`uint8_t`, `uint16_t`, `uint64_t` stores, conversions of arguments) is an
  explicit `%`.
* The C functions mutate `*cpu` / `*as`; here they take the state and return the
  new one (together with the returned value when there is one).
* The process environment is part of the CPU state: `stdin` holds the bytes
  `getchar` will still deliver (at end of input `getchar` yields `EOF`, which the
  `uint8_t` return type of `mem_read8` turns into 255), `port_out` collects the
  bytes given to `putchar` by a write to port 0xFF01, and `clock` holds the
  successive readings of `get_time_ms`.  Diagnostics (`printf`, `fprintf`) are
  not modelled.
-/

namespace SoftCpu

/-! ## cpu.h -/

abbrev MEMORY_SIZE : Nat := 65536
abbrev IO_START : Nat := 0xFF00
abbrev STACK_START : Nat := 0xFEFF
abbrev TIMER_ADDR : Nat := 0xFF03

abbrev FLAG_ZERO : Nat := 0x01
abbrev FLAG_CARRY : Nat := 0x02
abbrev FLAG_NEGATIVE : Nat := 0x04
abbrev FLAG_OVERFLOW : Nat := 0x08
abbrev FLAG_HALT : Nat := 0x80

abbrev OP_NOP : Nat := 0
abbrev OP_LOAD : Nat := 1
abbrev OP_STORE : Nat := 2
abbrev OP_MOV : Nat := 3
abbrev OP_PUSH : Nat := 4
abbrev OP_POP : Nat := 5
abbrev OP_ADD : Nat := 6
abbrev OP_SUB : Nat := 7
abbrev OP_INC : Nat := 8
abbrev OP_DEC : Nat := 9
abbrev OP_MUL : Nat := 10
abbrev OP_DIV : Nat := 11
abbrev OP_AND : Nat := 12
abbrev OP_OR : Nat := 13
abbrev OP_XOR : Nat := 14
abbrev OP_NOT : Nat := 15
abbrev OP_SHL : Nat := 16
abbrev OP_SHR : Nat := 17
abbrev OP_CMP : Nat := 18
abbrev OP_TEST : Nat := 19
abbrev OP_JMP : Nat := 20
abbrev OP_JZ : Nat := 21
abbrev OP_JNZ : Nat := 22
abbrev OP_JC : Nat := 23
abbrev OP_JNC : Nat := 24
abbrev OP_CALL : Nat := 25
abbrev OP_RET : Nat := 26
abbrev OP_HALT : Nat := 27
abbrev OP_IN : Nat := 28
abbrev OP_OUT : Nat := 29

abbrev MODE_IMMEDIATE : Nat := 0
abbrev MODE_DIRECT : Nat := 1
abbrev MODE_REGISTER : Nat := 2
abbrev MODE_INDIRECT : Nat := 3

/-- The register file `Registers` of cpu.h: six `uint16_t` and the `uint8_t`
status byte. -/
structure Registers where
  PC : Nat
  SP : Nat
  A : Nat
  B : Nat
  C : Nat
  D : Nat
  FLAGS : Nat

/-- The `CPU` of cpu.h, extended with the environment the C functions reach
through `getchar`, `putchar` and `gettimeofday`. -/
structure CPU where
  regs : Registers
  memory : Nat → Nat
  running : Bool
  cycles : Nat
  timer_start_ms : Nat
  stdin : List Nat
  port_out : List Nat
  clock : List Nat

/-! ## cpu.c -/

/-- One reading of the wall clock (`get_time_ms`, a `uint64_t`): the next entry
of `clock`, or 0 when none is left. -/
def get_time_ms (cpu : CPU) : Nat × CPU :=
  match cpu.clock with
  | [] => (0, cpu)
  | t :: rest => (t % 2 ^ 64, { cpu with clock := rest })

/-- The C library `getchar` as seen through a `uint8_t`: the next input byte,
or 255 (`EOF`) at end of input. -/
def getchar (cpu : CPU) : Nat × CPU :=
  match cpu.stdin with
  | [] => (255, cpu)
  | c :: rest => (c % 256, { cpu with stdin := rest })

/-- The C library `putchar` (followed by `fflush`). -/
def putchar (cpu : CPU) (value : Nat) : CPU :=
  { cpu with port_out := cpu.port_out ++ [value] }

/-- Embedding of `cpu_init`: everything zero, `SP = STACK_START`, and the timer
start taken from the clock.  The arguments are the environment the process
starts in. -/
def cpu_init (stdin clock : List Nat) : CPU :=
  let zero : CPU :=
    { regs := { PC := 0, SP := 0, A := 0, B := 0, C := 0, D := 0, FLAGS := 0 }
      memory := fun _ => 0
      running := false
      cycles := 0
      timer_start_ms := 0
      stdin := stdin
      port_out := []
      clock := clock }
  let cpu := { zero with regs := { zero.regs with SP := STACK_START }, running := false,
                         cycles := 0 }
  let r := get_time_ms cpu
  { r.2 with timer_start_ms := r.1 }

/-- Embedding of `cpu_reset`. -/
def cpu_reset (cpu : CPU) : CPU :=
  { cpu with
    regs := { PC := 0, SP := STACK_START, A := 0, B := 0, C := 0, D := 0, FLAGS := 0 }
    running := false
    cycles := 0 }

/-- Embedding of `cpu_load_program`: `program` is the byte array, read at
indices `0 .. size - 1`. -/
def cpu_load_program (cpu : CPU) (program : Nat → Nat) (size start_addr : Nat) : CPU :=
  if start_addr + size > MEMORY_SIZE then cpu
  else
    { cpu with
      memory := fun a =>
        if start_addr ≤ a ∧ a < start_addr + size then program (a - start_addr)
        else cpu.memory a
      regs := { cpu.regs with PC := start_addr } }

/-- Embedding of `mem_read8`. -/
def mem_read8 (cpu : CPU) (addr : Nat) : Nat × CPU :=
  if addr ≥ IO_START then
    if addr = 0xFF00 then getchar cpu
    else (0, cpu)
  else (cpu.memory addr, cpu)

/-- Embedding of `mem_read16`. -/
def mem_read16 (cpu : CPU) (addr : Nat) : Nat × CPU :=
  if addr = TIMER_ADDR then
    let r := get_time_ms cpu
    let elapsed_ms := (r.1 + 2 ^ 64 - r.2.timer_start_ms % 2 ^ 64) % 2 ^ 64
    (elapsed_ms &&& 0xFFFF, r.2)
  else
    let low := mem_read8 cpu addr
    let high := mem_read8 low.2 ((addr + 1) % 65536)
    (((high.1 <<< 8) ||| low.1) % 65536, high.2)

/-- Embedding of `mem_write8`. -/
def mem_write8 (cpu : CPU) (addr value : Nat) : CPU :=
  if addr ≥ IO_START then
    if addr = 0xFF01 then putchar cpu value
    else cpu
  else { cpu with memory := fun a => if a = addr then value else cpu.memory a }

/-- Embedding of `mem_write16`. -/
def mem_write16 (cpu : CPU) (addr value : Nat) : CPU :=
  let cpu := mem_write8 cpu addr (value &&& 0xFF)
  mem_write8 cpu ((addr + 1) % 65536) ((value >>> 8) &&& 0xFF)

/-- Embedding of `stack_push8`. -/
def stack_push8 (cpu : CPU) (value : Nat) : CPU :=
  let cpu := mem_write8 cpu cpu.regs.SP value
  { cpu with regs := { cpu.regs with SP := (cpu.regs.SP + 65535) % 65536 } }

/-- Embedding of `stack_push16`. -/
def stack_push16 (cpu : CPU) (value : Nat) : CPU :=
  let cpu := stack_push8 cpu ((value >>> 8) &&& 0xFF)
  stack_push8 cpu (value &&& 0xFF)

/-- Embedding of `stack_pop8`. -/
def stack_pop8 (cpu : CPU) : Nat × CPU :=
  let cpu := { cpu with regs := { cpu.regs with SP := (cpu.regs.SP + 1) % 65536 } }
  mem_read8 cpu cpu.regs.SP

/-- Embedding of `stack_pop16`. -/
def stack_pop16 (cpu : CPU) : Nat × CPU :=
  let low := stack_pop8 cpu
  let high := stack_pop8 low.2
  (((high.1 <<< 8) ||| low.1) % 65536, high.2)

/-- Embedding of `set_flag`. -/
def set_flag (cpu : CPU) (flag : Nat) : CPU :=
  { cpu with regs := { cpu.regs with FLAGS := (cpu.regs.FLAGS ||| flag) % 256 } }

/-- Embedding of `clear_flag`; `~flag` restricted to the eight bits of `FLAGS`
is `0xFF ^^^ flag`. -/
def clear_flag (cpu : CPU) (flag : Nat) : CPU :=
  { cpu with regs := { cpu.regs with FLAGS := cpu.regs.FLAGS &&& (0xFF ^^^ flag) } }

/-- Embedding of `get_flag`. -/
def get_flag (cpu : CPU) (flag : Nat) : Bool :=
  (cpu.regs.FLAGS &&& flag) != 0

/-- Embedding of `update_flags`. -/
def update_flags (cpu : CPU) (result : Nat) : CPU :=
  let cpu := if result = 0 then set_flag cpu FLAG_ZERO else clear_flag cpu FLAG_ZERO
  if result &&& 0x8000 ≠ 0 then set_flag cpu FLAG_NEGATIVE else clear_flag cpu FLAG_NEGATIVE

/-- Embedding of `get_register`, read through the returned pointer. -/
def get_register (cpu : CPU) (reg_num : Nat) : Nat :=
  if reg_num = 0 then cpu.regs.A
  else if reg_num = 1 then cpu.regs.B
  else if reg_num = 2 then cpu.regs.C
  else if reg_num = 3 then cpu.regs.D
  else cpu.regs.A

/-- A store through the pointer returned by `get_register`. -/
def set_register (cpu : CPU) (reg_num value : Nat) : CPU :=
  if reg_num = 0 then { cpu with regs := { cpu.regs with A := value } }
  else if reg_num = 1 then { cpu with regs := { cpu.regs with B := value } }
  else if reg_num = 2 then { cpu with regs := { cpu.regs with C := value } }
  else if reg_num = 3 then { cpu with regs := { cpu.regs with D := value } }
  else { cpu with regs := { cpu.regs with A := value } }

/-- The locals `operand`, `address` and `reg_ptr` of `cpu_step`; `reg_ptr` is
the number of the register pointed to, `none` for `NULL`. -/
structure Operand where
  operand : Nat
  address : Nat
  reg_ptr : Option Nat

/-- The instruction fetch of `cpu_step`: the byte at `PC`, `PC++`, `cycles++`. -/
def fetch (cpu : CPU) : Nat × CPU :=
  let r := mem_read8 cpu cpu.regs.PC
  let cpu := { r.2 with regs := { r.2.regs with PC := (cpu.regs.PC + 1) % 65536 } }
  (r.1, { cpu with cycles := (cpu.cycles + 1) % 2 ^ 64 })

/-- The `needs_operand` test of `cpu_step`. -/
def needs_operand (opcode mode : Nat) : Bool :=
  !(opcode = OP_NOP || opcode = OP_HALT || opcode = OP_RET ||
    opcode = OP_NOT || (opcode = OP_POP && mode = MODE_IMMEDIATE))

/-- The operand fetch of `cpu_step` (the `switch (mode)`). -/
def fetch_operand (cpu : CPU) (opcode mode : Nat) : Operand × CPU :=
  if needs_operand opcode mode then
    if mode = MODE_IMMEDIATE then
      let r := mem_read16 cpu cpu.regs.PC
      let cpu := { r.2 with regs := { r.2.regs with PC := (r.2.regs.PC + 2) % 65536 } }
      ({ operand := r.1, address := 0, reg_ptr := none }, cpu)
    else if mode = MODE_DIRECT then
      let r := mem_read16 cpu cpu.regs.PC
      let cpu := { r.2 with regs := { r.2.regs with PC := (r.2.regs.PC + 2) % 65536 } }
      let o := mem_read16 cpu r.1
      ({ operand := o.1, address := r.1, reg_ptr := none }, o.2)
    else if mode = MODE_REGISTER then
      let r := mem_read8 cpu cpu.regs.PC
      let cpu := { r.2 with regs := { r.2.regs with PC := (cpu.regs.PC + 1) % 65536 } }
      ({ operand := get_register cpu r.1, address := 0, reg_ptr := some r.1 }, cpu)
    else if mode = MODE_INDIRECT then
      let r := mem_read8 cpu cpu.regs.PC
      let cpu := { r.2 with regs := { r.2.regs with PC := (cpu.regs.PC + 1) % 65536 } }
      let address := get_register cpu r.1
      let o := mem_read16 cpu address
      ({ operand := o.1, address := address, reg_ptr := none }, o.2)
    else ({ operand := 0, address := 0, reg_ptr := none }, cpu)
  else ({ operand := 0, address := 0, reg_ptr := none }, cpu)

/-- The `switch (opcode)` of `cpu_step`.  `SHL`, `SHR` and `MUL` are the
mathematical operations reduced to 16 bits (C leaves shifts by 32 or more and
overflowing `int` products undefined); `SUB`, `CMP` and `DEC` compute the
two-complement low 16 bits for 16-bit inputs. -/
def execute (cpu : CPU) (opcode mode : Nat) (o : Operand) : CPU :=
  let operand := o.operand
  let address := o.address
  if opcode = OP_NOP then cpu
  else if opcode = OP_LOAD then
    let cpu := { cpu with regs := { cpu.regs with A := operand } }
    update_flags cpu cpu.regs.A
  else if opcode = OP_STORE then
    if mode = MODE_DIRECT then mem_write16 cpu address cpu.regs.A
    else if mode = MODE_INDIRECT then mem_write16 cpu address cpu.regs.A
    else cpu
  else if opcode = OP_MOV then
    if mode = MODE_REGISTER then
      let r := mem_read8 cpu cpu.regs.PC
      let cpu := { r.2 with regs := { r.2.regs with PC := (cpu.regs.PC + 1) % 65536 } }
      let cpu := set_register cpu r.1 operand
      update_flags cpu (get_register cpu r.1)
    else cpu
  else if opcode = OP_PUSH then stack_push16 cpu operand
  else if opcode = OP_POP then
    let r := stack_pop16 cpu
    let cpu := { r.2 with regs := { r.2.regs with A := r.1 } }
    update_flags cpu cpu.regs.A
  else if opcode = OP_ADD then
    let result := (cpu.regs.A + operand) % 2 ^ 32
    let cpu := if result > 0xFFFF then set_flag cpu FLAG_CARRY else clear_flag cpu FLAG_CARRY
    let cpu := { cpu with regs := { cpu.regs with A := result &&& 0xFFFF } }
    update_flags cpu cpu.regs.A
  else if opcode = OP_SUB then
    let cpu := if cpu.regs.A < operand then set_flag cpu FLAG_CARRY
               else clear_flag cpu FLAG_CARRY
    let cpu := { cpu with regs := { cpu.regs with A := (cpu.regs.A + 65536 - operand) % 65536 } }
    update_flags cpu cpu.regs.A
  else if opcode = OP_INC then
    match (if mode = MODE_REGISTER then o.reg_ptr else none) with
    | some r =>
      let cpu := set_register cpu r ((get_register cpu r + 1) % 65536)
      update_flags cpu (get_register cpu r)
    | none =>
      let cpu := { cpu with regs := { cpu.regs with A := (cpu.regs.A + 1) % 65536 } }
      update_flags cpu cpu.regs.A
  else if opcode = OP_DEC then
    match (if mode = MODE_REGISTER then o.reg_ptr else none) with
    | some r =>
      let cpu := set_register cpu r ((get_register cpu r + 65535) % 65536)
      update_flags cpu (get_register cpu r)
    | none =>
      let cpu := { cpu with regs := { cpu.regs with A := (cpu.regs.A + 65535) % 65536 } }
      update_flags cpu cpu.regs.A
  else if opcode = OP_MUL then
    let cpu := { cpu with regs := { cpu.regs with A := (cpu.regs.A * operand) &&& 0xFFFF } }
    update_flags cpu cpu.regs.A
  else if opcode = OP_DIV then
    if operand ≠ 0 then
      let cpu := { cpu with regs := { cpu.regs with A := cpu.regs.A / operand } }
      update_flags cpu cpu.regs.A
    else cpu
  else if opcode = OP_AND then
    let cpu := { cpu with regs := { cpu.regs with A := cpu.regs.A &&& operand } }
    update_flags cpu cpu.regs.A
  else if opcode = OP_OR then
    let cpu := { cpu with regs := { cpu.regs with A := cpu.regs.A ||| operand } }
    update_flags cpu cpu.regs.A
  else if opcode = OP_XOR then
    let cpu := { cpu with regs := { cpu.regs with A := cpu.regs.A ^^^ operand } }
    update_flags cpu cpu.regs.A
  else if opcode = OP_NOT then
    let cpu := { cpu with regs := { cpu.regs with A := (cpu.regs.A ^^^ 0xFFFF) % 65536 } }
    update_flags cpu cpu.regs.A
  else if opcode = OP_SHL then
    let cpu := { cpu with regs := { cpu.regs with A := (cpu.regs.A <<< operand) % 65536 } }
    update_flags cpu cpu.regs.A
  else if opcode = OP_SHR then
    let cpu := { cpu with regs := { cpu.regs with A := cpu.regs.A >>> operand } }
    update_flags cpu cpu.regs.A
  else if opcode = OP_CMP then
    let result := (cpu.regs.A + 65536 - operand) % 65536
    let cpu := if cpu.regs.A < operand then set_flag cpu FLAG_CARRY
               else clear_flag cpu FLAG_CARRY
    update_flags cpu (result &&& 0xFFFF)
  else if opcode = OP_TEST then
    let result := cpu.regs.A &&& operand
    update_flags cpu result
  else if opcode = OP_JMP then
    { cpu with regs := { cpu.regs with PC := operand } }
  else if opcode = OP_JZ then
    if get_flag cpu FLAG_ZERO then { cpu with regs := { cpu.regs with PC := operand } }
    else cpu
  else if opcode = OP_JNZ then
    if !get_flag cpu FLAG_ZERO then { cpu with regs := { cpu.regs with PC := operand } }
    else cpu
  else if opcode = OP_JC then
    if get_flag cpu FLAG_CARRY then { cpu with regs := { cpu.regs with PC := operand } }
    else cpu
  else if opcode = OP_JNC then
    if !get_flag cpu FLAG_CARRY then { cpu with regs := { cpu.regs with PC := operand } }
    else cpu
  else if opcode = OP_CALL then
    let cpu := stack_push16 cpu cpu.regs.PC
    { cpu with regs := { cpu.regs with PC := operand } }
  else if opcode = OP_RET then
    let r := stack_pop16 cpu
    { r.2 with regs := { r.2.regs with PC := r.1 } }
  else if opcode = OP_HALT then
    let cpu := set_flag cpu FLAG_HALT
    { cpu with running := false }
  else if opcode = OP_IN then
    let r := mem_read8 cpu ((IO_START + operand) % 65536)
    let cpu := { r.2 with regs := { r.2.regs with A := r.1 } }
    update_flags cpu cpu.regs.A
  else if opcode = OP_OUT then
    mem_write8 cpu (IO_START + 1) (cpu.regs.A &&& 0xFF)
  else { cpu with running := false }

/-- The opcode field the fetch stage extracts from an instruction byte. -/
def decode_opcode (instruction : Nat) : Nat := (instruction >>> 2) &&& 0x3F

/-- The mode field the fetch stage extracts from an instruction byte. -/
def decode_mode (instruction : Nat) : Nat := instruction &&& 0x03

/-- Embedding of `cpu_step`. -/
def cpu_step (cpu : CPU) : CPU :=
  if !cpu.running || get_flag cpu FLAG_HALT then cpu
  else
    let f := fetch cpu
    let opcode := decode_opcode f.1
    let mode := decode_mode f.1
    let o := fetch_operand f.2 opcode mode
    execute o.2 opcode mode o.1

/-- The `while` loop of `cpu_run`, with a bound on the number of iterations:
`none` when the bound is reached with the loop condition still true. -/
def cpu_run_loop : Nat → CPU → Option CPU
  | 0, cpu => if cpu.running && !get_flag cpu FLAG_HALT then none else some cpu
  | fuel + 1, cpu =>
    if cpu.running && !get_flag cpu FLAG_HALT then cpu_run_loop fuel (cpu_step cpu)
    else some cpu

/-- Embedding of `cpu_run`. -/
def cpu_run (fuel : Nat) (cpu : CPU) : Option CPU :=
  cpu_run_loop fuel { cpu with running := true }

/-- The state in which `cpu_step` reaches its `switch (opcode)` when the
instruction occupies `n` bytes of RAM: `PC` is past them and one cycle is
counted. -/
def advance (cpu : CPU) (n : Nat) : CPU :=
  { cpu with regs := { cpu.regs with PC := cpu.regs.PC + n },
             cycles := (cpu.cycles + 1) % 2 ^ 64 }

/-! ## assembler.h, assembler.c

Source text is a list of characters, one `Char` per C `char`; the character
classes are those of the "C" locale.  Where the C code has no defined result
(a token longer than the buffer `sscanf` stores it in, or a label name copied
out of a buffer that `sscanf` left unwritten) `parse_line` and the passes give
`none`.  `line_number` is not reduced modulo the width of `int`. -/

abbrev MAX_LABELS : Nat := 256
abbrev MAX_LINE_LENGTH : Nat := 256
abbrev MAX_TOKEN_LENGTH : Nat := 64

/-- The `Label` of assembler.h. -/
structure Label where
  name : List Char
  address : Nat

/-- The `Assembler` of assembler.h; `label_count` is the length of `labels`,
`output` is the 65536-byte buffer, `none` where its content is still what
`malloc` left there (indeterminate). -/
structure Assembler where
  labels : List Label
  output : Nat → Option Nat
  output_size : Nat
  current_address : Nat
  line_number : Nat

/-- Embedding of `assembler_init`. -/
def assembler_init : Assembler :=
  { labels := [], output := fun _ => none, output_size := 0, current_address := 0,
    line_number := 0 }

/-- The loop of `find_label` from index `i` on. -/
def find_label_from (name : List Char) : List Label → Nat → Option Nat
  | [], _ => none
  | l :: rest, i => if l.name = name then some i else find_label_from name rest (i + 1)

/-- Embedding of `find_label`: the index of the first entry called `name`,
`none` for -1. -/
def find_label (as : Assembler) (name : List Char) : Option Nat :=
  find_label_from name as.labels 0

/-- Embedding of `add_label`. -/
def add_label (as : Assembler) (name : List Char) (address : Nat) : Assembler :=
  if as.labels.length ≥ MAX_LABELS then as
  else
    { as with labels := as.labels ++
        [{ name := name.take (MAX_TOKEN_LENGTH - 1), address := address }] }

/-- Embedding of `emit_byte`. -/
def emit_byte (as : Assembler) (byte : Nat) : Assembler :=
  { as with
    output := fun i => if i = as.output_size then some byte else as.output i
    output_size := (as.output_size + 1) % 65536
    current_address := (as.current_address + 1) % 65536 }

/-- Embedding of `emit_word`. -/
def emit_word (as : Assembler) (word : Nat) : Assembler :=
  let as := emit_byte as (word &&& 0xFF)
  emit_byte as ((word >>> 8) &&& 0xFF)

/-- Embedding of `encode_instruction`. -/
def encode_instruction (opcode mode : Nat) : Nat :=
  ((opcode <<< 2) ||| (mode &&& 0x03)) % 256

/-- The C library `isspace`. -/
def isspace (c : Char) : Bool :=
  c = ' ' || (9 ≤ c.toNat && c.toNat ≤ 13)

/-- The C library `isdigit`. -/
def isdigit (c : Char) : Bool :=
  48 ≤ c.toNat && c.toNat ≤ 57

/-- The C library `toupper`. -/
def toupper (c : Char) : Char :=
  if 97 ≤ c.toNat ∧ c.toNat ≤ 122 then Char.ofNat (c.toNat - 32) else c

/-- The value of a character as a digit of `strtol` (36 when it is none). -/
def digit_value (c : Char) : Nat :=
  if 48 ≤ c.toNat ∧ c.toNat ≤ 57 then c.toNat - 48
  else if 97 ≤ c.toNat ∧ c.toNat ≤ 122 then c.toNat - 87
  else if 65 ≤ c.toNat ∧ c.toNat ≤ 90 then c.toNat - 55
  else 36

/-- The digit loop of `strtol`: the longest run of digits below `base`. -/
def strtol_digits (base : Nat) : Nat → List Char → Nat
  | acc, [] => acc
  | acc, c :: cs =>
    if digit_value c < base then strtol_digits base (acc * base + digit_value c) cs
    else acc

/-- The magnitude `strtol` reads with base 0, after the sign. -/
def strtol_magnitude (s : List Char) : Nat :=
  match s with
  | [] => 0
  | c :: rest =>
    if c = '0' then
      match rest with
      | x :: h :: more =>
        if (x = 'x' ∨ x = 'X') ∧ digit_value h < 16 then strtol_digits 16 0 (h :: more)
        else strtol_digits 8 0 rest
      | _ => strtol_digits 8 0 rest
    else strtol_digits 10 0 s

/-- The C library `strtol (s, NULL, 0)` with a 64-bit `long`: white space, an
optional sign, the prefix-selected base, saturation at `LONG_MAX`/`LONG_MIN`. -/
def strtol (s : List Char) : Int :=
  let s := s.dropWhile isspace
  let negative := s.head? = some '-'
  let s := if s.head? = some '-' ∨ s.head? = some '+' then s.tail else s
  let m := strtol_magnitude s
  if negative then (if m > 2 ^ 63 then -(2 ^ 63 : Int) else -(m : Int))
  else (if m > 2 ^ 63 - 1 then (2 ^ 63 - 1 : Int) else (m : Int))

/-- Conversion of a `long` to `uint16_t`. -/
def to_uint16 (n : Int) : Nat := (n % 65536).toNat

/-- The number of the register named by `c` (`c - 'A'`). -/
def register_number (c : Char) : Nat := c.toNat - 65

/-- The test `c == 'A' || c == 'B' || c == 'C' || c == 'D'`. -/
def is_register_name (c : Char) : Bool :=
  c = 'A' || c = 'B' || c = 'C' || c = 'D'

/-- The test `isdigit(*operand) || *operand == '-'` on the text at `operand`. -/
def starts_number (operand : List Char) : Bool :=
  match operand with
  | [] => false
  | d :: _ => isdigit d || d = '-'

/-- The test `*p == '\0' || isspace(*p)` on the text at `p`. -/
def at_end_or_space (p : List Char) : Bool :=
  match p with
  | [] => true
  | d :: _ => isspace d

/-- A label reference in `parse_operand`: 0 in the first pass, the address of
the label in the second, `none` when `find_label` fails. -/
def label_reference (as : Assembler) (name : List Char) (first_pass : Bool) : Option Nat :=
  if first_pass then some 0
  else
    match find_label as name with
    | some label_idx => some ((as.labels.getD label_idx { name := [], address := 0 }).address)
    | none => none

/-- Embedding of `parse_operand`: `value` is the content of `*value` on entry,
the result the contents of `*mode` and `*value` on a `true` return, `none` a
`false` return. -/
def parse_operand (as : Assembler) (operand : List Char) (value : Nat)
    (first_pass : Bool) : Option (Nat × Nat) :=
  let operand := operand.dropWhile isspace
  match operand with
  | [] => some (MODE_IMMEDIATE, 0)
  | c :: rest =>
    if c = '#' then
      if starts_number rest then
        some (MODE_IMMEDIATE, to_uint16 (strtol rest))
      else
        match label_reference as rest first_pass with
        | some v => some (MODE_IMMEDIATE, v)
        | none => none
    else if is_register_name c && at_end_or_space rest then
      some (MODE_REGISTER, register_number c)
    else if c = '[' then
      match rest with
      | [] => some (MODE_INDIRECT, value)
      | d :: _ =>
        if is_register_name d then some (MODE_INDIRECT, register_number d)
        else some (MODE_INDIRECT, value)
    else if starts_number operand then
      some (MODE_DIRECT, to_uint16 (strtol operand))
    else
      match label_reference as operand first_pass with
      | some v => some (MODE_DIRECT, v)
      | none => none

/-- Embedding of `get_opcode`; `none` for -1. -/
def get_opcode (mnemonic : List Char) : Option Nat :=
  if mnemonic = "NOP".toList then some OP_NOP
  else if mnemonic = "LOAD".toList then some OP_LOAD
  else if mnemonic = "STORE".toList then some OP_STORE
  else if mnemonic = "MOV".toList then some OP_MOV
  else if mnemonic = "PUSH".toList then some OP_PUSH
  else if mnemonic = "POP".toList then some OP_POP
  else if mnemonic = "ADD".toList then some OP_ADD
  else if mnemonic = "SUB".toList then some OP_SUB
  else if mnemonic = "INC".toList then some OP_INC
  else if mnemonic = "DEC".toList then some OP_DEC
  else if mnemonic = "MUL".toList then some OP_MUL
  else if mnemonic = "DIV".toList then some OP_DIV
  else if mnemonic = "AND".toList then some OP_AND
  else if mnemonic = "OR".toList then some OP_OR
  else if mnemonic = "XOR".toList then some OP_XOR
  else if mnemonic = "NOT".toList then some OP_NOT
  else if mnemonic = "SHL".toList then some OP_SHL
  else if mnemonic = "SHR".toList then some OP_SHR
  else if mnemonic = "CMP".toList then some OP_CMP
  else if mnemonic = "TEST".toList then some OP_TEST
  else if mnemonic = "JMP".toList then some OP_JMP
  else if mnemonic = "JZ".toList then some OP_JZ
  else if mnemonic = "JNZ".toList then some OP_JNZ
  else if mnemonic = "JC".toList then some OP_JC
  else if mnemonic = "JNC".toList then some OP_JNC
  else if mnemonic = "CALL".toList then some OP_CALL
  else if mnemonic = "RET".toList then some OP_RET
  else if mnemonic = "HALT".toList then some OP_HALT
  else if mnemonic = "IN".toList then some OP_IN
  else if mnemonic = "OUT".toList then some OP_OUT
  else none

/-- The line up to its first `;` (`strchr` and the store of `'\0'`). -/
def strip_comment (line : List Char) : List Char :=
  line.takeWhile (fun c => c != ';')

/-- The text before the first `:` of a line. -/
def before_colon (line : List Char) : List Char :=
  line.takeWhile (fun c => c != ':')

/-- The text after the first `:` of a line. -/
def after_colon (line : List Char) : List Char :=
  (line.dropWhile (fun c => c != ':')).tail

/-- The conversion `%s` of `sscanf`: white space is skipped, then the characters up
to the next white space are stored; the empty result stands for a failed
conversion, which stores nothing. -/
def scan_token (s : List Char) : List Char :=
  (s.dropWhile isspace).takeWhile (fun c => !isspace c)

/-- What `sscanf` stores for `%[^\n]` in the format `"%s %[^\n]"`: after the
token and the white space behind it, the characters up to the next line feed. -/
def scan_rest (s : List Char) : List Char :=
  (((s.dropWhile isspace).dropWhile (fun c => !isspace c)).dropWhile isspace).takeWhile
    (fun c => c != '\n')

/-- The part of `parse_line` from `// Parse mnemonic` on; `line` is non-blank. -/
def parse_instruction (as : Assembler) (line : List Char) (first_pass : Bool) :
    Option (Bool × Assembler) :=
  let mnemonic := scan_token line
  let operand_str := scan_rest line
  if MAX_TOKEN_LENGTH ≤ mnemonic.length ∨ MAX_LINE_LENGTH ≤ operand_str.length then none
  else
    match get_opcode (mnemonic.map toupper) with
    | none => some (false, as)
    | some opcode =>
      match (if operand_str ≠ [] then
               parse_operand as operand_str 0 first_pass
             else some (MODE_IMMEDIATE, 0)) with
      | none => some (false, as)
      | some (mode, value) =>
        if !first_pass then
          let as := emit_byte as (encode_instruction opcode mode)
          if mode = MODE_IMMEDIATE ∨ mode = MODE_DIRECT then some (true, emit_word as value)
          else if mode = MODE_REGISTER ∨ mode = MODE_INDIRECT then
            some (true, emit_byte as (value % 256))
          else some (true, as)
        else
          let as := { as with current_address := (as.current_address + 1) % 65536 }
          if mode = MODE_IMMEDIATE ∨ mode = MODE_DIRECT then
            some (true, { as with current_address := (as.current_address + 2) % 65536 })
          else if mode = MODE_REGISTER ∨ mode = MODE_INDIRECT then
            some (true, { as with current_address := (as.current_address + 1) % 65536 })
          else some (true, as)

/-- Embedding of `parse_line`: the returned `bool` and the assembler state, or
`none` where the C code has no defined result. -/
def parse_line (as : Assembler) (line : List Char) (first_pass : Bool) :
    Option (Bool × Assembler) :=
  let line := strip_comment line
  if line.dropWhile isspace = [] then some (true, as)
  else if line.contains ':' then
    let label := scan_token (before_colon line)
    if MAX_TOKEN_LENGTH ≤ label.length then none
    else if first_pass ∧ label = [] ∧ as.labels.length < MAX_LABELS then none
    else
      let as := if first_pass then add_label as label as.current_address else as
      let line := (after_colon line).dropWhile isspace
      if line = [] then some (true, as)
      else parse_instruction as line first_pass
  else parse_instruction as line first_pass

/-- The tokens `strtok (s, "\n")` delivers: the maximal non-empty runs of
characters other than line feed; `acc` is the run being read, reversed. -/
def strtok_lines (acc : List Char) : List Char → List (List Char)
  | [] => if acc = [] then [] else [acc.reverse]
  | c :: cs =>
    if c = '\n' then
      if acc = [] then strtok_lines [] cs else acc.reverse :: strtok_lines [] cs
    else strtok_lines (c :: acc) cs

/-- The text of a C string: the characters before the first NUL. -/
def c_string (s : List Char) : List Char :=
  s.takeWhile (fun c => c != Char.ofNat 0)

/-- The `while (line)` loop shared by the two passes. -/
def pass_loop (first_pass : Bool) : List (List Char) → Assembler → Option (Bool × Assembler)
  | [], as => some (true, as)
  | line :: rest, as =>
    match parse_line { as with line_number := as.line_number + 1 } line first_pass with
    | none => none
    | some (false, as) => some (false, as)
    | some (true, as) => pass_loop first_pass rest as

/-- Embedding of `assembler_first_pass`. -/
def assembler_first_pass (as : Assembler) (source : List Char) : Option (Bool × Assembler) :=
  pass_loop true (strtok_lines [] (c_string source))
    { as with current_address := 0, line_number := 0 }

/-- Embedding of `assembler_second_pass`. -/
def assembler_second_pass (as : Assembler) (source : List Char) : Option (Bool × Assembler) :=
  pass_loop false (strtok_lines [] (c_string source))
    { as with current_address := 0, output_size := 0, line_number := 0 }

/-- The two passes as `assemble_file` runs them on the text it has read, the
second only when the first returned `true`. -/
def assemble (source : List Char) : Option (Bool × Assembler) :=
  match assembler_first_pass assembler_init source with
  | none => none
  | some (false, as) => some (false, as)
  | some (true, as) => assembler_second_pass as source

/-- The bytes `assemble_file` writes: the first `output_size` bytes of `output`. -/
def output_bytes (as : Assembler) : List (Option Nat) :=
  (List.range as.output_size).map as.output

/-- Byte `i` of the output buffer as a program for `cpu_load_program` (0 where
nothing was emitted). -/
def program_byte (as : Assembler) (i : Nat) : Nat :=
  (as.output i).getD 0


/-! ## Definitions used to state the theorems -/

/-- The state after `n` one-byte instructions without effect have been run
from `c`: `PC` and the cycle count have moved on by `n`. -/
def slide (c : CPU) (n : Nat) : CPU :=
  { c with regs := { c.regs with PC := c.regs.PC + n }, cycles := (c.cycles + n) % 2 ^ 64 }

/-- The state after `n` calls of `cpu_step`. -/
def steps : Nat → CPU → CPU
  | 0, c => c
  | n + 1, c => steps n (cpu_step c)

/-- The assembler state `assemble` ends in (the initial one when it has no
result). -/
def assembled (source : List Char) : Assembler :=
  match assemble source with
  | some (_, as) => as
  | none => assembler_init

/-- The assembler state the first pass alone ends in. -/
def first_pass_state (source : List Char) : Assembler :=
  match assembler_first_pass assembler_init source with
  | some (_, as) => as
  | none => assembler_init

/-- A CPU freshly initialised in the environment `stdin`, `clock`, with the
output of `as` loaded at address 0 and `running` set, as `cpu_run` starts it. -/
def boot (as : Assembler) (stdin clock : List Nat) : CPU :=
  { cpu_load_program (cpu_init stdin clock) (program_byte as) as.output_size 0 with
    running := true }

/-- The lines of a source text as the passes see them. -/
def source_lines (source : List Char) : List (List Char) :=
  strtok_lines [] (c_string source)

/-- The addressing mode `parse_operand` selects for an operand text; it depends
on the text alone. -/
def operand_mode (operand : List Char) : Nat :=
  match operand.dropWhile isspace with
  | [] => MODE_IMMEDIATE
  | c :: rest =>
    if c = '#' then MODE_IMMEDIATE
    else if is_register_name c && at_end_or_space rest then MODE_REGISTER
    else if c = '[' then MODE_INDIRECT
    else MODE_DIRECT

/-- The instruction text of a source line: what is left after the comment and
a label definition are taken off, `none` when nothing is left. -/
def instruction_text (line : List Char) : Option (List Char) :=
  let line := strip_comment line
  if line.dropWhile isspace = [] then none
  else if line.contains ':' then
    let rest := (after_colon line).dropWhile isspace
    if rest = [] then none else some rest
  else some line

/-- The encoded size of an instruction: 3 bytes with an IMMEDIATE or DIRECT
operand, 2 bytes with a REGISTER or INDIRECT operand. -/
def instruction_size (text : List Char) : Nat :=
  if operand_mode (scan_rest text) = MODE_IMMEDIATE ∨
     operand_mode (scan_rest text) = MODE_DIRECT then 3 else 2

/-- The encoded size of a source line: that of its instruction, 0 without one. -/
def encoded_size (line : List Char) : Nat :=
  match instruction_text line with
  | none => 0
  | some text => instruction_size text

/-- The sum of the encoded sizes of the lines. -/
def total_size (lines : List (List Char)) : Nat := (lines.map encoded_size).sum

/-- The program `LOAD #v; HALT` as bytes. -/
def load_halt_program (v : Nat) : List Nat := [0x04, v % 256, v / 256, 0x6C]

/-- The source of the load-and-halt scenario. -/
def load_halt_source : List Char := "LOAD #42\nHALT".toList

/-- The source of the subroutine scenario. -/
def subroutine_source : List Char := "CALL sub\nHALT\nsub: LOAD #7\nRET".toList

/-- The subroutine scenario with the label taken as an immediate operand. -/
def subroutine_source_immediate : List Char := "CALL #sub\nHALT\nsub: LOAD #7\nRET".toList

/-- The source of the countdown scenario. -/
def countdown_source : List Char :=
  "LOAD #5\nMOV A B\nloop: LOAD B\nCMP #0\nJZ end\nLOAD B\nSUB #1\nMOV A B\nJMP loop\nend: HALT".toList

/-- A running CPU with the given memory, `PC` and `SP`, everything else zero
and no input. -/
def machine (memory : Nat → Nat) (pc sp : Nat) : CPU :=
  { regs := { PC := pc, SP := sp, A := 0, B := 0, C := 0, D := 0, FLAGS := 0 }
    memory := memory
    running := true
    cycles := 0
    timer_start_ms := 0
    stdin := []
    port_out := []
    clock := [] }

/-- A state about to run `CALL #0x0010` with `SP = 0x0010`: the return address
will be pushed over the `RET` at 0x0010. -/
def call_overlap_state : CPU :=
  machine (fun a => if a = 0 then 0x64 else if a = 1 then 0x10 else if a = 0x10 then 0x68 else 0)
    0 0x0010

/-- A state about to run `CALL #0x0006` with a `RET` at 0x0006 and the stack at
0xFEFF. -/
def call_ret_state : CPU :=
  machine (fun a => if a = 0 then 0x64 else if a = 1 then 0x06 else if a = 6 then 0x68 else 0)
    0 0xFEFF

/-- A state about to run `JMP #0x1234`. -/
def jump_state : CPU :=
  machine (fun a => if a = 0 then 0x50 else if a = 1 then 0x34 else if a = 2 then 0x12 else 0)
    0 0xFEFF

/-- The source line `MOV X Y`. -/
def mov_line (x y : Char) : List Char := "MOV ".toList ++ [x, ' ', y]

/-- A state about to run the bytes 0x0E 0x00 0x6C: an assembled `MOV A B`
followed by the first byte of an assembled `HALT`. -/
def mov_state : CPU :=
  machine (fun a => if a = 0 then 0x0E else if a = 1 then 0x00 else if a = 2 then 0x6C else 0)
    0 0xFEFF

/-- The state `c` placed in the environment of `e`: pending input, clock
readings and timer start are those of `e`. -/
def with_env (c e : CPU) : CPU :=
  { c with stdin := e.stdin, clock := e.clock, timer_start_ms := e.timer_start_ms }

/-- What `mem_read8 (addr)` returns when it does not call `getchar`. -/
def peek8 (memory : Nat → Nat) (addr : Nat) : Nat :=
  if addr ≥ IO_START then 0 else memory addr

/-- What `mem_read16 (addr)` returns when it reads neither the timer nor
standard input. -/
def peek16 (memory : Nat → Nat) (addr : Nat) : Nat :=
  ((peek8 memory ((addr + 1) % 65536) <<< 8) ||| peek8 memory addr) % 65536

/-- The read `mem_read8 (addr)` does not call `getchar`. -/
def quiet8 (addr : Nat) : Bool := addr != 0xFF00

/-- The read `mem_read16 (addr)` calls neither `get_time_ms` nor `getchar`. -/
def quiet16 (addr : Nat) : Bool :=
  addr != TIMER_ADDR && quiet8 addr && quiet8 ((addr + 1) % 65536)

/-- The operand fetch of `cpu_step` reads neither input nor clock. -/
def quiet_operand (c : CPU) (opcode mode : Nat) : Bool :=
  if needs_operand opcode mode then
    if mode = MODE_IMMEDIATE then quiet16 c.regs.PC
    else if mode = MODE_DIRECT then quiet16 c.regs.PC && quiet16 (peek16 c.memory c.regs.PC)
    else if mode = MODE_REGISTER then quiet8 c.regs.PC
    else if mode = MODE_INDIRECT then
      quiet8 c.regs.PC && quiet16 (get_register c (peek8 c.memory c.regs.PC))
    else true
  else true

/-- The `switch (opcode)` of `cpu_step` reads neither input nor clock. -/
def quiet_execute (c : CPU) (opcode mode : Nat) (o : Operand) : Bool :=
  if opcode = OP_MOV then (if mode = MODE_REGISTER then quiet8 c.regs.PC else true)
  else if opcode = OP_POP ∨ opcode = OP_RET then
    quiet8 ((c.regs.SP + 1) % 65536) && quiet8 (((c.regs.SP + 1) % 65536 + 1) % 65536)
  else if opcode = OP_IN then quiet8 ((IO_START + o.operand) % 65536)
  else true

/-- The next `cpu_step` reads neither standard input nor the clock. -/
def quiet (c : CPU) : Bool :=
  quiet8 c.regs.PC &&
  quiet_operand (fetch c).2 (decode_opcode (fetch c).1) (decode_mode (fetch c).1) &&
  quiet_execute
    (fetch_operand (fetch c).2 (decode_opcode (fetch c).1) (decode_mode (fetch c).1)).2
    (decode_opcode (fetch c).1) (decode_mode (fetch c).1)
    (fetch_operand (fetch c).2 (decode_opcode (fetch c).1) (decode_mode (fetch c).1)).1

/-- Each of the first `n` steps from `c` is quiet. -/
def quiet_run : Nat → CPU → Bool
  | 0, _ => true
  | n + 1, c => quiet c && quiet_run n (cpu_step c)

/-- The byte array `program` of `create_fibonacci_demo` (main.c). -/
def fibonacci_program : List Nat :=
  [ encode_instruction OP_LOAD MODE_IMMEDIATE, 0x00, 0x00,
    encode_instruction OP_MOV MODE_REGISTER, 0x00, 0x01,
    encode_instruction OP_LOAD MODE_IMMEDIATE, 0x01, 0x00,
    encode_instruction OP_MOV MODE_REGISTER, 0x00, 0x03,
    encode_instruction OP_LOAD MODE_IMMEDIATE, 0x04, 0x00,
    encode_instruction OP_MOV MODE_REGISTER, 0x00, 0x02,
    encode_instruction OP_LOAD MODE_REGISTER, 0x03,
    encode_instruction OP_ADD MODE_REGISTER, 0x01,
    encode_instruction OP_PUSH MODE_REGISTER, 0x00,
    encode_instruction OP_LOAD MODE_REGISTER, 0x03,
    encode_instruction OP_MOV MODE_REGISTER, 0x00, 0x01,
    encode_instruction OP_POP MODE_IMMEDIATE, 0x00, 0x00,
    encode_instruction OP_MOV MODE_REGISTER, 0x00, 0x03,
    encode_instruction OP_LOAD MODE_REGISTER, 0x02,
    encode_instruction OP_SUB MODE_IMMEDIATE, 0x01, 0x00,
    encode_instruction OP_MOV MODE_REGISTER, 0x00, 0x02,
    encode_instruction OP_CMP MODE_IMMEDIATE, 0x00, 0x00,
    encode_instruction OP_JNZ MODE_IMMEDIATE, 0x12, 0x00,
    encode_instruction OP_HALT MODE_IMMEDIATE, 0x00, 0x00 ]

/-- Embedding of `create_fibonacci_demo` (main.c): the program is loaded at
address 0 (`sizeof(program)` is the length of the array). -/
def create_fibonacci_demo (cpu : CPU) : CPU :=
  cpu_load_program cpu (fun i => fibonacci_program.getD i 0) fibonacci_program.length 0

/-- The `while` loop of the demo drivers in `main` (main.c):
`while (cpu.running && !get_flag(&cpu, FLAG_HALT) && cycle < max_cycles)` with
`cpu_step` and `cycle++` in its body; `remaining` is `max_cycles - cycle`.  The
result is the final `cycle` and the final CPU. -/
def demo_loop : Nat → Nat → CPU → Nat × CPU
  | 0, cycle, cpu => (cycle, cpu)
  | remaining + 1, cycle, cpu =>
    if cpu.running && !get_flag cpu FLAG_HALT then demo_loop remaining (cycle + 1) (cpu_step cpu)
    else (cycle, cpu)

/-- The Fibonacci demo as `main` starts it in the environment `stdin`, `clock`:
`cpu_init`, `create_fibonacci_demo`, `cpu.running = true`. -/
def fibonacci_start (stdin clock : List Nat) : CPU :=
  { create_fibonacci_demo (cpu_init stdin clock) with running := true }

/-- The byte array `program` of `create_hello_demo` (main.c). -/
def hello_program : List Nat :=
  [ encode_instruction OP_LOAD MODE_IMMEDIATE, 0x00, 0x01,
    encode_instruction OP_MOV MODE_REGISTER, 0x00, 0x01,
    encode_instruction OP_LOAD MODE_INDIRECT, 0x01,
    encode_instruction OP_CMP MODE_IMMEDIATE, 0x00, 0x00,
    encode_instruction OP_JZ MODE_IMMEDIATE, 0x1B, 0x00,
    encode_instruction OP_OUT MODE_REGISTER, 0x00,
    encode_instruction OP_LOAD MODE_REGISTER, 0x01,
    encode_instruction OP_ADD MODE_IMMEDIATE, 0x01, 0x00,
    encode_instruction OP_MOV MODE_REGISTER, 0x00, 0x01,
    encode_instruction OP_JMP MODE_IMMEDIATE, 0x06, 0x00,
    encode_instruction OP_HALT MODE_REGISTER, 0x00 ]

/-- The string literal `message` of `create_hello_demo`, "Hello, World!\n". -/
def hello_message : List Nat := "Hello, World!\n".toList.map Char.toNat

/-- Embedding of `create_hello_demo` (main.c) for the message `message` (the
bytes of the C string, without the terminator): the bytes are stored from
0x0100 on, a zero byte after them, and the program is loaded at address 0. -/
def create_hello_demo (cpu : CPU) (message : List Nat) : CPU :=
  let msg_len := message.length
  let msg_addr := 0x0100
  let cpu : CPU :=
    { cpu with memory := fun a =>
        if msg_addr ≤ a ∧ a < msg_addr + msg_len then message.getD (a - msg_addr) 0 % 256
        else cpu.memory a }
  let cpu : CPU :=
    { cpu with memory := fun a => if a = msg_addr + msg_len then 0 else cpu.memory a }
  cpu_load_program cpu (fun i => hello_program.getD i 0) hello_program.length 0

/-- The hello demo as `main` starts it: `cpu_init`, `create_hello_demo`,
`cpu.running = true`. -/
def hello_start (message : List Nat) (stdin clock : List Nat) : CPU :=
  { create_hello_demo (cpu_init stdin clock) message with running := true }

/-- The CPU is active inside the hello program: `PC`, `A`, `B`, the memory and
the bytes written so far to the output port are as given. -/
def hello_at (memory : Nat → Nat) (c : CPU) (pc a b : Nat) (out : List Nat) : Prop :=
  c.running = true ∧ get_flag c FLAG_HALT = false ∧ c.regs.PC = pc ∧ c.regs.A = a ∧
  c.regs.B = b ∧ c.memory = memory ∧ c.port_out = out

/-- The source of the stack round-trip scenario. -/
def stack_source : List Char := "LOAD #0xBEEF\nPUSH A\nLOAD #0\nPOP\nHALT".toList

/-- The label name an operand text refers to: the text after `#`, or the whole
text, when `parse_operand` takes it neither for a number nor for a register or
an indirection; `none` when the operand is no label reference. -/
def reference_name (operand : List Char) : Option (List Char) :=
  match operand.dropWhile isspace with
  | [] => none
  | c :: rest =>
    if c = '#' then (if starts_number rest then none else some rest)
    else if is_register_name c && at_end_or_space rest then none
    else if c = '[' then none
    else if starts_number (c :: rest) then none
    else some (c :: rest)

/-- A source with a reference to a label, no comment. -/
def jump_plain : List Char := "loop: NOP\nJMP loop".toList

/-- The same source with a comment appended to the referencing line, after a
blank. -/
def jump_commented : List Char := "loop: NOP\nJMP loop ; again".toList

/-- The same source with the comment appended without a blank. -/
def jump_commented_tight : List Char := "loop: NOP\nJMP loop; again".toList

/-- A source with an immediate reference to a label, no comment. -/
def load_plain : List Char := "data: NOP\nLOAD #data".toList

/-- The same source with a comment appended to the referencing line. -/
def load_commented : List Char := "data: NOP\nLOAD #data ; x".toList

/-- A source that defines the label `x` on two lines and refers to it. -/
def duplicate_source : List Char := "x: NOP\nx: HALT\nJMP #x".toList

/-- The `k`-th of a family of distinct two-letter label names. -/
def label_name (k : Nat) : List Char := [Char.ofNat (97 + k / 26), Char.ofNat (97 + k % 26)]

/-- A source of `n` lines, the definitions of the labels `label_name k`,
`label_name (k + 1)`, ... one per line. -/
def many_labels_from (k : Nat) : Nat → List Char
  | 0 => []
  | n + 1 => label_name k ++ ":\n".toList ++ many_labels_from (k + 1) n

/-- A source of `n` lines, line `k` being the definition `label_name k :` of a
label. -/
def many_labels_source (n : Nat) : List Char := many_labels_from 0 n

/-- A source line that defines a label and holds nothing else: not blank once
the comment is removed, with a `:`, a name of 1 to 63 characters before it
and only white space after it. -/
def label_only (line : List Char) : Bool :=
  decide ((strip_comment line).dropWhile isspace ≠ []) &&
  (strip_comment line).contains ':' &&
  decide (scan_token (before_colon (strip_comment line)) ≠ []) &&
  decide ((scan_token (before_colon (strip_comment line))).length < MAX_TOKEN_LENGTH) &&
  decide ((after_colon (strip_comment line)).dropWhile isspace = [])

/-- The lines of a source text, split at every line feed (empty lines
included), as an editor numbers them. -/
def lf_lines (acc : List Char) : List Char → List (List Char)
  | [] => [acc.reverse]
  | c :: cs => if c = '\n' then acc.reverse :: lf_lines [] cs else lf_lines (c :: acc) cs

/-- A source with an unknown mnemonic on its third line, after an empty line. -/
def unknown_mnemonic_source : List Char := "NOP\n\nFOO".toList

/-- A source with an undefined label on its third line, after an empty line. -/
def undefined_label_source : List Char := "NOP\n\nJMP nowhere".toList

/-- The label a source line defines: the first word before its first `:`, cut
to the length `add_label` stores; `none` when the line, its comment removed,
is blank or has no `:`. -/
def defined_label (line : List Char) : Option (List Char) :=
  let line := strip_comment line
  if line.dropWhile isspace = [] then none
  else if line.contains ':' then
    some ((scan_token (before_colon line)).take (MAX_TOKEN_LENGTH - 1))
  else none

/-- The labels a line contributes at address `address`. -/
def line_labels (address : Nat) (line : List Char) : List Label :=
  match defined_label line with
  | some name => [{ name := name, address := address }]
  | none => []

/-- The label table the lines describe when the first of them is at `address`:
each defined label with the address its line starts at. -/
def label_table (address : Nat) : List (List Char) → List Label
  | [] => []
  | line :: rest =>
    line_labels address line ++ label_table ((address + encoded_size line) % 65536) rest

/-- A source with a reference to a label that is defined nowhere. -/
def dangling_source : List Char := "JMP nowhere\nHALT".toList

/-- A source with a reference to a label defined two lines further down. -/
def forward_source : List Char := "JMP #later\nNOP\nlater: HALT".toList

/-- The grammar's digit strings: non-empty, every character a digit of
`base`. -/
def is_digits (base : Nat) (s : List Char) : Bool :=
  !s.isEmpty && s.all (fun c => decide (digit_value c < base))

/-- The number a digit string denotes in `base`, most significant digit
first. -/
def digits_value (base : Nat) (s : List Char) : Nat :=
  s.foldl (fun acc c => acc * base + digit_value c) 0

/-- The grammar's unsigned C-style integer: `0x` or `0X` and hexadecimal
digits, a leading `0` and octal digits, or decimal digits not starting with
`0`; `none` for any other text. -/
def c_magnitude (body : List Char) : Option Nat :=
  match body with
  | [] => none
  | c :: rest =>
    if c = '0' then
      match rest with
      | [] => some 0
      | x :: ds =>
        if x = 'x' ∨ x = 'X' then
          (if is_digits 16 ds then some (digits_value 16 ds) else none)
        else if is_digits 8 rest then some (digits_value 8 rest) else none
    else if is_digits 10 body then some (digits_value 10 body) else none

/-- The grammar's C-style integer: an optional `-` and an unsigned integer. -/
def c_integer (s : List Char) : Option Int :=
  match s with
  | [] => none
  | c :: rest =>
    if c = '-' then (c_magnitude rest).map (fun (m : Nat) => -(m : Int))
    else (c_magnitude s).map (fun (m : Nat) => (m : Int))

/-- The opcode of the instruction `cpu_step` fetches in state `c`. -/
def opcode_at (c : CPU) : Nat := decode_opcode (fetch c).1

/-- The addressing mode of the instruction `cpu_step` fetches in state `c`. -/
def mode_at (c : CPU) : Nat := decode_mode (fetch c).1

/-- The fetch and operand stages of `cpu_step` in state `c`: the locals
`operand`, `address`, `reg_ptr` and the state in which the `switch (opcode)`
is entered. -/
def operand_stage (c : CPU) : Operand × CPU :=
  fetch_operand (fetch c).2 (opcode_at c) (mode_at c)

/-- The value of the local `operand` when `cpu_step` on `c` enters its
`switch (opcode)`. -/
def operand_at (c : CPU) : Nat := (operand_stage c).1.operand

/-- The value of `PC` when `cpu_step` on `c` enters its `switch (opcode)`: the
address after the instruction byte and its operand bytes. -/
def next_PC (c : CPU) : Nat := (operand_stage c).2.regs.PC

/-- The instruction-set table of the specification: mnemonic and opcode
number. -/
def instruction_set_table : List (String × Nat) :=
  [("NOP", 0), ("LOAD", 1), ("STORE", 2), ("MOV", 3), ("PUSH", 4), ("POP", 5), ("ADD", 6),
   ("SUB", 7), ("INC", 8), ("DEC", 9), ("MUL", 10), ("DIV", 11), ("AND", 12), ("OR", 13),
   ("XOR", 14), ("NOT", 15), ("SHL", 16), ("SHR", 17), ("CMP", 18), ("TEST", 19), ("JMP", 20),
   ("JZ", 21), ("JNZ", 22), ("JC", 23), ("JNC", 24), ("CALL", 25), ("RET", 26), ("HALT", 27),
   ("IN", 28), ("OUT", 29)]

/-- A state about to run the byte 0x78 (opcode 30, IMMEDIATE mode) with the
operand word 0x1234, `FLAGS = 0x03` and distinct values in the registers. -/
def unknown_opcode_state : CPU :=
  { machine (fun a => if a = 0 then 0x78 else if a = 1 then 0x34 else if a = 2 then 0x12 else 0)
      0 0xFEFF with
    regs := { PC := 0, SP := 0xFEFF, A := 1, B := 2, C := 3, D := 4, FLAGS := 0x03 } }

/-- A state about to run `DIV #0` with `A = 7` and `FLAGS = 0x07`. -/
def div_zero_state : CPU :=
  { machine (fun a => if a = 0 then 0x2C else 0) 0 0xFEFF with
    regs := { PC := 0, SP := 0xFEFF, A := 7, B := 0, C := 0, D := 0, FLAGS := 0x07 } }

/-- A state about to run `DIV #2` with `A = 7` and `FLAGS = 0x07`. -/
def div_two_state : CPU :=
  { machine (fun a => if a = 0 then 0x2C else if a = 1 then 2 else 0) 0 0xFEFF with
    regs := { PC := 0, SP := 0xFEFF, A := 7, B := 0, C := 0, D := 0, FLAGS := 0x07 } }

/-- A state about to run the three bytes `b0 b1 b2` at address 0 with the
given accumulator and flags, `B = 0x1111`, `C = 0x2222`, `D = 0x3333`. -/
def alu_state (b0 b1 b2 a flags : Nat) : CPU :=
  { machine (fun i => if i = 0 then b0 else if i = 1 then b1 else if i = 2 then b2 else 0)
      0 0xFEFF with
    regs := { PC := 0, SP := 0xFEFF, A := a, B := 0x1111, C := 0x2222, D := 0x3333,
              FLAGS := flags } }

/-- The 16-bit word the memory array holds at `addr`, low byte first. -/
def memory_word (memory : Nat → Nat) (addr : Nat) : Nat :=
  ((memory (addr + 1) <<< 8) ||| memory addr) % 65536

/-- The condition under which the jump with opcode `opcode` is taken in state
`c`: always for JMP, ZERO set for JZ, ZERO clear for JNZ, CARRY set for JC,
CARRY clear for JNC. -/
def jump_condition (opcode : Nat) (c : CPU) : Bool :=
  if opcode = OP_JMP then true
  else if opcode = OP_JZ then get_flag c FLAG_ZERO
  else if opcode = OP_JNZ then !get_flag c FLAG_ZERO
  else if opcode = OP_JC then get_flag c FLAG_CARRY
  else if opcode = OP_JNC then !get_flag c FLAG_CARRY
  else false

/-- The register number byte `cpu_step` reads after the instruction byte in the
REGISTER and INDIRECT modes. -/
def register_byte_at (c : CPU) : Nat := (mem_read8 (fetch c).2 (fetch c).2.regs.PC).1

/-- The state `alu_state b0 b1 b2 a flags` with the bytes `input` waiting on
standard input. -/
def input_state (b0 b1 b2 a flags : Nat) (input : List Nat) : CPU :=
  { alu_state b0 b1 b2 a flags with stdin := input }

/-- A running state about to run `JZ #3` at address 0 with ZERO clear: the
operand is the address of the next instruction. -/
def jump_next_state : CPU := alu_state 0x54 0x03 0x00 0 0

/-! ## Bytes, words and flag bits -/

theorem low_byte (v : Nat) : v &&& 0xFF = v % 256 :=
  Nat.and_pow_two_sub_one_eq_mod v 8

theorem high_byte (v : Nat) (hv : v < 65536) : (v >>> 8) &&& 0xFF = v / 256 := by
  have h2 : (v >>> 8) &&& 0xFF = (v >>> 8) % 256 := Nat.and_pow_two_sub_one_eq_mod _ 8
  rw [h2, Nat.shiftRight_eq_div_pow]
  have : v / 2 ^ 8 = v / 256 := by norm_num
  omega

theorem word_join (v : Nat) (hv : v < 65536) :
    (((v / 256) <<< 8) ||| (v % 256)) % 65536 = v := by
  rw [Nat.shiftLeft_eq]
  have h4 : 2 ^ 8 * (v / 256) + v % 256 = 2 ^ 8 * (v / 256) ||| v % 256 :=
    Nat.mul_add_lt_is_or (by omega : v % 256 < 2 ^ 8) (v / 256)
  rw [Nat.mul_comm, ← h4]
  omega

theorem bytes_join (v : Nat) (hv : v < 65536) :
    ((((v >>> 8) &&& 0xFF) <<< 8) ||| (v &&& 0xFF)) % 65536 = v := by
  rw [high_byte v hv, low_byte, word_join v hv]

theorem bit_or_same (f a : Nat) (ha : a < 8) : ((f ||| 2 ^ a) % 256) &&& 2 ^ a = 2 ^ a := by
  apply Nat.eq_of_testBit_eq
  intro i
  have : (256 : Nat) = 2 ^ 8 := by norm_num
  rw [this]
  simp only [Nat.testBit_and, Nat.testBit_mod_two_pow, Nat.testBit_or, Nat.testBit_two_pow]
  by_cases h : a = i
  · subst h; simp [ha]
  · simp [h]

theorem bit_or_other (f a b : Nat) (hab : a ≠ b) (hb : b < 8) :
    ((f ||| 2 ^ a) % 256) &&& 2 ^ b = f &&& 2 ^ b := by
  apply Nat.eq_of_testBit_eq
  intro i
  have : (256 : Nat) = 2 ^ 8 := by norm_num
  rw [this]
  simp only [Nat.testBit_and, Nat.testBit_mod_two_pow, Nat.testBit_or, Nat.testBit_two_pow]
  by_cases h : b = i
  · subst h; simp [hb, hab]
  · simp [h]

theorem bit_clear_same (f a : Nat) (ha : a < 8) : (f &&& (0xFF ^^^ 2 ^ a)) &&& 2 ^ a = 0 := by
  apply Nat.eq_of_testBit_eq
  intro i
  have : (0xFF : Nat) = 2 ^ 8 - 1 := by norm_num
  rw [this]
  simp only [Nat.testBit_and, Nat.testBit_xor, Nat.testBit_two_pow_sub_one, Nat.testBit_two_pow,
    Nat.zero_testBit]
  by_cases h : a = i
  · subst h; simp [ha]
  · simp [h]

theorem bit_clear_other (f a b : Nat) (hab : a ≠ b) (hb : b < 8) :
    (f &&& (0xFF ^^^ 2 ^ a)) &&& 2 ^ b = f &&& 2 ^ b := by
  apply Nat.eq_of_testBit_eq
  intro i
  have : (0xFF : Nat) = 2 ^ 8 - 1 := by norm_num
  rw [this]
  simp only [Nat.testBit_and, Nat.testBit_xor, Nat.testBit_two_pow_sub_one, Nat.testBit_two_pow]
  by_cases h : b = i
  · subst h; simp [hb, hab]
  · simp [h]

theorem get_flag_set_flag_same (c : CPU) (a : Nat) (ha : a < 8) :
    get_flag (set_flag c (2 ^ a)) (2 ^ a) = true := by
  simp only [get_flag, set_flag, bit_or_same _ a ha]
  simp

theorem get_flag_set_flag_other (c : CPU) (a b : Nat) (hab : a ≠ b) (hb : b < 8) :
    get_flag (set_flag c (2 ^ a)) (2 ^ b) = get_flag c (2 ^ b) := by
  simp only [get_flag, set_flag, bit_or_other _ a b hab hb]

theorem get_flag_clear_flag_same (c : CPU) (a : Nat) (ha : a < 8) :
    get_flag (clear_flag c (2 ^ a)) (2 ^ a) = false := by
  simp only [get_flag, clear_flag, bit_clear_same _ a ha]
  simp

theorem get_flag_clear_flag_other (c : CPU) (a b : Nat) (hab : a ≠ b) (hb : b < 8) :
    get_flag (clear_flag c (2 ^ a)) (2 ^ b) = get_flag c (2 ^ b) := by
  simp only [get_flag, clear_flag, bit_clear_other _ a b hab hb]

/-! ## Frame lemmas: what the flag operations leave alone -/
@[simp] theorem set_flag_memory (c : CPU) (f : Nat) : (set_flag c f).memory = c.memory := rfl
@[simp] theorem set_flag_running (c : CPU) (f : Nat) : (set_flag c f).running = c.running := rfl
@[simp] theorem set_flag_cycles (c : CPU) (f : Nat) : (set_flag c f).cycles = c.cycles := rfl
@[simp] theorem set_flag_timer_start_ms (c : CPU) (f : Nat) : (set_flag c f).timer_start_ms = c.timer_start_ms := rfl
@[simp] theorem set_flag_stdin (c : CPU) (f : Nat) : (set_flag c f).stdin = c.stdin := rfl
@[simp] theorem set_flag_port_out (c : CPU) (f : Nat) : (set_flag c f).port_out = c.port_out := rfl
@[simp] theorem set_flag_clock (c : CPU) (f : Nat) : (set_flag c f).clock = c.clock := rfl
@[simp] theorem set_flag_PC (c : CPU) (f : Nat) : (set_flag c f).regs.PC = c.regs.PC := rfl
@[simp] theorem set_flag_SP (c : CPU) (f : Nat) : (set_flag c f).regs.SP = c.regs.SP := rfl
@[simp] theorem set_flag_A (c : CPU) (f : Nat) : (set_flag c f).regs.A = c.regs.A := rfl
@[simp] theorem set_flag_B (c : CPU) (f : Nat) : (set_flag c f).regs.B = c.regs.B := rfl
@[simp] theorem set_flag_C (c : CPU) (f : Nat) : (set_flag c f).regs.C = c.regs.C := rfl
@[simp] theorem set_flag_D (c : CPU) (f : Nat) : (set_flag c f).regs.D = c.regs.D := rfl
@[simp] theorem clear_flag_memory (c : CPU) (f : Nat) : (clear_flag c f).memory = c.memory := rfl
@[simp] theorem clear_flag_running (c : CPU) (f : Nat) : (clear_flag c f).running = c.running := rfl
@[simp] theorem clear_flag_cycles (c : CPU) (f : Nat) : (clear_flag c f).cycles = c.cycles := rfl
@[simp] theorem clear_flag_timer_start_ms (c : CPU) (f : Nat) : (clear_flag c f).timer_start_ms = c.timer_start_ms := rfl
@[simp] theorem clear_flag_stdin (c : CPU) (f : Nat) : (clear_flag c f).stdin = c.stdin := rfl
@[simp] theorem clear_flag_port_out (c : CPU) (f : Nat) : (clear_flag c f).port_out = c.port_out := rfl
@[simp] theorem clear_flag_clock (c : CPU) (f : Nat) : (clear_flag c f).clock = c.clock := rfl
@[simp] theorem clear_flag_PC (c : CPU) (f : Nat) : (clear_flag c f).regs.PC = c.regs.PC := rfl
@[simp] theorem clear_flag_SP (c : CPU) (f : Nat) : (clear_flag c f).regs.SP = c.regs.SP := rfl
@[simp] theorem clear_flag_A (c : CPU) (f : Nat) : (clear_flag c f).regs.A = c.regs.A := rfl
@[simp] theorem clear_flag_B (c : CPU) (f : Nat) : (clear_flag c f).regs.B = c.regs.B := rfl
@[simp] theorem clear_flag_C (c : CPU) (f : Nat) : (clear_flag c f).regs.C = c.regs.C := rfl
@[simp] theorem clear_flag_D (c : CPU) (f : Nat) : (clear_flag c f).regs.D = c.regs.D := rfl

theorem update_flags_eq (c : CPU) (r : Nat) :
    update_flags c r = { c with regs := { c.regs with FLAGS := (update_flags c r).regs.FLAGS } } := by
  unfold update_flags
  split <;> split <;> rfl
@[simp] theorem update_flags_memory (c : CPU) (r : Nat) : (update_flags c r).memory = c.memory := by
  rw [update_flags_eq]
@[simp] theorem update_flags_running (c : CPU) (r : Nat) : (update_flags c r).running = c.running := by
  rw [update_flags_eq]
@[simp] theorem update_flags_cycles (c : CPU) (r : Nat) : (update_flags c r).cycles = c.cycles := by
  rw [update_flags_eq]
@[simp] theorem update_flags_timer_start_ms (c : CPU) (r : Nat) : (update_flags c r).timer_start_ms = c.timer_start_ms := by
  rw [update_flags_eq]
@[simp] theorem update_flags_stdin (c : CPU) (r : Nat) : (update_flags c r).stdin = c.stdin := by
  rw [update_flags_eq]
@[simp] theorem update_flags_port_out (c : CPU) (r : Nat) : (update_flags c r).port_out = c.port_out := by
  rw [update_flags_eq]
@[simp] theorem update_flags_clock (c : CPU) (r : Nat) : (update_flags c r).clock = c.clock := by
  rw [update_flags_eq]
@[simp] theorem update_flags_PC (c : CPU) (r : Nat) : (update_flags c r).regs.PC = c.regs.PC := by
  rw [update_flags_eq]
@[simp] theorem update_flags_SP (c : CPU) (r : Nat) : (update_flags c r).regs.SP = c.regs.SP := by
  rw [update_flags_eq]
@[simp] theorem update_flags_A (c : CPU) (r : Nat) : (update_flags c r).regs.A = c.regs.A := by
  rw [update_flags_eq]
@[simp] theorem update_flags_B (c : CPU) (r : Nat) : (update_flags c r).regs.B = c.regs.B := by
  rw [update_flags_eq]
@[simp] theorem update_flags_C (c : CPU) (r : Nat) : (update_flags c r).regs.C = c.regs.C := by
  rw [update_flags_eq]
@[simp] theorem update_flags_D (c : CPU) (r : Nat) : (update_flags c r).regs.D = c.regs.D := by
  rw [update_flags_eq]

theorem get_flag_update_flags_zero (c : CPU) (r : Nat) :
    get_flag (update_flags c r) FLAG_ZERO = decide (r = 0) := by
  simp only [update_flags]
  by_cases hz : r = 0 <;> by_cases hn : r &&& 0x8000 ≠ 0
  · rw [if_pos hz, if_pos hn]
    exact ((get_flag_set_flag_other _ 2 0 (by decide) (by decide)).trans
      (get_flag_set_flag_same _ 0 (by decide))).trans (by simp [hz])
  · rw [if_pos hz, if_neg hn]
    exact ((get_flag_clear_flag_other _ 2 0 (by decide) (by decide)).trans
      (get_flag_set_flag_same _ 0 (by decide))).trans (by simp [hz])
  · rw [if_neg hz, if_pos hn]
    exact ((get_flag_set_flag_other _ 2 0 (by decide) (by decide)).trans
      (get_flag_clear_flag_same _ 0 (by decide))).trans (by simp [hz])
  · rw [if_neg hz, if_neg hn]
    exact ((get_flag_clear_flag_other _ 2 0 (by decide) (by decide)).trans
      (get_flag_clear_flag_same _ 0 (by decide))).trans (by simp [hz])

theorem get_flag_update_flags_negative (c : CPU) (r : Nat) :
    get_flag (update_flags c r) FLAG_NEGATIVE = decide (r &&& 0x8000 ≠ 0) := by
  simp only [update_flags]
  by_cases hn : r &&& 0x8000 ≠ 0
  · rw [if_pos hn]
    exact (get_flag_set_flag_same _ 2 (by decide)).trans (by simp [hn])
  · rw [if_neg hn]
    exact (get_flag_clear_flag_same _ 2 (by decide)).trans (by simp [hn])

theorem get_flag_update_flags_other (c : CPU) (r b : Nat) (h0 : 0 ≠ b) (h2 : 2 ≠ b) (hb : b < 8) :
    get_flag (update_flags c r) (2 ^ b) = get_flag c (2 ^ b) := by
  simp only [update_flags]
  by_cases hz : r = 0 <;> by_cases hn : r &&& 0x8000 ≠ 0
  · rw [if_pos hz, if_pos hn]
    exact (get_flag_set_flag_other _ 2 b h2 hb).trans (get_flag_set_flag_other _ 0 b h0 hb)
  · rw [if_pos hz, if_neg hn]
    exact (get_flag_clear_flag_other _ 2 b h2 hb).trans (get_flag_set_flag_other _ 0 b h0 hb)
  · rw [if_neg hz, if_pos hn]
    exact (get_flag_set_flag_other _ 2 b h2 hb).trans (get_flag_clear_flag_other _ 0 b h0 hb)
  · rw [if_neg hz, if_neg hn]
    exact (get_flag_clear_flag_other _ 2 b h2 hb).trans (get_flag_clear_flag_other _ 0 b h0 hb)

theorem negative_bit (v : Nat) (hv : v < 65536) : v &&& 0x8000 ≠ 0 ↔ 0x8000 ≤ v := by
  have h := Nat.and_two_pow v 15
  have h2 := Nat.toNat_testBit v 15
  have e : (0x8000 : Nat) = 2 ^ 15 := by norm_num
  rw [e, h, h2]
  have : v / 2 ^ 15 = v / 32768 := by norm_num
  rw [this]
  have : (2 : Nat) ^ 15 = 32768 := by norm_num
  rw [this]
  omega

/-! ## Memory accesses below the I/O window -/

theorem mem_read8_ram (cpu : CPU) (a : Nat) (h : a < 0xFF00) :
    mem_read8 cpu a = (cpu.memory a, cpu) := by
  unfold mem_read8
  rw [if_neg (by simp only [IO_START]; omega)]

theorem mem_write8_ram (cpu : CPU) (a v : Nat) (h : a < 0xFF00) :
    mem_write8 cpu a v = { cpu with memory := fun x => if x = a then v else cpu.memory x } := by
  unfold mem_write8
  rw [if_neg (by simp only [IO_START]; omega)]

theorem mem_read16_ram (cpu : CPU) (a : Nat) (h : a + 1 < 0xFF00) :
    mem_read16 cpu a = (((cpu.memory (a + 1) <<< 8) ||| cpu.memory a) % 65536, cpu) := by
  unfold mem_read16
  rw [if_neg (by simp only [TIMER_ADDR]; omega)]
  have h1 : (a + 1) % 65536 = a + 1 := Nat.mod_eq_of_lt (by omega)
  simp only [h1, mem_read8_ram cpu a (by omega), mem_read8_ram cpu (a + 1) h]

theorem mem_write16_ram (cpu : CPU) (a v : Nat) (h : a + 1 < 0xFF00) :
    mem_write16 cpu a v = { cpu with memory := fun x =>
      if x = a + 1 then (v >>> 8) &&& 0xFF else if x = a then v &&& 0xFF else cpu.memory x } := by
  unfold mem_write16
  have h1 : (a + 1) % 65536 = a + 1 := Nat.mod_eq_of_lt (by omega)
  simp only [h1]
  rw [mem_write8_ram cpu a _ (by omega), mem_write8_ram _ (a + 1) _ h]


/-! ## One step, taken apart -/

theorem cpu_init_regs (i k : List Nat) : (cpu_init i k).regs =
    { PC := 0, SP := 0xFEFF, A := 0, B := 0, C := 0, D := 0, FLAGS := 0 } := by
  cases k <;> rfl

theorem cpu_init_memory (i k : List Nat) : (cpu_init i k).memory = fun _ => 0 := by
  cases k <;> rfl

theorem cpu_init_running (i k : List Nat) : (cpu_init i k).running = false := by
  cases k <;> rfl

theorem cpu_init_cycles (i k : List Nat) : (cpu_init i k).cycles = 0 := by
  cases k <;> rfl

theorem cpu_init_stdin (i k : List Nat) : (cpu_init i k).stdin = i := by
  cases k <;> rfl

theorem cpu_init_port_out (i k : List Nat) : (cpu_init i k).port_out = [] := by
  cases k <;> rfl

theorem cpu_step_active (c : CPU) (hrun : c.running = true)
    (hh : get_flag c FLAG_HALT = false) :
    cpu_step c =
      execute (fetch_operand (fetch c).2 (decode_opcode (fetch c).1) (decode_mode (fetch c).1)).2
        (decode_opcode (fetch c).1) (decode_mode (fetch c).1)
        (fetch_operand (fetch c).2 (decode_opcode (fetch c).1) (decode_mode (fetch c).1)).1 := by
  unfold cpu_step
  simp [hrun, hh]

theorem fetch_ram (c : CPU) (h : c.regs.PC < 0xFF00) :
    fetch c = (c.memory c.regs.PC,
      { c with regs := { c.regs with PC := (c.regs.PC + 1) % 65536 },
               cycles := (c.cycles + 1) % 2 ^ 64 }) := by
  unfold fetch
  rw [mem_read8_ram c _ h]

theorem fetch_operand_none (c : CPU) (opcode mode : Nat)
    (h : needs_operand opcode mode = false) :
    fetch_operand c opcode mode = ({ operand := 0, address := 0, reg_ptr := none }, c) := by
  unfold fetch_operand
  simp [h]

theorem fetch_operand_immediate_ram (c : CPU) (opcode : Nat)
    (h : needs_operand opcode MODE_IMMEDIATE = true) (hpc : c.regs.PC + 1 < 0xFF00) :
    fetch_operand c opcode MODE_IMMEDIATE =
      ({ operand := ((c.memory (c.regs.PC + 1) <<< 8) ||| c.memory c.regs.PC) % 65536,
         address := 0, reg_ptr := none },
       { c with regs := { c.regs with PC := (c.regs.PC + 2) % 65536 } }) := by
  unfold fetch_operand
  rw [if_pos h, if_pos rfl, mem_read16_ram c _ hpc]

theorem execute_nop (c : CPU) (mode : Nat) (o : Operand) : execute c OP_NOP mode o = c := rfl

theorem execute_load (c : CPU) (mode : Nat) (o : Operand) :
    execute c OP_LOAD mode o =
      update_flags { c with regs := { c.regs with A := o.operand } } o.operand := rfl

theorem execute_halt (c : CPU) (mode : Nat) (o : Operand) :
    execute c OP_HALT mode o = { set_flag c FLAG_HALT with running := false } := rfl

theorem execute_call (c : CPU) (mode : Nat) (o : Operand) :
    execute c OP_CALL mode o =
      { stack_push16 c c.regs.PC with
        regs := { (stack_push16 c c.regs.PC).regs with PC := o.operand } } := rfl

theorem execute_ret (c : CPU) (mode : Nat) (o : Operand) :
    execute c OP_RET mode o =
      { (stack_pop16 c).2 with
        regs := { (stack_pop16 c).2.regs with PC := (stack_pop16 c).1 } } := rfl

theorem execute_jmp (c : CPU) (mode : Nat) (o : Operand) :
    execute c OP_JMP mode o = { c with regs := { c.regs with PC := o.operand } } := rfl

theorem execute_push (c : CPU) (mode : Nat) (o : Operand) :
    execute c OP_PUSH mode o = stack_push16 c o.operand := rfl

theorem execute_out (c : CPU) (mode : Nat) (o : Operand) :
    execute c OP_OUT mode o = mem_write8 c (IO_START + 1) (c.regs.A &&& 0xFF) := rfl

theorem execute_store (c : CPU) (mode : Nat) (o : Operand) :
    execute c OP_STORE mode o =
      if mode = MODE_DIRECT then mem_write16 c o.address c.regs.A
      else if mode = MODE_INDIRECT then mem_write16 c o.address c.regs.A
      else c := rfl

theorem execute_unknown (c : CPU) (opcode mode : Nat) (o : Operand) (h : 30 ≤ opcode) :
    execute c opcode mode o = { c with running := false } := by
  unfold execute
  simp only [OP_NOP, OP_LOAD, OP_STORE, OP_MOV, OP_PUSH, OP_POP, OP_ADD, OP_SUB, OP_INC, OP_DEC,
    OP_MUL, OP_DIV, OP_AND, OP_OR, OP_XOR, OP_NOT, OP_SHL, OP_SHR, OP_CMP, OP_TEST, OP_JMP,
    OP_JZ, OP_JNZ, OP_JC, OP_JNC, OP_CALL, OP_RET, OP_HALT, OP_IN, OP_OUT]
  repeat rw [if_neg (by omega)]

/-! ## Frame lemmas: the register file under memory accesses -/

theorem getchar_regs (c : CPU) : (getchar c).2.regs = c.regs := by
  unfold getchar; split <;> rfl

theorem getchar_running (c : CPU) : (getchar c).2.running = c.running := by
  unfold getchar; split <;> rfl

theorem get_time_ms_regs (c : CPU) : (get_time_ms c).2.regs = c.regs := by
  unfold get_time_ms; split <;> rfl

theorem get_time_ms_running (c : CPU) : (get_time_ms c).2.running = c.running := by
  unfold get_time_ms; split <;> rfl

theorem mem_read8_regs (c : CPU) (a : Nat) : (mem_read8 c a).2.regs = c.regs := by
  unfold mem_read8
  split
  · split
    · exact getchar_regs c
    · rfl
  · rfl

theorem mem_read16_regs (c : CPU) (a : Nat) : (mem_read16 c a).2.regs = c.regs := by
  unfold mem_read16
  split
  · exact get_time_ms_regs c
  · simp only [mem_read8_regs]

theorem mem_write8_regs (c : CPU) (a v : Nat) : (mem_write8 c a v).regs = c.regs := by
  unfold mem_write8
  split
  · split <;> rfl
  · rfl

theorem mem_write16_regs (c : CPU) (a v : Nat) : (mem_write16 c a v).regs = c.regs := by
  unfold mem_write16
  simp only [mem_write8_regs]

/-- Writing one register leaves `FLAGS` and the cycle counter as they were;
stated for any stored value. -/
theorem with_SP_FLAGS (x : CPU) (v : Nat) :
    ({ x with regs := { x.regs with SP := v } } : CPU).regs.FLAGS = x.regs.FLAGS := rfl

theorem with_SP_cycles (x : CPU) (v : Nat) :
    ({ x with regs := { x.regs with SP := v } } : CPU).cycles = x.cycles := rfl

theorem with_PC_FLAGS (x : CPU) (v : Nat) :
    ({ x with regs := { x.regs with PC := v } } : CPU).regs.FLAGS = x.regs.FLAGS := rfl

theorem with_PC_cycles (x : CPU) (v : Nat) :
    ({ x with regs := { x.regs with PC := v } } : CPU).cycles = x.cycles := rfl

theorem with_A_FLAGS (x : CPU) (v : Nat) :
    ({ x with regs := { x.regs with A := v } } : CPU).regs.FLAGS = x.regs.FLAGS := rfl

theorem with_A_cycles (x : CPU) (v : Nat) :
    ({ x with regs := { x.regs with A := v } } : CPU).cycles = x.cycles := rfl

theorem stack_push8_FLAGS (c : CPU) (v : Nat) : (stack_push8 c v).regs.FLAGS = c.regs.FLAGS := by
  rw [stack_push8]
  exact (with_SP_FLAGS _ _).trans (congrArg Registers.FLAGS (mem_write8_regs c c.regs.SP v))

theorem stack_push16_FLAGS (c : CPU) (v : Nat) :
    (stack_push16 c v).regs.FLAGS = c.regs.FLAGS := by
  unfold stack_push16
  simp only [stack_push8_FLAGS]

theorem stack_pop8_FLAGS (c : CPU) : (stack_pop8 c).2.regs.FLAGS = c.regs.FLAGS := by
  unfold stack_pop8
  simp only [mem_read8_regs]

theorem stack_pop16_FLAGS (c : CPU) : (stack_pop16 c).2.regs.FLAGS = c.regs.FLAGS := by
  unfold stack_pop16
  simp only [stack_pop8_FLAGS]

theorem fetch_FLAGS (c : CPU) : (fetch c).2.regs.FLAGS = c.regs.FLAGS := by
  unfold fetch
  simp only [mem_read8_regs]

theorem fetch_operand_FLAGS (c : CPU) (opcode mode : Nat) :
    (fetch_operand c opcode mode).2.regs.FLAGS = c.regs.FLAGS := by
  unfold fetch_operand
  split
  · split
    · simp only [mem_read16_regs]
    · split
      · simp only [mem_read16_regs]
      · split
        · simp only [mem_read8_regs]
        · split
          · simp only [mem_read16_regs, mem_read8_regs]
          · rfl
  · rfl


@[simp] theorem advance_memory (c : CPU) (n : Nat) : (advance c n).memory = c.memory := rfl
@[simp] theorem advance_running (c : CPU) (n : Nat) : (advance c n).running = c.running := rfl
@[simp] theorem advance_cycles (c : CPU) (n : Nat) :
    (advance c n).cycles = (c.cycles + 1) % 2 ^ 64 := rfl
@[simp] theorem advance_stdin (c : CPU) (n : Nat) : (advance c n).stdin = c.stdin := rfl
@[simp] theorem advance_port_out (c : CPU) (n : Nat) : (advance c n).port_out = c.port_out := rfl
@[simp] theorem advance_clock (c : CPU) (n : Nat) : (advance c n).clock = c.clock := rfl
@[simp] theorem advance_PC (c : CPU) (n : Nat) : (advance c n).regs.PC = c.regs.PC + n := rfl
@[simp] theorem advance_SP (c : CPU) (n : Nat) : (advance c n).regs.SP = c.regs.SP := rfl
@[simp] theorem advance_A (c : CPU) (n : Nat) : (advance c n).regs.A = c.regs.A := rfl
@[simp] theorem advance_B (c : CPU) (n : Nat) : (advance c n).regs.B = c.regs.B := rfl
@[simp] theorem advance_C (c : CPU) (n : Nat) : (advance c n).regs.C = c.regs.C := rfl
@[simp] theorem advance_D (c : CPU) (n : Nat) : (advance c n).regs.D = c.regs.D := rfl
@[simp] theorem advance_FLAGS (c : CPU) (n : Nat) :
    (advance c n).regs.FLAGS = c.regs.FLAGS := rfl

theorem get_flag_congr (c d : CPU) (f : Nat) (h : c.regs.FLAGS = d.regs.FLAGS) :
    get_flag c f = get_flag d f := by
  unfold get_flag; rw [h]

@[simp] theorem get_flag_advance (c : CPU) (n f : Nat) :
    get_flag (advance c n) f = get_flag c f := rfl

/-- One step on an instruction that takes no operand, fetched from RAM. -/
theorem step_no_operand (c : CPU) (hrun : c.running = true)
    (hh : get_flag c FLAG_HALT = false) (hpc : c.regs.PC < 0xFF00)
    (hn : needs_operand (decode_opcode (c.memory c.regs.PC))
      (decode_mode (c.memory c.regs.PC)) = false) :
    cpu_step c =
      execute (advance c 1)
        (decode_opcode (c.memory c.regs.PC)) (decode_mode (c.memory c.regs.PC))
        { operand := 0, address := 0, reg_ptr := none } := by
  rw [cpu_step_active c hrun hh, fetch_ram c hpc]
  simp only []
  rw [fetch_operand_none _ _ _ hn]
  have e1 : (c.regs.PC + 1) % 65536 = c.regs.PC + 1 := Nat.mod_eq_of_lt (by omega)
  simp only [e1]
  rfl

/-- One step on an instruction with an immediate operand, all three bytes in RAM. -/
theorem step_immediate (c : CPU) (hrun : c.running = true)
    (hh : get_flag c FLAG_HALT = false) (hpc : c.regs.PC + 2 < 0xFF00)
    (hm : decode_mode (c.memory c.regs.PC) = MODE_IMMEDIATE)
    (hn : needs_operand (decode_opcode (c.memory c.regs.PC)) MODE_IMMEDIATE = true) :
    cpu_step c =
      execute (advance c 3)
        (decode_opcode (c.memory c.regs.PC)) MODE_IMMEDIATE
        { operand := ((c.memory (c.regs.PC + 2) <<< 8) ||| c.memory (c.regs.PC + 1)) % 65536,
          address := 0, reg_ptr := none } := by
  rw [cpu_step_active c hrun hh, fetch_ram c (by omega)]
  simp only []
  rw [hm]
  have e1 : (c.regs.PC + 1) % 65536 = c.regs.PC + 1 := Nat.mod_eq_of_lt (by omega)
  have e2 : (c.regs.PC + 1 + 2) % 65536 = c.regs.PC + 3 := by omega
  rw [fetch_operand_immediate_ram _ _ hn (by simp only [e1]; omega)]
  simp only [e1, e2]
  rfl

theorem stack_push16_ram (c : CPU) (v : Nat) (hlo : 1 ≤ c.regs.SP) (hhi : c.regs.SP ≤ 0xFEFF) :
    stack_push16 c v =
      { c with
        memory := fun x => if x = c.regs.SP - 1 then v &&& 0xFF
                           else if x = c.regs.SP then (v >>> 8) &&& 0xFF else c.memory x
        regs := { c.regs with SP := (c.regs.SP + 65534) % 65536 } } := by
  have e1 : (c.regs.SP + 65535) % 65536 = c.regs.SP - 1 := by omega
  have e2 : (c.regs.SP - 1 + 65535) % 65536 = (c.regs.SP + 65534) % 65536 := by omega
  simp only [stack_push16, stack_push8,
    mem_write8_ram _ _ _ (by omega : c.regs.SP < 0xFF00),
    mem_write8_ram _ _ _ (by omega : c.regs.SP - 1 < 0xFF00), e1, e2]

theorem stack_pop16_ram (c : CPU) (h : c.regs.SP + 2 < 0xFF00) :
    stack_pop16 c =
      (((c.memory (c.regs.SP + 2) <<< 8) ||| c.memory (c.regs.SP + 1)) % 65536,
       { c with regs := { c.regs with SP := c.regs.SP + 2 } }) := by
  have e1 : (c.regs.SP + 1) % 65536 = c.regs.SP + 1 := by omega
  have e2 : (c.regs.SP + 1 + 1) % 65536 = c.regs.SP + 2 := by omega
  simp only [stack_pop16, stack_pop8, e1, e2,
    mem_read8_ram _ _ (by omega : c.regs.SP + 1 < 0xFF00),
    mem_read8_ram _ _ (by omega : c.regs.SP + 2 < 0xFF00)]

theorem cpu_run_loop_mono (n k : Nat) (c r : CPU) (h : cpu_run_loop n c = some r) :
    cpu_run_loop (n + k) c = some r := by
  induction n generalizing c with
  | zero =>
    unfold cpu_run_loop at h
    split at h
    · exact absurd h (by simp)
    · rename_i hc
      rw [Nat.zero_add]
      cases k with
      | zero => unfold cpu_run_loop; rw [if_neg hc]; exact h
      | succ k => unfold cpu_run_loop; rw [if_neg hc]; exact h
  | succ n ih =>
    have e : n + 1 + k = (n + k) + 1 := by omega
    rw [e]
    unfold cpu_run_loop at h ⊢
    split at h
    · rename_i hc
      rw [if_pos hc]
      exact ih _ h
    · rename_i hc
      rw [if_neg hc]; exact h

theorem cpu_run_loop_deterministic (n m : Nat) (c r1 r2 : CPU)
    (h1 : cpu_run_loop n c = some r1) (h2 : cpu_run_loop m c = some r2) : r1 = r2 := by
  have a := cpu_run_loop_mono n m c r1 h1
  have b := cpu_run_loop_mono m n c r2 h2
  rw [Nat.add_comm] at b
  rw [a] at b
  exact Option.some.inj b

theorem execute_flag_local (c : CPU) (opcode mode : Nat) (o : Operand)
    (hop : opcode = OP_NOP ∨ opcode = OP_JMP ∨ opcode = OP_PUSH ∨ opcode = OP_STORE ∨
      opcode = OP_OUT ∨ opcode = OP_RET) :
    (execute c opcode mode o).regs.FLAGS = c.regs.FLAGS := by
  rcases hop with h | h | h | h | h | h <;> subst h
  · rw [execute_nop]
  · rw [execute_jmp]
  · rw [execute_push, stack_push16_FLAGS]
  · rw [execute_store]
    split
    · rw [mem_write16_regs]
    · split
      · rw [mem_write16_regs]
      · rfl
  · rw [execute_out, mem_write8_regs]
  · rw [execute_ret]
    exact stack_pop16_FLAGS c


theorem stack_pop8_at (c : CPU) (a : Nat) (h : (c.regs.SP + 1) % 65536 = a) (r : a < 0xFF00) :
    stack_pop8 c = (c.memory a, { c with regs := { c.regs with SP := a } }) := by
  unfold stack_pop8
  simp only [h]
  rw [mem_read8_ram _ _ r]

theorem stack_pop16_at (c : CPU) (a1 a2 : Nat) (h1 : (c.regs.SP + 1) % 65536 = a1)
    (h2 : (a1 + 1) % 65536 = a2) (r1 : a1 < 0xFF00) (r2 : a2 < 0xFF00) :
    stack_pop16 c =
      (((c.memory a2 <<< 8) ||| c.memory a1) % 65536,
       { c with regs := { c.regs with SP := a2 } }) := by
  unfold stack_pop16
  simp only [stack_pop8_at c a1 h1 r1]
  rw [stack_pop8_at _ a2 h2 r2]

theorem load_regs (c : CPU) (p : Nat → Nat) (n : Nat) (h : n ≤ 65536) :
    (cpu_load_program c p n 0).regs = { c.regs with PC := 0 } := by
  unfold cpu_load_program
  rw [if_neg (by simp only [MEMORY_SIZE]; omega)]

theorem load_memory (c : CPU) (p : Nat → Nat) (n : Nat) (h : n ≤ 65536) (a : Nat) :
    (cpu_load_program c p n 0).memory a = if a < n then p a else c.memory a := by
  unfold cpu_load_program
  rw [if_neg (by simp only [MEMORY_SIZE]; omega)]
  simp

theorem load_cycles (c : CPU) (p : Nat → Nat) (n s : Nat) :
    (cpu_load_program c p n s).cycles = c.cycles := by
  unfold cpu_load_program
  split <;> rfl

/-! ## Runs -/

theorem cpu_run_loop_step (fuel : Nat) (c : CPU) (hrun : c.running = true)
    (hh : get_flag c FLAG_HALT = false) :
    cpu_run_loop (fuel + 1) c = cpu_run_loop fuel (cpu_step c) := by
  rw [cpu_run_loop]
  simp [hrun, hh]

theorem cpu_run_loop_stop (fuel : Nat) (c : CPU) (h : c.running = false) :
    cpu_run_loop fuel c = some c := by
  cases fuel <;> simp [cpu_run_loop, h]

theorem cpu_run_loop_halted (fuel : Nat) (c : CPU) (h : get_flag c FLAG_HALT = true) :
    cpu_run_loop fuel c = some c := by
  cases fuel <;> simp [cpu_run_loop, h]

theorem slide_succ (c : CPU) (n : Nat) : slide (advance c 1) n = slide c (n + 1) := by
  unfold slide advance
  have e1 : c.regs.PC + 1 + n = c.regs.PC + (n + 1) := by omega
  have e2 : ((c.cycles + 1) % 2 ^ 64 + n) % 2 ^ 64 = (c.cycles + (n + 1)) % 2 ^ 64 := by
    rw [Nat.add_mod, Nat.mod_mod, ← Nat.add_mod]; congr 1; omega
  simp only [e1, e2]

theorem slide_zero (c : CPU) (h : c.cycles < 2 ^ 64) : slide c 0 = c := by
  unfold slide
  simp only [Nat.add_zero, Nat.mod_eq_of_lt h]

/-- A stretch of `n` bytes of RAM that all decode to `NOP` is run through in
`n` steps that change nothing but `PC` and the cycle count. -/
theorem nop_sled (n : Nat) : ∀ (c : CPU) (fuel : Nat), c.running = true →
    get_flag c FLAG_HALT = false → c.cycles < 2 ^ 64 → c.regs.PC + n ≤ 0xFF00 →
    (∀ a, c.regs.PC ≤ a → a < c.regs.PC + n → decode_opcode (c.memory a) = OP_NOP) →
    cpu_run_loop (n + fuel) c = cpu_run_loop fuel (slide c n) := by
  induction n with
  | zero =>
    intro c fuel _ _ hc _ _
    rw [slide_zero c hc, Nat.zero_add]
  | succ n ih =>
    intro c fuel hrun hh _ hend hnop
    have e : n + 1 + fuel = (n + fuel) + 1 := by omega
    have hop := hnop c.regs.PC (Nat.le_refl _) (by omega)
    rw [e, cpu_run_loop_step _ c hrun hh,
      step_no_operand c hrun hh (by omega) (by rw [hop]; rfl), hop, execute_nop,
      ih (advance c 1) fuel hrun hh (by rw [advance_cycles]; exact Nat.mod_lt _ (by norm_num))
        (by rw [advance_PC]; omega)
        (fun a h1 h2 => hnop a (by rw [advance_PC] at h1; omega) (by rw [advance_PC] at h2; omega)),
      slide_succ]

/-! ## The assembler: sizes and addresses -/

theorem parse_operand_mode (as : Assembler) (operand : List Char) (value : Nat) (fp : Bool)
    (mode v : Nat) (h : parse_operand as operand value fp = some (mode, v)) :
    mode = operand_mode operand := by
  unfold parse_operand at h
  unfold operand_mode
  simp only [] at h
  generalize operand.dropWhile isspace = d at h ⊢
  cases d with
  | nil =>
    simp only [Option.some.injEq, Prod.mk.injEq] at h
    exact h.1.symm
  | cons c rest =>
    simp only [] at h ⊢
    by_cases hc : c = '#'
    · rw [if_pos hc] at h ⊢
      split at h
      · simp only [Option.some.injEq, Prod.mk.injEq] at h
        exact h.1.symm
      · split at h
        · simp only [Option.some.injEq, Prod.mk.injEq] at h
          exact h.1.symm
        · exact absurd h (by simp)
    · rw [if_neg hc] at h ⊢
      split at h
      · rename_i hr
        rw [if_pos hr]
        simp only [Option.some.injEq, Prod.mk.injEq] at h
        exact h.1.symm
      · rename_i hr
        rw [if_neg hr]
        by_cases hb : c = '['
        · rw [if_pos hb] at h ⊢
          split at h
          · simp only [Option.some.injEq, Prod.mk.injEq] at h
            exact h.1.symm
          · split at h <;>
            · simp only [Option.some.injEq, Prod.mk.injEq] at h
              exact h.1.symm
        · rw [if_neg hb] at h ⊢
          split at h
          · simp only [Option.some.injEq, Prod.mk.injEq] at h
            exact h.1.symm
          · split at h
            · simp only [Option.some.injEq, Prod.mk.injEq] at h
              exact h.1.symm
            · exact absurd h (by simp)

theorem operand_mode_lt (operand : List Char) : operand_mode operand < 4 := by
  unfold operand_mode
  split
  · decide
  · split
    · decide
    · split
      · decide
      · split <;> decide

theorem operand_mode_nil : operand_mode [] = MODE_IMMEDIATE := rfl

theorem instruction_size_cases (text : List Char) :
    instruction_size text = 2 ∨ instruction_size text = 3 := by
  unfold instruction_size
  split
  · exact Or.inr rfl
  · exact Or.inl rfl

/-- What an accepted instruction does to the assembler state in the first pass. -/
theorem parse_instruction_first (as r : Assembler) (text : List Char)
    (h : parse_instruction as text true = some (true, r)) :
    r = { as with current_address :=
            ((as.current_address + 1) % 65536 + (instruction_size text - 1)) % 65536 } := by
  unfold parse_instruction at h
  simp only [] at h
  split at h
  · exact absurd h (by simp)
  · split at h
    · exact absurd h (by simp)
    · split at h
      · exact absurd h (by simp)
      · rename_i opcode mode value hpo
        have hm : mode = operand_mode (scan_rest text) := by
          split at hpo
          · exact parse_operand_mode _ _ _ _ _ _ hpo
          · rename_i he
            simp only [ne_eq, not_not] at he
            simp only [Option.some.injEq, Prod.mk.injEq] at hpo
            rw [he, operand_mode_nil]; exact hpo.1.symm
        have hlt := operand_mode_lt (scan_rest text)
        rw [← hm] at hlt
        simp only [Bool.not_true, Bool.false_eq_true, if_false] at h
        unfold instruction_size
        rw [← hm]
        split at h
        · rename_i hc
          rw [if_pos hc]
          simp only [Option.some.injEq, Prod.mk.injEq, true_and] at h
          exact h.symm
        · rename_i hc
          rw [if_neg hc]
          split at h
          · simp only [Option.some.injEq, Prod.mk.injEq, true_and] at h
            exact h.symm
          · rename_i hc2
            exfalso
            simp only [ MODE_IMMEDIATE, MODE_DIRECT, MODE_REGISTER, MODE_INDIRECT] at hc hc2 hlt
            omega

/-- What an accepted instruction does to the assembler state in the second pass. -/
theorem parse_instruction_second (as r : Assembler) (text : List Char)
    (h : parse_instruction as text false = some (true, r)) :
    r.labels = as.labels ∧ r.line_number = as.line_number ∧
    r.current_address =
      ((as.current_address + 1) % 65536 + (instruction_size text - 1)) % 65536 ∧
    r.output_size = ((as.output_size + 1) % 65536 + (instruction_size text - 1)) % 65536 := by
  unfold parse_instruction at h
  simp only [] at h
  split at h
  · exact absurd h (by simp)
  · split at h
    · exact absurd h (by simp)
    · split at h
      · exact absurd h (by simp)
      · rename_i opcode mode value hpo
        have hm : mode = operand_mode (scan_rest text) := by
          split at hpo
          · exact parse_operand_mode _ _ _ _ _ _ hpo
          · rename_i he
            simp only [ne_eq, not_not] at he
            simp only [Option.some.injEq, Prod.mk.injEq] at hpo
            rw [he, operand_mode_nil]; exact hpo.1.symm
        have hlt := operand_mode_lt (scan_rest text)
        rw [← hm] at hlt
        simp only [Bool.not_false, if_true] at h
        unfold instruction_size
        rw [← hm]
        split at h
        · rename_i hc
          rw [if_pos hc]
          simp only [Option.some.injEq, Prod.mk.injEq, true_and] at h
          subst h
          simp only [emit_word, emit_byte]
          refine ⟨trivial, trivial, ?_, ?_⟩ <;> omega
        · rename_i hc
          rw [if_neg hc]
          split at h
          · simp only [Option.some.injEq, Prod.mk.injEq, true_and] at h
            subst h
            simp only [emit_byte]
            exact ⟨trivial, trivial, trivial, trivial⟩
          · rename_i hc2
            exfalso
            simp only [ MODE_IMMEDIATE, MODE_DIRECT, MODE_REGISTER, MODE_INDIRECT] at hc hc2 hlt
            omega

theorem add_label_fields (as : Assembler) (name : List Char) (address : Nat) :
    (add_label as name address).current_address = as.current_address ∧
    (add_label as name address).output_size = as.output_size ∧
    (add_label as name address).line_number = as.line_number ∧
    ∃ ext, (add_label as name address).labels = as.labels ++ ext ∧
      ∀ l ∈ ext, l.address = address := by
  unfold add_label
  split
  · exact ⟨rfl, rfl, rfl, [], by simp, by simp⟩
  · exact ⟨rfl, rfl, rfl, _, rfl, by simp⟩

/-- Pass 1 on an accepted line: the address moves on by the encoded size of the
line, and what the line appends to the label table points at the address the
line started at. -/
theorem parse_line_first (as r : Assembler) (line : List Char)
    (h : parse_line as line true = some (true, r)) (hca : as.current_address < 65536) :
    r.current_address = (as.current_address + encoded_size line) % 65536 ∧
    ∃ ext, r.labels = as.labels ++ ext ∧ ∀ l ∈ ext, l.address = as.current_address := by
  unfold parse_line at h
  unfold encoded_size instruction_text
  simp only [] at h ⊢
  split at h
  · rename_i hb
    simp only [Option.some.injEq, Prod.mk.injEq, true_and] at h
    subst h
    rw [if_pos hb]
    exact ⟨by simp only [Nat.add_zero, Nat.mod_eq_of_lt hca], [], by simp, by simp⟩
  · rename_i hb
    rw [if_neg hb]
    split at h
    · rename_i hcol
      rw [if_pos hcol]
      split at h
      · exact absurd h (by simp)
      · split at h
        · exact absurd h (by simp)
        · simp only [if_true] at h
          have hf := add_label_fields as (scan_token (before_colon (strip_comment line)))
            as.current_address
          split at h
          · rename_i he
            rw [if_pos he]
            simp only [Option.some.injEq, Prod.mk.injEq, true_and] at h
            subst h
            exact ⟨by rw [hf.1]; simp only [Nat.add_zero, Nat.mod_eq_of_lt hca], hf.2.2.2⟩
          · rename_i he
            rw [if_neg he]
            have hi := parse_instruction_first _ _ _ h
            have hs := instruction_size_cases
              (List.dropWhile isspace (after_colon (strip_comment line)))
            subst hi
            refine ⟨?_, hf.2.2.2⟩
            simp only [hf.1]
            omega
    · rename_i hcol
      rw [if_neg hcol]
      have hi := parse_instruction_first _ _ _ h
      have hs := instruction_size_cases (strip_comment line)
      subst hi
      refine ⟨?_, [], by simp, by simp⟩
      simp only []
      omega

/-- Pass 2 on an accepted line: `current_address` and `output_size` both move on
by the encoded size of the line; the label table is not touched. -/
theorem parse_line_second (as r : Assembler) (line : List Char)
    (h : parse_line as line false = some (true, r)) (hca : as.current_address < 65536)
    (hos : as.output_size < 65536) :
    r.labels = as.labels ∧
    r.current_address = (as.current_address + encoded_size line) % 65536 ∧
    r.output_size = (as.output_size + encoded_size line) % 65536 := by
  unfold parse_line at h
  unfold encoded_size instruction_text
  simp only [] at h ⊢
  split at h
  · rename_i hb
    simp only [Option.some.injEq, Prod.mk.injEq, true_and] at h
    subst h
    rw [if_pos hb]
    simp only [Nat.add_zero, Nat.mod_eq_of_lt hca, Nat.mod_eq_of_lt hos, and_self]
  · rename_i hb
    rw [if_neg hb]
    split at h
    · rename_i hcol
      rw [if_pos hcol]
      split at h
      · exact absurd h (by simp)
      · split at h
        · exact absurd h (by simp)
        · simp only [Bool.false_eq_true, if_false] at h
          split at h
          · rename_i he
            rw [if_pos he]
            simp only [Option.some.injEq, Prod.mk.injEq, true_and] at h
            subst h
            simp only [Nat.add_zero, Nat.mod_eq_of_lt hca, Nat.mod_eq_of_lt hos, and_self]
          · rename_i he
            rw [if_neg he]
            have hi := parse_instruction_second _ _ _ h
            have hs := instruction_size_cases
              (List.dropWhile isspace (after_colon (strip_comment line)))
            refine ⟨hi.1, ?_, ?_⟩
            · rw [hi.2.2.1]; simp only []; omega
            · rw [hi.2.2.2]; simp only []; omega
    · rename_i hcol
      rw [if_neg hcol]
      have hi := parse_instruction_second _ _ _ h
      have hs := instruction_size_cases (strip_comment line)
      refine ⟨hi.1, ?_, ?_⟩
      · rw [hi.2.2.1]; simp only []; omega
      · rw [hi.2.2.2]; simp only []; omega

theorem total_size_cons (l : List Char) (ls : List (List Char)) :
    total_size (l :: ls) = encoded_size l + total_size ls := by
  simp [total_size]

theorem total_size_append (a b : List (List Char)) :
    total_size (a ++ b) = total_size a + total_size b := by
  simp [total_size]

/-- An accepted run of `pass_loop` over `pre ++ post` passes through an accepted
run over `pre`. -/
theorem pass_loop_append (fp : Bool) (pre post : List (List Char)) :
    ∀ (a r : Assembler), pass_loop fp (pre ++ post) a = some (true, r) →
      ∃ b, pass_loop fp pre a = some (true, b) ∧ pass_loop fp post b = some (true, r) := by
  induction pre with
  | nil => intro a r h; exact ⟨a, rfl, h⟩
  | cons l ls ih =>
    intro a r h
    rw [List.cons_append, pass_loop] at h
    split at h
    · exact absurd h (by simp)
    · exact absurd h (by simp)
    · rename_i as' heq
      obtain ⟨b, hb, hr⟩ := ih as' r h
      refine ⟨b, ?_, hr⟩
      rw [pass_loop]
      simp only [heq]
      exact hb

theorem pass_loop_first (ls : List (List Char)) :
    ∀ (a r : Assembler), pass_loop true ls a = some (true, r) → a.current_address < 65536 →
      r.current_address = (a.current_address + total_size ls) % 65536 ∧
      ∃ ext, r.labels = a.labels ++ ext ∧
        ∀ l ∈ ext, ∃ pre line post, ls = pre ++ line :: post ∧
          l.address = (a.current_address + total_size pre) % 65536 := by
  induction ls with
  | nil =>
    intro a r h hca
    unfold pass_loop at h
    simp only [Option.some.injEq, Prod.mk.injEq, true_and] at h
    subst h
    exact ⟨by simp [total_size, Nat.mod_eq_of_lt hca], [], by simp, by simp⟩
  | cons l ls ih =>
    intro a r h hca
    unfold pass_loop at h
    split at h
    · exact absurd h (by simp)
    · exact absurd h (by simp)
    · rename_i as' heq
      obtain ⟨h1, ext1, hx1, ha1⟩ := parse_line_first _ _ _ heq hca
      obtain ⟨h2, ext2, hx2, ha2⟩ := ih as' r h (by rw [h1]; exact Nat.mod_lt _ (by norm_num))
      refine ⟨?_, ext1 ++ ext2, ?_, ?_⟩
      · rw [h2, h1, total_size_cons]
        simp only []
        omega
      · rw [hx2, hx1, List.append_assoc]
      · intro lab hlab
        rcases List.mem_append.mp hlab with hm | hm
        · refine ⟨[], l, ls, rfl, ?_⟩
          rw [ha1 lab hm]
          simp [total_size, Nat.mod_eq_of_lt hca]
        · obtain ⟨pre, line, post, hsp, hadr⟩ := ha2 lab hm
          refine ⟨l :: pre, line, post, by rw [hsp]; rfl, ?_⟩
          rw [hadr, h1, total_size_cons]
          simp only []
          omega

theorem pass_loop_second (ls : List (List Char)) :
    ∀ (a r : Assembler), pass_loop false ls a = some (true, r) → a.current_address < 65536 →
      a.output_size < 65536 →
      r.labels = a.labels ∧
      r.current_address = (a.current_address + total_size ls) % 65536 ∧
      r.output_size = (a.output_size + total_size ls) % 65536 := by
  induction ls with
  | nil =>
    intro a r h hca hos
    unfold pass_loop at h
    simp only [Option.some.injEq, Prod.mk.injEq, true_and] at h
    subst h
    simp [total_size, Nat.mod_eq_of_lt hca, Nat.mod_eq_of_lt hos]
  | cons l ls ih =>
    intro a r h hca hos
    unfold pass_loop at h
    split at h
    · exact absurd h (by simp)
    · exact absurd h (by simp)
    · rename_i as' heq
      have h1 := parse_line_second _ _ _ heq hca hos
      have h2 := ih as' r h (by rw [h1.2.1]; exact Nat.mod_lt _ (by norm_num))
        (by rw [h1.2.2]; exact Nat.mod_lt _ (by norm_num))
      rw [h2.1, h2.2.1, h2.2.2, h1.1, h1.2.1, h1.2.2, total_size_cons]
      simp only []
      refine ⟨trivial, ?_, ?_⟩ <;> omega

/-! ## The claims about single operations -/

/-- Claim C2: assembling the two-line source `LOAD #42` / `HALT` (first pass,
then second pass) succeeds and produces exactly the six bytes
0x04 0x2A 0x00 0x6C 0x00 0x00. -/
theorem load_halt_bytes :
    ∃ as, assemble load_halt_source = some (true, as) ∧ as.output_size = 6 ∧
      output_bytes as = [some 0x04, some 0x2A, some 0x00, some 0x6C, some 0x00, some 0x00] :=
  ⟨assembled load_halt_source, rfl, rfl, rfl⟩

/-- Claim C3: for every 16-bit `v`, the program `LOAD #v; HALT` loaded at
address 0 of a freshly initialised CPU (in any environment) and run by
`cpu_run` ends, after exactly two steps and for every larger bound on the
number of steps, with `A = v`, ZERO set iff `v = 0`, NEGATIVE set iff
`v >= 0x8000`, the HALT flag set, `running = false` and a cycle count of 2. -/
theorem load_immediate_halt (v : Nat) (hv : v < 65536) (stdin clock : List Nat) :
    ∃ cpu,
      (∀ fuel, 2 ≤ fuel →
        cpu_run fuel (cpu_load_program (cpu_init stdin clock)
          (fun i => (load_halt_program v).getD i 0) 4 0) = some cpu) ∧
      cpu.regs.A = v ∧
      (get_flag cpu FLAG_ZERO = true ↔ v = 0) ∧
      (get_flag cpu FLAG_NEGATIVE = true ↔ 0x8000 ≤ v) ∧
      get_flag cpu FLAG_HALT = true ∧
      cpu.running = false ∧
      cpu.cycles = 2 := by
  have hj := word_join v hv
  obtain ⟨c0, hc0⟩ : ∃ c0 : CPU, c0 = { cpu_load_program (cpu_init stdin clock)
              (fun i => (load_halt_program v).getD i 0) 4 0 with running := true } := ⟨_, rfl⟩
  have hregs : c0.regs = { PC := 0, SP := 0xFEFF, A := 0, B := 0, C := 0, D := 0, FLAGS := 0 } := by
    subst hc0; simp [cpu_load_program, cpu_init_regs, MEMORY_SIZE]
  have hmem : ∀ a, c0.memory a = if a < 4 then (load_halt_program v).getD a 0 else 0 := by
    intro a; subst hc0; simp [cpu_load_program, cpu_init_memory, MEMORY_SIZE]
  have hrun : c0.running = true := by subst hc0; rfl
  have hcyc : c0.cycles = 0 := by subst hc0; simp [cpu_load_program, cpu_init_cycles, MEMORY_SIZE]
  have hh0 : get_flag c0 FLAG_HALT = false := by simp [get_flag, hregs]
  have hpc : c0.regs.PC = 0 := by rw [hregs]
  have m0 : c0.memory 0 = 4 := by rw [hmem]; rfl
  have m1 : c0.memory 1 = v % 256 := by rw [hmem]; rfl
  have m2 : c0.memory 2 = v / 256 := by rw [hmem]; rfl
  have m3 : c0.memory 3 = 0x6C := by rw [hmem]; rfl
  obtain ⟨c1, hc1⟩ : ∃ c1 : CPU, c1 = update_flags
      { advance c0 3 with regs := { (advance c0 3).regs with A := v } } v := ⟨_, rfl⟩
  have s1 : cpu_step c0 = c1 := by
    rw [step_immediate c0 hrun hh0 (by rw [hpc]; decide) (by rw [hpc, m0]; rfl)
      (by rw [hpc, m0]; rfl)]
    simp only [hpc, m0, m1, m2, hj]
    rw [show decode_opcode 4 = OP_LOAD from rfl, execute_load, hc1]
  have r1 : c1.running = true := by rw [hc1, update_flags_running]; exact hrun
  have h1 : get_flag c1 FLAG_HALT = false := by
    rw [hc1]
    exact (get_flag_update_flags_other _ v 7 (by decide) (by decide) (by decide)).trans hh0
  have pc1 : c1.regs.PC = 3 := by
    rw [hc1, update_flags_PC]; show c0.regs.PC + 3 = 3; rw [hpc]
  have mem1 : c1.memory = c0.memory := by rw [hc1, update_flags_memory]; rfl
  have cyc1 : c1.cycles = 1 := by
    rw [hc1, update_flags_cycles]; show (c0.cycles + 1) % 2 ^ 64 = 1; rw [hcyc]; rfl
  have a1 : c1.regs.A = v := by rw [hc1, update_flags_A]
  have s2 : cpu_step c1 = { set_flag (advance c1 1) FLAG_HALT with running := false } := by
    rw [step_no_operand c1 r1 h1 (by rw [pc1]; decide) (by rw [pc1, mem1, m3]; rfl)]
    simp only [pc1, mem1, m3]
    rw [show decode_opcode 108 = OP_HALT from rfl, execute_halt]
  have hh2 : get_flag (cpu_step c1) FLAG_HALT = true := by
    rw [s2]; exact get_flag_set_flag_same _ 7 (by decide)
  have hr2 : cpu_run_loop 2 c0 = some (cpu_step c1) := by
    simp [cpu_run_loop, hrun, hh0, s1, r1, h1, hh2]
  refine ⟨cpu_step c1, ?_, ?_, ?_, ?_, hh2, ?_, ?_⟩
  · intro fuel hfuel
    show cpu_run_loop fuel _ = _
    rw [← hc0]
    have := cpu_run_loop_mono 2 (fuel - 2) c0 _ hr2
    rwa [show 2 + (fuel - 2) = fuel by omega] at this
  · rw [s2]; exact a1
  · rw [s2]
    have : get_flag ({ set_flag (advance c1 1) FLAG_HALT with running := false }) FLAG_ZERO
        = get_flag c1 FLAG_ZERO :=
      get_flag_set_flag_other _ 7 0 (by decide) (by decide)
    rw [this, hc1, get_flag_update_flags_zero]; simp
  · rw [s2]
    have : get_flag ({ set_flag (advance c1 1) FLAG_HALT with running := false }) FLAG_NEGATIVE
        = get_flag c1 FLAG_NEGATIVE :=
      get_flag_set_flag_other _ 7 2 (by decide) (by decide)
    rw [this, hc1, get_flag_update_flags_negative]
    simp only [decide_eq_true_eq]
    exact negative_bit v hv
  · rw [s2]
  · rw [s2]; show (c1.cycles + 1) % 2 ^ 64 = 2; rw [cyc1]; rfl

theorem load_immediate_halt_witness :
    (0x8001 : Nat) < 65536 ∧
    ∃ cpu,
      (∀ fuel, 2 ≤ fuel →
        cpu_run fuel (cpu_load_program (cpu_init [] [])
          (fun i => (load_halt_program 0x8001).getD i 0) 4 0) = some cpu) ∧
      cpu.regs.A = 0x8001 ∧
      (get_flag cpu FLAG_ZERO = true ↔ 0x8001 = 0) ∧
      (get_flag cpu FLAG_NEGATIVE = true ↔ 0x8000 ≤ 0x8001) ∧
      get_flag cpu FLAG_HALT = true ∧
      cpu.running = false ∧
      cpu.cycles = 2 :=
  ⟨by decide, load_immediate_halt 0x8001 (by decide) [] []⟩

/-- Claim C4: for every 16-bit `v` and every CPU state whose `SP` lies in
1..0xFEFF, `stack_push16 (v)` followed by `stack_pop16 ()` returns `v` and
leaves `SP` equal to its value before the push. -/
theorem push16_pop16 (cpu : CPU) (v : Nat) (hv : v < 65536)
    (hlo : 1 ≤ cpu.regs.SP) (hhi : cpu.regs.SP ≤ 0xFEFF) :
    (stack_pop16 (stack_push16 cpu v)).1 = v ∧
    (stack_pop16 (stack_push16 cpu v)).2.regs.SP = cpu.regs.SP := by
  have e1 : (cpu.regs.SP + 65535) % 65536 = cpu.regs.SP - 1 := by omega
  have e2 : (cpu.regs.SP - 1 + 65535) % 65536 = (cpu.regs.SP + 65534) % 65536 := by omega
  have e3 : ((cpu.regs.SP + 65534) % 65536 + 1) % 65536 = cpu.regs.SP - 1 := by omega
  have e4 : (cpu.regs.SP - 1 + 1) % 65536 = cpu.regs.SP := by omega
  have e5 : cpu.regs.SP - 1 ≠ cpu.regs.SP := by omega
  simp only [stack_pop16, stack_pop8, stack_push16, stack_push8,
    mem_write8_ram _ _ _ (by omega : cpu.regs.SP < 0xFF00),
    mem_write8_ram _ _ _ (by omega : cpu.regs.SP - 1 < 0xFF00), e1, e2, e3, e4,
    mem_read8_ram _ _ (by omega : cpu.regs.SP - 1 < 0xFF00),
    mem_read8_ram _ _ (by omega : cpu.regs.SP < 0xFF00)]
  simp [e5.symm, bytes_join v hv]

theorem push16_pop16_witness :
    (stack_pop16 (stack_push16 (cpu_init [] []) 0xBEEF)).1 = 0xBEEF ∧
    (stack_pop16 (stack_push16 (cpu_init [] []) 0xBEEF)).2.regs.SP = (cpu_init [] []).regs.SP :=
  push16_pop16 (cpu_init [] []) 0xBEEF (by decide) (by decide) (by decide)

/-- Claim C5: for every address `addr` in 0..0xFEFE and every 16-bit `v`,
`mem_write16 (addr, v)` followed by `mem_read16 (addr)` returns `v` (and the
read changes nothing); the low byte is stored at `addr`, the high byte at
`addr + 1`, and no other memory byte changes. -/
theorem mem_write16_read16 (cpu : CPU) (addr v : Nat) (haddr : addr ≤ 0xFEFE)
    (hv : v < 65536) :
    mem_read16 (mem_write16 cpu addr v) addr = (v, mem_write16 cpu addr v) ∧
    (mem_write16 cpu addr v).memory addr = v % 256 ∧
    (mem_write16 cpu addr v).memory (addr + 1) = v / 256 ∧
    (∀ a, a ≠ addr → a ≠ addr + 1 → (mem_write16 cpu addr v).memory a = cpu.memory a) := by
  have hw := mem_write16_ram cpu addr v (by omega)
  have hr := mem_read16_ram (mem_write16 cpu addr v) addr (by omega)
  have m0 : (mem_write16 cpu addr v).memory addr = v &&& 0xFF := by
    rw [hw]; simp
  have m1 : (mem_write16 cpu addr v).memory (addr + 1) = (v >>> 8) &&& 0xFF := by
    rw [hw]; simp
  refine ⟨?_, ?_, ?_, ?_⟩
  · rw [hr, m0, m1, bytes_join v hv]
  · rw [m0, low_byte]
  · rw [m1, high_byte v hv]
  · intro a h0 h1
    rw [hw]; simp [h0, h1]

theorem mem_write16_read16_witness :
    mem_read16 (mem_write16 (cpu_init [] []) 0x1234 0xBEEF) 0x1234
      = (0xBEEF, mem_write16 (cpu_init [] []) 0x1234 0xBEEF) :=
  (mem_write16_read16 (cpu_init [] []) 0x1234 0xBEEF (by decide) (by decide)).1

/-- Claim C6, as stated, fails where the stack overlaps the subroutine: in
`call_overlap_state` (running, not halted, `SP = 0x0010`, `CALL #0x0010` at
`PC = 0`, a `RET` byte at 0x0010) the `CALL` pushes the return address over the
`RET`, the second step executes the `NOP` now found there, and neither `PC` nor
`SP` comes back. -/
theorem call_ret_overlap_counterexample :
    call_overlap_state.running = true ∧
    get_flag call_overlap_state FLAG_HALT = false ∧
    1 ≤ call_overlap_state.regs.SP ∧ call_overlap_state.regs.SP ≤ 0xFEFF ∧
    call_overlap_state.memory call_overlap_state.regs.PC
      = encode_instruction OP_CALL MODE_IMMEDIATE ∧
    call_overlap_state.memory (call_overlap_state.regs.PC + 1) = 0x0010 % 256 ∧
    call_overlap_state.memory (call_overlap_state.regs.PC + 2) = 0x0010 / 256 ∧
    decode_opcode (call_overlap_state.memory 0x0010) = OP_RET ∧
    (cpu_step call_overlap_state).regs.PC = 0x0010 ∧
    (cpu_step (cpu_step call_overlap_state)).regs.PC ≠ call_overlap_state.regs.PC + 3 ∧
    (cpu_step (cpu_step call_overlap_state)).regs.SP ≠ call_overlap_state.regs.SP := by
  decide

/-- Claim C6, amended: for every running, non-halted CPU state with `SP` in
1..0xFEFF whose instruction at `PC = p` is a `CALL` in IMMEDIATE mode with
target `t` (the three bytes in RAM), where memory at `t` (in RAM, and not one
of the two stack bytes `SP - 1`, `SP` the `CALL` writes) holds a `RET`: after
one `cpu_step`, `PC = t` and the 16-bit value on top of the stack is `p + 3`;
after a second `cpu_step`, `PC = p + 3` and `SP` has its value from before the
`CALL`. -/
theorem call_ret_balance (c : CPU) (t : Nat) (hrun : c.running = true)
    (hh : get_flag c FLAG_HALT = false)
    (hlo : 1 ≤ c.regs.SP) (hhi : c.regs.SP ≤ 0xFEFF)
    (hpc : c.regs.PC + 2 < 0xFF00)
    (hcall : c.memory c.regs.PC = encode_instruction OP_CALL MODE_IMMEDIATE)
    (ht : t < 0xFF00)
    (ht0 : c.memory (c.regs.PC + 1) = t % 256) (ht1 : c.memory (c.regs.PC + 2) = t / 256)
    (hret : decode_opcode (c.memory t) = OP_RET)
    (hs0 : t ≠ c.regs.SP) (hs1 : t ≠ c.regs.SP - 1) :
    (cpu_step c).regs.PC = t ∧
    (mem_read16 (cpu_step c) (((cpu_step c).regs.SP + 1) % 65536)).1 = c.regs.PC + 3 ∧
    (cpu_step (cpu_step c)).regs.PC = c.regs.PC + 3 ∧
    (cpu_step (cpu_step c)).regs.SP = c.regs.SP := by
  have hb : c.memory c.regs.PC = 0x64 := hcall
  have hj := word_join t (by omega)
  have hw := bytes_join (c.regs.PC + 3) (by omega)
  obtain ⟨c1, hc1⟩ : ∃ c1 : CPU, c1 = cpu_step c := ⟨_, rfl⟩
  have s1 : c1 = { stack_push16 (advance c 3) (c.regs.PC + 3) with
      regs := { (stack_push16 (advance c 3) (c.regs.PC + 3)).regs with PC := t } } := by
    rw [hc1, step_immediate c hrun hh hpc (by rw [hb]; rfl) (by rw [hb]; rfl)]
    simp only [hb, ht0, ht1, hj]
    rw [show decode_opcode 100 = OP_CALL from rfl, execute_call]
    simp only [advance_PC]
  rw [stack_push16_ram (advance c 3) _ hlo hhi] at s1
  rw [← hc1]
  have r1 : c1.running = true := by rw [s1]; exact hrun
  have h1 : get_flag c1 FLAG_HALT = false := by rw [s1]; exact hh
  have pc1 : c1.regs.PC = t := by rw [s1]
  have sp1 : c1.regs.SP = (c.regs.SP + 65534) % 65536 := by rw [s1]; rfl
  have mem1 : ∀ x, c1.memory x = if x = c.regs.SP - 1 then (c.regs.PC + 3) &&& 0xFF
      else if x = c.regs.SP then ((c.regs.PC + 3) >>> 8) &&& 0xFF else c.memory x := by
    intro x; rw [s1]; rfl
  have mt : c1.memory t = c.memory t := by
    rw [mem1, if_neg hs1, if_neg hs0]
  have mlo : c1.memory (c.regs.SP - 1) = (c.regs.PC + 3) &&& 0xFF := by
    rw [mem1, if_pos rfl]
  have mhi : c1.memory c.regs.SP = ((c.regs.PC + 3) >>> 8) &&& 0xFF := by
    rw [mem1, if_neg (by omega), if_pos rfl]
  have ea : ((c.regs.SP + 65534) % 65536 + 1) % 65536 = c.regs.SP - 1 := by omega
  have eb : c.regs.SP - 1 + 1 = c.regs.SP := by omega
  have s2 : cpu_step c1 = { (stack_pop16 (advance c1 1)).2 with
      regs := { (stack_pop16 (advance c1 1)).2.regs with
        PC := (stack_pop16 (advance c1 1)).1 } } := by
    rw [step_no_operand c1 r1 h1 (by rw [pc1]; exact ht) (by rw [pc1, mt, hret]; rfl)]
    simp only [pc1, mt, hret]
    rw [execute_ret]
  have hpop : stack_pop16 (advance c1 1) =
      (c.regs.PC + 3,
       { advance c1 1 with regs := { (advance c1 1).regs with SP := c.regs.SP } }) := by
    rw [stack_pop16_at (advance c1 1) (c.regs.SP - 1) c.regs.SP
      (by rw [advance_SP, sp1, ea]) (by omega) (by omega) (by omega)]
    simp only [advance_memory, mlo, mhi, hw]
  refine ⟨pc1, ?_, ?_, ?_⟩
  · rw [sp1, ea, mem_read16_ram c1 _ (by omega), eb, mlo, mhi, hw]
  · rw [s2, hpop]
  · rw [s2, hpop]

theorem call_ret_balance_witness :
    (cpu_step call_ret_state).regs.PC = 6 ∧
    (mem_read16 (cpu_step call_ret_state)
      (((cpu_step call_ret_state).regs.SP + 1) % 65536)).1 = call_ret_state.regs.PC + 3 ∧
    (cpu_step (cpu_step call_ret_state)).regs.PC = call_ret_state.regs.PC + 3 ∧
    (cpu_step (cpu_step call_ret_state)).regs.SP = call_ret_state.regs.SP :=
  call_ret_balance call_ret_state 6 rfl rfl (by decide) (by decide) (by decide) rfl
    (by decide) rfl rfl rfl (by decide) (by decide)

/-- Claim C7: for every running, non-halted CPU state whose instruction at `PC`
has opcode NOP, JMP, PUSH, STORE, OUT, HALT or RET (in any addressing mode),
one `cpu_step` leaves the ZERO, NEGATIVE and CARRY bits of `FLAGS` exactly as
they were. -/
theorem flag_locality (cpu : CPU) (hrun : cpu.running = true)
    (hh : get_flag cpu FLAG_HALT = false)
    (hop : decode_opcode (mem_read8 cpu cpu.regs.PC).1 ∈
      [OP_NOP, OP_JMP, OP_PUSH, OP_STORE, OP_OUT, OP_HALT, OP_RET]) :
    get_flag (cpu_step cpu) FLAG_ZERO = get_flag cpu FLAG_ZERO ∧
    get_flag (cpu_step cpu) FLAG_NEGATIVE = get_flag cpu FLAG_NEGATIVE ∧
    get_flag (cpu_step cpu) FLAG_CARRY = get_flag cpu FLAG_CARRY := by
  rw [cpu_step_active cpu hrun hh]
  have hf : (fetch cpu).1 = (mem_read8 cpu cpu.regs.PC).1 := rfl
  rw [hf]
  generalize hopc : decode_opcode (mem_read8 cpu cpu.regs.PC).1 = opcode at hop ⊢
  generalize decode_mode (mem_read8 cpu cpu.regs.PC).1 = mode
  have hpre : (fetch_operand (fetch cpu).2 opcode mode).2.regs.FLAGS = cpu.regs.FLAGS := by
    rw [fetch_operand_FLAGS, fetch_FLAGS]
  generalize (fetch_operand (fetch cpu).2 opcode mode).2 = c at hpre ⊢
  generalize (fetch_operand (fetch cpu).2 opcode mode).1 = o
  by_cases hhalt : opcode = OP_HALT
  · subst hhalt
    rw [execute_halt]
    have e : ∀ b, 7 ≠ b → b < 8 →
        get_flag { set_flag c FLAG_HALT with running := false } (2 ^ b) = get_flag cpu (2 ^ b) :=
      fun b h7 hb => (get_flag_set_flag_other c 7 b h7 hb).trans (get_flag_congr _ _ _ hpre)
    exact ⟨e 0 (by decide) (by decide), e 2 (by decide) (by decide), e 1 (by decide) (by decide)⟩
  · have hop2 : opcode = OP_NOP ∨ opcode = OP_JMP ∨ opcode = OP_PUSH ∨ opcode = OP_STORE ∨
      opcode = OP_OUT ∨ opcode = OP_RET := by
      simp only [List.mem_cons, List.mem_singleton, List.not_mem_nil, or_false] at hop
      tauto
    have e := (execute_flag_local c opcode mode o hop2).trans hpre
    exact ⟨get_flag_congr _ _ _ e, get_flag_congr _ _ _ e, get_flag_congr _ _ _ e⟩

theorem flag_locality_witness :
    get_flag (cpu_step jump_state) FLAG_ZERO = get_flag jump_state FLAG_ZERO ∧
    get_flag (cpu_step jump_state) FLAG_NEGATIVE = get_flag jump_state FLAG_NEGATIVE ∧
    get_flag (cpu_step jump_state) FLAG_CARRY = get_flag jump_state FLAG_CARRY :=
  flag_locality jump_state rfl rfl (by decide)

set_option maxRecDepth 100000 in
theorem encode_decode_all : ∀ opcode, opcode < 64 → ∀ mode, mode < 4 →
    decode_opcode (encode_instruction opcode mode) = opcode ∧
    decode_mode (encode_instruction opcode mode) = mode := by
  decide

set_option maxRecDepth 100000 in
theorem encode_onto : ∀ byte, byte < 256 →
    encode_instruction (byte / 4) (byte % 4) = byte := by
  decide

/-- Claim C8: for every opcode in 0..63 and every mode in 0..3, the byte
`encode_instruction (opcode, mode)` is decoded by the fetch stage of `cpu_step`
(`(byte >> 2) & 0x3F`, `byte & 0x03`) back to the same opcode and mode; and every
byte value is the encoding of exactly one such (opcode, mode) pair. -/
theorem encode_decode_roundtrip :
    (∀ opcode mode, opcode < 64 → mode < 4 →
      decode_opcode (encode_instruction opcode mode) = opcode ∧
      decode_mode (encode_instruction opcode mode) = mode) ∧
    (∀ byte, byte < 256 →
      ∃! p : Nat × Nat, p.1 < 64 ∧ p.2 < 4 ∧ encode_instruction p.1 p.2 = byte) := by
  refine ⟨fun opcode mode ho hm => encode_decode_all opcode ho mode hm, ?_⟩
  intro byte hb
  refine ⟨(byte / 4, byte % 4), ⟨by show byte / 4 < 64; omega, by show byte % 4 < 4; omega,
    encode_onto byte hb⟩, ?_⟩
  rintro ⟨o, m⟩ ⟨ho, hm, he⟩
  have h := encode_decode_all o ho m hm
  have h2 := encode_decode_all (byte / 4) (by omega) (byte % 4) (by omega)
  rw [encode_onto byte hb] at h2
  simp only [] at he
  rw [he] at h
  simp only [Prod.mk.injEq]
  exact ⟨h.1.symm.trans h2.1, h.2.symm.trans h2.2⟩

theorem encode_decode_roundtrip_witness :
    decode_opcode (encode_instruction OP_HALT MODE_IMMEDIATE) = OP_HALT ∧
    decode_mode (encode_instruction OP_HALT MODE_IMMEDIATE) = MODE_IMMEDIATE :=
  encode_decode_roundtrip.1 OP_HALT MODE_IMMEDIATE (by decide) (by decide)


/-! ## The end-to-end scenarios -/

theorem subroutine_assembles :
    assemble subroutine_source = some (true, assembled subroutine_source) := rfl

theorem subroutine_size : (assembled subroutine_source).output_size = 12 := rfl

theorem subroutine_call_PC :
    (cpu_step (boot (assembled subroutine_source) [] [])).regs.PC = 0x0704 := rfl

theorem subroutine_call_running :
    (cpu_step (boot (assembled subroutine_source) [] [])).running = true := rfl

theorem subroutine_call_halt :
    get_flag (cpu_step (boot (assembled subroutine_source) [] [])) FLAG_HALT = false := rfl

theorem subroutine_call_cycles :
    (cpu_step (boot (assembled subroutine_source) [] [])).cycles = 1 := rfl

theorem subroutine_call_memory :
    (cpu_step (boot (assembled subroutine_source) [] [])).memory = fun a =>
      if a = 0xFEFE then 3 else if a = 0xFEFF then 0
      else (boot (assembled subroutine_source) [] []).memory a := rfl

theorem subroutine_boot_memory (a : Nat) (h : 12 ≤ a) :
    (boot (assembled subroutine_source) [] []).memory a = 0 := by
  show (cpu_load_program (cpu_init [] []) _ (assembled subroutine_source).output_size 0).memory a
    = 0
  rw [load_memory _ _ _ (by rw [subroutine_size]; decide), subroutine_size, if_neg (by omega),
    cpu_init_memory]

theorem subroutine_sled (a : Nat) (h1 : 0x0704 ≤ a) :
    decode_opcode ((cpu_step (boot (assembled subroutine_source) [] [])).memory a) = OP_NOP := by
  rw [subroutine_call_memory]
  simp only []
  split
  · rfl
  · split
    · rfl
    · rw [subroutine_boot_memory a (by omega)]; rfl

theorem subroutine_end_running :
    (cpu_step (slide (cpu_step (boot (assembled subroutine_source) [] [])) 63484)).running
      = false := rfl

theorem subroutine_end_halt :
    get_flag (cpu_step (slide (cpu_step (boot (assembled subroutine_source) [] [])) 63484))
      FLAG_HALT = false := rfl

theorem subroutine_run :
    cpu_run_loop 63486 (boot (assembled subroutine_source) [] []) =
      some (cpu_step (slide (cpu_step (boot (assembled subroutine_source) [] [])) 63484)) := by
  have e : (63486 : Nat) = (63484 + 1) + 1 := by norm_num
  rw [e, cpu_run_loop_step _ (boot (assembled subroutine_source) [] []) rfl rfl,
    nop_sled 63484 (cpu_step (boot (assembled subroutine_source) [] [])) 1
      subroutine_call_running subroutine_call_halt
      (by rw [subroutine_call_cycles]; norm_num) (by rw [subroutine_call_PC])
      (fun a h1 _ => subroutine_sled a (by rw [subroutine_call_PC] at h1; exact h1)),
    cpu_run_loop_step _ (slide (cpu_step (boot (assembled subroutine_source) [] [])) 63484)
      rfl rfl,
    cpu_run_loop_stop _ _ subroutine_end_running]

/-- Claim C9, as stated, fails: `CALL sub` is assembled in DIRECT mode, so the
CPU calls the address stored at `sub` (0x0704, the first two bytes of
`LOAD #7`), not `sub`.  With no input the run never reaches `HALT`: whatever
bound is put on the number of steps, it does not end with the HALT flag set,
`A = 7` and `SP = 0xFEFF`. -/
theorem subroutine_direct_call_counterexample :
    ¬ ∃ as fuel cpu, assemble subroutine_source = some (true, as) ∧
      cpu_run fuel (cpu_load_program (cpu_init [] []) (program_byte as) as.output_size 0)
        = some cpu ∧
      get_flag cpu FLAG_HALT = true ∧ cpu.regs.A = 7 ∧ cpu.regs.SP = 0xFEFF := by
  rintro ⟨as, fuel, cpu, ha, hr, hH, -, -⟩
  rw [subroutine_assembles] at ha
  have : as = assembled subroutine_source := by
    injection ha with ha
    injection ha with _ ha
    exact ha.symm
  subst this
  have hr2 : cpu_run_loop fuel (boot (assembled subroutine_source) [] []) = some cpu := hr
  have := cpu_run_loop_deterministic _ _ _ _ _ hr2 subroutine_run
  rw [this, subroutine_end_halt] at hH
  exact absurd hH (by simp)

/-- Claim C9, amended: assembling the source lines `CALL #sub`, `HALT`,
`sub: LOAD #7`, `RET` (the label taken as an immediate operand) with the
two-pass assembler, loading the output at address 0 of a freshly initialised
CPU (in any environment) and running it ends, after four steps and for every
larger bound on the number of steps, with the HALT flag set, `A = 7` and
`SP = 0xFEFF`; control flows through `sub` (`PC = 6` after the first step) and
returns (`PC = 3`, the `HALT`, after the third). -/
theorem subroutine_immediate_call (stdin clock : List Nat) :
    ∃ as cpu, assemble subroutine_source_immediate = some (true, as) ∧
      (∀ fuel, 4 ≤ fuel →
        cpu_run fuel (cpu_load_program (cpu_init stdin clock) (program_byte as)
          as.output_size 0) = some cpu) ∧
      get_flag cpu FLAG_HALT = true ∧ cpu.regs.A = 7 ∧ cpu.regs.SP = 0xFEFF ∧
      (steps 1 (boot as stdin clock)).regs.PC = 6 ∧
      (steps 3 (boot as stdin clock)).regs.PC = 3 := by
  obtain ⟨as, has⟩ : ∃ as, as = assembled subroutine_source_immediate := ⟨_, rfl⟩
  have hasm : assemble subroutine_source_immediate = some (true, as) := by rw [has]; rfl
  have hsize : as.output_size = 12 := by rw [has]; rfl
  have b0 : program_byte as 0 = 100 := by rw [has]; rfl
  have b1 : program_byte as 1 = 6 := by rw [has]; rfl
  have b2 : program_byte as 2 = 0 := by rw [has]; rfl
  have b3 : program_byte as 3 = 108 := by rw [has]; rfl
  have b6 : program_byte as 6 = 4 := by rw [has]; rfl
  have b7 : program_byte as 7 = 7 := by rw [has]; rfl
  have b8 : program_byte as 8 = 0 := by rw [has]; rfl
  have b9 : program_byte as 9 = 104 := by rw [has]; rfl
  refine ⟨as, ?_, hasm, ?_⟩
  · exact cpu_step (cpu_step (cpu_step (cpu_step
      { cpu_load_program (cpu_init stdin clock) (program_byte as) as.output_size 0 with
        running := true })))
  obtain ⟨c0, hc0⟩ : ∃ c0 : CPU, c0 =
    { cpu_load_program (cpu_init stdin clock) (program_byte as) as.output_size 0 with
      running := true } := ⟨_, rfl⟩
  rw [← hc0]
  have hregs : c0.regs = { PC := 0, SP := 0xFEFF, A := 0, B := 0, C := 0, D := 0, FLAGS := 0 } := by
    rw [hc0]; show (cpu_load_program _ _ _ 0).regs = _
    rw [load_regs _ _ _ (by rw [hsize]; decide), cpu_init_regs]
  have hmem : ∀ a, a < 12 → c0.memory a = program_byte as a := by
    intro a ha
    rw [hc0]; show (cpu_load_program _ _ _ 0).memory a = _
    rw [load_memory _ _ _ (by rw [hsize]; decide), hsize, if_pos ha]
  have hrun : c0.running = true := by rw [hc0]
  have hh0 : get_flag c0 FLAG_HALT = false := by simp [get_flag, hregs]
  have hpc : c0.regs.PC = 0 := by rw [hregs]
  have hsp : c0.regs.SP = 0xFEFF := by rw [hregs]
  -- CALL #sub
  obtain ⟨c1, hc1⟩ : ∃ c1 : CPU, c1 = cpu_step c0 := ⟨_, rfl⟩
  have s1 : c1 = { stack_push16 (advance c0 3) 3 with
      regs := { (stack_push16 (advance c0 3) 3).regs with PC := 6 } } := by
    rw [hc1, step_immediate c0 hrun hh0 (by rw [hpc]; decide)
      (by rw [hpc, hmem 0 (by decide), b0]; rfl) (by rw [hpc, hmem 0 (by decide), b0]; rfl)]
    simp only [hpc, hmem 0 (by decide), hmem 1 (by decide), hmem 2 (by decide), b0, b1, b2]
    rw [show decode_opcode 100 = OP_CALL from rfl, execute_call]
    simp only [advance_PC, hpc]
    have e : ((0 <<< 8) ||| 6) % 65536 = 6 := by decide
    simp only [e]
  rw [stack_push16_ram (advance c0 3) _ (by rw [advance_SP, hsp]; decide)
    (by rw [advance_SP, hsp])] at s1
  simp only [advance_SP, hsp, advance_memory] at s1
  have r1 : c1.running = true := by rw [s1]; exact hrun
  have f1 : c1.regs.FLAGS = 0 := by rw [s1]; show c0.regs.FLAGS = 0; rw [hregs]
  have h1 : get_flag c1 FLAG_HALT = false := by simp [get_flag, f1]
  have pc1 : c1.regs.PC = 6 := by rw [s1]
  have sp1 : c1.regs.SP = 0xFEFD := by rw [s1]
  have mem1 : ∀ x, c1.memory x = if x = 0xFEFE then 3 else if x = 0xFEFF then 0
      else c0.memory x := by
    intro x; rw [s1]; rfl
  have m1 : ∀ x, x < 12 → c1.memory x = program_byte as x := by
    intro x hx
    rw [mem1, if_neg (by omega), if_neg (by omega), hmem x hx]
  -- LOAD #7
  obtain ⟨c2, hc2⟩ : ∃ c2 : CPU, c2 = cpu_step c1 := ⟨_, rfl⟩
  have s2 : c2 = update_flags { advance c1 3 with regs := { (advance c1 3).regs with A := 7 } } 7 := by
    rw [hc2, step_immediate c1 r1 h1 (by rw [pc1]; decide)
      (by rw [pc1, m1 6 (by decide), b6]; rfl) (by rw [pc1, m1 6 (by decide), b6]; rfl)]
    simp only [pc1, m1 6 (by decide), m1 7 (by decide), m1 8 (by decide), b6, b7, b8]
    rw [show decode_opcode 4 = OP_LOAD from rfl, execute_load]
    have e : ((0 <<< 8) ||| 7) % 65536 = 7 := by decide
    simp only [e]
  have r2 : c2.running = true := by rw [s2, update_flags_running]; exact r1
  have h2 : get_flag c2 FLAG_HALT = false := by
    rw [s2]
    exact (get_flag_update_flags_other _ 7 7 (by decide) (by decide) (by decide)).trans h1
  have pc2 : c2.regs.PC = 9 := by rw [s2, update_flags_PC]; show c1.regs.PC + 3 = 9; rw [pc1]
  have sp2 : c2.regs.SP = 0xFEFD := by rw [s2, update_flags_SP]; exact sp1
  have a2 : c2.regs.A = 7 := by rw [s2, update_flags_A]
  have mem2 : c2.memory = c1.memory := by rw [s2, update_flags_memory]; rfl
  -- RET
  obtain ⟨c3, hc3⟩ : ∃ c3 : CPU, c3 = cpu_step c2 := ⟨_, rfl⟩
  have m9 : c2.memory 9 = 104 := by rw [mem2, m1 9 (by decide), b9]
  have mlo : c2.memory 0xFEFE = 3 := by rw [mem2, mem1]; rfl
  have mhi : c2.memory 0xFEFF = 0 := by rw [mem2, mem1]; rfl
  have s3 : c3 = { (stack_pop16 (advance c2 1)).2 with
      regs := { (stack_pop16 (advance c2 1)).2.regs with PC := (stack_pop16 (advance c2 1)).1 } } := by
    rw [hc3, step_no_operand c2 r2 h2 (by rw [pc2]; decide) (by rw [pc2, m9]; rfl)]
    simp only [pc2, m9]
    rw [show decode_opcode 104 = OP_RET from rfl, execute_ret]
  rw [stack_pop16_at (advance c2 1) 0xFEFE 0xFEFF (by rw [advance_SP, sp2]) (by decide)
    (by decide) (by decide)] at s3
  have e3 : ((0 <<< 8) ||| 3) % 65536 = 3 := by decide
  simp only [advance_memory, mlo, mhi, e3] at s3
  have r3 : c3.running = true := by rw [s3]; exact r2
  have h3 : get_flag c3 FLAG_HALT = false := by rw [s3]; exact h2
  have pc3 : c3.regs.PC = 3 := by rw [s3]
  have sp3 : c3.regs.SP = 0xFEFF := by rw [s3]
  have a3 : c3.regs.A = 7 := by rw [s3]; exact a2
  have m3 : c3.memory 3 = 108 := by
    rw [s3]; show c2.memory 3 = 108; rw [mem2, m1 3 (by decide), b3]
  -- HALT
  obtain ⟨c4, hc4⟩ : ∃ c4 : CPU, c4 = cpu_step c3 := ⟨_, rfl⟩
  have s4 : c4 = { set_flag (advance c3 1) FLAG_HALT with running := false } := by
    rw [hc4, step_no_operand c3 r3 h3 (by rw [pc3]; decide) (by rw [pc3, m3]; rfl)]
    simp only [pc3, m3]
    rw [show decode_opcode 108 = OP_HALT from rfl, execute_halt]
  have r4 : c4.running = false := by rw [s4]
  have h4 : get_flag c4 FLAG_HALT = true := by
    rw [s4]; exact get_flag_set_flag_same _ 7 (by decide)
  rw [← hc1, ← hc2, ← hc3, ← hc4]
  have hr4 : cpu_run_loop 4 c0 = some c4 := by
    simp [cpu_run_loop, hrun, hh0, ← hc1, r1, h1, ← hc2, r2, h2, ← hc3, r3, h3, ← hc4, r4]
  refine ⟨?_, h4, ?_, ?_, ?_, ?_⟩
  · intro fuel hfuel
    show cpu_run_loop fuel _ = _
    rw [← hc0]
    have := cpu_run_loop_mono 4 (fuel - 4) c0 _ hr4
    rwa [show 4 + (fuel - 4) = fuel by omega] at this
  · rw [s4]; exact a3
  · rw [s4]; exact sp3
  · show (cpu_step (boot as stdin clock)).regs.PC = 6
    rw [show boot as stdin clock = c0 from hc0.symm, ← hc1]; exact pc1
  · show (cpu_step (cpu_step (cpu_step (boot as stdin clock)))).regs.PC = 3
    rw [show boot as stdin clock = c0 from hc0.symm, ← hc1, ← hc2, ← hc3]; exact pc3

theorem countdown_assembles :
    assemble countdown_source = some (true, assembled countdown_source) := rfl

theorem countdown_size : (assembled countdown_source).output_size = 26 := rfl

theorem countdown_bytes : output_bytes (assembled countdown_source) =
    [4, 5, 0, 14, 0, 6, 1, 72, 0, 0, 85, 23, 0, 6, 1, 28, 1, 0, 14, 0, 81, 5, 0, 108, 0, 0].map
      some := rfl

theorem countdown_nine_PC :
    (steps 9 (boot (assembled countdown_source) [] [])).regs.PC = 24 := rfl

theorem countdown_nine_running :
    (steps 9 (boot (assembled countdown_source) [] [])).running = true := rfl

theorem countdown_nine_halt :
    get_flag (steps 9 (boot (assembled countdown_source) [] [])) FLAG_HALT = false := rfl

theorem countdown_nine_cycles :
    (steps 9 (boot (assembled countdown_source) [] [])).cycles = 9 := rfl

theorem countdown_nine_memory :
    (steps 9 (boot (assembled countdown_source) [] [])).memory
      = (boot (assembled countdown_source) [] []).memory := rfl

theorem countdown_boot_memory (a : Nat) (h : 26 ≤ a) :
    (boot (assembled countdown_source) [] []).memory a = 0 := by
  show (cpu_load_program (cpu_init [] []) _ (assembled countdown_source).output_size 0).memory a
    = 0
  rw [load_memory _ _ _ (by rw [countdown_size]; decide), countdown_size, if_neg (by omega),
    cpu_init_memory]

theorem countdown_sled (a : Nat) (h1 : 24 ≤ a) :
    decode_opcode ((steps 9 (boot (assembled countdown_source) [] [])).memory a) = OP_NOP := by
  rw [countdown_nine_memory]
  by_cases h : 26 ≤ a
  · rw [countdown_boot_memory a h]; rfl
  · have : a = 24 ∨ a = 25 := by omega
    rcases this with h | h <;> subst h <;> rfl

theorem steps_run (n : Nat) : ∀ (c : CPU) (fuel : Nat),
    (∀ k, k < n → (steps k c).running = true ∧ get_flag (steps k c) FLAG_HALT = false) →
    cpu_run_loop (n + fuel) c = cpu_run_loop fuel (steps n c) := by
  induction n with
  | zero => intro c fuel _; rw [Nat.zero_add]; rfl
  | succ n ih =>
    intro c fuel h
    have h0 := h 0 (by omega)
    have e : n + 1 + fuel = (n + fuel) + 1 := by omega
    rw [e, cpu_run_loop_step _ c h0.1 h0.2, ih (cpu_step c) fuel
      (fun k hk => h (k + 1) (by omega))]
    rfl

set_option maxRecDepth 100000 in
theorem countdown_first_steps : ∀ k, k < 9 →
    (steps k (boot (assembled countdown_source) [] [])).running = true ∧
    get_flag (steps k (boot (assembled countdown_source) [] [])) FLAG_HALT = false := by
  decide

theorem countdown_end_running :
    (cpu_step (slide (steps 9 (boot (assembled countdown_source) [] [])) 65256)).running
      = false := rfl

theorem countdown_end_halt :
    get_flag (cpu_step (slide (steps 9 (boot (assembled countdown_source) [] [])) 65256))
      FLAG_HALT = false := rfl

theorem countdown_end_B :
    (cpu_step (slide (steps 9 (boot (assembled countdown_source) [] [])) 65256)).regs.B = 0 := rfl

theorem countdown_run :
    cpu_run_loop 65266 (boot (assembled countdown_source) [] []) =
      some (cpu_step (slide (steps 9 (boot (assembled countdown_source) [] [])) 65256)) := by
  have e : (65266 : Nat) = 9 + (65256 + 1) := by norm_num
  rw [e, steps_run 9 _ _ countdown_first_steps,
    nop_sled 65256 (steps 9 (boot (assembled countdown_source) [] [])) 1
      countdown_nine_running countdown_nine_halt
      (by rw [countdown_nine_cycles]; norm_num) (by rw [countdown_nine_PC])
      (fun a h1 _ => countdown_sled a (by rw [countdown_nine_PC] at h1; exact h1)),
    cpu_run_loop_step _ (slide (steps 9 (boot (assembled countdown_source) [] [])) 65256)
      rfl rfl,
    cpu_run_loop_stop _ _ countdown_end_running]

/-- Claim C10 at its failing input: the countdown source assembles to 26 bytes
in which each `MOV A B` takes two bytes, while the CPU consumes three for a
`MOV`; run with no input, execution falls out of step with the instruction
stream, never executes `HALT`, runs through the zeroed memory into the I/O
window and stops on an unknown opcode: whatever bound is put on the number of
steps, the run does not end with the HALT flag set. -/
theorem countdown_never_halts :
    assemble countdown_source = some (true, assembled countdown_source) ∧
    cpu_run 65266 (cpu_load_program (cpu_init [] []) (program_byte (assembled countdown_source))
      (assembled countdown_source).output_size 0)
      = some (cpu_step (slide (steps 9 (boot (assembled countdown_source) [] [])) 65256)) ∧
    ¬ ∃ fuel cpu,
      cpu_run fuel (cpu_load_program (cpu_init [] [])
        (program_byte (assembled countdown_source))
        (assembled countdown_source).output_size 0) = some cpu ∧
      get_flag cpu FLAG_HALT = true := by
  refine ⟨rfl, countdown_run, ?_⟩
  rintro ⟨fuel, cpu, hr, hH⟩
  have hr2 : cpu_run_loop fuel (boot (assembled countdown_source) [] []) = some cpu := hr
  have := cpu_run_loop_deterministic _ _ _ _ _ hr2 countdown_run
  rw [this, countdown_end_halt] at hH
  exact absurd hH (by simp)

/-! ## MOV: two bytes assembled, three bytes executed -/

theorem is_register_name_cases (x : Char) (h : is_register_name x = true) :
    x = 'A' ∨ x = 'B' ∨ x = 'C' ∨ x = 'D' := by
  simpa [is_register_name, or_assoc] using h

theorem mov_line_first (x y : Char) (hx : is_register_name x = true)
    (hy : is_register_name y = true) (as : Assembler) :
    parse_line as (mov_line x y) true =
      some (true, { as with current_address := ((as.current_address + 1) % 65536 + 1) % 65536 }) := by
  rcases is_register_name_cases x hx with h | h | h | h <;>
  rcases is_register_name_cases y hy with g | g | g | g <;> subst h <;> subst g <;> rfl

theorem mov_line_second (x y : Char) (hx : is_register_name x = true)
    (hy : is_register_name y = true) (as : Assembler) :
    parse_line as (mov_line x y) false =
      some (true, emit_byte (emit_byte as 0x0E) (register_number x)) := by
  rcases is_register_name_cases x hx with h | h | h | h <;>
  rcases is_register_name_cases y hy with g | g | g | g <;> subst h <;> subst g <;> rfl

/-- One step on an instruction with a register operand, both bytes in RAM. -/
theorem step_register (c : CPU) (hrun : c.running = true)
    (hh : get_flag c FLAG_HALT = false) (hpc : c.regs.PC + 1 < 0xFF00)
    (hm : decode_mode (c.memory c.regs.PC) = MODE_REGISTER)
    (hn : needs_operand (decode_opcode (c.memory c.regs.PC)) MODE_REGISTER = true) :
    cpu_step c =
      execute (advance c 2)
        (decode_opcode (c.memory c.regs.PC)) MODE_REGISTER
        { operand := get_register c (c.memory (c.regs.PC + 1)),
          address := 0, reg_ptr := some (c.memory (c.regs.PC + 1)) } := by
  rw [cpu_step_active c hrun hh, fetch_ram c (by omega)]
  simp only []
  rw [hm]
  have e1 : (c.regs.PC + 1) % 65536 = c.regs.PC + 1 := Nat.mod_eq_of_lt (by omega)
  have e2 : (c.regs.PC + 1 + 1) % 65536 = c.regs.PC + 2 := by omega
  unfold fetch_operand
  rw [if_pos hn, if_neg (by decide), if_neg (by decide), if_pos rfl]
  simp only [e1]
  rw [mem_read8_ram _ (c.regs.PC + 1) (by omega)]
  simp only [e2]
  rfl

theorem set_register_PC (c : CPU) (r v : Nat) : (set_register c r v).regs.PC = c.regs.PC := by
  unfold set_register
  split_ifs <;> rfl

/-- `MOV` in REGISTER mode reads one more byte at `PC`, the destination
register. -/
theorem execute_mov_register (c : CPU) (o : Operand) (h : c.regs.PC < 0xFF00) :
    execute c OP_MOV MODE_REGISTER o =
      update_flags
        (set_register { c with regs := { c.regs with PC := (c.regs.PC + 1) % 65536 } }
          (c.memory c.regs.PC) o.operand)
        (get_register
          (set_register { c with regs := { c.regs with PC := (c.regs.PC + 1) % 65536 } }
            (c.memory c.regs.PC) o.operand) (c.memory c.regs.PC)) := by
  show (let r := mem_read8 c c.regs.PC
        let cpu : CPU := { r.2 with regs := { r.2.regs with PC := (c.regs.PC + 1) % 65536 } }
        let cpu := set_register cpu r.1 o.operand
        update_flags cpu (get_register cpu r.1)) = _
  rw [mem_read8_ram c _ h]

/-- One step on a `MOV` in REGISTER mode, its three bytes in RAM. -/
theorem step_mov (c : CPU) (hrun : c.running = true)
    (hh : get_flag c FLAG_HALT = false) (hpc : c.regs.PC + 2 < 0xFF00)
    (hop : c.memory c.regs.PC = 0x0E) :
    cpu_step c =
      update_flags
        (set_register (advance c 3) (c.memory (c.regs.PC + 2))
          (get_register c (c.memory (c.regs.PC + 1))))
        (get_register
          (set_register (advance c 3) (c.memory (c.regs.PC + 2))
            (get_register c (c.memory (c.regs.PC + 1)))) (c.memory (c.regs.PC + 2))) := by
  rw [step_register c hrun hh (by omega) (by rw [hop]; rfl) (by rw [hop]; rfl), hop,
    show decode_opcode 14 = OP_MOV from rfl,
    execute_mov_register _ _ (by rw [advance_PC]; omega)]
  have e : (c.regs.PC + 2 + 1) % 65536 = c.regs.PC + 3 := by omega
  simp only [advance_PC, advance_memory, e]
  rfl

/-- The first byte an accepted instruction emits in the second pass is the
instruction byte, stored at the offset `output_size` had before the line. -/
theorem parse_instruction_second_byte (as r : Assembler) (text : List Char)
    (h : parse_instruction as text false = some (true, r)) :
    ∃ opcode, get_opcode ((scan_token text).map toupper) = some opcode ∧
      r.output as.output_size =
        some (encode_instruction opcode (operand_mode (scan_rest text))) := by
  unfold parse_instruction at h
  simp only [] at h
  split at h
  · exact absurd h (by simp)
  · split at h
    · exact absurd h (by simp)
    · rename_i opcode hop
      refine ⟨opcode, hop, ?_⟩
      split at h
      · exact absurd h (by simp)
      · rename_i opcode mode value hpo
        have hm : mode = operand_mode (scan_rest text) := by
          split at hpo
          · exact parse_operand_mode _ _ _ _ _ _ hpo
          · rename_i he
            simp only [ne_eq, not_not] at he
            simp only [Option.some.injEq, Prod.mk.injEq] at hpo
            rw [he, operand_mode_nil]; exact hpo.1.symm
        simp only [Bool.not_false, if_true] at h
        rw [← hm]
        have e1 : (as.output_size + 1) % 65536 ≠ as.output_size := by omega
        have e2 : ((as.output_size + 1) % 65536 + 1) % 65536 ≠ as.output_size := by omega
        split at h
        · simp only [Option.some.injEq, Prod.mk.injEq, true_and] at h
          subst h
          simp only [emit_word, emit_byte, if_neg e1.symm, if_neg e2.symm, if_true]
        · split at h
          · simp only [Option.some.injEq, Prod.mk.injEq, true_and] at h
            subst h
            simp only [emit_byte, if_neg e1.symm, if_true]
          · simp only [Option.some.injEq, Prod.mk.injEq, true_and] at h
            subst h
            simp only [emit_byte, if_true]

theorem parse_line_second_byte (as r : Assembler) (line text : List Char)
    (h : parse_line as line false = some (true, r))
    (ht : instruction_text line = some text) :
    ∃ opcode, get_opcode ((scan_token text).map toupper) = some opcode ∧
      r.output as.output_size =
        some (encode_instruction opcode (operand_mode (scan_rest text))) := by
  unfold parse_line at h
  unfold instruction_text at ht
  simp only [] at h ht
  split at h
  · rename_i hb
    rw [if_pos hb] at ht
    exact absurd ht (by simp)
  · rename_i hb
    rw [if_neg hb] at ht
    split at h
    · rename_i hcol
      rw [if_pos hcol] at ht
      split at h
      · exact absurd h (by simp)
      · split at h
        · exact absurd h (by simp)
        · simp only [Bool.false_eq_true, if_false] at h
          split at h
          · rename_i he
            rw [if_pos he] at ht
            exact absurd ht (by simp)
          · rename_i he
            rw [if_neg he] at ht
            simp only [Option.some.injEq] at ht
            subst ht
            exact parse_instruction_second_byte _ _ _ h
    · rename_i hcol
      rw [if_neg hcol] at ht
      simp only [Option.some.injEq] at ht
      subst ht
      exact parse_instruction_second_byte _ _ _ h

/-- Claim C11: for all registers X, Y in {A, B, C, D}, the line `MOV X Y`
advances `current_address` by 2 in pass 1 and emits exactly two bytes in pass 2,
0x0E and the index of X (a number below 4); `cpu_step` on a `MOV` in REGISTER
mode (the byte 0x0E, its three bytes in RAM) advances `PC` by 3 and writes the
register selected by the byte at `PC + 1` into the register selected by the byte
at `PC + 2`; and the byte at that third offset of the assembled output is the
instruction byte of the next assembled instruction. -/
theorem mov_two_bytes_three_consumed (x y : Char) (hx : is_register_name x = true)
    (hy : is_register_name y = true) :
    (∀ as : Assembler, parse_line as (mov_line x y) true =
      some (true, { as with current_address := (as.current_address + 2) % 65536 })) ∧
    (∀ as : Assembler, as.output_size + 1 < 65536 →
      ∃ r, parse_line as (mov_line x y) false = some (true, r) ∧
        r.output_size = (as.output_size + 2) % 65536 ∧
        r.output as.output_size = some 0x0E ∧
        r.output (as.output_size + 1) = some (register_number x) ∧
        (∀ i, i ≠ as.output_size → i ≠ as.output_size + 1 → r.output i = as.output i)) ∧
    register_number x < 4 ∧
    (∀ c : CPU, c.running = true → get_flag c FLAG_HALT = false → c.regs.PC + 2 < 0xFF00 →
      c.memory c.regs.PC = 0x0E →
      (cpu_step c).regs.PC = c.regs.PC + 3 ∧
      cpu_step c =
        update_flags
          (set_register (advance c 3) (c.memory (c.regs.PC + 2))
            (get_register c (c.memory (c.regs.PC + 1))))
          (get_register
            (set_register (advance c 3) (c.memory (c.regs.PC + 2))
              (get_register c (c.memory (c.regs.PC + 1)))) (c.memory (c.regs.PC + 2)))) ∧
    (∀ (as r1 r2 : Assembler) (next text : List Char), as.output_size + 2 < 65536 →
      parse_line as (mov_line x y) false = some (true, r1) →
      parse_line r1 next false = some (true, r2) →
      instruction_text next = some text →
      ∃ opcode, get_opcode ((scan_token text).map toupper) = some opcode ∧
        r2.output (as.output_size + 2) =
          some (encode_instruction opcode (operand_mode (scan_rest text)))) := by
  refine ⟨?_, ?_, ?_, ?_, ?_⟩
  · intro as
    rw [mov_line_first x y hx hy as]
    have e : ((as.current_address + 1) % 65536 + 1) % 65536 = (as.current_address + 2) % 65536 := by
      omega
    rw [e]
  · intro as hos
    refine ⟨_, mov_line_second x y hx hy as, ?_, ?_, ?_, ?_⟩
    · show ((as.output_size + 1) % 65536 + 1) % 65536 = (as.output_size + 2) % 65536
      omega
    · show (if as.output_size = (as.output_size + 1) % 65536 then some (register_number x)
        else if as.output_size = as.output_size then some 0x0E else as.output as.output_size) = _
      rw [if_neg (by omega), if_pos rfl]
    · show (if as.output_size + 1 = (as.output_size + 1) % 65536 then some (register_number x)
        else if as.output_size + 1 = as.output_size then some 0x0E
        else as.output (as.output_size + 1)) = _
      rw [if_pos (by omega)]
    · intro i h0 h1
      show (if i = (as.output_size + 1) % 65536 then some (register_number x)
        else if i = as.output_size then some 0x0E else as.output i) = _
      rw [if_neg (by omega), if_neg h0]
  · rcases is_register_name_cases x hx with h | h | h | h <;> subst h <;> decide
  · intro c hrun hh hpc hop
    have hs := step_mov c hrun hh hpc hop
    refine ⟨?_, hs⟩
    rw [hs, update_flags_PC, set_register_PC, advance_PC]
  · intro as r1 r2 next text hos h1 h2 ht
    rw [mov_line_second x y hx hy as] at h1
    simp only [Option.some.injEq, Prod.mk.injEq, true_and] at h1
    subst h1
    have hb := parse_line_second_byte _ r2 next text h2 ht
    have e : (emit_byte (emit_byte as 0x0E) (register_number x)).output_size
        = as.output_size + 2 := by
      show ((as.output_size + 1) % 65536 + 1) % 65536 = as.output_size + 2
      omega
    rw [e] at hb
    exact hb

theorem mov_two_bytes_three_consumed_witness :
    is_register_name 'A' = true ∧ is_register_name 'B' = true ∧
    parse_line assembler_init (mov_line 'A' 'B') true =
      some (true, { assembler_init with current_address := (0 + 2) % 65536 }) ∧
    (cpu_step mov_state).regs.PC = mov_state.regs.PC + 3 :=
  ⟨rfl, rfl, (mov_two_bytes_three_consumed 'A' 'B' rfl rfl).1 assembler_init,
   ((mov_two_bytes_three_consumed 'A' 'B' rfl rfl).2.2.2.1 mov_state rfl rfl (by decide) rfl).1⟩

/-! ## Steps that read neither input nor clock do not depend on them -/

theorem with_env_regs (c e : CPU) : (with_env c e).regs = c.regs := rfl
theorem with_env_memory (c e : CPU) : (with_env c e).memory = c.memory := rfl
theorem with_env_running (c e : CPU) : (with_env c e).running = c.running := rfl
theorem with_env_cycles (c e : CPU) : (with_env c e).cycles = c.cycles := rfl
theorem with_env_port_out (c e : CPU) : (with_env c e).port_out = c.port_out := rfl
theorem with_env_set_regs (c e : CPU) (r : Registers) :
    { with_env c e with regs := r } = with_env { c with regs := r } e := rfl
theorem with_env_set_running (c e : CPU) (r : Bool) :
    { with_env c e with running := r } = with_env { c with running := r } e := rfl
theorem with_env_set_cycles (c e : CPU) (n : Nat) :
    { with_env c e with cycles := n } = with_env { c with cycles := n } e := rfl
theorem with_env_set_memory (c e : CPU) (m : Nat → Nat) :
    { with_env c e with memory := m } = with_env { c with memory := m } e := rfl

theorem get_flag_env (c e : CPU) (f : Nat) : get_flag (with_env c e) f = get_flag c f := rfl
theorem get_register_env (c e : CPU) (r : Nat) :
    get_register (with_env c e) r = get_register c r := rfl
theorem set_flag_env (c e : CPU) (f : Nat) :
    set_flag (with_env c e) f = with_env (set_flag c f) e := rfl
theorem clear_flag_env (c e : CPU) (f : Nat) :
    clear_flag (with_env c e) f = with_env (clear_flag c f) e := rfl

theorem update_flags_env (c e : CPU) (r : Nat) :
    update_flags (with_env c e) r = with_env (update_flags c r) e := by
  unfold update_flags
  by_cases h1 : r = 0 <;> by_cases h2 : r &&& 0x8000 ≠ 0 <;>
    simp only [h1, h2, if_true, if_false, ne_eq, not_true_eq_false, not_false_eq_true] <;> rfl

theorem set_register_env (c e : CPU) (r v : Nat) :
    set_register (with_env c e) r v = with_env (set_register c r v) e := by
  unfold set_register
  split_ifs <;> rfl

theorem mem_write8_env (c e : CPU) (a v : Nat) :
    mem_write8 (with_env c e) a v = with_env (mem_write8 c a v) e := by
  unfold mem_write8
  split_ifs <;> rfl

theorem mem_write16_env (c e : CPU) (a v : Nat) :
    mem_write16 (with_env c e) a v = with_env (mem_write16 c a v) e := by
  unfold mem_write16
  simp only [mem_write8_env]

theorem stack_push8_env (c e : CPU) (v : Nat) :
    stack_push8 (with_env c e) v = with_env (stack_push8 c v) e := by
  unfold stack_push8
  simp only [with_env_regs, mem_write8_env]
  rfl

theorem stack_push16_env (c e : CPU) (v : Nat) :
    stack_push16 (with_env c e) v = with_env (stack_push16 c v) e := by
  unfold stack_push16
  simp only [stack_push8_env]

theorem mem_read8_quiet (c : CPU) (a : Nat) (h : quiet8 a = true) :
    mem_read8 c a = (peek8 c.memory a, c) := by
  unfold mem_read8 peek8
  have h' : a ≠ 0xFF00 := by simpa [quiet8] using h
  split_ifs <;> rfl

theorem mem_read16_quiet (c : CPU) (a : Nat) (h : quiet16 a = true) :
    mem_read16 c a = (peek16 c.memory a, c) := by
  simp only [quiet16, Bool.and_eq_true, bne_iff_ne, ne_eq] at h
  unfold mem_read16 peek16
  rw [if_neg h.1.1]
  simp only [mem_read8_quiet c a h.1.2, mem_read8_quiet c _ h.2]

theorem stack_pop8_quiet (c : CPU) (h : quiet8 ((c.regs.SP + 1) % 65536) = true) :
    stack_pop8 c = (peek8 c.memory ((c.regs.SP + 1) % 65536),
      { c with regs := { c.regs with SP := (c.regs.SP + 1) % 65536 } }) := by
  unfold stack_pop8
  simp only []
  rw [mem_read8_quiet _ _ h]

theorem stack_pop16_quiet (c : CPU) (h1 : quiet8 ((c.regs.SP + 1) % 65536) = true)
    (h2 : quiet8 (((c.regs.SP + 1) % 65536 + 1) % 65536) = true) :
    stack_pop16 c =
      (((peek8 c.memory (((c.regs.SP + 1) % 65536 + 1) % 65536) <<< 8) |||
          peek8 c.memory ((c.regs.SP + 1) % 65536)) % 65536,
       { c with regs := { c.regs with SP := ((c.regs.SP + 1) % 65536 + 1) % 65536 } }) := by
  unfold stack_pop16
  simp only []
  rw [stack_pop8_quiet c h1]
  simp only []
  rw [stack_pop8_quiet _ h2]



theorem fetch_env (c e : CPU) (h : quiet8 c.regs.PC = true) :
    fetch (with_env c e) = ((fetch c).1, with_env (fetch c).2 e) := by
  unfold fetch
  simp only [with_env_regs, mem_read8_quiet _ _ h]
  rfl

theorem fetch_operand_env (c e : CPU) (opcode mode : Nat)
    (h : quiet_operand c opcode mode = true) :
    fetch_operand (with_env c e) opcode mode =
      ((fetch_operand c opcode mode).1, with_env (fetch_operand c opcode mode).2 e) := by
  unfold quiet_operand at h
  unfold fetch_operand
  split_ifs at h ⊢
  · simp only [with_env_regs, mem_read16_quiet _ _ h]
    rfl
  · simp only [Bool.and_eq_true] at h
    simp only [with_env_regs, with_env_memory, mem_read16_quiet _ _ h.1]
    simp only [mem_read16_quiet _ _ h.2]
    rfl
  · simp only [with_env_regs, mem_read8_quiet _ _ h]
    rfl
  · simp only [Bool.and_eq_true] at h
    simp only [with_env_regs, with_env_memory, mem_read8_quiet _ _ h.1]
    simp only [get_register] at h ⊢
    simp only [mem_read16_quiet _ _ h.2]
    rfl
  · rfl
  · rfl


theorem execute_mov (c : CPU) (mode : Nat) (o : Operand) :
    execute c OP_MOV mode o =
      if mode = MODE_REGISTER then
        update_flags
          (set_register
            { (mem_read8 c c.regs.PC).2 with
              regs := { (mem_read8 c c.regs.PC).2.regs with PC := (c.regs.PC + 1) % 65536 } }
            (mem_read8 c c.regs.PC).1 o.operand)
          (get_register
            (set_register
              { (mem_read8 c c.regs.PC).2 with
                regs := { (mem_read8 c c.regs.PC).2.regs with PC := (c.regs.PC + 1) % 65536 } }
              (mem_read8 c c.regs.PC).1 o.operand) (mem_read8 c c.regs.PC).1)
      else c := rfl

theorem execute_pop (c : CPU) (mode : Nat) (o : Operand) :
    execute c OP_POP mode o =
      update_flags { (stack_pop16 c).2 with
        regs := { (stack_pop16 c).2.regs with A := (stack_pop16 c).1 } } (stack_pop16 c).1 := rfl

theorem execute_add (c : CPU) (mode : Nat) (o : Operand) :
    execute c OP_ADD mode o =
      update_flags
        { (if (c.regs.A + o.operand) % 2 ^ 32 > 0xFFFF then set_flag c FLAG_CARRY
           else clear_flag c FLAG_CARRY) with
          regs := { (if (c.regs.A + o.operand) % 2 ^ 32 > 0xFFFF then set_flag c FLAG_CARRY
                     else clear_flag c FLAG_CARRY).regs with
                    A := (c.regs.A + o.operand) % 2 ^ 32 &&& 0xFFFF } }
        ((c.regs.A + o.operand) % 2 ^ 32 &&& 0xFFFF) := rfl

theorem execute_sub (c : CPU) (mode : Nat) (o : Operand) :
    execute c OP_SUB mode o =
      update_flags
        { (if c.regs.A < o.operand then set_flag c FLAG_CARRY else clear_flag c FLAG_CARRY) with
          regs := { (if c.regs.A < o.operand then set_flag c FLAG_CARRY
                     else clear_flag c FLAG_CARRY).regs with
                    A := ((if c.regs.A < o.operand then set_flag c FLAG_CARRY
                           else clear_flag c FLAG_CARRY).regs.A + 65536 - o.operand) % 65536 } }
        (((if c.regs.A < o.operand then set_flag c FLAG_CARRY
           else clear_flag c FLAG_CARRY).regs.A + 65536 - o.operand) % 65536) := rfl

theorem execute_cmp (c : CPU) (mode : Nat) (o : Operand) :
    execute c OP_CMP mode o =
      update_flags
        (if c.regs.A < o.operand then set_flag c FLAG_CARRY else clear_flag c FLAG_CARRY)
        ((c.regs.A + 65536 - o.operand) % 65536 &&& 0xFFFF) := rfl

theorem execute_jz (c : CPU) (mode : Nat) (o : Operand) :
    execute c OP_JZ mode o =
      if get_flag c FLAG_ZERO then { c with regs := { c.regs with PC := o.operand } } else c := rfl

theorem execute_jnz (c : CPU) (mode : Nat) (o : Operand) :
    execute c OP_JNZ mode o =
      if !get_flag c FLAG_ZERO then { c with regs := { c.regs with PC := o.operand } }
      else c := rfl

theorem execute_jc (c : CPU) (mode : Nat) (o : Operand) :
    execute c OP_JC mode o =
      if get_flag c FLAG_CARRY then { c with regs := { c.regs with PC := o.operand } }
      else c := rfl

theorem execute_jnc (c : CPU) (mode : Nat) (o : Operand) :
    execute c OP_JNC mode o =
      if !get_flag c FLAG_CARRY then { c with regs := { c.regs with PC := o.operand } }
      else c := rfl

theorem execute_in (c : CPU) (mode : Nat) (o : Operand) :
    execute c OP_IN mode o =
      update_flags
        { (mem_read8 c ((IO_START + o.operand) % 65536)).2 with
          regs := { (mem_read8 c ((IO_START + o.operand) % 65536)).2.regs with
                    A := (mem_read8 c ((IO_START + o.operand) % 65536)).1 } }
        (mem_read8 c ((IO_START + o.operand) % 65536)).1 := rfl

theorem execute_inc (c : CPU) (mode : Nat) (o : Operand) :
    execute c OP_INC mode o =
      match (if mode = MODE_REGISTER then o.reg_ptr else none) with
      | some r =>
        update_flags (set_register c r ((get_register c r + 1) % 65536))
          (get_register (set_register c r ((get_register c r + 1) % 65536)) r)
      | none =>
        update_flags { c with regs := { c.regs with A := (c.regs.A + 1) % 65536 } }
          ((c.regs.A + 1) % 65536) := rfl

theorem execute_dec (c : CPU) (mode : Nat) (o : Operand) :
    execute c OP_DEC mode o =
      match (if mode = MODE_REGISTER then o.reg_ptr else none) with
      | some r =>
        update_flags (set_register c r ((get_register c r + 65535) % 65536))
          (get_register (set_register c r ((get_register c r + 65535) % 65536)) r)
      | none =>
        update_flags { c with regs := { c.regs with A := (c.regs.A + 65535) % 65536 } }
          ((c.regs.A + 65535) % 65536) := rfl

theorem execute_mul (c : CPU) (mode : Nat) (o : Operand) :
    execute c OP_MUL mode o =
      update_flags { c with regs := { c.regs with A := (c.regs.A * o.operand) &&& 0xFFFF } }
        ((c.regs.A * o.operand) &&& 0xFFFF) := rfl

theorem execute_div (c : CPU) (mode : Nat) (o : Operand) :
    execute c OP_DIV mode o =
      if o.operand ≠ 0 then
        update_flags { c with regs := { c.regs with A := c.regs.A / o.operand } }
          (c.regs.A / o.operand)
      else c := rfl

theorem execute_and (c : CPU) (mode : Nat) (o : Operand) :
    execute c OP_AND mode o =
      update_flags { c with regs := { c.regs with A := c.regs.A &&& o.operand } }
        (c.regs.A &&& o.operand) := rfl

theorem execute_or (c : CPU) (mode : Nat) (o : Operand) :
    execute c OP_OR mode o =
      update_flags { c with regs := { c.regs with A := c.regs.A ||| o.operand } }
        (c.regs.A ||| o.operand) := rfl

theorem execute_xor (c : CPU) (mode : Nat) (o : Operand) :
    execute c OP_XOR mode o =
      update_flags { c with regs := { c.regs with A := c.regs.A ^^^ o.operand } }
        (c.regs.A ^^^ o.operand) := rfl

theorem execute_not (c : CPU) (mode : Nat) (o : Operand) :
    execute c OP_NOT mode o =
      update_flags { c with regs := { c.regs with A := (c.regs.A ^^^ 0xFFFF) % 65536 } }
        ((c.regs.A ^^^ 0xFFFF) % 65536) := rfl

theorem execute_shl (c : CPU) (mode : Nat) (o : Operand) :
    execute c OP_SHL mode o =
      update_flags { c with regs := { c.regs with A := (c.regs.A <<< o.operand) % 65536 } }
        ((c.regs.A <<< o.operand) % 65536) := rfl

theorem execute_shr (c : CPU) (mode : Nat) (o : Operand) :
    execute c OP_SHR mode o =
      update_flags { c with regs := { c.regs with A := c.regs.A >>> o.operand } }
        (c.regs.A >>> o.operand) := rfl

theorem execute_test (c : CPU) (mode : Nat) (o : Operand) :
    execute c OP_TEST mode o = update_flags c (c.regs.A &&& o.operand) := rfl


theorem with_env_ite (p : Prop) [Decidable p] (a b e : CPU) :
    (if p then with_env a e else with_env b e) = with_env (if p then a else b) e := by
  split <;> rfl

theorem execute_env (c e : CPU) (opcode mode : Nat) (o : Operand)
    (h : quiet_execute c opcode mode o = true) :
    execute (with_env c e) opcode mode o = with_env (execute c opcode mode o) e := by
  by_cases hk : 30 ≤ opcode
  · rw [execute_unknown _ _ _ _ hk, execute_unknown _ _ _ _ hk]
    rfl
  · by_cases h3 : opcode = OP_MOV
    · subst h3
      rw [execute_mov, execute_mov]
      unfold quiet_execute at h
      split_ifs with hm
      · rw [if_pos rfl, if_pos hm] at h
        have hq : quiet8 (with_env c e).regs.PC = true := h
        rw [mem_read8_quiet (with_env c e) _ hq, mem_read8_quiet c _ h]
        simp only [with_env_set_regs, set_register_env, update_flags_env, get_register_env]
        rfl
      · rfl
    by_cases h5 : opcode = OP_POP
    · subst h5
      rw [execute_pop, execute_pop]
      unfold quiet_execute at h
      rw [if_neg (by decide), if_pos (Or.inl rfl)] at h
      simp only [Bool.and_eq_true] at h
      rw [stack_pop16_quiet (with_env c e) h.1 h.2, stack_pop16_quiet c h.1 h.2]
      simp only [with_env_set_regs, update_flags_env]
      rfl
    by_cases h26 : opcode = OP_RET
    · subst h26
      rw [execute_ret, execute_ret]
      unfold quiet_execute at h
      rw [if_neg (by decide), if_pos (Or.inr rfl)] at h
      simp only [Bool.and_eq_true] at h
      rw [stack_pop16_quiet (with_env c e) h.1 h.2, stack_pop16_quiet c h.1 h.2]
      rfl
    by_cases h28 : opcode = OP_IN
    · subst h28
      rw [execute_in, execute_in]
      unfold quiet_execute at h
      rw [if_neg (by decide), if_neg (by decide), if_pos rfl] at h
      rw [mem_read8_quiet (with_env c e) _ h, mem_read8_quiet c _ h]
      simp only [with_env_set_regs, update_flags_env]
      rfl
    have hlt : opcode < 30 := by omega
    simp only [OP_MOV, OP_POP, OP_RET, OP_IN] at h3 h5 h26 h28
    clear h
    have hc : opcode = 0 ∨ opcode = 1 ∨ opcode = 2 ∨ opcode = 4 ∨ opcode = 6 ∨ opcode = 7 ∨
        opcode = 8 ∨ opcode = 9 ∨ opcode = 10 ∨ opcode = 11 ∨ opcode = 12 ∨ opcode = 13 ∨
        opcode = 14 ∨ opcode = 15 ∨ opcode = 16 ∨ opcode = 17 ∨ opcode = 18 ∨ opcode = 19 ∨
        opcode = 20 ∨ opcode = 21 ∨ opcode = 22 ∨ opcode = 23 ∨ opcode = 24 ∨ opcode = 25 ∨
        opcode = 27 ∨ opcode = 29 := by omega
    clear hk h3 h5 h26 h28 hlt
    rcases hc with h | h | h | h | h | h | h | h | h | h | h | h | h | h | h | h | h | h | h |
      h | h | h | h | h | h | h <;> subst h
    all_goals
      simp only [execute_nop, execute_load, execute_store, execute_push, execute_add,
        execute_sub, execute_inc, execute_dec, execute_mul, execute_div, execute_and,
        execute_or, execute_xor, execute_not, execute_shl, execute_shr, execute_cmp,
        execute_test, execute_jmp, execute_jz, execute_jnz, execute_jc, execute_jnc,
        execute_call, execute_halt, execute_out]
    all_goals
      try simp only [set_flag_env, clear_flag_env, with_env_ite, with_env_set_regs,
        with_env_set_running, update_flags_env, stack_push16_env, mem_write16_env,
        mem_write8_env, set_register_env, get_flag_env, get_register_env]
    all_goals try simp only [with_env_regs]
    all_goals
      generalize (if mode = MODE_REGISTER then o.reg_ptr else none) = p
      cases p <;> rfl

theorem cpu_step_env (c e : CPU) (h : quiet c = true) :
    cpu_step (with_env c e) = with_env (cpu_step c) e := by
  unfold quiet at h
  simp only [Bool.and_eq_true] at h
  unfold cpu_step
  simp only [with_env_running, get_flag_env]
  split
  · rfl
  · simp only [fetch_env c e h.1.1, fetch_operand_env _ e _ _ h.1.2, execute_env _ e _ _ _ h.2]

theorem steps_env (e : CPU) (n : Nat) : ∀ c : CPU, quiet_run n c = true →
    steps n (with_env c e) = with_env (steps n c) e := by
  induction n with
  | zero => intro c _; rfl
  | succ n ih =>
    intro c h
    unfold quiet_run at h
    simp only [Bool.and_eq_true] at h
    show steps n (cpu_step (with_env c e)) = with_env (steps n (cpu_step c)) e
    rw [cpu_step_env c e h.1, ih _ h.2]

theorem quiet_run_le (n : Nat) : ∀ (k : Nat) (c : CPU), quiet_run n c = true → k ≤ n →
    quiet_run k c = true := by
  induction n with
  | zero =>
    intro k c _ hk
    have : k = 0 := by omega
    subst this; rfl
  | succ n ih =>
    intro k c h hk
    cases k with
    | zero => rfl
    | succ k =>
      unfold quiet_run at h ⊢
      simp only [Bool.and_eq_true] at h ⊢
      exact ⟨h.1, ih k _ h.2 (by omega)⟩

/-- A run whose first `n` steps are quiet passes through the same states, up to
the environment, in every environment. -/
theorem steps_env_le (e : CPU) (n k : Nat) (c : CPU) (h : quiet_run n c = true) (hk : k ≤ n) :
    steps k (with_env c e) = with_env (steps k c) e :=
  steps_env e k c (quiet_run_le n k c h hk)

/-- The demo driver loop stops after `n` steps when the first `n` states are
active, the next one is not, and the limit is at least `n`. -/
theorem demo_loop_steps (n : Nat) : ∀ (c : CPU) (remaining cycle : Nat), n ≤ remaining →
    (∀ k, k < n → (steps k c).running = true ∧ get_flag (steps k c) FLAG_HALT = false) →
    ((steps n c).running && !get_flag (steps n c) FLAG_HALT) = false →
    demo_loop remaining cycle c = (cycle + n, steps n c) := by
  induction n with
  | zero =>
    intro c remaining cycle _ _ hstop
    have hs : (c.running && !get_flag c FLAG_HALT) = false := hstop
    cases remaining with
    | zero => rfl
    | succ r =>
      unfold demo_loop
      rw [hs]
      rfl
  | succ n ih =>
    intro c remaining cycle hrem hact hstop
    have h0 := hact 0 (by omega)
    have hc : (c.running && !get_flag c FLAG_HALT) = true := by
      have h1 : c.running = true := h0.1
      have h2 : get_flag c FLAG_HALT = false := h0.2
      rw [h1, h2]; rfl
    cases remaining with
    | zero => omega
    | succ r =>
      unfold demo_loop
      rw [hc, if_pos rfl, ih (cpu_step c) r (cycle + 1) (by omega)
        (fun k hk => hact (k + 1) (by omega)) hstop]
      have e : cycle + 1 + n = cycle + (n + 1) := by omega
      rw [e]
      rfl

/-! ## The built-in demo programs -/

theorem fibonacci_start_env (stdin clock : List Nat) :
    fibonacci_start stdin clock = with_env (fibonacci_start [] []) (cpu_init stdin clock) := by
  cases clock <;> rfl

set_option maxRecDepth 100000 in
theorem fibonacci_quiet : quiet_run 63 (fibonacci_start [] []) = true := rfl

set_option maxRecDepth 100000 in
theorem fibonacci_active : ∀ k, k < 63 →
    (steps k (fibonacci_start [] [])).running = true ∧
    get_flag (steps k (fibonacci_start [] [])) FLAG_HALT = false := by
  decide

set_option maxRecDepth 100000 in
theorem fibonacci_last :
    decode_opcode ((steps 62 (fibonacci_start [] [])).memory
      (steps 62 (fibonacci_start [] [])).regs.PC) = OP_HALT := rfl

set_option maxRecDepth 100000 in
theorem fibonacci_end :
    get_flag (steps 63 (fibonacci_start [] [])) FLAG_HALT = true ∧
    (steps 63 (fibonacci_start [] [])).running = false ∧
    (steps 63 (fibonacci_start [] [])).regs.D = 5 ∧
    (steps 63 (fibonacci_start [] [])).regs.SP = 0xFEFF :=
  ⟨rfl, rfl, rfl, rfl⟩

/-- Claim C12: the byte array of `create_fibonacci_demo`, loaded at address 0 of
a freshly initialised CPU (in any environment) and stepped by the driver loop of
`main` with its limit of 150 steps, stops after 63 steps, fewer than 150: the
CPU is active before each of them, the last one executes `HALT`, and the final
state has the HALT flag set, `running = false`, `D = 5` and `SP = 0xFEFF`;
`cpu_run` ends in the same state. -/
theorem fibonacci_demo_halts (stdin clock : List Nat) :
    demo_loop 150 0 (fibonacci_start stdin clock)
      = (63, steps 63 (fibonacci_start stdin clock)) ∧
    (63 : Nat) < 150 ∧
    (∀ k, k < 63 → (steps k (fibonacci_start stdin clock)).running = true ∧
      get_flag (steps k (fibonacci_start stdin clock)) FLAG_HALT = false) ∧
    decode_opcode ((steps 62 (fibonacci_start stdin clock)).memory
      (steps 62 (fibonacci_start stdin clock)).regs.PC) = OP_HALT ∧
    get_flag (steps 63 (fibonacci_start stdin clock)) FLAG_HALT = true ∧
    (steps 63 (fibonacci_start stdin clock)).running = false ∧
    (steps 63 (fibonacci_start stdin clock)).regs.D = 5 ∧
    (steps 63 (fibonacci_start stdin clock)).regs.SP = 0xFEFF ∧
    (∀ fuel, 63 ≤ fuel →
      cpu_run fuel (create_fibonacci_demo (cpu_init stdin clock))
        = some (steps 63 (fibonacci_start stdin clock))) := by
  have hq := fibonacci_quiet
  have hact : ∀ k, k < 63 → (steps k (fibonacci_start stdin clock)).running = true ∧
      get_flag (steps k (fibonacci_start stdin clock)) FLAG_HALT = false := by
    intro k hk
    rw [fibonacci_start_env, steps_env_le _ 63 k _ hq (by omega), with_env_running, get_flag_env]
    exact fibonacci_active k hk
  have hend : get_flag (steps 63 (fibonacci_start stdin clock)) FLAG_HALT = true ∧
      (steps 63 (fibonacci_start stdin clock)).running = false ∧
      (steps 63 (fibonacci_start stdin clock)).regs.D = 5 ∧
      (steps 63 (fibonacci_start stdin clock)).regs.SP = 0xFEFF := by
    rw [fibonacci_start_env, steps_env_le _ 63 63 _ hq (by omega), with_env_running, get_flag_env,
      with_env_regs]
    exact fibonacci_end
  refine ⟨?_, by decide, hact, ?_, hend.1, hend.2.1, hend.2.2.1, hend.2.2.2, ?_⟩
  · have h := demo_loop_steps 63 (fibonacci_start stdin clock) 150 0 (by decide) hact
      (by rw [hend.2.1]; rfl)
    rw [h]
  · rw [fibonacci_start_env, steps_env_le _ 63 62 _ hq (by omega), with_env_memory, with_env_regs]
    exact fibonacci_last
  · intro fuel hfuel
    show cpu_run_loop fuel (fibonacci_start stdin clock) = _
    have h := steps_run 63 (fibonacci_start stdin clock) (fuel - 63) hact
    rw [show 63 + (fuel - 63) = fuel by omega] at h
    rw [h, cpu_run_loop_stop _ _ hend.2.1]

/-- One step on an instruction with an indirect operand, the two instruction
bytes and the two operand bytes in RAM. -/
theorem step_indirect (c : CPU) (hrun : c.running = true)
    (hh : get_flag c FLAG_HALT = false) (hpc : c.regs.PC + 1 < 0xFF00)
    (hm : decode_mode (c.memory c.regs.PC) = MODE_INDIRECT)
    (hn : needs_operand (decode_opcode (c.memory c.regs.PC)) MODE_INDIRECT = true)
    (ha : get_register c (c.memory (c.regs.PC + 1)) + 1 < 0xFF00) :
    cpu_step c =
      execute (advance c 2)
        (decode_opcode (c.memory c.regs.PC)) MODE_INDIRECT
        { operand :=
            ((c.memory (get_register c (c.memory (c.regs.PC + 1)) + 1) <<< 8) |||
              c.memory (get_register c (c.memory (c.regs.PC + 1)))) % 65536,
          address := get_register c (c.memory (c.regs.PC + 1)), reg_ptr := none } := by
  rw [cpu_step_active c hrun hh, fetch_ram c (by omega)]
  simp only []
  rw [hm]
  have e1 : (c.regs.PC + 1) % 65536 = c.regs.PC + 1 := Nat.mod_eq_of_lt (by omega)
  have e2 : (c.regs.PC + 1 + 1) % 65536 = c.regs.PC + 2 := by omega
  unfold fetch_operand
  rw [if_pos hn, if_neg (by decide), if_neg (by decide), if_neg (by decide), if_pos rfl]
  simp only [e1]
  rw [mem_read8_ram _ (c.regs.PC + 1) (by omega)]
  simp only [e2]
  have hg : ∀ r, get_register
      { c with regs := { c.regs with PC := c.regs.PC + 2 }, cycles := (c.cycles + 1) % 2 ^ 64 } r
      = get_register c r := fun _ => rfl
  simp only [hg]
  rw [mem_read16_ram _ _ ha]
  rfl

theorem word_of_bytes (lo hi : Nat) (hlo : lo < 256) (hhi : hi < 256) :
    ((hi <<< 8) ||| lo) % 65536 = hi * 256 + lo := by
  have h := word_join (hi * 256 + lo) (by omega)
  have e1 : (hi * 256 + lo) / 256 = hi := by omega
  have e2 : (hi * 256 + lo) % 256 = lo := by omega
  rw [e1, e2] at h
  exact h

theorem low16 (v : Nat) : v &&& 0xFFFF = v % 65536 :=
  Nat.and_pow_two_sub_one_eq_mod v 16

/-! ### The hello program, instruction by instruction

`memory` holds the program at 0..28; each lemma runs one instruction. -/

theorem hello_load_immediate (memory : Nat → Nat) (c : CPU) (a b : Nat) (out : List Nat)
    (hp : ∀ i, i < 29 → memory i = hello_program.getD i 0)
    (h : hello_at memory c 0 a b out) : hello_at memory (cpu_step c) 3 0x100 b out := by
  obtain ⟨hrun, hh, hpc, -, hb, hmem, hout⟩ := h
  have m0 : c.memory 0 = 4 := by rw [hmem, hp 0 (by decide)]; rfl
  have m1 : c.memory 1 = 0 := by rw [hmem, hp 1 (by decide)]; rfl
  have m2 : c.memory 2 = 1 := by rw [hmem, hp 2 (by decide)]; rfl
  have s : cpu_step c =
      update_flags { advance c 3 with regs := { (advance c 3).regs with A := 0x100 } } 0x100 := by
    rw [step_immediate c hrun hh (by rw [hpc]; decide) (by rw [hpc, m0]; rfl)
      (by rw [hpc, m0]; rfl)]
    simp only [hpc, m0, m1, m2]
    rw [show decode_opcode 4 = OP_LOAD from rfl, execute_load]
    rfl
  rw [s]
  refine ⟨?_, ?_, ?_, ?_, ?_, ?_, ?_⟩
  · rw [update_flags_running]; exact hrun
  · exact (get_flag_update_flags_other _ _ 7 (by decide) (by decide) (by decide)).trans hh
  · rw [update_flags_PC]; show c.regs.PC + 3 = 3; rw [hpc]
  · rw [update_flags_A]
  · rw [update_flags_B]; exact hb
  · rw [update_flags_memory]; exact hmem
  · rw [update_flags_port_out]; exact hout

/-- `MOV A B` at `pc` (3 or 21). -/
theorem hello_mov (memory : Nat → Nat) (c : CPU) (pc a b : Nat) (out : List Nat)
    (hpc3 : pc + 2 < 0xFF00)
    (m0 : memory pc = 0x0E) (m1 : memory (pc + 1) = 0) (m2 : memory (pc + 2) = 1)
    (h : hello_at memory c pc a b out) : hello_at memory (cpu_step c) (pc + 3) a a out := by
  obtain ⟨hrun, hh, hpc, ha, -, hmem, hout⟩ := h
  have s : cpu_step c =
      update_flags { advance c 3 with regs := { (advance c 3).regs with B := c.regs.A } }
        c.regs.A := by
    rw [step_mov c hrun hh (by rw [hpc]; exact hpc3) (by rw [hpc, hmem, m0])]
    simp only [hpc, hmem, m1, m2]
    rfl
  rw [s]
  refine ⟨?_, ?_, ?_, ?_, ?_, ?_, ?_⟩
  · rw [update_flags_running]; exact hrun
  · exact (get_flag_update_flags_other _ _ 7 (by decide) (by decide) (by decide)).trans hh
  · rw [update_flags_PC]; show c.regs.PC + 3 = pc + 3; rw [hpc]
  · rw [update_flags_A]; exact ha
  · rw [update_flags_B]; exact ha
  · rw [update_flags_memory]; exact hmem
  · rw [update_flags_port_out]; exact hout

theorem hello_load_indirect (memory : Nat → Nat) (c : CPU) (a b : Nat) (out : List Nat)
    (hp : ∀ i, i < 29 → memory i = hello_program.getD i 0) (hb1 : b + 1 < 0xFF00)
    (h : hello_at memory c 6 a b out) :
    hello_at memory (cpu_step c) 8 (((memory (b + 1) <<< 8) ||| memory b) % 65536) b out := by
  obtain ⟨hrun, hh, hpc, -, hb, hmem, hout⟩ := h
  have m0 : c.memory 6 = 7 := by rw [hmem, hp 6 (by decide)]; rfl
  have m1 : c.memory 7 = 1 := by rw [hmem, hp 7 (by decide)]; rfl
  have hg : get_register c 1 = b := hb
  have s : cpu_step c =
      update_flags { advance c 2 with regs := { (advance c 2).regs with
          A := ((memory (b + 1) <<< 8) ||| memory b) % 65536 } }
        (((memory (b + 1) <<< 8) ||| memory b) % 65536) := by
    rw [step_indirect c hrun hh (by rw [hpc]; decide) (by rw [hpc, m0]; rfl)
      (by rw [hpc, m0]; rfl) (by rw [hpc, m1, hg]; exact hb1)]
    simp only [hpc, m0, m1, hg]
    rw [show decode_opcode 7 = OP_LOAD from rfl, execute_load, hmem]
  rw [s]
  refine ⟨?_, ?_, ?_, ?_, ?_, ?_, ?_⟩
  · rw [update_flags_running]; exact hrun
  · exact (get_flag_update_flags_other _ _ 7 (by decide) (by decide) (by decide)).trans hh
  · rw [update_flags_PC]; show c.regs.PC + 2 = 8; rw [hpc]
  · rw [update_flags_A]
  · rw [update_flags_B]; exact hb
  · rw [update_flags_memory]; exact hmem
  · rw [update_flags_port_out]; exact hout

theorem hello_cmp (memory : Nat → Nat) (c : CPU) (a b : Nat) (out : List Nat)
    (hp : ∀ i, i < 29 → memory i = hello_program.getD i 0) (ha16 : a < 65536)
    (h : hello_at memory c 8 a b out) :
    hello_at memory (cpu_step c) 11 a b out ∧
    get_flag (cpu_step c) FLAG_ZERO = decide (a = 0) := by
  obtain ⟨hrun, hh, hpc, ha, hb, hmem, hout⟩ := h
  have m0 : c.memory 8 = 0x48 := by rw [hmem, hp 8 (by decide)]; rfl
  have m1 : c.memory 9 = 0 := by rw [hmem, hp 9 (by decide)]; rfl
  have m2 : c.memory 10 = 0 := by rw [hmem, hp 10 (by decide)]; rfl
  have er : (a + 65536 - 0) % 65536 &&& 0xFFFF = a := by
    rw [low16]; omega
  have s : cpu_step c = update_flags (clear_flag (advance c 3) FLAG_CARRY) a := by
    rw [step_immediate c hrun hh (by rw [hpc]; decide) (by rw [hpc, m0]; rfl)
      (by rw [hpc, m0]; rfl)]
    simp only [hpc, m0, m1, m2]
    rw [show decode_opcode 72 = OP_CMP from rfl, execute_cmp]
    have e0 : ((0 <<< 8) ||| 0) % 65536 = 0 := by decide
    simp only [e0, advance_A, ha, er, Nat.not_lt_zero, if_false]
  rw [s]
  refine ⟨⟨?_, ?_, ?_, ?_, ?_, ?_, ?_⟩, ?_⟩
  · rw [update_flags_running]; exact hrun
  · exact ((get_flag_update_flags_other _ _ 7 (by decide) (by decide) (by decide)).trans
      (get_flag_clear_flag_other _ 1 7 (by decide) (by decide))).trans hh
  · rw [update_flags_PC]; show c.regs.PC + 3 = 11; rw [hpc]
  · rw [update_flags_A]; exact ha
  · rw [update_flags_B]; exact hb
  · rw [update_flags_memory]; exact hmem
  · rw [update_flags_port_out]; exact hout
  · exact get_flag_update_flags_zero _ a

theorem hello_jz (memory : Nat → Nat) (c : CPU) (a b : Nat) (out : List Nat)
    (hp : ∀ i, i < 29 → memory i = hello_program.getD i 0)
    (h : hello_at memory c 11 a b out) :
    hello_at memory (cpu_step c) (if get_flag c FLAG_ZERO = true then 27 else 14) a b out := by
  obtain ⟨hrun, hh, hpc, ha, hb, hmem, hout⟩ := h
  have m0 : c.memory 11 = 0x54 := by rw [hmem, hp 11 (by decide)]; rfl
  have m1 : c.memory 12 = 0x1B := by rw [hmem, hp 12 (by decide)]; rfl
  have m2 : c.memory 13 = 0 := by rw [hmem, hp 13 (by decide)]; rfl
  have s : cpu_step c =
      if get_flag c FLAG_ZERO = true then
        { advance c 3 with regs := { (advance c 3).regs with PC := 27 } }
      else advance c 3 := by
    rw [step_immediate c hrun hh (by rw [hpc]; decide) (by rw [hpc, m0]; rfl)
      (by rw [hpc, m0]; rfl)]
    simp only [hpc, m0, m1, m2]
    rw [show decode_opcode 84 = OP_JZ from rfl, execute_jz]
    have e0 : ((0 <<< 8) ||| 27) % 65536 = 27 := by decide
    simp only [e0, get_flag_advance]
  rw [s]
  split
  · exact ⟨hrun, hh, rfl, ha, hb, hmem, hout⟩
  · exact ⟨hrun, hh, by show c.regs.PC + 3 = 14; rw [hpc], ha, hb, hmem, hout⟩

theorem hello_out (memory : Nat → Nat) (c : CPU) (a b : Nat) (out : List Nat)
    (hp : ∀ i, i < 29 → memory i = hello_program.getD i 0)
    (h : hello_at memory c 14 a b out) :
    hello_at memory (cpu_step c) 16 a b (out ++ [a &&& 0xFF]) := by
  obtain ⟨hrun, hh, hpc, ha, hb, hmem, hout⟩ := h
  have m0 : c.memory 14 = 0x76 := by rw [hmem, hp 14 (by decide)]; rfl
  have s : cpu_step c = putchar (advance c 2) (c.regs.A &&& 0xFF) := by
    rw [step_register c hrun hh (by rw [hpc]; decide) (by rw [hpc, m0]; rfl)
      (by rw [hpc, m0]; rfl)]
    simp only [hpc, m0]
    rw [show decode_opcode 118 = OP_OUT from rfl, execute_out]
    rfl
  rw [s]
  exact ⟨hrun, hh, by show c.regs.PC + 2 = 16; rw [hpc], ha, hb, hmem,
    by show c.port_out ++ [c.regs.A &&& 0xFF] = _; rw [hout, ha]⟩

theorem hello_load_register (memory : Nat → Nat) (c : CPU) (a b : Nat) (out : List Nat)
    (hp : ∀ i, i < 29 → memory i = hello_program.getD i 0)
    (h : hello_at memory c 16 a b out) : hello_at memory (cpu_step c) 18 b b out := by
  obtain ⟨hrun, hh, hpc, -, hb, hmem, hout⟩ := h
  have m0 : c.memory 16 = 6 := by rw [hmem, hp 16 (by decide)]; rfl
  have m1 : c.memory 17 = 1 := by rw [hmem, hp 17 (by decide)]; rfl
  have hg : get_register c 1 = b := hb
  have s : cpu_step c =
      update_flags { advance c 2 with regs := { (advance c 2).regs with A := b } } b := by
    rw [step_register c hrun hh (by rw [hpc]; decide) (by rw [hpc, m0]; rfl)
      (by rw [hpc, m0]; rfl)]
    simp only [hpc, m0, m1, hg]
    rw [show decode_opcode 6 = OP_LOAD from rfl, execute_load]
  rw [s]
  refine ⟨?_, ?_, ?_, ?_, ?_, ?_, ?_⟩
  · rw [update_flags_running]; exact hrun
  · exact (get_flag_update_flags_other _ _ 7 (by decide) (by decide) (by decide)).trans hh
  · rw [update_flags_PC]; show c.regs.PC + 2 = 18; rw [hpc]
  · rw [update_flags_A]
  · rw [update_flags_B]; exact hb
  · rw [update_flags_memory]; exact hmem
  · rw [update_flags_port_out]; exact hout

theorem hello_add (memory : Nat → Nat) (c : CPU) (a b : Nat) (out : List Nat)
    (hp : ∀ i, i < 29 → memory i = hello_program.getD i 0) (ha16 : a + 1 < 65536)
    (h : hello_at memory c 18 a b out) : hello_at memory (cpu_step c) 21 (a + 1) b out := by
  obtain ⟨hrun, hh, hpc, ha, hb, hmem, hout⟩ := h
  have m0 : c.memory 18 = 0x18 := by rw [hmem, hp 18 (by decide)]; rfl
  have m1 : c.memory 19 = 1 := by rw [hmem, hp 19 (by decide)]; rfl
  have m2 : c.memory 20 = 0 := by rw [hmem, hp 20 (by decide)]; rfl
  have er : (a + 1) % 2 ^ 32 &&& 0xFFFF = a + 1 := by
    rw [low16]
    have : (2 : Nat) ^ 32 = 4294967296 := by norm_num
    rw [this]; omega
  have hc : ¬ (a + 1) % 2 ^ 32 > 0xFFFF := by
    have : (2 : Nat) ^ 32 = 4294967296 := by norm_num
    rw [this]; omega
  have s : cpu_step c =
      update_flags
        { clear_flag (advance c 3) FLAG_CARRY with
          regs := { (clear_flag (advance c 3) FLAG_CARRY).regs with A := a + 1 } } (a + 1) := by
    rw [step_immediate c hrun hh (by rw [hpc]; decide) (by rw [hpc, m0]; rfl)
      (by rw [hpc, m0]; rfl)]
    simp only [hpc, m0, m1, m2]
    rw [show decode_opcode 24 = OP_ADD from rfl, execute_add]
    have e0 : ((0 <<< 8) ||| 1) % 65536 = 1 := by decide
    simp only [e0, advance_A, ha, er, hc, if_false]
  rw [s]
  refine ⟨?_, ?_, ?_, ?_, ?_, ?_, ?_⟩
  · rw [update_flags_running]; exact hrun
  · refine (get_flag_update_flags_other _ _ 7 (by decide) (by decide) (by decide)).trans ?_
    exact (get_flag_clear_flag_other (advance c 3) 1 7 (by decide) (by decide)).trans hh
  · rw [update_flags_PC]; show c.regs.PC + 3 = 21; rw [hpc]
  · rw [update_flags_A]
  · rw [update_flags_B]; exact hb
  · rw [update_flags_memory]; exact hmem
  · rw [update_flags_port_out]; exact hout

theorem hello_jmp (memory : Nat → Nat) (c : CPU) (a b : Nat) (out : List Nat)
    (hp : ∀ i, i < 29 → memory i = hello_program.getD i 0)
    (h : hello_at memory c 24 a b out) : hello_at memory (cpu_step c) 6 a b out := by
  obtain ⟨hrun, hh, hpc, ha, hb, hmem, hout⟩ := h
  have m0 : c.memory 24 = 0x50 := by rw [hmem, hp 24 (by decide)]; rfl
  have m1 : c.memory 25 = 6 := by rw [hmem, hp 25 (by decide)]; rfl
  have m2 : c.memory 26 = 0 := by rw [hmem, hp 26 (by decide)]; rfl
  have s : cpu_step c = { advance c 3 with regs := { (advance c 3).regs with PC := 6 } } := by
    rw [step_immediate c hrun hh (by rw [hpc]; decide) (by rw [hpc, m0]; rfl)
      (by rw [hpc, m0]; rfl)]
    simp only [hpc, m0, m1, m2]
    rw [show decode_opcode 80 = OP_JMP from rfl, execute_jmp]
    have e0 : ((0 <<< 8) ||| 6) % 65536 = 6 := by decide
    simp only [e0]
  rw [s]
  exact ⟨hrun, hh, rfl, ha, hb, hmem, hout⟩

theorem hello_halt (memory : Nat → Nat) (c : CPU) (a b : Nat) (out : List Nat)
    (hp : ∀ i, i < 29 → memory i = hello_program.getD i 0)
    (h : hello_at memory c 27 a b out) :
    (cpu_step c).running = false ∧ get_flag (cpu_step c) FLAG_HALT = true ∧
    (cpu_step c).port_out = out := by
  obtain ⟨hrun, hh, hpc, -, -, hmem, hout⟩ := h
  have m0 : c.memory 27 = 0x6E := by rw [hmem, hp 27 (by decide)]; rfl
  have s : cpu_step c = { set_flag (advance c 1) FLAG_HALT with running := false } := by
    rw [step_no_operand c hrun hh (by rw [hpc]; decide) (by rw [hpc, m0]; rfl)]
    simp only [hpc, m0]
    rw [show decode_opcode 110 = OP_HALT from rfl, execute_halt]
  rw [s]
  exact ⟨rfl, get_flag_set_flag_same _ 7 (by decide), hout⟩

/-- One turn of the hello loop: a non-zero byte at `B` is written to the port
and `B` moves on. -/
theorem hello_loop_body (memory : Nat → Nat) (c : CPU) (a b : Nat) (out : List Nat)
    (hp : ∀ i, i < 29 → memory i = hello_program.getD i 0)
    (hb : b + 2 < 0xFF00) (hlo : 0 < memory b) (hlo8 : memory b < 256)
    (hhi8 : memory (b + 1) < 256)
    (h : hello_at memory c 6 a b out) :
    hello_at memory (steps 8 c) 6 (b + 1) (b + 1) (out ++ [memory b]) ∧
    ∀ j, j < 8 → (steps j c).running = true ∧ get_flag (steps j c) FLAG_HALT = false := by
  have hw := word_of_bytes (memory b) (memory (b + 1)) hlo8 hhi8
  have h1 := hello_load_indirect memory c a b out hp (by omega) h
  rw [hw] at h1
  have h2 := hello_cmp memory _ _ b out hp (by omega) h1
  have hz : get_flag (cpu_step (cpu_step c)) FLAG_ZERO = false := by
    rw [h2.2]; simp only [decide_eq_false_iff_not]; omega
  have h3 := hello_jz memory _ _ b out hp h2.1
  rw [hz] at h3
  simp only [Bool.false_eq_true, if_false] at h3
  have h4 := hello_out memory _ _ b out hp h3
  have elo : (memory (b + 1) * 256 + memory b) &&& 0xFF = memory b := by
    rw [low_byte]; omega
  rw [elo] at h4
  have h5 := hello_load_register memory _ _ b _ hp h4
  have h6 := hello_add memory _ b b _ hp (by omega) h5
  have h7 := hello_mov memory _ 21 (b + 1) b _ (by decide)
    (by rw [hp 21 (by decide)]; rfl) (by rw [hp 22 (by decide)]; rfl)
    (by rw [hp 23 (by decide)]; rfl) h6
  have h8 := hello_jmp memory _ (b + 1) (b + 1) _ hp h7
  refine ⟨h8, ?_⟩
  intro j hj
  have hc : j = 0 ∨ j = 1 ∨ j = 2 ∨ j = 3 ∨ j = 4 ∨ j = 5 ∨ j = 6 ∨ j = 7 := by omega
  rcases hc with e | e | e | e | e | e | e | e <;> subst e
  · exact ⟨h.1, h.2.1⟩
  · exact ⟨h1.1, h1.2.1⟩
  · exact ⟨h2.1.1, h2.1.2.1⟩
  · exact ⟨h3.1, h3.2.1⟩
  · exact ⟨h4.1, h4.2.1⟩
  · exact ⟨h5.1, h5.2.1⟩
  · exact ⟨h6.1, h6.2.1⟩
  · exact ⟨h7.1, h7.2.1⟩

/-- The end of the hello loop: a zero word at `B` leads to `HALT`. -/
theorem hello_loop_exit (memory : Nat → Nat) (c : CPU) (a b : Nat) (out : List Nat)
    (hp : ∀ i, i < 29 → memory i = hello_program.getD i 0)
    (hb : b + 2 < 0xFF00) (hlo : memory b = 0) (hhi : memory (b + 1) = 0)
    (h : hello_at memory c 6 a b out) :
    ((steps 4 c).running = false ∧ get_flag (steps 4 c) FLAG_HALT = true ∧
      (steps 4 c).port_out = out) ∧
    ∀ j, j < 4 → (steps j c).running = true ∧ get_flag (steps j c) FLAG_HALT = false := by
  have h1 := hello_load_indirect memory c a b out hp (by omega) h
  rw [hlo, hhi, show ((0 <<< 8) ||| 0) % 65536 = 0 from rfl] at h1
  have h2 := hello_cmp memory _ _ b out hp (by decide) h1
  have hz : get_flag (cpu_step (cpu_step c)) FLAG_ZERO = true := by
    rw [h2.2]; rfl
  have h3 := hello_jz memory _ _ b out hp h2.1
  rw [hz] at h3
  simp only [if_true] at h3
  have h4 := hello_halt memory _ _ b out hp h3
  refine ⟨h4, ?_⟩
  intro j hj
  have hc : j = 0 ∨ j = 1 ∨ j = 2 ∨ j = 3 := by omega
  rcases hc with e | e | e | e <;> subst e
  · exact ⟨h.1, h.2.1⟩
  · exact ⟨h1.1, h1.2.1⟩
  · exact ⟨h2.1.1, h2.1.2.1⟩
  · exact ⟨h3.1, h3.2.1⟩

theorem take_succ_getD (l : List Nat) (k : Nat) (h : k < l.length) :
    l.take k ++ [l.getD k 0] = l.take (k + 1) := by
  induction l generalizing k with
  | nil => exact absurd h (by simp)
  | cons x xs ih =>
    cases k with
    | zero => rfl
    | succ k =>
      have := ih k (by simpa using h)
      simp only [List.take_succ_cons, List.cons_append, List.getD_cons_succ, this]

/-- From the head of the loop with `k` bytes written, the run writes the other
bytes and halts. -/
theorem hello_loop (memory : Nat → Nat) (message : List Nat)
    (hp : ∀ i, i < 29 → memory i = hello_program.getD i 0)
    (hlen : message.length ≤ 255)
    (hmsg : ∀ k, k < message.length → memory (0x100 + k) = message.getD k 0)
    (hpos : ∀ k, k < message.length → 0 < message.getD k 0 ∧ message.getD k 0 < 256)
    (hz : ∀ a, 0x100 + message.length ≤ a → memory a = 0) :
    ∀ (n k : Nat) (c : CPU) (a : Nat), k + n = message.length →
      hello_at memory c 6 a (0x100 + k) (message.take k) →
      ∃ final, (∀ fuel, cpu_run_loop (8 * n + 4 + fuel) c = some final) ∧
        final.port_out = message ∧ get_flag final FLAG_HALT = true ∧
        final.running = false := by
  intro n
  induction n with
  | zero =>
    intro k c a hk h
    have hk' : k = message.length := by omega
    subst hk'
    have hx := hello_loop_exit memory c a _ _ hp (by omega) (hz _ (by omega))
      (hz _ (by omega)) h
    refine ⟨steps 4 c, ?_, ?_, hx.1.2.1, hx.1.1⟩
    · intro fuel
      rw [show 8 * 0 + 4 + fuel = 4 + fuel by omega, steps_run 4 c fuel hx.2,
        cpu_run_loop_stop _ _ hx.1.1]
    · rw [hx.1.2.2, List.take_length]
  | succ n ih =>
    intro k c a hk h
    have hkl : k < message.length := by omega
    have hb := hmsg k hkl
    have hb8 := hpos k hkl
    have hnext : memory (0x100 + k + 1) < 256 := by
      by_cases hl : k + 1 < message.length
      · have := hmsg (k + 1) hl
        have h2 := (hpos (k + 1) hl).2
        rw [show 0x100 + k + 1 = 0x100 + (k + 1) by omega, this]; exact h2
      · rw [hz _ (by omega)]; decide
    have hbody := hello_loop_body memory c a (0x100 + k) _ hp (by omega)
      (by rw [hb]; exact hb8.1) (by rw [hb]; exact hb8.2) hnext h
    rw [hb, take_succ_getD message k hkl] at hbody
    obtain ⟨final, hrun, hout⟩ := ih (k + 1) (steps 8 c) _ (by omega) hbody.1
    refine ⟨final, ?_, hout⟩
    intro fuel
    rw [show 8 * (n + 1) + 4 + fuel = 8 + (8 * n + 4 + fuel) by omega,
      steps_run 8 c _ hbody.2]
    exact hrun fuel

theorem hello_start_memory (message : List Nat) (stdin clock : List Nat) (a : Nat) :
    (hello_start message stdin clock).memory a =
      if a < 29 then hello_program.getD a 0
      else if a = 0x100 + message.length then 0
      else if 0x100 ≤ a ∧ a < 0x100 + message.length then message.getD (a - 0x100) 0 % 256
      else 0 := by
  unfold hello_start create_hello_demo
  simp only []
  rw [load_memory _ _ _ (by decide)]
  simp only [cpu_init_memory]
  rfl

theorem hello_start_regs (message : List Nat) (stdin clock : List Nat) :
    (hello_start message stdin clock).regs =
      { PC := 0, SP := 0xFEFF, A := 0, B := 0, C := 0, D := 0, FLAGS := 0 } := by
  unfold hello_start create_hello_demo
  simp only []
  rw [load_regs _ _ _ (by decide)]
  simp only [cpu_init_regs]

theorem hello_start_port_out (message : List Nat) (stdin clock : List Nat) :
    (hello_start message stdin clock).port_out = [] := by
  unfold hello_start create_hello_demo cpu_load_program
  simp only []
  rw [if_neg (by decide)]
  exact cpu_init_port_out stdin clock

/-- Claim C13: for every message of at most 255 non-zero bytes, stored by
`create_hello_demo` at 0x0100 with a zero byte after it in the otherwise zero
memory of a freshly initialised CPU (in any environment), running the hello
program from address 0 ends, after `8 * length + 6` steps and for every larger
bound on the number of steps, with the HALT flag set and `running = false`,
and the bytes written to port 0xFF01 are exactly the message bytes, in order. -/
theorem hello_output (message : List Nat) (stdin clock : List Nat)
    (hlen : message.length ≤ 255) (hbytes : ∀ b ∈ message, 0 < b ∧ b < 256) :
    ∃ cpu,
      (∀ fuel, 8 * message.length + 6 ≤ fuel →
        cpu_run fuel (create_hello_demo (cpu_init stdin clock) message) = some cpu) ∧
      cpu.port_out = message ∧ get_flag cpu FLAG_HALT = true ∧ cpu.running = false := by
  obtain ⟨c0, hc0⟩ : ∃ c0, c0 = hello_start message stdin clock := ⟨_, rfl⟩
  obtain ⟨memory, hmem⟩ : ∃ m, m = c0.memory := ⟨_, rfl⟩
  have hM : ∀ a, memory a =
      if a < 29 then hello_program.getD a 0
      else if a = 0x100 + message.length then 0
      else if 0x100 ≤ a ∧ a < 0x100 + message.length then message.getD (a - 0x100) 0 % 256
      else 0 := by
    intro a; rw [hmem, hc0]; exact hello_start_memory message stdin clock a
  have hpos : ∀ k, k < message.length → 0 < message.getD k 0 ∧ message.getD k 0 < 256 := by
    intro k hk
    have : message.getD k 0 ∈ message := by
      rw [List.getD_eq_getElem message 0 hk]
      exact List.getElem_mem hk
    exact hbytes _ this
  have hp : ∀ i, i < 29 → memory i = hello_program.getD i 0 := by
    intro i hi; rw [hM, if_pos hi]
  have hmsg : ∀ k, k < message.length → memory (0x100 + k) = message.getD k 0 := by
    intro k hk
    rw [hM, if_neg (by omega), if_neg (by omega), if_pos (by omega),
      show 0x100 + k - 0x100 = k by omega]
    exact Nat.mod_eq_of_lt (hpos k hk).2
  have hz : ∀ a, 0x100 + message.length ≤ a → memory a = 0 := by
    intro a ha
    rw [hM, if_neg (by omega)]
    split
    · rfl
    · rw [if_neg (by omega)]
  have hregs := hello_start_regs message stdin clock
  rw [← hc0] at hregs
  have h0 : hello_at memory c0 0 0 0 [] := by
    refine ⟨by rw [hc0]; rfl, by simp [get_flag, hregs], by rw [hregs], by rw [hregs],
      by rw [hregs], hmem.symm, ?_⟩
    rw [hc0]; exact hello_start_port_out message stdin clock
  have h1 := hello_load_immediate memory c0 0 0 [] hp h0
  have h2 := hello_mov memory _ 3 0x100 0 [] (by decide)
    (by rw [hp 3 (by decide)]; rfl) (by rw [hp 4 (by decide)]; rfl)
    (by rw [hp 5 (by decide)]; rfl) h1
  have hact : ∀ j, j < 2 → (steps j c0).running = true ∧
      get_flag (steps j c0) FLAG_HALT = false := by
    intro j hj
    have hc : j = 0 ∨ j = 1 := by omega
    rcases hc with e | e <;> subst e
    · exact ⟨h0.1, h0.2.1⟩
    · exact ⟨h1.1, h1.2.1⟩
  obtain ⟨final, hrun, hout⟩ := hello_loop memory message hp hlen hmsg hpos hz
    message.length 0 (steps 2 c0) 0x100 (by omega) h2
  refine ⟨final, ?_, hout⟩
  intro fuel hfuel
  show cpu_run_loop fuel (hello_start message stdin clock) = some final
  rw [← hc0, show fuel = 2 + (8 * message.length + 4 + (fuel - (8 * message.length + 6))) by omega,
    steps_run 2 c0 _ hact]
  exact hrun _

theorem hello_output_witness :
    [72, 105, 33].length ≤ 255 ∧ (∀ b ∈ [72, 105, 33], 0 < b ∧ b < 256) ∧
    ∃ cpu,
      (∀ fuel, 8 * [72, 105, 33].length + 6 ≤ fuel →
        cpu_run fuel (create_hello_demo (cpu_init [] []) [72, 105, 33]) = some cpu) ∧
      cpu.port_out = [72, 105, 33] ∧ get_flag cpu FLAG_HALT = true ∧ cpu.running = false :=
  ⟨by decide, by decide, hello_output [72, 105, 33] [] [] (by decide) (by decide)⟩

theorem boot_env (as : Assembler) (stdin clock : List Nat) :
    boot as stdin clock = with_env (boot as [] []) (cpu_init stdin clock) := by
  unfold boot cpu_load_program
  cases clock <;> split <;> rfl

/-- A run of `n` steps that is quiet and active in the empty environment, and
inactive after them, is the run of `cpu_run_loop` in every environment. -/
theorem run_env (as : Assembler) (stdin clock : List Nat) (n : Nat)
    (hq : quiet_run n (boot as [] []) = true)
    (hact : ∀ k, k < n → (steps k (boot as [] [])).running = true ∧
      get_flag (steps k (boot as [] [])) FLAG_HALT = false)
    (hend : (steps n (boot as [] [])).running = false) :
    steps n (boot as stdin clock) = with_env (steps n (boot as [] [])) (cpu_init stdin clock) ∧
    ∀ fuel, n ≤ fuel → cpu_run_loop fuel (boot as stdin clock)
      = some (steps n (boot as stdin clock)) := by
  have hs := steps_env_le (cpu_init stdin clock) n n _ hq (Nat.le_refl n)
  rw [← boot_env] at hs
  refine ⟨hs, ?_⟩
  intro fuel hfuel
  have hact2 : ∀ k, k < n → (steps k (boot as stdin clock)).running = true ∧
      get_flag (steps k (boot as stdin clock)) FLAG_HALT = false := by
    intro k hk
    rw [boot_env, steps_env_le _ n k _ hq (by omega), with_env_running, get_flag_env]
    exact hact k hk
  have h := steps_run n (boot as stdin clock) (fuel - n) hact2
  rw [show n + (fuel - n) = fuel by omega] at h
  rw [h, cpu_run_loop_stop _ _ (by rw [hs, with_env_running]; exact hend)]

theorem stack_assembles : assemble stack_source = some (true, assembled stack_source) := rfl

theorem stack_bytes : output_bytes (assembled stack_source) =
    [0x04, 0xEF, 0xBE, 0x12, 0x00, 0x04, 0x00, 0x00, 0x14, 0x00, 0x00, 0x6C, 0x00, 0x00].map
      some := rfl

theorem stack_quiet : quiet_run 7 (boot (assembled stack_source) [] []) = true := rfl

set_option maxRecDepth 100000 in
theorem stack_active : ∀ k, k < 7 →
    (steps k (boot (assembled stack_source) [] [])).running = true ∧
    get_flag (steps k (boot (assembled stack_source) [] [])) FLAG_HALT = false := by
  decide

theorem stack_end :
    (steps 7 (boot (assembled stack_source) [] [])).running = false ∧
    get_flag (steps 7 (boot (assembled stack_source) [] [])) FLAG_HALT = true ∧
    (steps 7 (boot (assembled stack_source) [] [])).regs.A = 0xBEEF ∧
    (steps 7 (boot (assembled stack_source) [] [])).regs.SP = 0xFEFF ∧
    (steps 2 (boot (assembled stack_source) [] [])).regs.SP = 0xFEFD ∧
    (steps 3 (boot (assembled stack_source) [] [])).regs.A = 0 :=
  ⟨rfl, rfl, rfl, rfl, rfl, rfl⟩

/-- Claim C14: the source lines `LOAD #0xBEEF`, `PUSH A`, `LOAD #0`, `POP`,
`HALT` are accepted by both passes; the output, loaded at address 0 of a
freshly initialised CPU (in any environment) and run by `cpu_run`, ends after
seven steps (the two zero bytes emitted after `POP` run as `NOP`s), and for
every larger bound on the number of steps, with the HALT flag set,
`A = 0xBEEF` and `SP = 0xFEFF`. -/
theorem stack_round_trip (stdin clock : List Nat) :
    ∃ as cpu, assemble stack_source = some (true, as) ∧
      (∀ fuel, 7 ≤ fuel →
        cpu_run fuel (cpu_load_program (cpu_init stdin clock) (program_byte as)
          as.output_size 0) = some cpu) ∧
      get_flag cpu FLAG_HALT = true ∧ cpu.regs.A = 0xBEEF ∧ cpu.regs.SP = 0xFEFF := by
  have h := run_env (assembled stack_source) stdin clock 7 stack_quiet stack_active stack_end.1
  refine ⟨assembled stack_source, steps 7 (boot (assembled stack_source) stdin clock),
    stack_assembles, h.2, ?_, ?_, ?_⟩
  · rw [h.1, get_flag_env]; exact stack_end.2.1
  · rw [h.1, with_env_regs]; exact stack_end.2.2.1
  · rw [h.1, with_env_regs]; exact stack_end.2.2.2.1

/-! ## The assembler: label references and rejected lines -/

/-- `parse_operand` on a label reference: the mode comes from the text, the
value from `label_reference`. -/
theorem parse_operand_reference (as : Assembler) (operand name : List Char) (value : Nat)
    (fp : Bool) (h : reference_name operand = some name) :
    parse_operand as operand value fp =
      match label_reference as name fp with
      | some v => some (operand_mode operand, v)
      | none => none := by
  unfold reference_name at h
  unfold parse_operand operand_mode
  simp only [] at h ⊢
  generalize operand.dropWhile isspace = d at h ⊢
  cases d with
  | nil => exact absurd h (by simp)
  | cons c rest =>
    simp only [] at h ⊢
    by_cases hc : c = '#'
    · rw [if_pos hc] at h ⊢
      rw [if_pos hc]
      split at h
      · exact absurd h (by simp)
      · rename_i hs
        simp only [Option.some.injEq] at h
        subst h
        rw [if_neg hs]
    · rw [if_neg hc] at h ⊢
      rw [if_neg hc]
      split at h
      · exact absurd h (by simp)
      · rename_i hr
        rw [if_neg hr, if_neg hr]
        split at h
        · exact absurd h (by simp)
        · rename_i hb
          rw [if_neg hb, if_neg hb]
          split at h
          · exact absurd h (by simp)
          · rename_i hs
            simp only [Option.some.injEq] at h
            subst h
            rw [if_neg hs]

/-- `parse_operand` fails only in the second pass, on a reference to a name
`find_label` does not find. -/
theorem parse_operand_none (as : Assembler) (operand : List Char) (value : Nat) (fp : Bool)
    (h : parse_operand as operand value fp = none) :
    fp = false ∧ ∃ name, reference_name operand = some name ∧ find_label as name = none := by
  cases hr : reference_name operand with
  | some name =>
    rw [parse_operand_reference as operand name value fp hr] at h
    unfold label_reference at h
    cases fp with
    | true => simp at h
    | false =>
      refine ⟨rfl, name, rfl, ?_⟩
      cases hf : find_label as name with
      | none => rfl
      | some i => rw [hf] at h; simp at h
  | none =>
    exfalso
    unfold reference_name at hr
    unfold parse_operand at h
    simp only [] at h hr
    generalize operand.dropWhile isspace = d at h hr
    cases d with
    | nil => simp at h
    | cons c rest =>
      simp only [] at h hr
      by_cases hc : c = '#'
      · rw [if_pos hc] at h hr
        split at hr
        · rename_i hs
          rw [if_pos hs] at h
          simp at h
        · simp at hr
      · rw [if_neg hc] at h hr
        split at hr
        · rename_i hreg
          rw [if_pos hreg] at h
          simp at h
        · rename_i hreg
          rw [if_neg hreg] at h
          split at hr
          · rename_i hb
            rw [if_pos hb] at h
            split at h
            · simp at h
            · split at h <;> simp at h
          · rename_i hb
            rw [if_neg hb] at h
            split at hr
            · rename_i hs
              rw [if_pos hs] at h
              simp at h
            · simp at hr

/-- Whatever `parse_instruction` returns, it leaves the label table and the
line number alone. -/
theorem parse_instruction_frame (as r : Assembler) (text : List Char) (fp flag : Bool)
    (h : parse_instruction as text fp = some (flag, r)) :
    r.labels = as.labels ∧ r.line_number = as.line_number := by
  unfold parse_instruction at h
  simp only [] at h
  split at h
  · exact absurd h (by simp)
  · split at h
    · simp only [Option.some.injEq, Prod.mk.injEq] at h
      rw [← h.2]; exact ⟨rfl, rfl⟩
    · split at h
      · simp only [Option.some.injEq, Prod.mk.injEq] at h
        rw [← h.2]; exact ⟨rfl, rfl⟩
      · split at h
        · split at h
          · simp only [Option.some.injEq, Prod.mk.injEq] at h
            rw [← h.2]; exact ⟨rfl, rfl⟩
          · split at h <;>
            · simp only [Option.some.injEq, Prod.mk.injEq] at h
              rw [← h.2]; exact ⟨rfl, rfl⟩
        · split at h
          · simp only [Option.some.injEq, Prod.mk.injEq] at h
            rw [← h.2]; exact ⟨rfl, rfl⟩
          · split at h <;>
            · simp only [Option.some.injEq, Prod.mk.injEq] at h
              rw [← h.2]; exact ⟨rfl, rfl⟩

/-- The two reasons for which `parse_instruction` returns `false`: the
mnemonic is unknown, or (second pass only) the operand refers to a name that
`find_label` does not find.  The state is returned unchanged. -/
theorem parse_instruction_false (as r : Assembler) (text : List Char) (fp : Bool)
    (h : parse_instruction as text fp = some (false, r)) :
    r = as ∧
    (get_opcode ((scan_token text).map toupper) = none ∨
      (fp = false ∧ ∃ name, reference_name (scan_rest text) = some name ∧
        find_label as name = none)) := by
  unfold parse_instruction at h
  simp only [] at h
  split at h
  · exact absurd h (by simp)
  · split at h
    · rename_i hop
      simp only [Option.some.injEq, Prod.mk.injEq, true_and] at h
      exact ⟨h.symm, Or.inl hop⟩
    · split at h
      · rename_i hpo
        simp only [Option.some.injEq, Prod.mk.injEq, true_and] at h
        refine ⟨h.symm, Or.inr ?_⟩
        split at hpo
        · exact parse_operand_none _ _ _ _ hpo
        · exact absurd hpo (by simp)
      · split at h
        · split at h
          · exact absurd h (by simp)
          · split at h <;> exact absurd h (by simp)
        · split at h
          · exact absurd h (by simp)
          · split at h <;> exact absurd h (by simp)

/-- Whatever `parse_line` returns, the line number is the one it was called
with, and in the second pass so is the label table. -/
theorem parse_line_frame (as r : Assembler) (line : List Char) (fp flag : Bool)
    (h : parse_line as line fp = some (flag, r)) :
    r.line_number = as.line_number ∧ (fp = false → r.labels = as.labels) := by
  unfold parse_line at h
  simp only [] at h
  split at h
  · simp only [Option.some.injEq, Prod.mk.injEq] at h
    rw [← h.2]; exact ⟨rfl, fun _ => rfl⟩
  · split at h
    · split at h
      · exact absurd h (by simp)
      · split at h
        · exact absurd h (by simp)
        · have hf := add_label_fields as (scan_token (before_colon (strip_comment line)))
            as.current_address
          split at h
          · simp only [Option.some.injEq, Prod.mk.injEq] at h
            rw [← h.2]
            refine ⟨?_, ?_⟩
            · split
              · exact hf.2.2.1
              · rfl
            · intro hfp
              rw [hfp]; rfl
          · have hi := parse_instruction_frame _ _ _ _ _ h
            refine ⟨?_, ?_⟩
            · rw [hi.2]
              split
              · exact hf.2.2.1
              · rfl
            · intro hfp
              rw [hi.1, hfp]; rfl
    · have hi := parse_instruction_frame _ _ _ _ _ h
      exact ⟨hi.2, fun _ => hi.1⟩

/-- The two reasons for which `parse_line` returns `false`: the line has an
instruction whose mnemonic is unknown, or (second pass only) whose operand
refers to a name that `find_label` does not find. -/
theorem parse_line_false (as r : Assembler) (line : List Char) (fp : Bool)
    (h : parse_line as line fp = some (false, r)) :
    ∃ text, instruction_text line = some text ∧
      (get_opcode ((scan_token text).map toupper) = none ∨
        (fp = false ∧ ∃ name, reference_name (scan_rest text) = some name ∧
          find_label as name = none)) := by
  unfold parse_line at h
  unfold instruction_text
  simp only [] at h ⊢
  split at h
  · exact absurd h (by simp)
  · rename_i hb
    rw [if_neg hb]
    split at h
    · rename_i hcol
      rw [if_pos hcol]
      split at h
      · exact absurd h (by simp)
      · split at h
        · exact absurd h (by simp)
        · split at h
          · exact absurd h (by simp)
          · rename_i he
            rw [if_neg he]
            have hi := parse_instruction_false _ _ _ _ h
            refine ⟨_, rfl, ?_⟩
            rcases hi.2 with h1 | ⟨hfp, name, hn, hf⟩
            · exact Or.inl h1
            · refine Or.inr ⟨hfp, name, hn, ?_⟩
              rw [hfp] at hf
              exact hf
    · rename_i hcol
      rw [if_neg hcol]
      have hi := parse_instruction_false _ _ _ _ h
      exact ⟨_, rfl, hi.2⟩

theorem pass_loop_line_number (fp : Bool) (ls : List (List Char)) :
    ∀ (a r : Assembler), pass_loop fp ls a = some (true, r) →
      r.line_number = a.line_number + ls.length := by
  induction ls with
  | nil =>
    intro a r h
    unfold pass_loop at h
    simp only [Option.some.injEq, Prod.mk.injEq, true_and] at h
    rw [← h]; rfl
  | cons l ls ih =>
    intro a r h
    unfold pass_loop at h
    split at h
    · exact absurd h (by simp)
    · exact absurd h (by simp)
    · rename_i as' heq
      have h1 := (parse_line_frame _ _ _ _ _ heq).1
      rw [ih as' r h, h1, List.length_cons]
      simp only []
      omega

/-- A rejecting pass has accepted the lines before some line and got `false`
from `parse_line` on that line; `line_number` then is the number of that line
among the lines the pass was given. -/
theorem pass_loop_false (fp : Bool) (ls : List (List Char)) :
    ∀ (a r : Assembler), pass_loop fp ls a = some (false, r) →
      ∃ pre line post b, ls = pre ++ line :: post ∧
        pass_loop fp pre a = some (true, b) ∧
        parse_line { b with line_number := b.line_number + 1 } line fp = some (false, r) ∧
        r.line_number = a.line_number + pre.length + 1 := by
  induction ls with
  | nil =>
    intro a r h
    unfold pass_loop at h
    exact absurd h (by simp)
  | cons l ls ih =>
    intro a r h
    rw [pass_loop] at h
    split at h
    · exact absurd h (by simp)
    · rename_i as' heq
      simp only [Option.some.injEq, Prod.mk.injEq, true_and] at h
      subst h
      refine ⟨[], l, ls, a, rfl, rfl, heq, ?_⟩
      rw [(parse_line_frame _ _ _ _ _ heq).1]
      rfl
    · rename_i as' heq
      obtain ⟨pre, line, post, b, hsplit, hpre, hline, hnum⟩ := ih as' r h
      refine ⟨l :: pre, line, post, b, by rw [hsplit]; rfl, ?_, hline, ?_⟩
      · rw [pass_loop]
        simp only [heq]
        exact hpre
      · rw [hnum, (parse_line_frame _ _ _ _ _ heq).1, List.length_cons]
        simp only []
        omega

/-! ## Comments, duplicate labels, table overflow and line numbers -/

/-- Claim C15 at its failing input: `JMP loop` (with `loop` defined) assembles,
and so does `JMP loop; again`, but `JMP loop ; again` does not: the operand text
kept after the comment is cut off is `loop` followed by a blank, which names no
label, and the second pass returns `false` on line 2.  The same happens to
`LOAD #data ; x`. -/
theorem comment_after_label_reference :
    (∃ as, assemble jump_plain = some (true, as) ∧
      output_bytes as = [0x00, 0x00, 0x00, 0x51, 0x00, 0x00].map some) ∧
    (∃ as, assemble jump_commented_tight = some (true, as) ∧
      output_bytes as = [0x00, 0x00, 0x00, 0x51, 0x00, 0x00].map some) ∧
    scan_rest (strip_comment "JMP loop ; again".toList) = "loop ".toList ∧
    (∃ as, assemble jump_commented = some (false, as) ∧ as.line_number = 2 ∧
      find_label as "loop ".toList = none ∧ find_label as "loop".toList = some 0) ∧
    (∃ as, assemble load_plain = some (true, as) ∧
      output_bytes as = [0x00, 0x00, 0x00, 0x04, 0x00, 0x00].map some) ∧
    (∃ as, assemble load_commented = some (false, as) ∧ as.line_number = 2) :=
  ⟨⟨assembled jump_plain, rfl, rfl⟩, ⟨assembled jump_commented_tight, rfl, rfl⟩, rfl,
   ⟨assembled jump_commented, rfl, rfl, rfl, rfl⟩, ⟨assembled load_plain, rfl, rfl⟩,
   ⟨assembled load_commented, rfl, rfl⟩⟩

/-- Claim C16, as stated, fails: `duplicate_source` defines `x` on its first and
on its second line and both passes accept it; the table holds both
definitions and `JMP #x` is assembled with the address of the first. -/
theorem duplicate_label_counterexample :
    source_lines duplicate_source = ["x: NOP".toList, "x: HALT".toList, "JMP #x".toList] ∧
    ∃ as, assemble duplicate_source = some (true, as) ∧
      as.labels.map (fun l => (l.name, l.address)) = [("x".toList, 0), ("x".toList, 3)] ∧
      output_bytes as = [0x00, 0x00, 0x00, 0x6C, 0x00, 0x00, 0x50, 0x00, 0x00].map some :=
  ⟨rfl, assembled duplicate_source, rfl, rfl, rfl⟩

theorem find_label_from_append (name : List Char) (ext : List Label) :
    ∀ (ls : List Label) (k i : Nat), find_label_from name ls k = some i →
      find_label_from name (ls ++ ext) k = some i ∧ k ≤ i ∧ i - k < ls.length := by
  intro ls
  induction ls with
  | nil => intro k i h; exact absurd h (by simp [find_label_from])
  | cons l ls ih =>
    intro k i h
    rw [List.cons_append]
    unfold find_label_from at h ⊢
    split at h
    · rename_i hn
      rw [if_pos hn]
      simp only [Option.some.injEq] at h
      subst h
      exact ⟨rfl, Nat.le_refl _, by simp⟩
    · rename_i hn
      rw [if_neg hn]
      obtain ⟨h1, h2, h3⟩ := ih (k + 1) i h
      exact ⟨h1, by omega, by simp only [List.length_cons]; omega⟩

/-- A name `find_label` finds is found at the same place, with the same
address, whatever label is added afterwards. -/
theorem label_reference_add_label (as : Assembler) (name other : List Char) (address a : Nat)
    (h : label_reference as name false = some a) :
    label_reference (add_label as other address) name false = some a := by
  unfold label_reference at h ⊢
  simp only [Bool.false_eq_true, if_false] at h ⊢
  cases hf : find_label as name with
  | none => rw [hf] at h; exact absurd h (by simp)
  | some i =>
    rw [hf] at h
    obtain ⟨ext, hext, -⟩ := (add_label_fields as other address).2.2.2
    have hfa := find_label_from_append name ext as.labels 0 i hf
    have hf2 : find_label (add_label as other address) name = some i := by
      unfold find_label; rw [hext]; exact hfa.1
    rw [hf2]
    simp only [Option.some.injEq] at h ⊢
    rw [hext, List.getD_append _ _ _ _ (by omega), h]

/-- Claim C16, amended: a pass returns `false` only at a line whose mnemonic is
unknown or (second pass) whose operand refers to a name that is not in the
label table, never because a name is defined twice: `add_label` appends every
definition while the table has room, comparing no names, and a name that
`find_label` finds keeps its place and address when further labels (of the
same or another name) are added, so references resolve to the first
definition. -/
theorem duplicate_labels_accepted :
    (∀ (source : List Char) (as : Assembler), assemble source = some (false, as) →
      ∃ line ∈ source_lines source, ∃ text, instruction_text line = some text ∧
        (get_opcode ((scan_token text).map toupper) = none ∨
          ∃ name, reference_name (scan_rest text) = some name ∧ find_label as name = none)) ∧
    (∀ (as : Assembler) (name : List Char) (address : Nat), as.labels.length < MAX_LABELS →
      (add_label as name address).labels =
        as.labels ++ [{ name := name.take (MAX_TOKEN_LENGTH - 1), address := address }]) ∧
    (∀ (as : Assembler) (name other : List Char) (address a : Nat),
      label_reference as name false = some a →
      label_reference (add_label as other address) name false = some a) := by
  refine ⟨?_, ?_, label_reference_add_label⟩
  · intro source as h
    have key : ∀ (fp : Bool) (a r : Assembler),
        pass_loop fp (source_lines source) a = some (false, r) →
        ∃ line ∈ source_lines source, ∃ text, instruction_text line = some text ∧
          (get_opcode ((scan_token text).map toupper) = none ∨
            ∃ name, reference_name (scan_rest text) = some name ∧ find_label r name = none) := by
      intro fp a r hr
      obtain ⟨pre, line, post, b, hsplit, -, hline, -⟩ := pass_loop_false fp _ a r hr
      obtain ⟨text, ht, hwhy⟩ := parse_line_false _ _ _ _ hline
      refine ⟨line, by rw [hsplit]; simp, text, ht, ?_⟩
      rcases hwhy with h1 | ⟨hfp, name, hn, hf⟩
      · exact Or.inl h1
      · refine Or.inr ⟨name, hn, ?_⟩
        have hl := (parse_line_frame _ _ _ _ _ hline).2 hfp
        unfold find_label at hf ⊢
        rw [hl]; exact hf
    unfold assemble at h
    split at h
    · exact absurd h (by simp)
    · rename_i as1 h1
      simp only [Option.some.injEq, Prod.mk.injEq, true_and] at h
      subst h
      exact key true _ _ h1
    · rename_i as1 h1
      exact key false _ _ h
  · intro as name address hroom
    unfold add_label
    rw [if_neg (by omega)]

theorem duplicate_labels_accepted_witness :
    assemble unknown_mnemonic_source = some (false, assembled unknown_mnemonic_source) ∧
    (∃ line ∈ source_lines unknown_mnemonic_source, ∃ text, instruction_text line = some text ∧
      (get_opcode ((scan_token text).map toupper) = none ∨
        ∃ name, reference_name (scan_rest text) = some name ∧
          find_label (assembled unknown_mnemonic_source) name = none)) ∧
    label_reference (add_label (assembled duplicate_source) "x".toList 9) "x".toList false
      = some 0 :=
  ⟨rfl, duplicate_labels_accepted.1 unknown_mnemonic_source _ rfl,
   duplicate_labels_accepted.2.2 (assembled duplicate_source) "x".toList "x".toList 9 0 rfl⟩

/-- Pass 1 on a line that only defines a label: `add_label` is called with the
name and `parse_line` returns `true`, whatever `add_label` did. -/
theorem parse_line_label_only (as : Assembler) (line : List Char)
    (h : label_only line = true) :
    parse_line as line true = some (true,
      add_label as (scan_token (before_colon (strip_comment line))) as.current_address) := by
  unfold label_only at h
  simp only [Bool.and_eq_true, decide_eq_true_eq] at h
  obtain ⟨⟨⟨⟨h1, h2⟩, h3⟩, h4⟩, h5⟩ := h
  unfold parse_line
  simp only []
  rw [if_neg h1, if_pos h2, if_neg (by omega), if_neg (fun hh => h3 hh.2.1)]
  simp only [if_true]
  rw [if_pos h5]

theorem add_label_length (as : Assembler) (name : List Char) (address : Nat)
    (h : as.labels.length ≤ MAX_LABELS) :
    (add_label as name address).labels.length = min (as.labels.length + 1) MAX_LABELS := by
  unfold add_label
  split
  · rename_i hfull
    simp only [MAX_LABELS] at h hfull ⊢
    omega
  · rename_i hroom
    simp only [List.length_append, List.length_singleton, MAX_LABELS] at h hroom ⊢
    omega

/-- Pass 1 on lines that only define labels returns `true` after the last of
them, with at most `MAX_LABELS` labels in the table. -/
theorem pass_loop_label_only (ls : List (List Char)) :
    ∀ a : Assembler, (∀ l ∈ ls, label_only l = true) → a.labels.length ≤ MAX_LABELS →
      ∃ r, pass_loop true ls a = some (true, r) ∧
        r.labels.length = min (a.labels.length + ls.length) MAX_LABELS ∧
        r.line_number = a.line_number + ls.length := by
  induction ls with
  | nil =>
    intro a _ hl
    refine ⟨a, rfl, ?_, rfl⟩
    simp only [List.length_nil, Nat.add_zero]
    omega
  | cons l ls ih =>
    intro a hall hl
    have h1 := parse_line_label_only { a with line_number := a.line_number + 1 } l
      (hall l (by simp))
    have hlen := add_label_length { a with line_number := a.line_number + 1 }
      (scan_token (before_colon (strip_comment l))) a.current_address hl
    have hnum := (add_label_fields { a with line_number := a.line_number + 1 }
      (scan_token (before_colon (strip_comment l))) a.current_address).2.2.1
    obtain ⟨r, hr, hrl, hrn⟩ := ih _ (fun x hx => hall x (List.mem_cons_of_mem _ hx))
      (by rw [hlen]; exact Nat.min_le_right _ _)
    refine ⟨r, ?_, ?_, ?_⟩
    · unfold pass_loop
      rw [h1]
      exact hr
    · rw [hrl, hlen]
      simp only [List.length_cons, MAX_LABELS]
      omega
    · rw [hrn, hnum]
      simp only [List.length_cons]
      omega

/-- A text without NUL is its own C string. -/
theorem c_string_self (s : List Char) (h : ∀ c ∈ s, c ≠ Char.ofNat 0) : c_string s = s := by
  unfold c_string
  rw [List.takeWhile_eq_self_iff]
  intro c hc
  simp only [bne_iff_ne, ne_eq]
  exact h c hc

/-- The first token `strtok` delivers from a text that starts with a line
`l` and a line feed. -/
theorem strtok_lines_line (l : List Char) (hl : ∀ c ∈ l, c ≠ '\n') :
    ∀ (acc rest : List Char), acc.reverse ++ l ≠ [] →
      strtok_lines acc (l ++ '\n' :: rest) = (acc.reverse ++ l) :: strtok_lines [] rest := by
  induction l with
  | nil =>
    intro acc rest hne
    have hacc : acc ≠ [] := by
      intro e; subst e; exact hne rfl
    simp only [List.nil_append, List.append_nil]
    rw [strtok_lines, if_pos rfl, if_neg hacc]
  | cons c l ih =>
    intro acc rest _
    have hc : c ≠ '\n' := hl c (by simp)
    rw [List.cons_append, strtok_lines, if_neg hc, ih (fun x hx => hl x (List.mem_cons_of_mem _ hx)) (c :: acc) rest (by simp)]
    simp

/-- Each of the first 257 label lines only defines a label and holds neither
a line feed nor a NUL. -/
theorem label_line_facts :
    ∀ k < 257, label_only (label_name k ++ [':']) = true ∧
      (label_name k ++ [':']).all (fun c => c != '\n' && c != Char.ofNat 0) = true := by
  decide!

theorem label_line_chars (k : Nat) (hk : k < 257) :
    ∀ c ∈ label_name k ++ [':'], c ≠ '\n' ∧ c ≠ Char.ofNat 0 := by
  intro c hc
  have h := List.all_eq_true.mp (label_line_facts k hk).2 c hc
  simpa only [Bool.and_eq_true, bne_iff_ne, ne_eq] using h

theorem many_labels_from_succ (k n : Nat) :
    many_labels_from k (n + 1) = (label_name k ++ [':']) ++ '\n' :: many_labels_from (k + 1) n :=
  rfl

theorem many_labels_no_nul (n : Nat) :
    ∀ k, k + n ≤ 257 → ∀ c ∈ many_labels_from k n, c ≠ Char.ofNat 0 := by
  induction n with
  | zero => intro k _ c hc; exact absurd hc (by simp [many_labels_from])
  | succ n ih =>
    intro k hk c hc
    rw [many_labels_from_succ, List.mem_append, List.mem_cons] at hc
    rcases hc with h | h | h
    · exact (label_line_chars k (by omega) c h).2
    · subst h; decide
    · exact ih (k + 1) (by omega) c h

theorem strtok_many_labels (n : Nat) :
    ∀ k, k + n ≤ 257 → strtok_lines [] (many_labels_from k n)
      = (List.range' k n).map (fun i => label_name i ++ [':']) := by
  induction n with
  | zero => intro k _; rfl
  | succ n ih =>
    intro k hk
    rw [many_labels_from_succ, strtok_lines_line _
      (fun c hc => (label_line_chars k (by omega) c hc).1) [] _ (by simp [label_name]),
      ih (k + 1) (by omega)]
    rfl

/-- The lines of the source of `n` label definitions. -/
theorem many_labels_lines (n : Nat) (hn : n ≤ 257) :
    source_lines (many_labels_source n)
      = (List.range' 0 n).map (fun i => label_name i ++ [':']) := by
  unfold source_lines many_labels_source
  rw [c_string_self _ (many_labels_no_nul n 0 (by omega)), strtok_many_labels n 0 (by omega)]

theorem first_pass_lines (as : Assembler) (source : List Char) :
    assembler_first_pass as source
      = pass_loop true (source_lines source) { as with current_address := 0, line_number := 0 } :=
  rfl

/-- The first pass accepts the source of 257 label definitions. -/
theorem many_labels_first_pass :
    (∃ as, assembler_first_pass assembler_init (many_labels_source 257) = some (true, as) ∧
      as.labels.length = 256 ∧ as.line_number = 257) := by
  have hall : ∀ l ∈ source_lines (many_labels_source 257), label_only l = true := by
    intro l hl
    rw [many_labels_lines 257 (Nat.le_refl _), List.mem_map] at hl
    obtain ⟨i, hi, rfl⟩ := hl
    rw [List.mem_range'_1] at hi
    exact (label_line_facts i (by omega)).1
  have hlen : (source_lines (many_labels_source 257)).length = 257 := by
    rw [many_labels_lines 257 (Nat.le_refl _), List.length_map, List.length_range']
  obtain ⟨r, h1, h2, h3⟩ := pass_loop_label_only (source_lines (many_labels_source 257))
    { assembler_init with current_address := 0, line_number := 0 } hall (Nat.zero_le _)
  rw [hlen] at h2 h3
  rw [first_pass_lines]
  exact ⟨r, h1, h2, h3⟩

/-- The character codes of the first 257 label names. -/
theorem label_name_codes :
    ∀ k < 257, (label_name k).map Char.toNat = [97 + k / 26, 97 + k % 26] := by
  decide!

/-- The first 257 label names are distinct. -/
theorem label_name_injective (i j : Nat) (hi : i < 257) (hj : j < 257)
    (h : label_name i = label_name j) : i = j := by
  have h1 := label_name_codes i hi
  rw [h, label_name_codes j hj] at h1
  simp only [List.cons.injEq, and_true] at h1
  omega

/-- Claim C17 at its failing input: the source of 257 lines, line `k` being
the definition of the label `label_name k` (257 distinct names), is accepted
by the first pass, which ends at line 257 with 256 labels in the table;
`add_label` on a full table returns without recording anything and without a
way to report failure, and the only reason for which the first pass returns
`false` is an unknown mnemonic. -/
theorem label_table_overflow_accepted :
    source_lines (many_labels_source 257)
      = (List.range' 0 257).map (fun k => label_name k ++ [':']) ∧
    (∀ i j : Nat, i < 257 → j < 257 → label_name i = label_name j → i = j) ∧
    (∃ as, assembler_first_pass assembler_init (many_labels_source 257) = some (true, as) ∧
      as.labels.length = 256 ∧ as.line_number = 257) ∧
    (∀ (as : Assembler) (name : List Char) (address : Nat), MAX_LABELS ≤ as.labels.length →
      add_label as name address = as) ∧
    (∀ (lines : List (List Char)) (a r : Assembler), pass_loop true lines a = some (false, r) →
      ∃ line ∈ lines, ∃ text, instruction_text line = some text ∧
        get_opcode ((scan_token text).map toupper) = none) := by
  refine ⟨many_labels_lines 257 (Nat.le_refl _), label_name_injective,
    many_labels_first_pass, ?_, ?_⟩
  · intro as name address hfull
    unfold add_label
    rw [if_pos hfull]
  · intro lines a r hr
    obtain ⟨pre, line, post, b, hsplit, -, hline, -⟩ := pass_loop_false true _ a r hr
    obtain ⟨text, ht, hwhy⟩ := parse_line_false _ _ _ _ hline
    refine ⟨line, by rw [hsplit]; simp, text, ht, ?_⟩
    rcases hwhy with h1 | ⟨hfp, -⟩
    · exact h1
    · exact absurd hfp (by simp)

/-- Claim C18 at its failing inputs: in `NOP`, empty line, `FOO` the unknown
mnemonic is on line 3 of the text, and the first pass returns `false` with
`line_number = 2`; in `NOP`, empty line, `JMP nowhere` the undefined label is
on line 3, and the second pass returns `false` with `line_number = 2`: the
passes number the lines `strtok` delivers, and `strtok` skips empty lines. -/
theorem line_number_skips_empty_lines :
    lf_lines [] unknown_mnemonic_source = ["NOP".toList, [], "FOO".toList] ∧
    source_lines unknown_mnemonic_source = ["NOP".toList, "FOO".toList] ∧
    (∃ as, assembler_first_pass assembler_init unknown_mnemonic_source = some (false, as) ∧
      as.line_number = 2) ∧
    lf_lines [] undefined_label_source = ["NOP".toList, [], "JMP nowhere".toList] ∧
    source_lines undefined_label_source = ["NOP".toList, "JMP nowhere".toList] ∧
    (∃ as1 as, assembler_first_pass assembler_init undefined_label_source = some (true, as1) ∧
      assembler_second_pass as1 undefined_label_source = some (false, as) ∧
      as.line_number = 2) :=
  ⟨rfl, rfl, ⟨first_pass_state unknown_mnemonic_source, rfl, rfl⟩, rfl, rfl,
   ⟨first_pass_state undefined_label_source, assembled undefined_label_source, rfl, rfl, rfl⟩⟩

/-! ## Label references: pass 1 ignores them, pass 2 resolves them -/

/-- Pass 1 on an accepted line appends to the table the label the line
defines, when the table has room for it. -/
theorem parse_line_first_labels (as r : Assembler) (line : List Char)
    (h : parse_line as line true = some (true, r))
    (hroom : as.labels.length + (line_labels as.current_address line).length ≤ MAX_LABELS) :
    r.labels = as.labels ++ line_labels as.current_address line := by
  unfold parse_line at h
  unfold line_labels defined_label at hroom ⊢
  simp only [] at h hroom ⊢
  split at h
  · rename_i hb
    rw [if_pos hb] at hroom ⊢
    simp only [Option.some.injEq, Prod.mk.injEq, true_and] at h
    subst h
    simp
  · rename_i hb
    rw [if_neg hb] at hroom ⊢
    split at h
    · rename_i hcol
      rw [if_pos hcol] at hroom ⊢
      simp only [List.length_singleton] at hroom
      have hadd : (add_label as (scan_token (before_colon (strip_comment line)))
          as.current_address).labels = as.labels ++
            [{ name := (scan_token (before_colon (strip_comment line))).take
                (MAX_TOKEN_LENGTH - 1), address := as.current_address }] := by
        unfold add_label
        rw [if_neg (by simp only [MAX_LABELS] at hroom ⊢; omega)]
      split at h
      · exact absurd h (by simp)
      · split at h
        · exact absurd h (by simp)
        · simp only [if_true] at h
          split at h
          · simp only [Option.some.injEq, Prod.mk.injEq, true_and] at h
            subst h
            exact hadd
          · have hi := parse_instruction_frame _ _ _ _ _ h
            rw [hi.1]
            exact hadd
    · rename_i hcol
      rw [if_neg hcol]
      have hi := parse_instruction_frame _ _ _ _ _ h
      rw [hi.1]
      simp

theorem label_table_append (pre post : List (List Char)) :
    ∀ address, address < 65536 → label_table address (pre ++ post) =
      label_table address pre ++ label_table ((address + total_size pre) % 65536) post := by
  induction pre with
  | nil =>
    intro address ha
    have e : (address + total_size []) % 65536 = address := by
      simp only [total_size, List.map_nil, List.sum_nil, Nat.add_zero]
      exact Nat.mod_eq_of_lt ha
    rw [e]
    rfl
  | cons l ls ih =>
    intro address _
    rw [List.cons_append, label_table, label_table,
      ih _ (Nat.mod_lt _ (by norm_num)), total_size_cons, List.append_assoc]
    have e : ((address + encoded_size l) % 65536 + total_size ls) % 65536
        = (address + (encoded_size l + total_size ls)) % 65536 := by omega
    rw [e]

/-- Pass 1 on accepted lines appends to the table the labels the lines define,
in order, each with the address its line starts at, when the table has room
for them all. -/
theorem pass_loop_first_labels (ls : List (List Char)) :
    ∀ (a r : Assembler), pass_loop true ls a = some (true, r) → a.current_address < 65536 →
      a.labels.length + (label_table a.current_address ls).length ≤ MAX_LABELS →
      r.labels = a.labels ++ label_table a.current_address ls := by
  induction ls with
  | nil =>
    intro a r h _ _
    unfold pass_loop at h
    simp only [Option.some.injEq, Prod.mk.injEq, true_and] at h
    subst h
    simp [label_table]
  | cons l ls ih =>
    intro a r h hca hroom
    unfold pass_loop at h
    split at h
    · exact absurd h (by simp)
    · exact absurd h (by simp)
    · rename_i as' heq
      rw [label_table, List.length_append] at hroom
      have h1 := parse_line_first_labels _ _ _ heq (by simp only []; omega)
      have h2 := (parse_line_first _ _ _ heq hca).1
      simp only [] at h1 h2
      have h3 := ih as' r h (by rw [h2]; exact Nat.mod_lt _ (by norm_num))
        (by rw [h1, h2, List.length_append]; omega)
      rw [h3, h1, h2, label_table, List.append_assoc]

/-- In the table of lines of which the first to define `name` starts at
offset `total_size pre`, `name` is found with that address. -/
theorem label_table_find (name : List Char) (pre post : List (List Char)) (d : List Char)
    (hd : defined_label d = some name) (hpre : ∀ l ∈ pre, defined_label l ≠ some name) :
    ∀ (address k : Nat), address < 65536 →
      ∃ i, find_label_from name (label_table address (pre ++ d :: post)) k = some (k + i) ∧
        i < (label_table address (pre ++ d :: post)).length ∧
        ((label_table address (pre ++ d :: post)).getD i { name := [], address := 0 }).address
          = (address + total_size pre) % 65536 := by
  induction pre with
  | nil =>
    intro address k ha
    refine ⟨0, ?_, ?_, ?_⟩
    · simp only [List.nil_append, label_table, line_labels, hd, List.singleton_append,
        find_label_from, if_true, Nat.add_zero]
    · simp only [List.nil_append, label_table, line_labels, hd, List.singleton_append,
        List.length_cons]
      omega
    · simp only [List.nil_append, label_table, line_labels, hd, List.singleton_append,
        List.getD_cons_zero, total_size, List.map_nil, List.sum_nil, Nat.add_zero]
      exact (Nat.mod_eq_of_lt ha).symm
  | cons l ls ih =>
    intro address k ha
    have hl : defined_label l ≠ some name := hpre l (by simp)
    have hrest : ∀ x ∈ ls, defined_label x ≠ some name := fun x hx => hpre x (by simp [hx])
    rw [List.cons_append, label_table, total_size_cons]
    have e : ∀ s, ((address + encoded_size l) % 65536 + s) % 65536
        = (address + (encoded_size l + s)) % 65536 := by intro s; omega
    cases hdl : defined_label l with
    | none =>
      obtain ⟨i, h1, h2, h3⟩ := ih hrest ((address + encoded_size l) % 65536) k
        (Nat.mod_lt _ (by norm_num))
      refine ⟨i, ?_, ?_, ?_⟩
      · simp only [line_labels, hdl, List.nil_append]; exact h1
      · simp only [line_labels, hdl, List.nil_append]; exact h2
      · simp only [line_labels, hdl, List.nil_append]; rw [h3, e]
    | some other =>
      have hne : other ≠ name := by
        intro he; rw [hdl, he] at hl; exact hl rfl
      obtain ⟨i, h1, h2, h3⟩ := ih hrest ((address + encoded_size l) % 65536) (k + 1)
        (Nat.mod_lt _ (by norm_num))
      refine ⟨i + 1, ?_, ?_, ?_⟩
      · simp only [line_labels, hdl, List.singleton_append, find_label_from, if_neg hne]
        rw [h1]; congr 1; omega
      · simp only [line_labels, hdl, List.singleton_append, List.length_cons]; omega
      · simp only [line_labels, hdl, List.singleton_append, List.getD_cons_succ]
        rw [h3, e]

/-- Pass 1 on an accepted line leaves a full label table as it is. -/
theorem parse_line_first_full (as r : Assembler) (line : List Char)
    (h : parse_line as line true = some (true, r)) (hfull : MAX_LABELS ≤ as.labels.length) :
    r.labels = as.labels := by
  have hadd : ∀ name address, add_label as name address = as := by
    intro name address
    unfold add_label
    rw [if_pos hfull]
  unfold parse_line at h
  simp only [] at h
  split at h
  · simp only [Option.some.injEq, Prod.mk.injEq, true_and] at h
    subst h
    rfl
  · split at h
    · split at h
      · exact absurd h (by simp)
      · split at h
        · exact absurd h (by simp)
        · simp only [if_true, hadd] at h
          split at h
          · simp only [Option.some.injEq, Prod.mk.injEq, true_and] at h
            subst h
            rfl
          · exact (parse_instruction_frame _ _ _ _ _ h).1
    · exact (parse_instruction_frame _ _ _ _ _ h).1

theorem line_labels_length (address : Nat) (line : List Char) :
    (line_labels address line).length ≤ 1 := by
  unfold line_labels
  split <;> simp

/-- Pass 1 on an accepted line appends to the table the label the line
defines, unless the table is full. -/
theorem parse_line_first_recorded (as r : Assembler) (line : List Char)
    (h : parse_line as line true = some (true, r)) :
    r.labels = as.labels ++
      (line_labels as.current_address line).take (MAX_LABELS - as.labels.length) := by
  have hlen := line_labels_length as.current_address line
  by_cases hfull : MAX_LABELS ≤ as.labels.length
  · rw [parse_line_first_full as r line h hfull, Nat.sub_eq_zero_of_le hfull, List.take_zero,
      List.append_nil]
  · rw [parse_line_first_labels as r line h (by omega),
      List.take_of_length_le (by omega)]

/-- Pass 1 on accepted lines appends to the table the labels the lines define,
in order, each with the address its line starts at, as far as the table has
room. -/
theorem pass_loop_first_recorded (ls : List (List Char)) :
    ∀ (a r : Assembler), pass_loop true ls a = some (true, r) → a.current_address < 65536 →
      r.labels = a.labels ++
        (label_table a.current_address ls).take (MAX_LABELS - a.labels.length) := by
  induction ls with
  | nil =>
    intro a r h _
    unfold pass_loop at h
    simp only [Option.some.injEq, Prod.mk.injEq, true_and] at h
    subst h
    simp [label_table]
  | cons l ls ih =>
    intro a r h hca
    unfold pass_loop at h
    split at h
    · exact absurd h (by simp)
    · exact absurd h (by simp)
    · rename_i as' heq
      have h1 := parse_line_first_recorded _ _ _ heq
      have h2 := (parse_line_first _ _ _ heq hca).1
      simp only [] at h1 h2
      have h3 := ih as' r h (by rw [h2]; exact Nat.mod_lt _ (by norm_num))
      have hlen := line_labels_length a.current_address l
      rw [h3, h2, label_table, List.take_append_eq_append_take, h1, List.append_assoc]
      congr 2
      rw [List.length_append, List.length_take]
      congr 1
      omega

/-- Every entry of the label table comes from a line that defines its name and
carries the address at which that line starts. -/
theorem label_table_mem (ls : List (List Char)) :
    ∀ address, address < 65536 → ∀ l ∈ label_table address ls,
      ∃ pre line post, ls = pre ++ line :: post ∧ defined_label line = some l.name ∧
        l.address = (address + total_size pre) % 65536 := by
  induction ls with
  | nil => intro address _ l hl; exact absurd hl (by simp [label_table])
  | cons d ds ih =>
    intro address ha l hl
    rw [label_table, List.mem_append] at hl
    rcases hl with hl | hl
    · unfold line_labels at hl
      split at hl
      · rename_i name hd
        rw [List.mem_singleton] at hl
        subst hl
        refine ⟨[], d, ds, rfl, hd, ?_⟩
        simp only [total_size, List.map_nil, List.sum_nil, Nat.add_zero]
        exact (Nat.mod_eq_of_lt ha).symm
      · exact absurd hl (by simp)
    · obtain ⟨pre, line, post, hs, hd, hadr⟩ := ih _ (Nat.mod_lt _ (by norm_num)) l hl
      refine ⟨d :: pre, line, post, by rw [hs]; rfl, hd, ?_⟩
      rw [hadr, total_size_cons]
      omega

/-- A line that defines a name has an entry in the label table, with the
address at which the line starts. -/
theorem label_table_defined (pre post : List (List Char)) (line name : List Char)
    (hd : defined_label line = some name) (address : Nat) (ha : address < 65536) :
    ∃ l ∈ label_table address (pre ++ line :: post),
      l.name = name ∧ l.address = (address + total_size pre) % 65536 := by
  rw [label_table_append pre (line :: post) address ha, label_table]
  refine ⟨{ name := name, address := (address + total_size pre) % 65536 }, ?_, rfl, rfl⟩
  simp only [line_labels, hd, List.mem_append, List.mem_singleton, true_or, or_true]

/-- Claim C1: for a source both passes accept and whose encoded size stays
below 65536, `output_size` after pass 2 equals the final pass-1
`current_address` and equals the sum over the lines of 3 bytes per instruction
with an IMMEDIATE or DIRECT operand and 2 bytes per instruction with a REGISTER
or INDIRECT operand; before every line the pass-1 `current_address`, the pass-2
`current_address` and the pass-2 `output_size` coincide (and equal the size of
the lines before it); the labels pass 1 records are, in order, those the lines
define, as far as the table has room; every recorded label has a line that
defines its name and carries the pass-2 output offset reached before that
line, which is where the next emitted byte goes; and when the table has room
for all of them, every label definition in the source is recorded so. -/
theorem two_pass_layout (as0 as1 as2 : Assembler) (source : List Char)
    (h1 : assembler_first_pass as0 source = some (true, as1))
    (h2 : assembler_second_pass as1 source = some (true, as2))
    (hsize : total_size (source_lines source) < 65536) :
    as2.output_size = as1.current_address ∧
    as1.current_address = total_size (source_lines source) ∧
    (∀ pre line post, source_lines source = pre ++ line :: post →
      ∃ b1 b2,
        pass_loop true pre { as0 with current_address := 0, line_number := 0 } = some (true, b1) ∧
        pass_loop false pre { as1 with current_address := 0, output_size := 0, line_number := 0 }
          = some (true, b2) ∧
        b1.current_address = b2.current_address ∧
        b2.current_address = b2.output_size ∧
        b2.output_size = total_size pre) ∧
    ∃ recorded, as1.labels = as0.labels ++ recorded ∧
      recorded = (label_table 0 (source_lines source)).take (MAX_LABELS - as0.labels.length) ∧
      (∀ l ∈ recorded, ∃ pre line post b2, source_lines source = pre ++ line :: post ∧
        defined_label line = some l.name ∧
        pass_loop false pre { as1 with current_address := 0, output_size := 0, line_number := 0 }
          = some (true, b2) ∧
        l.address = b2.output_size) ∧
      (as0.labels.length + (label_table 0 (source_lines source)).length ≤ MAX_LABELS →
        ∀ pre line post name, source_lines source = pre ++ line :: post →
          defined_label line = some name →
          ∃ l ∈ recorded, ∃ b2, l.name = name ∧
            pass_loop false pre
              { as1 with current_address := 0, output_size := 0, line_number := 0 }
              = some (true, b2) ∧
            l.address = b2.output_size) := by
  have h1' : pass_loop true (source_lines source)
      { as0 with current_address := 0, line_number := 0 } = some (true, as1) := h1
  have h2' : pass_loop false (source_lines source)
      { as1 with current_address := 0, output_size := 0, line_number := 0 } = some (true, as2) := h2
  have z : (0 : Nat) < 65536 := by decide
  have e1 := (pass_loop_first _ _ _ h1' z).1
  have hrec := pass_loop_first_recorded _ _ _ h1' z
  have e2 := pass_loop_second _ _ _ h2' z z
  simp only [Nat.zero_add, Nat.mod_eq_of_lt hsize] at e1 e2
  simp only [] at hrec
  have before_line : ∀ pre line post, source_lines source = pre ++ line :: post →
      ∃ b1 b2,
        pass_loop true pre { as0 with current_address := 0, line_number := 0 } = some (true, b1) ∧
        pass_loop false pre { as1 with current_address := 0, output_size := 0, line_number := 0 }
          = some (true, b2) ∧
        b1.current_address = b2.current_address ∧
        b2.current_address = b2.output_size ∧
        b2.output_size = total_size pre := by
    intro pre line post hsplit
    rw [hsplit] at h1' h2' hsize
    obtain ⟨b1, hb1, _⟩ := pass_loop_append true pre (line :: post) _ _ h1'
    obtain ⟨b2, hb2, _⟩ := pass_loop_append false pre (line :: post) _ _ h2'
    have hp : total_size pre < 65536 := by
      rw [total_size_append] at hsize; omega
    have f1 := (pass_loop_first _ _ _ hb1 z).1
    have f2 := pass_loop_second _ _ _ hb2 z z
    simp only [Nat.zero_add, Nat.mod_eq_of_lt hp] at f1 f2
    exact ⟨b1, b2, hb1, hb2, by rw [f1, f2.2.1], by rw [f2.2.1, f2.2.2], f2.2.2⟩
  have offset : ∀ pre line post, source_lines source = pre ++ line :: post →
      (0 + total_size pre) % 65536 = total_size pre := by
    intro pre line post hsplit
    have hp : total_size pre < 65536 := by
      rw [hsplit, total_size_append] at hsize; omega
    rw [Nat.zero_add, Nat.mod_eq_of_lt hp]
  refine ⟨by rw [e2.2.2, e1], e1, before_line, _, hrec, rfl, ?_, ?_⟩
  · intro l hl
    obtain ⟨pre, line, post, hsplit, hd, ha⟩ :=
      label_table_mem _ 0 z l (List.mem_of_mem_take hl)
    obtain ⟨_, b2, _, hb2, _, _, hos⟩ := before_line pre line post hsplit
    exact ⟨pre, line, post, b2, hsplit, hd, hb2, by rw [ha, hos, offset pre line post hsplit]⟩
  · intro hroom pre line post name hsplit hd
    obtain ⟨l, hl, hn, ha⟩ := label_table_defined pre post line name hd 0 z
    obtain ⟨_, b2, _, hb2, _, _, hos⟩ := before_line pre line post hsplit
    refine ⟨l, ?_, b2, hn, hb2, by rw [ha, hos, offset pre line post hsplit]⟩
    rw [List.take_of_length_le (by omega), hsplit]
    exact hl

theorem two_pass_layout_witness :
    total_size (source_lines countdown_source) < 65536 ∧
    (assembled countdown_source).output_size
      = (first_pass_state countdown_source).current_address ∧
    (first_pass_state countdown_source).current_address
      = total_size (source_lines countdown_source) ∧
    total_size (source_lines countdown_source) = 26 ∧
    (first_pass_state countdown_source).labels.map (fun l => (l.name, l.address))
      = [("loop".toList, 5), ("end".toList, 23)] ∧
    (∃ recorded, (first_pass_state countdown_source).labels = assembler_init.labels ++ recorded ∧
      recorded = (label_table 0 (source_lines countdown_source)).take
        (MAX_LABELS - assembler_init.labels.length) ∧
      (∀ l ∈ recorded, ∃ pre line post b2,
        source_lines countdown_source = pre ++ line :: post ∧
        defined_label line = some l.name ∧
        pass_loop false pre
          { first_pass_state countdown_source with
            current_address := 0, output_size := 0, line_number := 0 }
          = some (true, b2) ∧
        l.address = b2.output_size) ∧
      (assembler_init.labels.length + (label_table 0 (source_lines countdown_source)).length
          ≤ MAX_LABELS →
        ∀ pre line post name, source_lines countdown_source = pre ++ line :: post →
          defined_label line = some name →
          ∃ l ∈ recorded, ∃ b2, l.name = name ∧
            pass_loop false pre
              { first_pass_state countdown_source with
                current_address := 0, output_size := 0, line_number := 0 }
              = some (true, b2) ∧
            l.address = b2.output_size)) :=
  ⟨by decide,
   (two_pass_layout assembler_init (first_pass_state countdown_source)
      (assembled countdown_source) countdown_source rfl rfl (by decide)).1,
   (two_pass_layout assembler_init (first_pass_state countdown_source)
      (assembled countdown_source) countdown_source rfl rfl (by decide)).2.1,
   by decide, by decide,
   (two_pass_layout assembler_init (first_pass_state countdown_source)
      (assembled countdown_source) countdown_source rfl rfl (by decide)).2.2.2⟩

theorem reference_name_nil : reference_name [] = none := rfl

/-- An instruction the second pass accepts refers to no name that `find_label`
does not find. -/
theorem parse_instruction_second_reference (as r : Assembler) (text name : List Char)
    (h : parse_instruction as text false = some (true, r))
    (hn : reference_name (scan_rest text) = some name) :
    ∃ a, label_reference as name false = some a := by
  unfold parse_instruction at h
  simp only [] at h
  split at h
  · exact absurd h (by simp)
  · split at h
    · exact absurd h (by simp)
    · split at h
      · exact absurd h (by simp)
      · rename_i opcode mode value hpo
        split at hpo
        · rw [parse_operand_reference as _ name 0 false hn] at hpo
          cases hl : label_reference as name false with
          | none => rw [hl] at hpo; exact absurd hpo (by simp)
          | some a => exact ⟨a, rfl⟩
        · rename_i he
          simp only [ne_eq, not_not] at he
          rw [he, reference_name_nil] at hn
          exact absurd hn (by simp)

theorem label_reference_find (as : Assembler) (name : List Char) (a : Nat)
    (h : label_reference as name false = some a) : find_label as name ≠ none := by
  unfold label_reference at h
  simp only [Bool.false_eq_true, if_false] at h
  intro hf
  rw [hf] at h
  exact absurd h (by simp)

/-- A line the second pass accepts refers to no name that `find_label` does not
find. -/
theorem parse_line_second_reference (as r : Assembler) (line text name : List Char)
    (h : parse_line as line false = some (true, r))
    (ht : instruction_text line = some text)
    (hn : reference_name (scan_rest text) = some name) :
    find_label as name ≠ none := by
  unfold parse_line at h
  unfold instruction_text at ht
  simp only [] at h ht
  split at h
  · rename_i hb
    rw [if_pos hb] at ht
    exact absurd ht (by simp)
  · rename_i hb
    rw [if_neg hb] at ht
    split at h
    · rename_i hcol
      rw [if_pos hcol] at ht
      split at h
      · exact absurd h (by simp)
      · split at h
        · exact absurd h (by simp)
        · simp only [Bool.false_eq_true, if_false] at h
          split at h
          · rename_i he
            rw [if_pos he] at ht
            exact absurd ht (by simp)
          · rename_i he
            rw [if_neg he] at ht
            simp only [Option.some.injEq] at ht
            subst ht
            obtain ⟨a, ha⟩ := parse_instruction_second_reference _ _ _ _ h hn
            exact label_reference_find _ _ _ ha
    · rename_i hcol
      rw [if_neg hcol] at ht
      simp only [Option.some.injEq] at ht
      subst ht
      obtain ⟨a, ha⟩ := parse_instruction_second_reference _ _ _ _ h hn
      exact label_reference_find _ _ _ ha

/-- The text of an instruction decides whether `parse_instruction` has a
result; the pass and the state do not. -/
theorem parse_instruction_defined (a b : Assembler) (text : List Char) (fp fq : Bool)
    (h : parse_instruction a text fp ≠ none) : parse_instruction b text fq ≠ none := by
  unfold parse_instruction at h ⊢
  simp only [] at h ⊢
  split at h
  · exact absurd rfl h
  · rename_i hlen
    rw [if_neg hlen]
    split
    · simp
    · split
      · simp
      · split
        · split
          · simp
          · split <;> simp
        · split
          · simp
          · split <;> simp

/-- A line for which the first pass has a result has one in the second pass. -/
theorem parse_line_defined (a b : Assembler) (line : List Char)
    (h : parse_line a line true ≠ none) : parse_line b line false ≠ none := by
  unfold parse_line at h ⊢
  simp only [] at h ⊢
  split at h
  · rename_i hb
    rw [if_pos hb]; simp
  · rename_i hb
    rw [if_neg hb]
    split at h
    · rename_i hcol
      rw [if_pos hcol]
      split at h
      · exact absurd rfl h
      · rename_i hlen
        rw [if_neg hlen]
        split at h
        · exact absurd rfl h
        · rw [if_neg (by simp)]
          simp only [Bool.false_eq_true, if_false]
          split at h
          · rename_i he
            rw [if_pos he]; simp
          · rename_i he
            rw [if_neg he]
            exact parse_instruction_defined _ _ _ _ _ h
    · rename_i hcol
      rw [if_neg hcol]
      exact parse_instruction_defined _ _ _ _ _ h

/-- Lines the first pass accepts give the second pass a result, from any
state. -/
theorem pass_loop_defined (ls : List (List Char)) :
    ∀ (a0 r0 a : Assembler), pass_loop true ls a0 = some (true, r0) →
      pass_loop false ls a ≠ none := by
  induction ls with
  | nil => intro a0 r0 a _; simp [pass_loop]
  | cons l ls ih =>
    intro a0 r0 a h
    rw [pass_loop] at h
    split at h
    · exact absurd h (by simp)
    · exact absurd h (by simp)
    · rename_i as' heq
      have hd := parse_line_defined { a0 with line_number := a0.line_number + 1 }
        { a with line_number := a.line_number + 1 } l (by rw [heq]; simp)
      rw [pass_loop]
      split
      · rename_i hnone
        exact absurd hnone hd
      · simp
      · exact ih _ _ _ h

/-- Every line of an accepted second pass was accepted by `parse_line`, in a
state with the label table the pass started with. -/
theorem pass_loop_second_lines (ls : List (List Char)) :
    ∀ (a r : Assembler), pass_loop false ls a = some (true, r) →
      ∀ line ∈ ls, ∃ b b', parse_line b line false = some (true, b') ∧
        b.labels = a.labels := by
  induction ls with
  | nil => intro a r _ line hl; exact absurd hl (by simp)
  | cons l ls ih =>
    intro a r h line hl
    rw [pass_loop] at h
    split at h
    · exact absurd h (by simp)
    · exact absurd h (by simp)
    · rename_i as' heq
      rcases List.mem_cons.mp hl with e | e
      · subst e
        exact ⟨_, _, heq, rfl⟩
      · obtain ⟨b, b', hb, hlab⟩ := ih as' r h line e
        refine ⟨b, b', hb, ?_⟩
        rw [hlab, (parse_line_frame _ _ _ _ _ heq).2 rfl]

/-- Claim C19: in pass 1 every label reference (`#name` or bare `name`),
defined or not, is read as value 0 in the mode its text determines (IMMEDIATE
or DIRECT, so the instruction has the same size), and pass 1 returns `false`
only for an unknown mnemonic; pass 2, run on a source pass 1 accepted, returns
`false` when a line refers to a name that is not in the label table; and when
pass 1 has accepted a source whose labels fit the table, a name whose first
definition is on line `d` (anywhere in the source, also after the lines that
refer to it) is found by pass 2 with the address at which line `d` starts,
and every reference to it is assembled with that address. -/
theorem label_references_two_passes :
    (∀ (as : Assembler) (operand name : List Char) (value : Nat),
      reference_name operand = some name →
      parse_operand as operand value true = some (operand_mode operand, 0) ∧
      (operand_mode operand = MODE_IMMEDIATE ∨ operand_mode operand = MODE_DIRECT)) ∧
    (∀ (source : List Char) (as r : Assembler),
      assembler_first_pass as source = some (false, r) →
      ∃ line ∈ source_lines source, ∃ text, instruction_text line = some text ∧
        get_opcode ((scan_token text).map toupper) = none) ∧
    (∀ (source : List Char) (as0 as1 : Assembler) (line text name : List Char),
      assembler_first_pass as0 source = some (true, as1) →
      line ∈ source_lines source → instruction_text line = some text →
      reference_name (scan_rest text) = some name → find_label as1 name = none →
      ∃ r, assembler_second_pass as1 source = some (false, r)) ∧
    (∀ (source : List Char) (as1 : Assembler) (pre post : List (List Char))
      (d name : List Char),
      assembler_first_pass assembler_init source = some (true, as1) →
      source_lines source = pre ++ d :: post → defined_label d = some name →
      (∀ l ∈ pre, defined_label l ≠ some name) →
      (label_table 0 (source_lines source)).length ≤ MAX_LABELS →
      label_reference as1 name false = some (total_size pre % 65536) ∧
      ∀ (b : Assembler) (operand : List Char) (value : Nat), b.labels = as1.labels →
        reference_name operand = some name →
        parse_operand b operand value false
          = some (operand_mode operand, total_size pre % 65536)) := by
  refine ⟨?_, ?_, ?_, ?_⟩
  · intro as operand name value hn
    refine ⟨by rw [parse_operand_reference as operand name value true hn]; rfl, ?_⟩
    unfold reference_name at hn
    unfold operand_mode
    generalize operand.dropWhile isspace = t at hn ⊢
    cases t with
    | nil => exact absurd hn (by simp)
    | cons c rest =>
      simp only [] at hn ⊢
      by_cases hc : c = '#'
      · rw [if_pos hc]; exact Or.inl rfl
      · rw [if_neg hc] at hn ⊢
        split at hn
        · exact absurd hn (by simp)
        · rename_i hr
          rw [if_neg hr]
          split at hn
          · exact absurd hn (by simp)
          · rename_i hb
            rw [if_neg hb]; exact Or.inr rfl
  · intro source as r h
    obtain ⟨pre, line, post, b, hsplit, -, hline, -⟩ := pass_loop_false true _ _ r h
    obtain ⟨text, ht, hwhy⟩ := parse_line_false _ _ _ _ hline
    refine ⟨line, by rw [source_lines, hsplit]; simp, text, ht, ?_⟩
    rcases hwhy with h1 | ⟨hfp, -⟩
    · exact h1
    · exact absurd hfp (by simp)
  · intro source as0 as1 line text name h1 hmem ht hn hf
    have hdef := pass_loop_defined (source_lines source) _ as1
      { as1 with current_address := 0, output_size := 0, line_number := 0 } h1
    cases hr : pass_loop false (source_lines source)
        { as1 with current_address := 0, output_size := 0, line_number := 0 } with
    | none => exact absurd hr hdef
    | some p =>
      obtain ⟨flag, r⟩ := p
      cases flag with
      | false => exact ⟨r, hr⟩
      | true =>
        exfalso
        obtain ⟨b, b', hb, hlab⟩ := pass_loop_second_lines _ _ _ hr line hmem
        have hfb := parse_line_second_reference b b' line text name hb ht hn
        apply hfb
        unfold find_label at hf ⊢
        rw [hlab]; exact hf
  · intro source as1 pre post d name h1 hsplit hd hpre hroom
    have h1' : pass_loop true (source_lines source)
        { assembler_init with current_address := 0, line_number := 0 } = some (true, as1) := h1
    have hlab := pass_loop_first_labels _ _ _ h1' (by decide)
      (by show ([] : List Label).length + (label_table 0 (source_lines source)).length
            ≤ MAX_LABELS
          simp only [List.length_nil, Nat.zero_add]; exact hroom)
    simp only [] at hlab
    have hlab2 : as1.labels = label_table 0 (pre ++ d :: post) := by
      rw [hlab, hsplit]; rfl
    obtain ⟨i, hi1, hi2, hi3⟩ := label_table_find name pre post d hd hpre 0 0 (by decide)
    simp only [Nat.zero_add] at hi1 hi3
    have href : label_reference as1 name false = some (total_size pre % 65536) := by
      unfold label_reference find_label
      simp only [Bool.false_eq_true, if_false]
      rw [hlab2, hi1]
      simp only [hi3]
    refine ⟨href, ?_⟩
    intro b operand value hb hn
    rw [parse_operand_reference b operand name value false hn]
    have : label_reference b name false = label_reference as1 name false := by
      unfold label_reference find_label
      rw [hb]
    rw [this, href]

theorem label_references_two_passes_witness :
    parse_operand assembler_init "nowhere".toList 0 true
      = some (operand_mode "nowhere".toList, 0) ∧
    (∃ r, assembler_second_pass (first_pass_state dangling_source) dangling_source
      = some (false, r)) ∧
    label_reference (first_pass_state forward_source) "later".toList false
      = some (total_size ["JMP #later".toList, "NOP".toList] % 65536) :=
  ⟨(label_references_two_passes.1 assembler_init "nowhere".toList "nowhere".toList 0 rfl).1,
   label_references_two_passes.2.2.1 dangling_source assembler_init
     (first_pass_state dangling_source) "JMP nowhere".toList "JMP nowhere".toList
     "nowhere".toList rfl (by decide) rfl rfl rfl,
   (label_references_two_passes.2.2.2 forward_source (first_pass_state forward_source)
     ["JMP #later".toList, "NOP".toList] [] "later: HALT".toList "later".toList rfl rfl rfl
     (by decide) (by decide)).1⟩

/-! ## The operand grammar -/

theorem strtol_digits_all (base : Nat) : ∀ (s : List Char) (acc : Nat),
    (∀ c ∈ s, digit_value c < base) →
    strtol_digits base acc s = s.foldl (fun a c => a * base + digit_value c) acc := by
  intro s
  induction s with
  | nil => intro acc _; rfl
  | cons c cs ih =>
    intro acc h
    unfold strtol_digits
    rw [if_pos (h c (by simp)), List.foldl_cons]
    exact ih _ (fun x hx => h x (by simp [hx]))

theorem is_digits_all (base : Nat) (s : List Char) (h : is_digits base s = true) :
    s ≠ [] ∧ ∀ c ∈ s, digit_value c < base := by
  unfold is_digits at h
  simp only [Bool.and_eq_true, Bool.not_eq_true', List.isEmpty_eq_false, List.all_eq_true,
    decide_eq_true_eq] at h
  exact ⟨by
    intro he
    have := h.1
    rw [he] at this
    simp at this, h.2⟩

theorem strtol_digits_value (base : Nat) (s : List Char) (h : is_digits base s = true) :
    strtol_digits base 0 s = digits_value base s :=
  strtol_digits_all base s 0 (is_digits_all base s h).2

theorem isdigit_of_digit_value (c : Char) (h : digit_value c < 10) : isdigit c = true := by
  unfold digit_value at h
  unfold isdigit
  split at h
  · rename_i hd
    simp only [Bool.and_eq_true, decide_eq_true_eq]
    exact hd
  · split at h
    · omega
    · split at h <;> omega

theorem isdigit_toNat (c : Char) (h : isdigit c = true) : 48 ≤ c.toNat ∧ c.toNat ≤ 57 := by
  unfold isdigit at h
  simpa only [Bool.and_eq_true, decide_eq_true_eq] using h

theorem isdigit_not_space (c : Char) (h : isdigit c = true) : isspace c = false := by
  have ht := isdigit_toNat c h
  unfold isspace
  have h1 : c ≠ ' ' := by
    intro e; subst e; exact absurd ht (by decide)
  simp only [Bool.or_eq_false_iff, decide_eq_false_iff_not, Bool.and_eq_false_imp,
    decide_eq_true_eq]
  exact ⟨h1, by omega⟩

theorem isdigit_not_register (c : Char) (h : isdigit c = true) : is_register_name c = false := by
  have ht := isdigit_toNat c h
  unfold is_register_name
  have h1 : c ≠ 'A' := by intro e; subst e; exact absurd ht (by decide)
  have h2 : c ≠ 'B' := by intro e; subst e; exact absurd ht (by decide)
  have h3 : c ≠ 'C' := by intro e; subst e; exact absurd ht (by decide)
  have h4 : c ≠ 'D' := by intro e; subst e; exact absurd ht (by decide)
  simp [h1, h2, h3, h4]

/-- On a text of the grammar `strtol` reads the magnitude the grammar gives
it; such a text starts with a decimal digit. -/
theorem c_magnitude_strtol (body : List Char) (m : Nat) (h : c_magnitude body = some m) :
    strtol_magnitude body = m ∧ ∃ c rest, body = c :: rest ∧ isdigit c = true := by
  unfold c_magnitude at h
  cases body with
  | nil => exact absurd h (by simp)
  | cons c rest =>
    simp only [] at h
    by_cases hc : c = '0'
    · subst hc
      rw [if_pos rfl] at h
      refine ⟨?_, '0', rest, rfl, rfl⟩
      cases rest with
      | nil =>
        simp only [Option.some.injEq] at h
        subst h
        rfl
      | cons x ds =>
        simp only [] at h
        by_cases hx : x = 'x' ∨ x = 'X'
        · rw [if_pos hx] at h
          split at h
          · rename_i hd
            simp only [Option.some.injEq] at h
            subst h
            have hall := is_digits_all 16 ds hd
            cases ds with
            | nil => exact absurd rfl hall.1
            | cons d more =>
              unfold strtol_magnitude
              simp only [if_true]
              rw [if_pos ⟨hx, hall.2 d (by simp)⟩]
              exact strtol_digits_value 16 _ hd
          · exact absurd h (by simp)
        · rw [if_neg hx] at h
          split at h
          · rename_i hd
            simp only [Option.some.injEq] at h
            subst h
            unfold strtol_magnitude
            simp only [if_true]
            cases ds with
            | nil => exact strtol_digits_value 8 _ hd
            | cons d more =>
              simp only []
              rw [if_neg (fun hh => hx hh.1)]
              exact strtol_digits_value 8 _ hd
          · exact absurd h (by simp)
    · rw [if_neg hc] at h
      split at h
      · rename_i hd
        simp only [Option.some.injEq] at h
        subst h
        have hall := is_digits_all 10 _ hd
        refine ⟨?_, c, rest, rfl, isdigit_of_digit_value c (hall.2 c (by simp))⟩
        unfold strtol_magnitude
        simp only [if_neg hc]
        exact strtol_digits_value 10 _ hd
      · exact absurd h (by simp)

/-- On a text of the grammar `strtol` returns the value the text denotes,
replaced by `LONG_MAX` or `LONG_MIN` when it does not fit a `long`; the text
starts with a digit or `-`. -/
theorem c_integer_strtol (s : List Char) (n : Int) (h : c_integer s = some n) :
    strtol s = (if n > 2 ^ 63 - 1 then 2 ^ 63 - 1 else if n < -(2 ^ 63) then -(2 ^ 63) else n) ∧
    ∃ c rest, s = c :: rest ∧ (isdigit c = true ∨ c = '-') := by
  unfold c_integer at h
  cases s with
  | nil => exact absurd h (by simp)
  | cons c rest =>
    simp only [] at h
    by_cases hc : c = '-'
    · subst hc
      rw [if_pos rfl] at h
      refine ⟨?_, '-', rest, rfl, Or.inr rfl⟩
      cases hm : c_magnitude rest with
      | none => rw [hm] at h; exact absurd h (by simp)
      | some m =>
        rw [hm] at h
        simp only [Option.map_some', Option.some.injEq] at h
        have hs := (c_magnitude_strtol rest m hm).1
        have e1 : List.dropWhile isspace ('-' :: rest) = '-' :: rest := by
          rw [List.dropWhile_cons_of_neg (by decide)]
        unfold strtol
        simp only [e1, List.head?_cons, List.tail_cons, true_or, if_true, hs]
        subst h
        split_ifs <;> omega
    · rw [if_neg hc] at h
      cases hm : c_magnitude (c :: rest) with
      | none => rw [hm] at h; exact absurd h (by simp)
      | some m =>
        rw [hm] at h
        simp only [Option.map_some', Option.some.injEq] at h
        obtain ⟨hs, c', rest', hb, hd⟩ := c_magnitude_strtol _ m hm
        simp only [List.cons.injEq] at hb
        obtain ⟨hcc, -⟩ := hb
        subst hcc
        refine ⟨?_, c, rest, rfl, Or.inl hd⟩
        have hsp := isdigit_not_space c hd
        have e1 : List.dropWhile isspace (c :: rest) = c :: rest := by
          rw [List.dropWhile_cons_of_neg (by rw [hsp]; simp)]
        have hplus : c ≠ '+' := by
          intro e; subst e; exact absurd hd (by decide)
        unfold strtol
        simp only [e1, List.head?_cons, Option.some.injEq, hc, hplus, or_self, if_false, hs]
        subst h
        split_ifs <;> omega

/-- The first character of a number is no white space, `#`, register name or
`[`. -/
theorem number_start (c : Char) (h : isdigit c = true ∨ c = '-') :
    isspace c = false ∧ c ≠ '#' ∧ is_register_name c = false ∧ c ≠ '[' := by
  rcases h with h | h
  · refine ⟨isdigit_not_space c h, ?_, isdigit_not_register c h, ?_⟩
    · intro e; subst e; exact absurd h (by decide)
    · intro e; subst e; exact absurd h (by decide)
  · subst h
    exact ⟨by decide, by decide, by decide, by decide⟩

/-- A text that starts with a digit or `-` is converted by `strtol`, as an
immediate after `#` and as a direct address alone. -/
theorem parse_operand_number (as : Assembler) (value : Nat) (fp : Bool) (c : Char)
    (rest : List Char) (hc : isdigit c = true ∨ c = '-') :
    parse_operand as ('#' :: c :: rest) value fp
      = some (MODE_IMMEDIATE, to_uint16 (strtol (c :: rest))) ∧
    parse_operand as (c :: rest) value fp
      = some (MODE_DIRECT, to_uint16 (strtol (c :: rest))) := by
  obtain ⟨h1, h2, h3, h4⟩ := number_start c hc
  have hsn : starts_number (c :: rest) = true := by
    unfold starts_number
    rcases hc with h | h
    · simp only [h, Bool.true_or]
    · simp only [h, decide_True, Bool.or_true]
  constructor
  · unfold parse_operand
    simp only []
    rw [List.dropWhile_cons_of_neg (by decide)]
    simp only [if_true]
    rw [if_pos hsn]
  · unfold parse_operand
    simp only []
    rw [List.dropWhile_cons_of_neg (by rw [h1]; simp)]
    simp only []
    rw [if_neg h2, h3, Bool.false_and, if_neg (by simp), if_neg h4, if_pos hsn]

/-- Leading white space of an operand is skipped. -/
theorem parse_operand_skip (as : Assembler) (ws operand : List Char) (value : Nat) (fp : Bool)
    (h : ∀ c ∈ ws, isspace c = true) :
    parse_operand as (ws ++ operand) value fp = parse_operand as operand value fp := by
  have e : (ws ++ operand).dropWhile isspace = operand.dropWhile isspace := by
    induction ws with
    | nil => rfl
    | cons w ws ih =>
      rw [List.cons_append, List.dropWhile_cons_of_pos (h w (by simp))]
      exact ih (fun c hc => h c (List.mem_cons_of_mem _ hc))
  unfold parse_operand
  simp only [e]

/-- Claim C20, the counterexample: `0xFFFFFFFFFFFF0000` is a C-style integer,
n = 2^64 - 2^16, and n mod 2^16 = 0; `parse_operand` gives the value 0xFFFF
for it, as an immediate and as a direct address, because `strtol` returns
`LONG_MAX` for a number that does not fit a `long`. -/
theorem integer_operand_saturates :
    c_integer "0xFFFFFFFFFFFF0000".toList = some (2 ^ 64 - 2 ^ 16) ∧
    ((2 ^ 64 - 2 ^ 16 : Int) % 2 ^ 16).toNat = 0 ∧
    parse_operand assembler_init "#0xFFFFFFFFFFFF0000".toList 0 false
      = some (MODE_IMMEDIATE, 65535) ∧
    parse_operand assembler_init "0xFFFFFFFFFFFF0000".toList 0 false
      = some (MODE_DIRECT, 65535) := by
  refine ⟨by decide, by decide, by decide, by decide⟩

/-- Claim C20, amended: `parse_operand` skips leading white space; empty text
gives (IMMEDIATE, 0); for a C-style integer n (decimal, `0x` hex, leading-`0`
octal, optional `-`) that fits a 64-bit `long`, `#` and the integer give
(IMMEDIATE, n mod 2^16) and the integer alone gives (DIRECT, n mod 2^16),
while a larger n gives the value 0xFFFF and a smaller one the value 0 (the
low 16 bits of `LONG_MAX` and `LONG_MIN`); a lone `A`, `B`, `C` or `D` gives
(REGISTER, 0..3), and `[A]`, `[B]`, `[C]`, `[D]` give (INDIRECT, 0..3); in
pass 2 `#name`, for a name that does not start with a digit or `-`, gives
IMMEDIATE, and a bare `name` that starts with none of white space, `#`, `[`,
a digit or `-` and is not a register letter at the end of the text or before
white space gives DIRECT, each with the address of the first entry of the
label table called `name`. -/
theorem parse_operand_grammar (as : Assembler) (value : Nat) (fp : Bool) :
    (∀ ws operand : List Char, (∀ c ∈ ws, isspace c = true) →
      parse_operand as (ws ++ operand) value fp = parse_operand as operand value fp) ∧
    parse_operand as [] value fp = some (MODE_IMMEDIATE, 0) ∧
    (∀ (s : List Char) (n : Int), c_integer s = some n →
      (-(2 ^ 63) ≤ n → n ≤ 2 ^ 63 - 1 →
        parse_operand as ('#' :: s) value fp = some (MODE_IMMEDIATE, (n % 2 ^ 16).toNat) ∧
        parse_operand as s value fp = some (MODE_DIRECT, (n % 2 ^ 16).toNat)) ∧
      (2 ^ 63 - 1 < n →
        parse_operand as ('#' :: s) value fp = some (MODE_IMMEDIATE, 65535) ∧
        parse_operand as s value fp = some (MODE_DIRECT, 65535)) ∧
      (n < -(2 ^ 63) →
        parse_operand as ('#' :: s) value fp = some (MODE_IMMEDIATE, 0) ∧
        parse_operand as s value fp = some (MODE_DIRECT, 0))) ∧
    (parse_operand as "A".toList value fp = some (MODE_REGISTER, 0) ∧
      parse_operand as "B".toList value fp = some (MODE_REGISTER, 1) ∧
      parse_operand as "C".toList value fp = some (MODE_REGISTER, 2) ∧
      parse_operand as "D".toList value fp = some (MODE_REGISTER, 3)) ∧
    (parse_operand as "[A]".toList value fp = some (MODE_INDIRECT, 0) ∧
      parse_operand as "[B]".toList value fp = some (MODE_INDIRECT, 1) ∧
      parse_operand as "[C]".toList value fp = some (MODE_INDIRECT, 2) ∧
      parse_operand as "[D]".toList value fp = some (MODE_INDIRECT, 3)) ∧
    (∀ (name : List Char) (i : Nat), starts_number name = false →
      find_label as name = some i →
      parse_operand as ('#' :: name) value false
        = some (MODE_IMMEDIATE, (as.labels.getD i { name := [], address := 0 }).address)) ∧
    (∀ (c : Char) (rest : List Char) (i : Nat), isspace c = false → c ≠ '#' → c ≠ '[' →
      starts_number (c :: rest) = false →
      (is_register_name c && at_end_or_space rest) = false →
      find_label as (c :: rest) = some i →
      parse_operand as (c :: rest) value false
        = some (MODE_DIRECT, (as.labels.getD i { name := [], address := 0 }).address)) := by
  refine ⟨fun ws operand h => parse_operand_skip as ws operand value fp h, rfl, ?_,
    ⟨rfl, rfl, rfl, rfl⟩, ⟨rfl, rfl, rfl, rfl⟩, ?_, ?_⟩
  · intro s n hn
    obtain ⟨hs, c, rest, hcr, hc⟩ := c_integer_strtol s n hn
    subst hcr
    obtain ⟨p1, p2⟩ := parse_operand_number as value fp c rest hc
    rw [p1, p2, hs]
    refine ⟨?_, ?_, ?_⟩
    · intro hlo hhi
      rw [if_neg (by omega), if_neg (by omega)]
      exact ⟨rfl, rfl⟩
    · intro hhi
      rw [if_pos (by omega)]
      exact ⟨rfl, rfl⟩
    · intro hlo
      rw [if_neg (by omega), if_pos hlo]
      exact ⟨rfl, rfl⟩
  · intro name i hs hf
    unfold parse_operand
    simp only []
    rw [List.dropWhile_cons_of_neg (by decide)]
    simp only [if_true]
    rw [if_neg (by rw [hs]; simp)]
    unfold label_reference
    simp only [Bool.false_eq_true, if_false, hf]
  · intro c rest i hsp h1 h2 hs hr hf
    unfold parse_operand
    simp only []
    rw [List.dropWhile_cons_of_neg (by rw [hsp]; simp)]
    simp only []
    rw [if_neg h1, hr, if_neg (by simp), if_neg h2, if_neg (by rw [hs]; simp)]
    unfold label_reference
    simp only [Bool.false_eq_true, if_false, hf]

theorem parse_operand_grammar_witness :
    parse_operand (first_pass_state forward_source) ("  ".toList ++ "[B]".toList) 0 false
      = parse_operand (first_pass_state forward_source) "[B]".toList 0 false ∧
    (parse_operand (first_pass_state forward_source) ('#' :: "-0x10".toList) 0 false
      = some (MODE_IMMEDIATE, ((-16 : Int) % 2 ^ 16).toNat) ∧
      ((-16 : Int) % 2 ^ 16).toNat = 65520) ∧
    parse_operand (first_pass_state forward_source) "010".toList 0 false
      = some (MODE_DIRECT, ((8 : Int) % 2 ^ 16).toNat) ∧
    (parse_operand (first_pass_state forward_source) ('#' :: "later".toList) 0 false
      = some (MODE_IMMEDIATE,
          ((first_pass_state forward_source).labels.getD 0 { name := [], address := 0 }).address) ∧
      ((first_pass_state forward_source).labels.getD 0 { name := [], address := 0 }).address
        = 6) ∧
    parse_operand (first_pass_state forward_source) "later".toList 0 false
      = some (MODE_DIRECT,
          ((first_pass_state forward_source).labels.getD 0 { name := [], address := 0 }).address) :=
  ⟨(parse_operand_grammar (first_pass_state forward_source) 0 false).1
      "  ".toList "[B]".toList (by decide),
   ⟨(((parse_operand_grammar (first_pass_state forward_source) 0 false).2.2.1
      "-0x10".toList (-16) (by decide)).1 (by decide) (by decide)).1, by decide⟩,
   (((parse_operand_grammar (first_pass_state forward_source) 0 false).2.2.1
      "010".toList 8 (by decide)).1 (by decide) (by decide)).2,
   ⟨(parse_operand_grammar (first_pass_state forward_source) 0 false).2.2.2.2.2.1
      "later".toList 0 rfl rfl, by decide⟩,
   (parse_operand_grammar (first_pass_state forward_source) 0 false).2.2.2.2.2.2
      'l' "ater".toList 0 rfl (by decide) (by decide) rfl rfl rfl⟩

/-! ## Mnemonics and opcode numbers -/

set_option maxRecDepth 100000 in
/-- On the mnemonics of the table `get_opcode` returns the number of the
table. -/
theorem get_opcode_table :
    ∀ entry ∈ instruction_set_table, get_opcode entry.1.toList = some entry.2 := by
  decide

/-- On every other text `get_opcode` returns -1. -/
theorem get_opcode_none (m : List Char)
    (h : ∀ entry ∈ instruction_set_table, m ≠ entry.1.toList) : get_opcode m = none := by
  have h0 : m ≠ "NOP".toList := h ("NOP", 0) (by decide)
  have h1 : m ≠ "LOAD".toList := h ("LOAD", 1) (by decide)
  have h2 : m ≠ "STORE".toList := h ("STORE", 2) (by decide)
  have h3 : m ≠ "MOV".toList := h ("MOV", 3) (by decide)
  have h4 : m ≠ "PUSH".toList := h ("PUSH", 4) (by decide)
  have h5 : m ≠ "POP".toList := h ("POP", 5) (by decide)
  have h6 : m ≠ "ADD".toList := h ("ADD", 6) (by decide)
  have h7 : m ≠ "SUB".toList := h ("SUB", 7) (by decide)
  have h8 : m ≠ "INC".toList := h ("INC", 8) (by decide)
  have h9 : m ≠ "DEC".toList := h ("DEC", 9) (by decide)
  have h10 : m ≠ "MUL".toList := h ("MUL", 10) (by decide)
  have h11 : m ≠ "DIV".toList := h ("DIV", 11) (by decide)
  have h12 : m ≠ "AND".toList := h ("AND", 12) (by decide)
  have h13 : m ≠ "OR".toList := h ("OR", 13) (by decide)
  have h14 : m ≠ "XOR".toList := h ("XOR", 14) (by decide)
  have h15 : m ≠ "NOT".toList := h ("NOT", 15) (by decide)
  have h16 : m ≠ "SHL".toList := h ("SHL", 16) (by decide)
  have h17 : m ≠ "SHR".toList := h ("SHR", 17) (by decide)
  have h18 : m ≠ "CMP".toList := h ("CMP", 18) (by decide)
  have h19 : m ≠ "TEST".toList := h ("TEST", 19) (by decide)
  have h20 : m ≠ "JMP".toList := h ("JMP", 20) (by decide)
  have h21 : m ≠ "JZ".toList := h ("JZ", 21) (by decide)
  have h22 : m ≠ "JNZ".toList := h ("JNZ", 22) (by decide)
  have h23 : m ≠ "JC".toList := h ("JC", 23) (by decide)
  have h24 : m ≠ "JNC".toList := h ("JNC", 24) (by decide)
  have h25 : m ≠ "CALL".toList := h ("CALL", 25) (by decide)
  have h26 : m ≠ "RET".toList := h ("RET", 26) (by decide)
  have h27 : m ≠ "HALT".toList := h ("HALT", 27) (by decide)
  have h28 : m ≠ "IN".toList := h ("IN", 28) (by decide)
  have h29 : m ≠ "OUT".toList := h ("OUT", 29) (by decide)
  unfold get_opcode
  rw [if_neg h0, if_neg h1, if_neg h2, if_neg h3, if_neg h4, if_neg h5, if_neg h6, if_neg h7, if_neg h8, if_neg h9, if_neg h10, if_neg h11, if_neg h12, if_neg h13, if_neg h14, if_neg h15, if_neg h16, if_neg h17, if_neg h18, if_neg h19, if_neg h20, if_neg h21, if_neg h22, if_neg h23, if_neg h24, if_neg h25, if_neg h26, if_neg h27, if_neg h28, if_neg h29]

/-- The numbers `get_opcode` returns are below 30. -/
theorem get_opcode_lt (m : List Char) (k : Nat) (h : get_opcode m = some k) : k < 30 := by
  have hall : ∀ entry ∈ instruction_set_table, entry.2 < 30 := by decide
  by_cases hm : ∃ entry ∈ instruction_set_table, m = entry.1.toList
  · obtain ⟨entry, he, hme⟩ := hm
    rw [hme, get_opcode_table entry he] at h
    simp only [Option.some.injEq] at h
    rw [← h]
    exact hall entry he
  · rw [get_opcode_none m (fun entry he hme => hm ⟨entry, he, hme⟩)] at h
    exact absurd h (by simp)

/-- The opcode/mode byte of an opcode below 64 holds the opcode in its upper
six bits and the mode in its lower two. -/
theorem encode_instruction_fields (opcode mode : Nat) (ho : opcode < 64) (hm : mode < 4) :
    encode_instruction opcode mode < 256 ∧ encode_instruction opcode mode / 4 = opcode ∧
    encode_instruction opcode mode % 4 = mode := by
  have h := encode_onto
  have hd := encode_decode_all opcode ho mode hm
  have hlt : encode_instruction opcode mode < 256 := by
    unfold encode_instruction
    exact Nat.mod_lt _ (by norm_num)
  have hb := encode_decode_all (encode_instruction opcode mode / 4) (by omega)
    (encode_instruction opcode mode % 4) (Nat.mod_lt _ (by norm_num))
  rw [h _ hlt, hd.1, hd.2] at hb
  exact ⟨hlt, hb.1.symm, hb.2.symm⟩

/-- With an unknown mnemonic `parse_instruction` returns `false` wherever it
has a result. -/
theorem parse_instruction_unknown (as : Assembler) (text : List Char) (fp : Bool)
    (h : get_opcode ((scan_token text).map toupper) = none) :
    parse_instruction as text fp = none ∨ parse_instruction as text fp = some (false, as) := by
  unfold parse_instruction
  simp only []
  split
  · exact Or.inl rfl
  · rw [h]
    exact Or.inr rfl

/-- On a line with an instruction `parse_line` ends in `parse_instruction` on
the instruction text, wherever it has a result. -/
theorem parse_line_instruction (as : Assembler) (line text : List Char) (fp : Bool)
    (ht : instruction_text line = some text) :
    parse_line as line fp = none ∨
      ∃ b : Assembler, parse_line as line fp = parse_instruction b text fp := by
  unfold instruction_text at ht
  unfold parse_line
  simp only [] at ht ⊢
  split at ht
  · exact absurd ht (by simp)
  · rename_i hb
    rw [if_neg hb]
    split at ht
    · rename_i hcol
      rw [if_pos hcol]
      split at ht
      · exact absurd ht (by simp)
      · rename_i he
        simp only [Option.some.injEq] at ht
        subst ht
        split
        · exact Or.inl rfl
        · split
          · exact Or.inl rfl
          · exact Or.inr ⟨_, rfl⟩
    · rename_i hcol
      rw [if_neg hcol]
      simp only [Option.some.injEq] at ht
      subst ht
      exact Or.inr ⟨_, rfl⟩

/-- With an unknown mnemonic `parse_line` returns `false` wherever it has a
result. -/
theorem parse_line_unknown (as : Assembler) (line text : List Char) (fp : Bool)
    (ht : instruction_text line = some text)
    (h : get_opcode ((scan_token text).map toupper) = none)
    (hdef : parse_line as line fp ≠ none) :
    ∃ r, parse_line as line fp = some (false, r) := by
  rcases parse_line_instruction as line text fp ht with h1 | ⟨b, h1⟩
  · exact absurd h1 hdef
  · rcases parse_instruction_unknown b text fp h with h2 | h2
    · rw [h1, h2] at hdef
      exact absurd rfl hdef
    · exact ⟨b, by rw [h1, h2]⟩

/-- A pass that has accepted the lines `pre` goes on with the rest. -/
theorem pass_loop_continue (fp : Bool) (pre rest : List (List Char)) :
    ∀ (a b : Assembler), pass_loop fp pre a = some (true, b) →
      pass_loop fp (pre ++ rest) a = pass_loop fp rest b := by
  induction pre with
  | nil =>
    intro a b h
    unfold pass_loop at h
    simp only [Option.some.injEq, Prod.mk.injEq, true_and] at h
    subst h
    rfl
  | cons l ls ih =>
    intro a b h
    rw [List.cons_append]
    rw [pass_loop] at h ⊢
    split at h
    · exact absurd h (by simp)
    · exact absurd h (by simp)
    · rename_i as' heq
      exact ih as' b h

/-- Claim C21: `get_opcode`, applied to the upper-cased first token, returns
for each of the 30 mnemonics of the instruction-set table, written in any
mixture of upper and lower case, the opcode number of the table, and -1 for
every other token; the opcode/mode byte the second pass emits for a line is
below 256 and holds that number in its upper six bits (the byte divided by 4,
which is what `cpu_step` decodes) and the addressing mode in its lower two;
and a line whose first token is no mnemonic makes `parse_line`, and with it
the pass that reaches the line, return `false` in either pass (wherever the C
code has a defined result: tokens that fit their buffers). -/
theorem mnemonic_opcodes :
    (∀ entry ∈ instruction_set_table, ∀ token : List Char,
      token.map toupper = entry.1.toList → get_opcode (token.map toupper) = some entry.2) ∧
    (∀ token : List Char,
      (∀ entry ∈ instruction_set_table, token.map toupper ≠ entry.1.toList) →
      get_opcode (token.map toupper) = none) ∧
    (∀ (as r : Assembler) (line text : List Char) (opcode : Nat),
      parse_line as line false = some (true, r) → instruction_text line = some text →
      get_opcode ((scan_token text).map toupper) = some opcode →
      ∃ byte, r.output as.output_size = some byte ∧ byte < 256 ∧ byte / 4 = opcode ∧
        decode_opcode byte = opcode ∧ byte % 4 = operand_mode (scan_rest text)) ∧
    (∀ (as : Assembler) (line text : List Char) (fp : Bool),
      instruction_text line = some text →
      get_opcode ((scan_token text).map toupper) = none →
      (parse_line as line fp).isSome = true → ∃ r, parse_line as line fp = some (false, r)) ∧
    (∀ (fp : Bool) (pre post : List (List Char)) (line text : List Char) (a b : Assembler),
      pass_loop fp pre a = some (true, b) → instruction_text line = some text →
      get_opcode ((scan_token text).map toupper) = none →
      (pass_loop fp (pre ++ line :: post) a).isSome = true →
      ∃ r, pass_loop fp (pre ++ line :: post) a = some (false, r)) := by
  refine ⟨?_, ?_, ?_, ?_, ?_⟩
  · intro entry he token ht
    rw [ht]
    exact get_opcode_table entry he
  · intro token h
    exact get_opcode_none _ h
  · intro as r line text opcode h ht hop
    obtain ⟨k, hk, hbyte⟩ := parse_line_second_byte as r line text h ht
    rw [hop] at hk
    simp only [Option.some.injEq] at hk
    subst hk
    have hlt := get_opcode_lt _ _ hop
    obtain ⟨h1, h2, h3⟩ := encode_instruction_fields opcode (operand_mode (scan_rest text))
      (by omega) (operand_mode_lt _)
    exact ⟨_, hbyte, h1, h2,
      (encode_decode_all opcode (by omega) _ (operand_mode_lt _)).1, h3⟩
  · intro as line text fp ht h hdef
    refine parse_line_unknown as line text fp ht h ?_
    intro hn
    rw [hn] at hdef
    exact absurd hdef (by decide)
  · intro fp pre post line text a b hpre ht h hdef
    rw [pass_loop_continue fp pre (line :: post) a b hpre] at hdef ⊢
    rw [pass_loop] at hdef ⊢
    have hne : parse_line { b with line_number := b.line_number + 1 } line fp ≠ none := by
      intro hn
      rw [hn] at hdef
      simp only [Option.isSome_none, Bool.false_eq_true] at hdef
    obtain ⟨r, hr⟩ := parse_line_unknown _ line text fp ht h hne
    rw [hr]
    exact ⟨r, rfl⟩

theorem mnemonic_opcodes_witness :
    get_opcode ("nOp".toList.map toupper) = some 0 ∧
    get_opcode ("Halt".toList.map toupper) = some 27 ∧
    get_opcode ("NOPE".toList.map toupper) = none ∧
    (∃ byte, (emit_word (emit_byte assembler_init 4) 5).output assembler_init.output_size
        = some byte ∧ byte < 256 ∧
      byte / 4 = 1 ∧ decode_opcode byte = 1 ∧ byte % 4 = operand_mode (scan_rest "lOaD #5".toList)) ∧
    (∃ r, parse_line assembler_init "x: LOAD#5".toList true = some (false, r)) ∧
    (∃ r, pass_loop false (["NOP".toList] ++ "HALT!".toList :: ["NOP".toList]) assembler_init
      = some (false, r)) :=
  ⟨mnemonic_opcodes.1 ("NOP", 0) (by decide) "nOp".toList rfl,
   mnemonic_opcodes.1 ("HALT", 27) (by decide) "Halt".toList rfl,
   mnemonic_opcodes.2.1 "NOPE".toList (by decide),
   mnemonic_opcodes.2.2.1 assembler_init (emit_word (emit_byte assembler_init 4) 5)
     "x: lOaD #5".toList "lOaD #5".toList 1 rfl rfl rfl,
   mnemonic_opcodes.2.2.2.1 assembler_init "x: LOAD#5".toList "LOAD#5".toList true rfl rfl rfl,
   mnemonic_opcodes.2.2.2.2 false ["NOP".toList] ["NOP".toList] "HALT!".toList "HALT!".toList
     assembler_init (emit_word (emit_byte { assembler_init with line_number := 1 } 0) 0)
     rfl rfl rfl rfl⟩

/-! ## The fetch and operand stages leave registers, flags and memory alone -/

theorem getchar_memory (c : CPU) : (getchar c).2.memory = c.memory := by
  unfold getchar; split <;> rfl

theorem get_time_ms_memory (c : CPU) : (get_time_ms c).2.memory = c.memory := by
  unfold get_time_ms; split <;> rfl

theorem mem_read8_memory (c : CPU) (a : Nat) : (mem_read8 c a).2.memory = c.memory := by
  unfold mem_read8
  split
  · split
    · exact getchar_memory c
    · rfl
  · rfl

theorem mem_read16_memory (c : CPU) (a : Nat) : (mem_read16 c a).2.memory = c.memory := by
  unfold mem_read16
  split
  · exact get_time_ms_memory c
  · simp only [mem_read8_memory]

theorem mem_read8_running (c : CPU) (a : Nat) : (mem_read8 c a).2.running = c.running := by
  unfold mem_read8
  split
  · split
    · exact getchar_running c
    · rfl
  · rfl

theorem mem_read16_running (c : CPU) (a : Nat) : (mem_read16 c a).2.running = c.running := by
  unfold mem_read16
  split
  · exact get_time_ms_running c
  · simp only [mem_read8_running]

theorem fetch_regs (c : CPU) :
    (fetch c).2.regs = { c.regs with PC := (c.regs.PC + 1) % 65536 } := by
  unfold fetch
  simp only [mem_read8_regs]

theorem fetch_memory (c : CPU) : (fetch c).2.memory = c.memory := by
  unfold fetch
  simp only [mem_read8_memory]

theorem fetch_running (c : CPU) : (fetch c).2.running = c.running := by
  unfold fetch
  simp only [mem_read8_running]

/-- The operand fetch changes no register but `PC`. -/
theorem fetch_operand_regs (c : CPU) (opcode mode : Nat) :
    (fetch_operand c opcode mode).2.regs
      = { c.regs with PC := (fetch_operand c opcode mode).2.regs.PC } := by
  unfold fetch_operand
  split
  · split
    · simp only [mem_read16_regs]
    · split
      · simp only [mem_read16_regs]
      · split
        · simp only [mem_read8_regs]
        · split
          · simp only [mem_read16_regs, mem_read8_regs]
          · rfl
  · rfl

theorem fetch_operand_memory (c : CPU) (opcode mode : Nat) :
    (fetch_operand c opcode mode).2.memory = c.memory := by
  unfold fetch_operand
  split
  · split
    · simp only [mem_read16_memory]
    · split
      · simp only [mem_read16_memory]
      · split
        · simp only [mem_read8_memory]
        · split
          · simp only [mem_read16_memory, mem_read8_memory]
          · rfl
  · rfl

theorem fetch_operand_running (c : CPU) (opcode mode : Nat) :
    (fetch_operand c opcode mode).2.running = c.running := by
  unfold fetch_operand
  split
  · split
    · simp only [mem_read16_running]
    · split
      · simp only [mem_read16_running]
      · split
        · simp only [mem_read8_running]
        · split
          · simp only [mem_read16_running, mem_read8_running]
          · rfl
  · rfl

/-- The address after an instruction with operand bytes: three bytes on in
the IMMEDIATE and DIRECT modes, two in the REGISTER and INDIRECT modes. -/
theorem fetch_operand_PC (c : CPU) (opcode mode : Nat) (hn : needs_operand opcode mode = true)
    (hm : mode < 4) :
    (fetch_operand c opcode mode).2.regs.PC
      = (c.regs.PC + (if mode = MODE_IMMEDIATE ∨ mode = MODE_DIRECT then 2 else 1)) % 65536 := by
  have hcases : mode = 0 ∨ mode = 1 ∨ mode = 2 ∨ mode = 3 := by omega
  unfold fetch_operand
  rw [if_pos hn]
  rcases hcases with h | h | h | h <;> subst h <;>
    simp [mem_read16_regs, mem_read8_regs]

theorem decode_mode_lt (b : Nat) : decode_mode b < 4 := by
  unfold decode_mode
  exact Nat.lt_of_le_of_lt Nat.and_le_right (by norm_num)

theorem decode_opcode_lt (b : Nat) : decode_opcode b < 64 := by
  unfold decode_opcode
  exact Nat.lt_of_le_of_lt Nat.and_le_right (by norm_num)

/-- A step of a running CPU whose HALT flag is clear is the execution of the
fetched opcode on the outcome of the operand stage. -/
theorem cpu_step_stage (c : CPU) (hrun : c.running = true)
    (hh : get_flag c FLAG_HALT = false) :
    cpu_step c = execute (operand_stage c).2 (opcode_at c) (mode_at c) (operand_stage c).1 :=
  cpu_step_active c hrun hh

/-- The operand stage changes no register but `PC`, no flag and no memory
byte, and leaves `running` as it is. -/
theorem operand_stage_frame (c : CPU) :
    (operand_stage c).2.regs = { c.regs with PC := next_PC c } ∧
    (operand_stage c).2.memory = c.memory ∧
    (operand_stage c).2.running = c.running := by
  unfold next_PC operand_stage
  refine ⟨?_, ?_, ?_⟩
  · rw [fetch_operand_regs, fetch_regs]
  · rw [fetch_operand_memory, fetch_memory]
  · rw [fetch_operand_running, fetch_running]

/-- The address of the next instruction after one with operand bytes. -/
theorem next_PC_eq (c : CPU) (hn : needs_operand (opcode_at c) (mode_at c) = true) :
    next_PC c = ((c.regs.PC + 1) % 65536
      + (if mode_at c = MODE_IMMEDIATE ∨ mode_at c = MODE_DIRECT then 2 else 1)) % 65536 := by
  unfold next_PC operand_stage
  rw [fetch_operand_PC _ _ _ hn (decode_mode_lt _), fetch_regs]

/-! ## Single instructions -/

theorem bit_fifteen (v : Nat) : v &&& 0x8000 ≠ 0 ↔ v.testBit 15 = true := by
  have h := Nat.and_two_pow v 15
  have e : (0x8000 : Nat) = 2 ^ 15 := by norm_num
  rw [e, h]
  cases v.testBit 15 <;> simp

theorem bit_fifteen_word (v : Nat) (hv : v < 65536) : v.testBit 15 = true ↔ 0x8000 ≤ v := by
  rw [← bit_fifteen]
  exact negative_bit v hv

/-- Claim C22: in a running state whose HALT flag is clear and whose
instruction at `PC` has an opcode in 30..63, one `cpu_step` clears `running`,
leaves `FLAGS` unchanged (so HALT stays clear), and leaves `A`, `B`, `C`, `D`,
`SP` and the memory unchanged. -/
theorem unknown_opcode_stops (c : CPU) (hrun : c.running = true)
    (hh : get_flag c FLAG_HALT = false) (hop : 30 ≤ opcode_at c) :
    opcode_at c ≤ 63 ∧
    (cpu_step c).running = false ∧
    get_flag (cpu_step c) FLAG_HALT = false ∧
    (cpu_step c).regs.FLAGS = c.regs.FLAGS ∧
    (cpu_step c).regs.A = c.regs.A ∧ (cpu_step c).regs.B = c.regs.B ∧
    (cpu_step c).regs.C = c.regs.C ∧ (cpu_step c).regs.D = c.regs.D ∧
    (cpu_step c).regs.SP = c.regs.SP ∧
    (cpu_step c).memory = c.memory := by
  obtain ⟨hr, hm, -⟩ := operand_stage_frame c
  have hs : cpu_step c = { (operand_stage c).2 with running := false } := by
    rw [cpu_step_stage c hrun hh, execute_unknown _ _ _ _ hop]
  have hF : (cpu_step c).regs.FLAGS = c.regs.FLAGS := by rw [hs]; simp only [hr]
  refine ⟨Nat.le_of_lt_succ (decode_opcode_lt _), by rw [hs], ?_, hF, ?_, ?_, ?_, ?_, ?_, ?_⟩
  · rw [get_flag_congr _ c _ hF]; exact hh
  · rw [hs]; simp only [hr]
  · rw [hs]; simp only [hr]
  · rw [hs]; simp only [hr]
  · rw [hs]; simp only [hr]
  · rw [hs]; simp only [hr]
  · rw [hs]; exact hm

theorem unknown_opcode_stops_witness :
    unknown_opcode_state.running = true ∧ get_flag unknown_opcode_state FLAG_HALT = false ∧
    opcode_at unknown_opcode_state = 30 ∧
    (cpu_step unknown_opcode_state).running = false ∧
    (cpu_step unknown_opcode_state).regs.FLAGS = 0x03 ∧
    (cpu_step unknown_opcode_state).regs.A = 1 ∧
    (cpu_step unknown_opcode_state).memory = unknown_opcode_state.memory :=
  ⟨rfl, rfl, rfl, (unknown_opcode_stops unknown_opcode_state rfl rfl (by decide)).2.1,
   (unknown_opcode_stops unknown_opcode_state rfl rfl (by decide)).2.2.2.1,
   (unknown_opcode_stops unknown_opcode_state rfl rfl (by decide)).2.2.2.2.1,
   (unknown_opcode_stops unknown_opcode_state rfl rfl (by decide)).2.2.2.2.2.2.2.2.2⟩

/-- Claim C23: in a running state whose HALT flag is clear and whose
instruction at `PC` is DIV (any addressing mode): when the operand value is 0,
one `cpu_step` leaves `A` and `FLAGS` unchanged; otherwise `A` becomes the
quotient of `A` by the operand, rounded down, ZERO is set iff the quotient is
0 and NEGATIVE iff bit 15 of the quotient is set. -/
theorem div_by_zero_is_no_op (c : CPU) (hrun : c.running = true)
    (hh : get_flag c FLAG_HALT = false) (hop : opcode_at c = OP_DIV) :
    (operand_at c = 0 →
      (cpu_step c).regs.A = c.regs.A ∧ (cpu_step c).regs.FLAGS = c.regs.FLAGS) ∧
    (operand_at c ≠ 0 →
      (cpu_step c).regs.A = c.regs.A / operand_at c ∧
      (get_flag (cpu_step c) FLAG_ZERO = true ↔ c.regs.A / operand_at c = 0) ∧
      (get_flag (cpu_step c) FLAG_NEGATIVE = true ↔
        (c.regs.A / operand_at c).testBit 15 = true)) := by
  obtain ⟨hr, -, -⟩ := operand_stage_frame c
  have hs := cpu_step_stage c hrun hh
  rw [hop, execute_div] at hs
  have hA : (operand_stage c).2.regs.A = c.regs.A := by rw [hr]
  constructor
  · intro h0
    have h0' : (operand_stage c).1.operand = 0 := h0
    rw [if_neg (by rw [h0']; simp)] at hs
    rw [hs, hr]
    exact ⟨rfl, rfl⟩
  · intro h1
    have h1' : (operand_stage c).1.operand ≠ 0 := h1
    rw [if_pos h1', hA] at hs
    have hx : (operand_stage c).1.operand = operand_at c := rfl
    rw [hx] at hs
    refine ⟨?_, ?_, ?_⟩
    · rw [hs]; simp only [update_flags_A]
    · rw [hs, get_flag_update_flags_zero]; simp only [decide_eq_true_eq]
    · rw [hs, get_flag_update_flags_negative, ← bit_fifteen]
      simp only [decide_eq_true_eq]

theorem div_by_zero_is_no_op_witness :
    (operand_at div_zero_state = 0 ∧ (cpu_step div_zero_state).regs.A = 7 ∧
      (cpu_step div_zero_state).regs.FLAGS = 0x07) ∧
    (operand_at div_two_state = 2 ∧ (cpu_step div_two_state).regs.A = 7 / 2 ∧
      get_flag (cpu_step div_two_state) FLAG_ZERO = false) :=
  ⟨⟨rfl, (div_by_zero_is_no_op div_zero_state rfl rfl rfl).1 rfl⟩,
   ⟨rfl, ((div_by_zero_is_no_op div_two_state rfl rfl rfl).2 (by decide)).1, rfl⟩⟩

/-- Claim C24: for every address `addr` from 0xFF00 on and every value `v`,
`mem_write8 (addr, v)` leaves the whole memory array unchanged, and for every
address from 0xFF01 on `mem_read8` returns 0, whatever the array holds there,
and changes nothing. -/
theorem io_window_not_backed (cpu : CPU) (addr v : Nat) :
    (0xFF00 ≤ addr → (mem_write8 cpu addr v).memory = cpu.memory) ∧
    (0xFF01 ≤ addr → mem_read8 cpu addr = (0, cpu)) := by
  constructor
  · intro h
    unfold mem_write8
    rw [if_pos h]
    split <;> rfl
  · intro h
    unfold mem_read8
    rw [if_pos (by simp only [IO_START]; omega), if_neg (by omega)]

theorem io_window_not_backed_witness :
    (mem_write8 (machine (fun _ => 0xAA) 0 0xFEFF) 0xFF00 0x55).memory = (fun _ => 0xAA) ∧
    (mem_write8 (machine (fun _ => 0xAA) 0 0xFEFF) 0xFF01 0x55).memory = (fun _ => 0xAA) ∧
    mem_read8 (machine (fun _ => 0xAA) 0 0xFEFF) 0xFF01
      = (0, machine (fun _ => 0xAA) 0 0xFEFF) ∧
    mem_read8 (machine (fun _ => 0xAA) 0 0xFEFF) 0xFFFF
      = (0, machine (fun _ => 0xAA) 0 0xFEFF) :=
  ⟨(io_window_not_backed (machine (fun _ => 0xAA) 0 0xFEFF) 0xFF00 0x55).1 (by decide),
   (io_window_not_backed (machine (fun _ => 0xAA) 0 0xFEFF) 0xFF01 0x55).1 (by decide),
   (io_window_not_backed (machine (fun _ => 0xAA) 0 0xFEFF) 0xFF01 0).2 (by decide),
   (io_window_not_backed (machine (fun _ => 0xAA) 0 0xFEFF) 0xFFFF 0).2 (by decide)⟩

/-- Claim C25: for every CPU state and every 16-bit `result`,
`update_flags (result)` sets ZERO iff `result = 0` and NEGATIVE iff bit 15 of
`result` is set (iff `result` is 0x8000 or more), leaves the CARRY, OVERFLOW
and HALT bits as they were, and changes no register, no memory byte and
nothing else of the state but `FLAGS`. -/
theorem update_flags_zero_negative (cpu : CPU) (result : Nat) (hr : result < 65536) :
    (get_flag (update_flags cpu result) FLAG_ZERO = true ↔ result = 0) ∧
    (get_flag (update_flags cpu result) FLAG_NEGATIVE = true ↔ result.testBit 15 = true) ∧
    (get_flag (update_flags cpu result) FLAG_NEGATIVE = true ↔ 0x8000 ≤ result) ∧
    get_flag (update_flags cpu result) FLAG_CARRY = get_flag cpu FLAG_CARRY ∧
    get_flag (update_flags cpu result) FLAG_OVERFLOW = get_flag cpu FLAG_OVERFLOW ∧
    get_flag (update_flags cpu result) FLAG_HALT = get_flag cpu FLAG_HALT ∧
    update_flags cpu result
      = { cpu with regs := { cpu.regs with FLAGS := (update_flags cpu result).regs.FLAGS } } := by
  refine ⟨?_, ?_, ?_, ?_, ?_, ?_, update_flags_eq cpu result⟩
  · rw [get_flag_update_flags_zero]; simp only [decide_eq_true_eq]
  · rw [get_flag_update_flags_negative, ← bit_fifteen]; simp only [decide_eq_true_eq]
  · rw [get_flag_update_flags_negative, ← negative_bit result hr]
    simp only [decide_eq_true_eq]
  · exact get_flag_update_flags_other cpu result 1 (by decide) (by decide) (by decide)
  · exact get_flag_update_flags_other cpu result 3 (by decide) (by decide) (by decide)
  · exact get_flag_update_flags_other cpu result 7 (by decide) (by decide) (by decide)

theorem update_flags_zero_negative_witness :
    (get_flag (update_flags div_zero_state 0x8000) FLAG_ZERO = true ↔ 0x8000 = 0) ∧
    (get_flag (update_flags div_zero_state 0x8000) FLAG_NEGATIVE = true ↔ 0x8000 ≤ 0x8000) ∧
    get_flag (update_flags div_zero_state 0x8000) FLAG_CARRY = get_flag div_zero_state FLAG_CARRY ∧
    (update_flags div_zero_state 0x8000).regs.FLAGS = 0x06 :=
  ⟨(update_flags_zero_negative div_zero_state 0x8000 (by decide)).1,
   (update_flags_zero_negative div_zero_state 0x8000 (by decide)).2.2.1,
   (update_flags_zero_negative div_zero_state 0x8000 (by decide)).2.2.2.1, rfl⟩

theorem low_word (x : Nat) : x % 2 ^ 32 &&& 0xFFFF = x % 65536 := by
  have h := Nat.and_pow_two_sub_one_eq_mod (x % 2 ^ 32) 16
  have e : (2 : Nat) ^ 16 - 1 = 0xFFFF := by norm_num
  rw [e] at h
  rw [h]
  omega

theorem low_word_self (x : Nat) : x % 65536 &&& 0xFFFF = x % 65536 := by
  have h := Nat.and_pow_two_sub_one_eq_mod (x % 65536) 16
  have e : (2 : Nat) ^ 16 - 1 = 0xFFFF := by norm_num
  rw [e] at h
  rw [h]
  omega

/-- The flags `update_flags` leaves depend on the flags it finds and on the
result alone. -/
theorem update_flags_FLAGS_congr (c d : CPU) (r : Nat) (h : c.regs.FLAGS = d.regs.FLAGS) :
    (update_flags c r).regs.FLAGS = (update_flags d r).regs.FLAGS := by
  unfold update_flags set_flag clear_flag
  split <;> split <;> simp only [h]

/-- Setting or clearing CARRY changes `FLAGS` alone. -/
theorem carry_update (s : CPU) (p : Prop) [Decidable p] :
    (if p then set_flag s FLAG_CARRY else clear_flag s FLAG_CARRY)
      = { s with regs := { s.regs with
            FLAGS := (if p then set_flag s FLAG_CARRY else clear_flag s FLAG_CARRY).regs.FLAGS } } := by
  split <;> rfl

theorem get_flag_carry_update (s : CPU) (p : Prop) [Decidable p] :
    get_flag (if p then set_flag s FLAG_CARRY else clear_flag s FLAG_CARRY) FLAG_CARRY
      = decide p := by
  split
  · rename_i h
    have e : get_flag (set_flag s FLAG_CARRY) FLAG_CARRY = true :=
      get_flag_set_flag_same s 1 (by decide)
    rw [e]
    simp only [h, decide_True]
  · rename_i h
    have e : get_flag (clear_flag s FLAG_CARRY) FLAG_CARRY = false :=
      get_flag_clear_flag_same s 1 (by decide)
    rw [e]
    simp only [h, decide_False]

theorem get_flag_carry_update_other (s : CPU) (p : Prop) [Decidable p] (b : Nat) (h1 : 1 ≠ b)
    (hb : b < 8) :
    get_flag (if p then set_flag s FLAG_CARRY else clear_flag s FLAG_CARRY) (2 ^ b)
      = get_flag s (2 ^ b) := by
  split
  · exact get_flag_set_flag_other s 1 b h1 hb
  · exact get_flag_clear_flag_other s 1 b h1 hb

/-- The common end of ADD and SUB: CARRY is set or cleared, the result is
stored in `A`, `update_flags` is called on it. -/
theorem carry_store_flags (s : CPU) (p : Prop) [Decidable p] (v : Nat) :
    (update_flags
      { (if p then set_flag s FLAG_CARRY else clear_flag s FLAG_CARRY) with
        regs := { (if p then set_flag s FLAG_CARRY else clear_flag s FLAG_CARRY).regs with
                  A := v } } v).regs.A = v ∧
    (get_flag (update_flags
      { (if p then set_flag s FLAG_CARRY else clear_flag s FLAG_CARRY) with
        regs := { (if p then set_flag s FLAG_CARRY else clear_flag s FLAG_CARRY).regs with
                  A := v } } v) FLAG_CARRY = true ↔ p) ∧
    (get_flag (update_flags
      { (if p then set_flag s FLAG_CARRY else clear_flag s FLAG_CARRY) with
        regs := { (if p then set_flag s FLAG_CARRY else clear_flag s FLAG_CARRY).regs with
                  A := v } } v) FLAG_ZERO = true ↔ v = 0) ∧
    (get_flag (update_flags
      { (if p then set_flag s FLAG_CARRY else clear_flag s FLAG_CARRY) with
        regs := { (if p then set_flag s FLAG_CARRY else clear_flag s FLAG_CARRY).regs with
                  A := v } } v) FLAG_NEGATIVE = true ↔ v.testBit 15 = true) := by
  refine ⟨by simp only [update_flags_A], ?_, ?_, ?_⟩
  · refine Iff.trans (Eq.to_iff (congrArg (fun b => b = true)
      ((get_flag_update_flags_other _ v 1 (by decide) (by decide) (by decide)).trans
        ((get_flag_congr _ (if p then set_flag s FLAG_CARRY else clear_flag s FLAG_CARRY) _
          rfl).trans (get_flag_carry_update s p))))) ?_
    simp only [decide_eq_true_eq]
  · rw [get_flag_update_flags_zero]; simp only [decide_eq_true_eq]
  · rw [get_flag_update_flags_negative, ← bit_fifteen]; simp only [decide_eq_true_eq]

/-- Claim C26: in a running state whose HALT flag is clear, with 16-bit
accumulator `a`, whose instruction at `PC` is ADD with 16-bit operand value
`x`: after one `cpu_step` `A = (a + x) mod 2^16`, CARRY is set iff
`a + x > 0xFFFF`, ZERO is set iff the new `A` is 0 and NEGATIVE iff bit 15 of
the new `A` is set. -/
theorem add_sets_carry (c : CPU) (hrun : c.running = true)
    (hh : get_flag c FLAG_HALT = false) (hop : opcode_at c = OP_ADD)
    (ha : c.regs.A < 65536) (hx : operand_at c < 65536) :
    (cpu_step c).regs.A = (c.regs.A + operand_at c) % 2 ^ 16 ∧
    (get_flag (cpu_step c) FLAG_CARRY = true ↔ c.regs.A + operand_at c > 0xFFFF) ∧
    (get_flag (cpu_step c) FLAG_ZERO = true ↔ (cpu_step c).regs.A = 0) ∧
    (get_flag (cpu_step c) FLAG_NEGATIVE = true ↔ (cpu_step c).regs.A.testBit 15 = true) := by
  obtain ⟨hr, -, -⟩ := operand_stage_frame c
  have hA : (operand_stage c).2.regs.A = c.regs.A := by rw [hr]
  have hxe : (operand_stage c).1.operand = operand_at c := rfl
  have hs := cpu_step_stage c hrun hh
  rw [hop, execute_add, hA, hxe, low_word] at hs
  obtain ⟨h1, h2, h3, h4⟩ := carry_store_flags (operand_stage c).2
    ((c.regs.A + operand_at c) % 2 ^ 32 > 0xFFFF) ((c.regs.A + operand_at c) % 65536)
  rw [← hs] at h1 h2 h3 h4
  have hlt : (c.regs.A + operand_at c) % 2 ^ 32 = c.regs.A + operand_at c :=
    Nat.mod_eq_of_lt (by omega)
  rw [hlt] at h2
  rw [h1]
  exact ⟨rfl, h2, h3, h4⟩

theorem add_sets_carry_witness :
    operand_at (alu_state 0x18 0x01 0x00 0xFFFF 0) = 1 ∧
    (cpu_step (alu_state 0x18 0x01 0x00 0xFFFF 0)).regs.A = (0xFFFF + 1) % 2 ^ 16 ∧
    (get_flag (cpu_step (alu_state 0x18 0x01 0x00 0xFFFF 0)) FLAG_CARRY = true ↔
      0xFFFF + 1 > 0xFFFF) ∧
    (cpu_step (alu_state 0x18 0x01 0x00 0xFFFF 0)).regs.FLAGS = 0x03 :=
  ⟨rfl,
   (add_sets_carry (alu_state 0x18 0x01 0x00 0xFFFF 0) rfl rfl rfl (by decide) (by decide)).1,
   (add_sets_carry (alu_state 0x18 0x01 0x00 0xFFFF 0) rfl rfl rfl (by decide) (by decide)).2.1,
   rfl⟩

theorem carry_update_A (s : CPU) (p : Prop) [Decidable p] :
    (if p then set_flag s FLAG_CARRY else clear_flag s FLAG_CARRY).regs.A = s.regs.A := by
  split <;> rfl

/-- Claim C27: in a running state whose HALT flag is clear, with 16-bit
accumulator `a`, whose instruction at `PC` is SUB with 16-bit operand value
`x`: after one `cpu_step` `A = (a - x) mod 2^16`, CARRY is set iff `a < x`,
ZERO is set iff `a = x` and NEGATIVE iff bit 15 of the new `A` is set. -/
theorem sub_sets_borrow (c : CPU) (hrun : c.running = true)
    (hh : get_flag c FLAG_HALT = false) (hop : opcode_at c = OP_SUB)
    (ha : c.regs.A < 65536) (hx : operand_at c < 65536) :
    ((cpu_step c).regs.A : Int) = ((c.regs.A : Int) - (operand_at c : Int)) % 2 ^ 16 ∧
    (get_flag (cpu_step c) FLAG_CARRY = true ↔ c.regs.A < operand_at c) ∧
    (get_flag (cpu_step c) FLAG_ZERO = true ↔ c.regs.A = operand_at c) ∧
    (get_flag (cpu_step c) FLAG_ZERO = true ↔ (cpu_step c).regs.A = 0) ∧
    (get_flag (cpu_step c) FLAG_NEGATIVE = true ↔ (cpu_step c).regs.A.testBit 15 = true) := by
  obtain ⟨hr, -, -⟩ := operand_stage_frame c
  have hA : (operand_stage c).2.regs.A = c.regs.A := by rw [hr]
  have hxe : (operand_stage c).1.operand = operand_at c := rfl
  have hs := cpu_step_stage c hrun hh
  rw [hop, execute_sub, carry_update_A, hA, hxe] at hs
  obtain ⟨h1, h2, h3, h4⟩ := carry_store_flags (operand_stage c).2
    (c.regs.A < operand_at c) ((c.regs.A + 65536 - operand_at c) % 65536)
  rw [← hs] at h1 h2 h3 h4
  rw [h1]
  refine ⟨?_, h2, ?_, h3, h4⟩
  · omega
  · rw [h3]; omega

theorem sub_sets_borrow_witness :
    operand_at (alu_state 0x1C 0x05 0x00 0x0003 0) = 5 ∧
    ((cpu_step (alu_state 0x1C 0x05 0x00 0x0003 0)).regs.A : Int)
      = ((3 : Nat) - (5 : Nat) : Int) % 2 ^ 16 ∧
    (get_flag (cpu_step (alu_state 0x1C 0x05 0x00 0x0003 0)) FLAG_CARRY = true ↔ 3 < 5) ∧
    (cpu_step (alu_state 0x1C 0x05 0x00 0x0003 0)).regs.A = 0xFFFE ∧
    (cpu_step (alu_state 0x1C 0x05 0x00 0x0003 0)).regs.FLAGS = 0x06 :=
  ⟨rfl,
   (sub_sets_borrow (alu_state 0x1C 0x05 0x00 0x0003 0) rfl rfl rfl (by decide) (by decide)).1,
   (sub_sets_borrow (alu_state 0x1C 0x05 0x00 0x0003 0) rfl rfl rfl (by decide)
     (by decide)).2.1,
   rfl, rfl⟩

/-- The operand of an instruction in IMMEDIATE mode that lies in RAM is the
word after the instruction byte. -/
theorem operand_at_immediate (c : CPU) (hpc : c.regs.PC + 2 < 0xFF00)
    (hm : mode_at c = MODE_IMMEDIATE) (hn : needs_operand (opcode_at c) (mode_at c) = true) :
    operand_at c = memory_word c.memory (c.regs.PC + 1) := by
  have e1 : (c.regs.PC + 1) % 65536 = c.regs.PC + 1 := Nat.mod_eq_of_lt (by omega)
  have hr := fetch_regs c
  have hmem := fetch_memory c
  have hpc2 : (fetch c).2.regs.PC + 1 < 0xFF00 := by rw [hr]; simp only [e1]; omega
  rw [hm] at hn
  unfold operand_at operand_stage memory_word
  rw [hm, fetch_operand_immediate_ram _ _ hn hpc2]
  simp only [hr, hmem, e1]

/-- The operand of an instruction in DIRECT mode that lies in RAM, with an
address in RAM, is the word the memory holds at that address. -/
theorem operand_at_direct (c : CPU) (hpc : c.regs.PC + 2 < 0xFF00)
    (hm : mode_at c = MODE_DIRECT) (hn : needs_operand (opcode_at c) (mode_at c) = true)
    (ha : memory_word c.memory (c.regs.PC + 1) + 1 < 0xFF00) :
    operand_at c = memory_word c.memory (memory_word c.memory (c.regs.PC + 1)) := by
  have e1 : (c.regs.PC + 1) % 65536 = c.regs.PC + 1 := Nat.mod_eq_of_lt (by omega)
  have hr := fetch_regs c
  have hmem := fetch_memory c
  have hpc2 : (fetch c).2.regs.PC + 1 < 0xFF00 := by rw [hr]; simp only [e1]; omega
  rw [hm] at hn
  unfold operand_at operand_stage
  rw [hm]
  unfold fetch_operand
  rw [if_pos hn, if_neg (by decide), if_pos rfl, mem_read16_ram _ _ hpc2]
  simp only [hr, hmem, e1]
  unfold memory_word at ha ⊢
  rw [mem_read16_ram _ _ ha]

theorem get_flag_stage (c : CPU) (f : Nat) : get_flag (operand_stage c).2 f = get_flag c f :=
  get_flag_congr _ _ _ (by rw [(operand_stage_frame c).1])

/-- Claim C28: CMP leaves `FLAGS` as SUB does, and changes nothing else.  For
running states `c` and `d` whose HALT flag is clear, with the same
accumulator, the same `FLAGS` and the same operand value, `c` about to run CMP
and `d` about to run SUB: after one `cpu_step` each, the two `FLAGS` are
equal, and the step of `c` leaves `A`, `B`, `C`, `D`, `SP` and the memory
unchanged.  For a running state about to run TEST: ZERO is set iff
`A & operand` is 0, NEGATIVE iff bit 15 of `A & operand` is set, and `A` and
CARRY (and `B`, `C`, `D`, `SP`, the memory) are unchanged. -/
theorem cmp_flags_as_sub :
    (∀ c d : CPU, c.running = true → get_flag c FLAG_HALT = false → d.running = true →
      opcode_at c = OP_CMP → opcode_at d = OP_SUB →
      c.regs.A = d.regs.A → c.regs.FLAGS = d.regs.FLAGS → operand_at c = operand_at d →
      (cpu_step c).regs.FLAGS = (cpu_step d).regs.FLAGS ∧
      (cpu_step c).regs.A = c.regs.A ∧ (cpu_step c).regs.B = c.regs.B ∧
      (cpu_step c).regs.C = c.regs.C ∧ (cpu_step c).regs.D = c.regs.D ∧
      (cpu_step c).regs.SP = c.regs.SP ∧ (cpu_step c).memory = c.memory) ∧
    (∀ c : CPU, c.running = true → get_flag c FLAG_HALT = false → opcode_at c = OP_TEST →
      (get_flag (cpu_step c) FLAG_ZERO = true ↔ c.regs.A &&& operand_at c = 0) ∧
      (get_flag (cpu_step c) FLAG_NEGATIVE = true ↔
        (c.regs.A &&& operand_at c).testBit 15 = true) ∧
      get_flag (cpu_step c) FLAG_CARRY = get_flag c FLAG_CARRY ∧
      (cpu_step c).regs.A = c.regs.A ∧ (cpu_step c).regs.B = c.regs.B ∧
      (cpu_step c).regs.C = c.regs.C ∧ (cpu_step c).regs.D = c.regs.D ∧
      (cpu_step c).regs.SP = c.regs.SP ∧ (cpu_step c).memory = c.memory) := by
  constructor
  · intro c d hrun hh hrund hcmp hsub hA hF hx
    have hhd : get_flag d FLAG_HALT = false := by
      rw [← get_flag_congr c d _ hF]; exact hh
    obtain ⟨hr, hm, -⟩ := operand_stage_frame c
    obtain ⟨hrd, -, -⟩ := operand_stage_frame d
    have hAc : (operand_stage c).2.regs.A = c.regs.A := by rw [hr]
    have hAd : (operand_stage d).2.regs.A = d.regs.A := by rw [hrd]
    have hFs : (operand_stage c).2.regs.FLAGS = (operand_stage d).2.regs.FLAGS := by
      rw [hr, hrd]; exact hF
    have hxc : (operand_stage c).1.operand = operand_at c := rfl
    have hxd : (operand_stage d).1.operand = operand_at d := rfl
    have hs := cpu_step_stage c hrun hh
    rw [hcmp, execute_cmp, hAc, hxc, low_word_self] at hs
    have hsd := cpu_step_stage d hrund hhd
    rw [hsub, execute_sub, carry_update_A, hAd, hxd, ← hA, ← hx] at hsd
    have hcarry : (if c.regs.A < operand_at c then set_flag (operand_stage c).2 FLAG_CARRY
          else clear_flag (operand_stage c).2 FLAG_CARRY).regs.FLAGS
        = (if c.regs.A < operand_at c then set_flag (operand_stage d).2 FLAG_CARRY
          else clear_flag (operand_stage d).2 FLAG_CARRY).regs.FLAGS := by
      unfold set_flag clear_flag
      split <;> simp only [hFs]
    have hrest : cpu_step c = { (operand_stage c).2 with
        regs := { (operand_stage c).2.regs with FLAGS := (cpu_step c).regs.FLAGS } } := by
      rw [hs, update_flags_eq, carry_update]
    refine ⟨?_, ?_, ?_, ?_, ?_, ?_, ?_⟩
    · rw [hs, hsd]
      exact update_flags_FLAGS_congr _ _ _ hcarry
    · rw [hrest]; simp only [hr]
    · rw [hrest]; simp only [hr]
    · rw [hrest]; simp only [hr]
    · rw [hrest]; simp only [hr]
    · rw [hrest]; simp only [hr]
    · rw [hrest]; exact hm
  · intro c hrun hh hop
    obtain ⟨hr, hm, -⟩ := operand_stage_frame c
    have hAc : (operand_stage c).2.regs.A = c.regs.A := by rw [hr]
    have hxc : (operand_stage c).1.operand = operand_at c := rfl
    have hs := cpu_step_stage c hrun hh
    rw [hop, execute_test, hAc, hxc] at hs
    have hrest : cpu_step c = { (operand_stage c).2 with
        regs := { (operand_stage c).2.regs with FLAGS := (cpu_step c).regs.FLAGS } } := by
      rw [hs, update_flags_eq]
    refine ⟨?_, ?_, ?_, ?_, ?_, ?_, ?_, ?_, ?_⟩
    · rw [hs, get_flag_update_flags_zero]; simp only [decide_eq_true_eq]
    · rw [hs, get_flag_update_flags_negative, ← bit_fifteen]; simp only [decide_eq_true_eq]
    · rw [hs]
      exact (get_flag_update_flags_other _ _ 1 (by decide) (by decide) (by decide)).trans
        (get_flag_stage c _)
    · rw [hrest]; simp only [hr]
    · rw [hrest]; simp only [hr]
    · rw [hrest]; simp only [hr]
    · rw [hrest]; simp only [hr]
    · rw [hrest]; simp only [hr]
    · rw [hrest]; exact hm

theorem cmp_flags_as_sub_witness :
    operand_at (alu_state 0x48 0x05 0x00 0x0003 0x01) = 5 ∧
    operand_at (alu_state 0x1C 0x05 0x00 0x0003 0x01) = 5 ∧
    (cpu_step (alu_state 0x48 0x05 0x00 0x0003 0x01)).regs.FLAGS
      = (cpu_step (alu_state 0x1C 0x05 0x00 0x0003 0x01)).regs.FLAGS ∧
    (cpu_step (alu_state 0x48 0x05 0x00 0x0003 0x01)).regs.FLAGS = 0x06 ∧
    (cpu_step (alu_state 0x48 0x05 0x00 0x0003 0x01)).regs.A = 3 ∧
    (cpu_step (alu_state 0x1C 0x05 0x00 0x0003 0x01)).regs.A = 0xFFFE ∧
    (get_flag (cpu_step (alu_state 0x4C 0x04 0x00 0x0003 0x02)) FLAG_ZERO = true ↔
      3 &&& 4 = 0) ∧
    (cpu_step (alu_state 0x4C 0x04 0x00 0x0003 0x02)).regs.A = 3 ∧
    (cpu_step (alu_state 0x4C 0x04 0x00 0x0003 0x02)).regs.FLAGS = 0x03 :=
  ⟨rfl, rfl,
   (cmp_flags_as_sub.1 (alu_state 0x48 0x05 0x00 0x0003 0x01)
     (alu_state 0x1C 0x05 0x00 0x0003 0x01) rfl rfl rfl rfl rfl rfl rfl rfl).1,
   rfl,
   (cmp_flags_as_sub.1 (alu_state 0x48 0x05 0x00 0x0003 0x01)
     (alu_state 0x1C 0x05 0x00 0x0003 0x01) rfl rfl rfl rfl rfl rfl rfl rfl).2.1,
   rfl,
   (cmp_flags_as_sub.2 (alu_state 0x4C 0x04 0x00 0x0003 0x02) rfl rfl rfl).1,
   (cmp_flags_as_sub.2 (alu_state 0x4C 0x04 0x00 0x0003 0x02) rfl rfl rfl).2.2.2.1,
   rfl⟩

theorem needs_operand_jump (opcode mode : Nat)
    (hop : opcode = OP_JMP ∨ opcode = OP_JZ ∨ opcode = OP_JNZ ∨ opcode = OP_JC ∨
      opcode = OP_JNC) : needs_operand opcode mode = true := by
  rcases hop with h | h | h | h | h <;> subst h <;> simp [needs_operand]

/-- The five jumps: `PC` becomes the operand when the condition holds and is
left where the operand stage put it otherwise; nothing else changes. -/
theorem execute_jump (s : CPU) (opcode mode : Nat) (o : Operand)
    (hop : opcode = OP_JMP ∨ opcode = OP_JZ ∨ opcode = OP_JNZ ∨ opcode = OP_JC ∨
      opcode = OP_JNC) :
    execute s opcode mode o
      = { s with regs := { s.regs with
            PC := if jump_condition opcode s = true then o.operand else s.regs.PC } } := by
  rcases hop with h | h | h | h | h <;> subst h
  · rw [execute_jmp]; rfl
  · rw [execute_jz]
    unfold jump_condition
    simp only [OP_JMP, OP_JZ, OP_JNZ, OP_JC, OP_JNC, Nat.reduceEqDiff, if_false, if_true]
    cases get_flag s FLAG_ZERO <;> rfl
  · rw [execute_jnz]
    unfold jump_condition
    simp only [OP_JMP, OP_JZ, OP_JNZ, OP_JC, OP_JNC, Nat.reduceEqDiff, if_false, if_true]
    cases get_flag s FLAG_ZERO <;> rfl
  · rw [execute_jc]
    unfold jump_condition
    simp only [OP_JMP, OP_JZ, OP_JNZ, OP_JC, OP_JNC, Nat.reduceEqDiff, if_false, if_true]
    cases get_flag s FLAG_CARRY <;> rfl
  · rw [execute_jnc]
    unfold jump_condition
    simp only [OP_JMP, OP_JZ, OP_JNZ, OP_JC, OP_JNC, Nat.reduceEqDiff, if_false, if_true]
    cases get_flag s FLAG_CARRY <;> rfl

theorem jump_condition_stage (opcode : Nat) (c : CPU) :
    jump_condition opcode (operand_stage c).2 = jump_condition opcode c := by
  unfold jump_condition
  simp only [get_flag_stage]

/-- Claim C29, as stated, fails when the operand is the address of the next
instruction: in `jump_next_state` (running, not halted, `JZ #3` at `PC = 0`
in IMMEDIATE mode, ZERO clear) the condition of the jump does not hold, yet
after one `cpu_step` `PC = 3`, which is the decoded operand `t`; so `PC = t`
without the condition. -/
theorem jump_to_next_counterexample :
    jump_next_state.running = true ∧
    get_flag jump_next_state FLAG_HALT = false ∧
    jump_next_state.regs.PC = 0 ∧
    jump_next_state.memory 0 = encode_instruction OP_JZ MODE_IMMEDIATE ∧
    jump_next_state.memory 1 = 3 ∧ jump_next_state.memory 2 = 0 ∧
    opcode_at jump_next_state = OP_JZ ∧
    mode_at jump_next_state = MODE_IMMEDIATE ∧
    operand_at jump_next_state = 3 ∧
    get_flag jump_next_state FLAG_ZERO = false ∧
    (cpu_step jump_next_state).regs.PC = 3 ∧
    ¬ ((cpu_step jump_next_state).regs.PC = operand_at jump_next_state ↔
        get_flag jump_next_state FLAG_ZERO = true) := by
  decide

/-- Claim C29, amended: in a running state whose HALT flag is clear and whose
instruction at `PC` is JMP, JZ, JNZ, JC or JNC with decoded operand value `t`:
after one `cpu_step` `PC = t` when the condition holds (always for JMP, ZERO
set for JZ, ZERO clear for JNZ, CARRY set for JC, CARRY clear for JNC), and
otherwise `PC` is the address of the next instruction (three bytes on in the
IMMEDIATE and DIRECT modes, two in the others, modulo 2^16), so that `PC = t`
iff the condition holds whenever `t` is another address than that one; `t` is
the word after the instruction byte in IMMEDIATE mode and the word the memory
holds at that address in DIRECT mode (instruction and address in RAM); and
`A`, `B`, `C`, `D`, `SP`, `FLAGS` and the memory are unchanged. -/
theorem jump_sets_PC (c : CPU) (hrun : c.running = true)
    (hh : get_flag c FLAG_HALT = false)
    (hop : opcode_at c = OP_JMP ∨ opcode_at c = OP_JZ ∨ opcode_at c = OP_JNZ ∨
      opcode_at c = OP_JC ∨ opcode_at c = OP_JNC) :
    (jump_condition (opcode_at c) c = true → (cpu_step c).regs.PC = operand_at c) ∧
    (jump_condition (opcode_at c) c = false → (cpu_step c).regs.PC = next_PC c) ∧
    (operand_at c ≠ next_PC c →
      ((cpu_step c).regs.PC = operand_at c ↔ jump_condition (opcode_at c) c = true)) ∧
    next_PC c = ((c.regs.PC + 1) % 65536
      + (if mode_at c = MODE_IMMEDIATE ∨ mode_at c = MODE_DIRECT then 2 else 1)) % 65536 ∧
    (mode_at c = MODE_IMMEDIATE → c.regs.PC + 2 < 0xFF00 →
      operand_at c = memory_word c.memory (c.regs.PC + 1)) ∧
    (mode_at c = MODE_DIRECT → c.regs.PC + 2 < 0xFF00 →
      memory_word c.memory (c.regs.PC + 1) + 1 < 0xFF00 →
      operand_at c = memory_word c.memory (memory_word c.memory (c.regs.PC + 1))) ∧
    (cpu_step c).regs.A = c.regs.A ∧ (cpu_step c).regs.B = c.regs.B ∧
    (cpu_step c).regs.C = c.regs.C ∧ (cpu_step c).regs.D = c.regs.D ∧
    (cpu_step c).regs.SP = c.regs.SP ∧ (cpu_step c).regs.FLAGS = c.regs.FLAGS ∧
    (cpu_step c).memory = c.memory := by
  obtain ⟨hr, hm, -⟩ := operand_stage_frame c
  have hn := needs_operand_jump (opcode_at c) (mode_at c) hop
  have hs := cpu_step_stage c hrun hh
  rw [execute_jump _ _ _ _ hop, jump_condition_stage] at hs
  have hx : (operand_stage c).1.operand = operand_at c := rfl
  have hp : (operand_stage c).2.regs.PC = next_PC c := rfl
  rw [hx, hp] at hs
  have hPC : (cpu_step c).regs.PC
      = if jump_condition (opcode_at c) c = true then operand_at c else next_PC c := by
    rw [hs]
  refine ⟨?_, ?_, ?_, next_PC_eq c hn, fun h1 h2 => operand_at_immediate c h2 h1 hn,
    fun h1 h2 h3 => operand_at_direct c h2 h1 hn h3, ?_, ?_, ?_, ?_, ?_, ?_, ?_⟩
  · intro ht
    rw [hPC, if_pos ht]
  · intro hf
    rw [hPC, if_neg (by rw [hf]; simp)]
  · intro hne
    rw [hPC]
    constructor
    · intro he
      by_contra hc
      rw [if_neg hc] at he
      exact hne he.symm
    · intro ht
      rw [if_pos ht]
  · rw [hs]; simp only [hr]
  · rw [hs]; simp only [hr]
  · rw [hs]; simp only [hr]
  · rw [hs]; simp only [hr]
  · rw [hs]; simp only [hr]
  · rw [hs]; simp only [hr]
  · rw [hs]; exact hm

theorem jump_sets_PC_witness :
    (jump_condition (opcode_at (alu_state 0x54 0x34 0x12 0 0x01)) (alu_state 0x54 0x34 0x12 0 0x01)
        = true ∧
      operand_at (alu_state 0x54 0x34 0x12 0 0x01) = 0x1234 ∧
      (cpu_step (alu_state 0x54 0x34 0x12 0 0x01)).regs.PC
        = operand_at (alu_state 0x54 0x34 0x12 0 0x01)) ∧
    (jump_condition (opcode_at (alu_state 0x54 0x34 0x12 0 0x00)) (alu_state 0x54 0x34 0x12 0 0x00)
        = false ∧
      next_PC (alu_state 0x54 0x34 0x12 0 0x00) = 3 ∧
      (cpu_step (alu_state 0x54 0x34 0x12 0 0x00)).regs.PC
        = next_PC (alu_state 0x54 0x34 0x12 0 0x00)) ∧
    (mode_at (alu_state 0x51 0x01 0x00 0 0x00) = MODE_DIRECT ∧
      operand_at (alu_state 0x51 0x01 0x00 0 0x00)
        = memory_word (alu_state 0x51 0x01 0x00 0 0x00).memory
            (memory_word (alu_state 0x51 0x01 0x00 0 0x00).memory 1) ∧
      (cpu_step (alu_state 0x51 0x01 0x00 0 0x00)).regs.PC = 0x0001) :=
  ⟨⟨rfl, rfl,
    (jump_sets_PC (alu_state 0x54 0x34 0x12 0 0x01) rfl rfl (by decide)).1 rfl⟩,
   ⟨rfl, rfl,
    (jump_sets_PC (alu_state 0x54 0x34 0x12 0 0x00) rfl rfl (by decide)).2.1 rfl⟩,
   ⟨rfl,
    (jump_sets_PC (alu_state 0x51 0x01 0x00 0 0x00) rfl rfl (by decide)).2.2.2.2.2.1 rfl
      (by decide) (by decide),
    rfl⟩⟩

theorem get_register_set_register_same (s : CPU) (r v : Nat) :
    get_register (set_register s r v) r = v := by
  unfold get_register set_register
  split_ifs <;> rfl

theorem get_register_set_register_other (s : CPU) (r q v : Nat) (hr : r < 4) (hq : q < 4)
    (hne : q ≠ r) : get_register (set_register s r v) q = get_register s q := by
  have h1 : r = 0 ∨ r = 1 ∨ r = 2 ∨ r = 3 := by omega
  have h2 : q = 0 ∨ q = 1 ∨ q = 2 ∨ q = 3 := by omega
  rcases h1 with h | h | h | h <;> subst h <;> rcases h2 with h | h | h | h <;> subst h <;>
    first
      | exact absurd rfl hne
      | rfl

theorem get_register_update_flags (s : CPU) (v q : Nat) :
    get_register (update_flags s v) q = get_register s q := by
  unfold get_register
  simp only [update_flags_A, update_flags_B, update_flags_C, update_flags_D]

theorem get_register_stage (c : CPU) (q : Nat) :
    get_register (operand_stage c).2 q = get_register c q := by
  unfold get_register
  rw [(operand_stage_frame c).1]

/-- In REGISTER mode the operand stage points `reg_ptr` at the register whose
number follows the instruction byte. -/
theorem reg_ptr_register (c : CPU) (hm : mode_at c = MODE_REGISTER)
    (hn : needs_operand (opcode_at c) (mode_at c) = true) :
    (operand_stage c).1.reg_ptr = some (register_byte_at c) := by
  rw [hm] at hn
  unfold operand_stage register_byte_at
  rw [hm]
  unfold fetch_operand
  rw [if_pos hn, if_neg (by decide), if_neg (by decide), if_pos rfl]

theorem register_byte_at_ram (c : CPU) (hpc : c.regs.PC + 1 < 0xFF00) :
    register_byte_at c = c.memory (c.regs.PC + 1) := by
  have e1 : (c.regs.PC + 1) % 65536 = c.regs.PC + 1 := Nat.mod_eq_of_lt (by omega)
  unfold register_byte_at
  rw [fetch_regs]
  simp only [e1]
  rw [mem_read8_ram _ _ hpc, fetch_memory]

/-- INC and DEC on the register `reg_ptr` points at, or on `A`. -/
theorem execute_inc_dec (s : CPU) (opcode mode : Nat) (o : Operand)
    (hop : opcode = OP_INC ∨ opcode = OP_DEC) :
    execute s opcode mode o
      = match (if mode = MODE_REGISTER then o.reg_ptr else none) with
        | some r =>
          update_flags
            (set_register s r ((get_register s r + (if opcode = OP_INC then 1 else 65535)) % 65536))
            ((get_register s r + (if opcode = OP_INC then 1 else 65535)) % 65536)
        | none =>
          update_flags
            { s with regs := { s.regs with
                A := (s.regs.A + (if opcode = OP_INC then 1 else 65535)) % 65536 } }
            ((s.regs.A + (if opcode = OP_INC then 1 else 65535)) % 65536) := by
  rcases hop with h | h <;> subst h
  · rw [execute_inc]
    cases (if mode = MODE_REGISTER then o.reg_ptr else none) with
    | none => rfl
    | some r => simp only [get_register_set_register_same]; rfl
  · rw [execute_dec]
    cases (if mode = MODE_REGISTER then o.reg_ptr else none) with
    | none => rfl
    | some r => simp only [get_register_set_register_same]; rfl

/-- Claim C30: in a running state whose HALT flag is clear and whose
instruction at `PC` is INC or DEC.  In REGISTER mode with register number `r`
in 0..3 (the byte after the instruction byte): after one `cpu_step` register
`r` holds its old value plus 1 (INC) or minus 1 (DEC) modulo 2^16, the other
three of `A`, `B`, `C`, `D` are unchanged, ZERO is set iff the new value of
`r` is 0 and NEGATIVE iff its bit 15 is set.  In every other addressing mode
`A` is incremented or decremented modulo 2^16, `B`, `C` and `D` are unchanged
and ZERO and NEGATIVE are set from the new `A`. -/
theorem inc_dec_selected_register (c : CPU) (hrun : c.running = true)
    (hh : get_flag c FLAG_HALT = false) (hop : opcode_at c = OP_INC ∨ opcode_at c = OP_DEC) :
    (mode_at c = MODE_REGISTER → register_byte_at c < 4 →
      (opcode_at c = OP_INC → get_register (cpu_step c) (register_byte_at c)
        = (get_register c (register_byte_at c) + 1) % 2 ^ 16) ∧
      (opcode_at c = OP_DEC → (get_register (cpu_step c) (register_byte_at c) : Int)
        = ((get_register c (register_byte_at c) : Int) - 1) % 2 ^ 16) ∧
      (∀ q, q < 4 → q ≠ register_byte_at c →
        get_register (cpu_step c) q = get_register c q) ∧
      (get_flag (cpu_step c) FLAG_ZERO = true ↔
        get_register (cpu_step c) (register_byte_at c) = 0) ∧
      (get_flag (cpu_step c) FLAG_NEGATIVE = true ↔
        (get_register (cpu_step c) (register_byte_at c)).testBit 15 = true)) ∧
    (mode_at c ≠ MODE_REGISTER →
      (opcode_at c = OP_INC → (cpu_step c).regs.A = (c.regs.A + 1) % 2 ^ 16) ∧
      (opcode_at c = OP_DEC → ((cpu_step c).regs.A : Int) = ((c.regs.A : Int) - 1) % 2 ^ 16) ∧
      (cpu_step c).regs.B = c.regs.B ∧ (cpu_step c).regs.C = c.regs.C ∧
      (cpu_step c).regs.D = c.regs.D ∧
      (get_flag (cpu_step c) FLAG_ZERO = true ↔ (cpu_step c).regs.A = 0) ∧
      (get_flag (cpu_step c) FLAG_NEGATIVE = true ↔ (cpu_step c).regs.A.testBit 15 = true)) ∧
    (c.regs.PC + 1 < 0xFF00 → register_byte_at c = c.memory (c.regs.PC + 1)) := by
  obtain ⟨hr, -, -⟩ := operand_stage_frame c
  have hn : needs_operand (opcode_at c) (mode_at c) = true := by
    rcases hop with h | h <;> rw [h] <;> simp [needs_operand]
  have hs := cpu_step_stage c hrun hh
  rw [execute_inc_dec _ _ _ _ hop] at hs
  refine ⟨?_, ?_, register_byte_at_ram c⟩
  · intro hm hlt
    rw [if_pos hm, reg_ptr_register c hm hn] at hs
    simp only [get_register_stage] at hs
    have hnew : get_register (cpu_step c) (register_byte_at c)
        = (get_register c (register_byte_at c)
            + (if opcode_at c = OP_INC then 1 else 65535)) % 65536 := by
      rw [hs, get_register_update_flags, get_register_set_register_same]
    refine ⟨?_, ?_, ?_, ?_, ?_⟩
    · intro hi
      rw [hnew, if_pos hi]
      rfl
    · intro hd
      rw [hnew, if_neg (by rw [hd]; decide)]
      omega
    · intro q hq hne
      rw [hs, get_register_update_flags, get_register_set_register_other _ _ _ _ hlt hq hne,
        get_register_stage]
    · rw [hnew, hs, get_flag_update_flags_zero]; simp only [decide_eq_true_eq]
    · rw [hnew, hs, get_flag_update_flags_negative, ← bit_fifteen]
      simp only [decide_eq_true_eq]
  · intro hm
    rw [if_neg hm] at hs
    simp only [] at hs
    have hA : (operand_stage c).2.regs.A = c.regs.A := by rw [hr]
    rw [hA] at hs
    have hnew : (cpu_step c).regs.A
        = (c.regs.A + (if opcode_at c = OP_INC then 1 else 65535)) % 65536 := by
      rw [hs]; simp only [update_flags_A]
    refine ⟨?_, ?_, ?_, ?_, ?_, ?_, ?_⟩
    · intro hi
      rw [hnew, if_pos hi]
      rfl
    · intro hd
      rw [hnew, if_neg (by rw [hd]; decide)]
      omega
    · rw [hs]; simp only [update_flags_B, hr]
    · rw [hs]; simp only [update_flags_C, hr]
    · rw [hs]; simp only [update_flags_D, hr]
    · rw [hnew, hs, get_flag_update_flags_zero]; simp only [decide_eq_true_eq]
    · rw [hnew, hs, get_flag_update_flags_negative, ← bit_fifteen]
      simp only [decide_eq_true_eq]

theorem inc_dec_selected_register_witness :
    (mode_at (alu_state 0x22 0x01 0x00 0x0005 0) = MODE_REGISTER ∧
      register_byte_at (alu_state 0x22 0x01 0x00 0x0005 0) = 1 ∧
      get_register (cpu_step (alu_state 0x22 0x01 0x00 0x0005 0))
          (register_byte_at (alu_state 0x22 0x01 0x00 0x0005 0))
        = (get_register (alu_state 0x22 0x01 0x00 0x0005 0)
            (register_byte_at (alu_state 0x22 0x01 0x00 0x0005 0)) + 1) % 2 ^ 16 ∧
      (cpu_step (alu_state 0x22 0x01 0x00 0x0005 0)).regs.B = 0x1112 ∧
      (cpu_step (alu_state 0x22 0x01 0x00 0x0005 0)).regs.A = 5) ∧
    (mode_at (alu_state 0x24 0x00 0x00 0x0000 0) = MODE_IMMEDIATE ∧
      ((cpu_step (alu_state 0x24 0x00 0x00 0x0000 0)).regs.A : Int)
        = (((alu_state 0x24 0x00 0x00 0x0000 0).regs.A : Int) - 1) % 2 ^ 16 ∧
      (cpu_step (alu_state 0x24 0x00 0x00 0x0000 0)).regs.A = 0xFFFF ∧
      (cpu_step (alu_state 0x24 0x00 0x00 0x0000 0)).regs.FLAGS = 0x04) :=
  ⟨⟨rfl, rfl,
    ((inc_dec_selected_register (alu_state 0x22 0x01 0x00 0x0005 0) rfl rfl
      (Or.inl rfl)).1 rfl (by decide)).1 rfl,
    rfl, rfl⟩,
   ⟨rfl,
    ((inc_dec_selected_register (alu_state 0x24 0x00 0x00 0x0000 0) rfl rfl
      (Or.inr rfl)).2.1 (by decide)).2.1 rfl,
    rfl, rfl⟩⟩

/-! ## What a step writes: flags and the cycle counter -/

theorem set_register_FLAGS (c : CPU) (r v : Nat) :
    (set_register c r v).regs.FLAGS = c.regs.FLAGS := by
  unfold set_register
  split_ifs <;> rfl

theorem set_register_cycles (c : CPU) (r v : Nat) : (set_register c r v).cycles = c.cycles := by
  unfold set_register
  split_ifs <;> rfl

theorem getchar_cycles (c : CPU) : (getchar c).2.cycles = c.cycles := by
  unfold getchar; split <;> rfl

theorem get_time_ms_cycles (c : CPU) : (get_time_ms c).2.cycles = c.cycles := by
  unfold get_time_ms; split <;> rfl

theorem mem_read8_cycles (c : CPU) (a : Nat) : (mem_read8 c a).2.cycles = c.cycles := by
  unfold mem_read8
  split
  · split
    · exact getchar_cycles c
    · rfl
  · rfl

theorem mem_read16_cycles (c : CPU) (a : Nat) : (mem_read16 c a).2.cycles = c.cycles := by
  unfold mem_read16
  split
  · exact get_time_ms_cycles c
  · simp only [mem_read8_cycles]

theorem mem_write8_cycles (c : CPU) (a v : Nat) : (mem_write8 c a v).cycles = c.cycles := by
  unfold mem_write8
  split
  · split <;> rfl
  · rfl

theorem mem_write16_cycles (c : CPU) (a v : Nat) : (mem_write16 c a v).cycles = c.cycles := by
  unfold mem_write16
  simp only [mem_write8_cycles]

theorem stack_push8_cycles (c : CPU) (v : Nat) : (stack_push8 c v).cycles = c.cycles := by
  rw [stack_push8]
  exact (with_SP_cycles _ _).trans (mem_write8_cycles c c.regs.SP v)

theorem stack_push16_cycles (c : CPU) (v : Nat) : (stack_push16 c v).cycles = c.cycles := by
  unfold stack_push16
  simp only [stack_push8_cycles]

theorem stack_pop8_cycles (c : CPU) : (stack_pop8 c).2.cycles = c.cycles := by
  unfold stack_pop8
  simp only [mem_read8_cycles]

theorem stack_pop16_cycles (c : CPU) : (stack_pop16 c).2.cycles = c.cycles := by
  unfold stack_pop16
  simp only [stack_pop8_cycles]

theorem fetch_cycles (c : CPU) : (fetch c).2.cycles = (c.cycles + 1) % 2 ^ 64 := by
  unfold fetch
  simp only [mem_read8_cycles]

theorem fetch_operand_cycles (c : CPU) (opcode mode : Nat) :
    (fetch_operand c opcode mode).2.cycles = c.cycles := by
  unfold fetch_operand
  split
  · split
    · simp only [mem_read16_cycles]
    · split
      · simp only [mem_read16_cycles]
      · split
        · simp only [mem_read8_cycles]
        · split
          · simp only [mem_read16_cycles, mem_read8_cycles]
          · rfl
  · rfl

theorem opcode_cases (opcode : Nat) (h : opcode < 30) :
    opcode = OP_NOP ∨ opcode = OP_LOAD ∨ opcode = OP_STORE ∨ opcode = OP_MOV ∨
    opcode = OP_PUSH ∨ opcode = OP_POP ∨ opcode = OP_ADD ∨ opcode = OP_SUB ∨
    opcode = OP_INC ∨ opcode = OP_DEC ∨ opcode = OP_MUL ∨ opcode = OP_DIV ∨
    opcode = OP_AND ∨ opcode = OP_OR ∨ opcode = OP_XOR ∨ opcode = OP_NOT ∨
    opcode = OP_SHL ∨ opcode = OP_SHR ∨ opcode = OP_CMP ∨ opcode = OP_TEST ∨
    opcode = OP_JMP ∨ opcode = OP_JZ ∨ opcode = OP_JNZ ∨ opcode = OP_JC ∨
    opcode = OP_JNC ∨ opcode = OP_CALL ∨ opcode = OP_RET ∨ opcode = OP_HALT ∨
    opcode = OP_IN ∨ opcode = OP_OUT := by
  simp only [OP_NOP, OP_LOAD, OP_STORE, OP_MOV, OP_PUSH, OP_POP, OP_ADD, OP_SUB, OP_INC, OP_DEC,
    OP_MUL, OP_DIV, OP_AND, OP_OR, OP_XOR, OP_NOT, OP_SHL, OP_SHR, OP_CMP, OP_TEST, OP_JMP,
    OP_JZ, OP_JNZ, OP_JC, OP_JNC, OP_CALL, OP_RET, OP_HALT, OP_IN, OP_OUT]
  omega

/-- CALL pushes the return address and sets `PC`: the cycle counter and
`FLAGS` stay. -/
theorem execute_call_cycles (s : CPU) (mode : Nat) (o : Operand) :
    (execute s OP_CALL mode o).cycles = s.cycles := by
  rw [execute_call]
  exact (with_PC_cycles _ _).trans (stack_push16_cycles s s.regs.PC)

theorem execute_call_FLAGS (s : CPU) (mode : Nat) (o : Operand) :
    (execute s OP_CALL mode o).regs.FLAGS = s.regs.FLAGS := by
  rw [execute_call]
  exact (with_PC_FLAGS _ _).trans (stack_push16_FLAGS s s.regs.PC)

/-- The two branches of DEC, for any value `k` stored in `A`. -/
theorem dec_cycles (s : CPU) (p : Option Nat) (k : Nat) :
    (match p with
      | some r =>
        update_flags (set_register s r ((get_register s r + 65535) % 65536))
          (get_register (set_register s r ((get_register s r + 65535) % 65536)) r)
      | none => update_flags { s with regs := { s.regs with A := k } } k).cycles = s.cycles := by
  cases p
  · exact (update_flags_cycles _ _).trans (with_A_cycles _ _)
  · exact (update_flags_cycles _ _).trans (set_register_cycles _ _ _)

theorem execute_dec_cycles (s : CPU) (mode : Nat) (o : Operand) :
    (execute s OP_DEC mode o).cycles = s.cycles := by
  rw [execute_dec]
  exact dec_cycles s _ _

theorem execute_dec_flag (s : CPU) (mode : Nat) (o : Operand) (b : Nat) (hb : b < 8)
    (h0 : 0 ≠ b) (h2 : 2 ≠ b) :
    get_flag (execute s OP_DEC mode o) (2 ^ b) = get_flag s (2 ^ b) := by
  rw [execute_dec]
  split
  · exact (get_flag_update_flags_other _ _ b h0 h2 hb).trans
      (get_flag_congr _ _ _ (set_register_FLAGS _ _ _))
  · exact (get_flag_update_flags_other _ _ b h0 h2 hb).trans
      (get_flag_congr _ _ _ (with_A_FLAGS _ _))

/-- The `switch (opcode)` does not touch the cycle counter. -/
theorem execute_cycles (s : CPU) (opcode mode : Nat) (o : Operand) :
    (execute s opcode mode o).cycles = s.cycles := by
  by_cases hk : 30 ≤ opcode
  · rw [execute_unknown _ _ _ _ hk]
  · rcases opcode_cases opcode (by omega) with h | h | h | h | h | h | h | h | h | h | h | h |
      h | h | h | h | h | h | h | h | h | h | h | h | h | h | h | h | h | h <;> subst h
    all_goals
      first
        | with_reducible exact execute_dec_cycles s mode o
        | with_reducible exact execute_call_cycles s mode o
        | skip
    all_goals
      simp only [execute_nop, execute_load, execute_store, execute_mov, execute_push,
        execute_pop, execute_add, execute_sub, execute_inc, execute_mul,
        execute_div, execute_and, execute_or, execute_xor, execute_not, execute_shl,
        execute_shr, execute_cmp, execute_test, execute_jmp, execute_jz, execute_jnz,
        execute_jc, execute_jnc, execute_ret, execute_halt, execute_in,
        execute_out]
    all_goals try generalize (if mode = MODE_REGISTER then o.reg_ptr else none) = p
    all_goals try cases p
    all_goals try split_ifs
    all_goals
      first
        | with_reducible rfl
        | simp only [update_flags_cycles, set_flag_cycles, clear_flag_cycles,
            set_register_cycles, mem_read8_cycles, mem_write8_cycles, mem_write16_cycles,
            stack_push16_cycles, stack_pop16_cycles]

/-- The opcodes that never write `FLAGS`. -/
theorem execute_FLAGS_kept (s : CPU) (opcode mode : Nat) (o : Operand)
    (hop : opcode = OP_NOP ∨ opcode = OP_STORE ∨ opcode = OP_PUSH ∨ opcode = OP_JMP ∨
      opcode = OP_JZ ∨ opcode = OP_JNZ ∨ opcode = OP_JC ∨ opcode = OP_JNC ∨
      opcode = OP_CALL ∨ opcode = OP_RET ∨ opcode = OP_OUT) :
    (execute s opcode mode o).regs.FLAGS = s.regs.FLAGS := by
  rcases hop with h | h | h | h | h | h | h | h | h | h | h <;> subst h
  all_goals first | with_reducible exact execute_call_FLAGS s mode o | skip
  all_goals
    simp only [execute_nop, execute_store, execute_push, execute_jmp, execute_jz, execute_jnz,
      execute_jc, execute_jnc, execute_ret, execute_out]
  all_goals try split_ifs
  all_goals
    first
      | with_reducible rfl
      | simp only [mem_write8_regs, mem_write16_regs, stack_push16_FLAGS, stack_pop16_FLAGS]

/-- The opcodes that write `FLAGS` through `update_flags` alone leave every
bit but ZERO and NEGATIVE as it was. -/
theorem execute_flag_updated (s : CPU) (opcode mode : Nat) (o : Operand) (b : Nat) (hb : b < 8)
    (h0 : 0 ≠ b) (h2 : 2 ≠ b)
    (hop : opcode = OP_LOAD ∨ opcode = OP_MOV ∨ opcode = OP_POP ∨ opcode = OP_INC ∨
      opcode = OP_DEC ∨ opcode = OP_MUL ∨ opcode = OP_DIV ∨ opcode = OP_AND ∨
      opcode = OP_OR ∨ opcode = OP_XOR ∨ opcode = OP_NOT ∨ opcode = OP_SHL ∨
      opcode = OP_SHR ∨ opcode = OP_TEST ∨ opcode = OP_IN) :
    get_flag (execute s opcode mode o) (2 ^ b) = get_flag s (2 ^ b) := by
  rcases hop with h | h | h | h | h | h | h | h | h | h | h | h | h | h | h <;> subst h
  all_goals first | with_reducible exact execute_dec_flag s mode o b hb h0 h2 | skip
  all_goals
    simp only [execute_load, execute_mov, execute_pop, execute_inc, execute_mul,
      execute_div, execute_and, execute_or, execute_xor, execute_not, execute_shl,
      execute_shr, execute_test, execute_in]
  all_goals try generalize (if mode = MODE_REGISTER then o.reg_ptr else none) = p
  all_goals try cases p
  all_goals try split_ifs
  all_goals
    first
      | with_reducible rfl
      | (refine (get_flag_update_flags_other _ _ b h0 h2 hb).trans (get_flag_congr _ _ _ ?_)
         first
           | with_reducible rfl
           | simp only [set_register_FLAGS, mem_read8_regs, stack_pop16_FLAGS])

/-- A flag bit other than ZERO and NEGATIVE is left alone by the
`switch (opcode)`, except CARRY by ADD, SUB and CMP and HALT by HALT. -/
theorem execute_flag_bit (s : CPU) (opcode mode : Nat) (o : Operand) (b : Nat) (hb : b < 8)
    (h0 : 0 ≠ b) (h2 : 2 ≠ b)
    (h1 : 1 = b → opcode ≠ OP_ADD ∧ opcode ≠ OP_SUB ∧ opcode ≠ OP_CMP)
    (h7 : 7 = b → opcode ≠ OP_HALT) :
    get_flag (execute s opcode mode o) (2 ^ b) = get_flag s (2 ^ b) := by
  by_cases hk : 30 ≤ opcode
  · rw [execute_unknown _ _ _ _ hk]
    rfl
  have hkeep : ∀ hop, get_flag (execute s opcode mode o) (2 ^ b) = get_flag s (2 ^ b) :=
    fun hop => get_flag_congr _ _ _ (execute_FLAGS_kept s opcode mode o hop)
  have hupd := execute_flag_updated s opcode mode o b hb h0 h2
  rcases opcode_cases opcode (by omega) with h | h | h | h | h | h | h | h | h | h | h | h |
    h | h | h | h | h | h | h | h | h | h | h | h | h | h | h | h | h | h
  · exact hkeep (by simp only [h, true_or])
  · exact hupd (by simp only [h, true_or])
  · exact hkeep (by simp only [h, true_or, or_true])
  · exact hupd (by simp only [h, true_or, or_true])
  · exact hkeep (by simp only [h, true_or, or_true])
  · exact hupd (by simp only [h, true_or, or_true])
  · subst h
    rw [execute_add]
    exact (get_flag_update_flags_other _ _ b h0 h2 hb).trans
      ((get_flag_congr _ (if (s.regs.A + o.operand) % 2 ^ 32 > 0xFFFF then set_flag s FLAG_CARRY
          else clear_flag s FLAG_CARRY) _ rfl).trans
        (get_flag_carry_update_other s _ b (fun e => (h1 e).1 rfl) hb))
  · subst h
    rw [execute_sub]
    exact (get_flag_update_flags_other _ _ b h0 h2 hb).trans
      ((get_flag_congr _ (if s.regs.A < o.operand then set_flag s FLAG_CARRY
          else clear_flag s FLAG_CARRY) _ rfl).trans
        (get_flag_carry_update_other s _ b (fun e => (h1 e).2.1 rfl) hb))
  · exact hupd (by simp only [h, true_or, or_true])
  · exact hupd (by simp only [h, true_or, or_true])
  · exact hupd (by simp only [h, true_or, or_true])
  · exact hupd (by simp only [h, true_or, or_true])
  · exact hupd (by simp only [h, true_or, or_true])
  · exact hupd (by simp only [h, true_or, or_true])
  · exact hupd (by simp only [h, true_or, or_true])
  · exact hupd (by simp only [h, true_or, or_true])
  · exact hupd (by simp only [h, true_or, or_true])
  · exact hupd (by simp only [h, true_or, or_true])
  · subst h
    rw [execute_cmp]
    exact (get_flag_update_flags_other _ _ b h0 h2 hb).trans
      (get_flag_carry_update_other s _ b (fun e => (h1 e).2.2 rfl) hb)
  · exact hupd (by simp only [h, true_or, or_true])
  · exact hkeep (by simp only [h, true_or, or_true])
  · exact hkeep (by simp only [h, true_or, or_true])
  · exact hkeep (by simp only [h, true_or, or_true])
  · exact hkeep (by simp only [h, true_or, or_true])
  · exact hkeep (by simp only [h, true_or, or_true])
  · exact hkeep (by simp only [h, true_or, or_true])
  · exact hkeep (by simp only [h, true_or, or_true])
  · subst h
    rw [execute_halt]
    exact (get_flag_congr _ (set_flag s FLAG_HALT) _ rfl).trans
      (get_flag_set_flag_other s 7 b (fun e => h7 e rfl) hb)
  · exact hupd (by simp only [h, true_or, or_true])
  · exact hkeep (by simp only [h, true_or, or_true])

/-- A CPU that is not running, or whose HALT flag is set, is left as it is. -/
theorem cpu_step_stopped (c : CPU) (h : c.running = false ∨ get_flag c FLAG_HALT = true) :
    cpu_step c = c := by
  unfold cpu_step
  rw [if_pos]
  rcases h with h | h
  · rw [h]; rfl
  · rw [h]; simp

/-- Claim C31: for every CPU state (a state in which `cpu_step` does nothing
included), one `cpu_step` leaves the CARRY bit unchanged when the opcode of
the instruction at `PC` is not ADD, SUB or CMP, leaves the OVERFLOW bit
unchanged whatever the opcode, and leaves the HALT bit unchanged when the
opcode is not HALT; the HALT instruction, run by a running CPU whose HALT flag
is clear, sets it. -/
theorem flag_write_sets (c : CPU) :
    (opcode_at c ≠ OP_ADD → opcode_at c ≠ OP_SUB → opcode_at c ≠ OP_CMP →
      get_flag (cpu_step c) FLAG_CARRY = get_flag c FLAG_CARRY) ∧
    get_flag (cpu_step c) FLAG_OVERFLOW = get_flag c FLAG_OVERFLOW ∧
    (opcode_at c ≠ OP_HALT → get_flag (cpu_step c) FLAG_HALT = get_flag c FLAG_HALT) ∧
    (c.running = true → get_flag c FLAG_HALT = false → opcode_at c = OP_HALT →
      get_flag (cpu_step c) FLAG_HALT = true) := by
  by_cases hstop : c.running = false ∨ get_flag c FLAG_HALT = true
  · rw [cpu_step_stopped c hstop]
    refine ⟨fun _ _ _ => rfl, rfl, fun _ => rfl, ?_⟩
    intro hrun hh
    rcases hstop with h | h
    · rw [h] at hrun; exact absurd hrun (by decide)
    · rw [h] at hh; exact absurd hh (by decide)
  · have hrun : c.running = true := by
      cases hr : c.running with
      | true => rfl
      | false => exact absurd (Or.inl hr) hstop
    have hh : get_flag c FLAG_HALT = false := by
      cases hf : get_flag c FLAG_HALT with
      | false => rfl
      | true => exact absurd (Or.inr hf) hstop
    rw [cpu_step_stage c hrun hh]
    refine ⟨?_, ?_, ?_, ?_⟩
    · intro h1 h2 h3
      exact (execute_flag_bit _ _ _ _ 1 (by decide) (by decide) (by decide)
        (fun _ => ⟨h1, h2, h3⟩) (fun e => absurd e (by decide))).trans (get_flag_stage c _)
    · exact (execute_flag_bit _ _ _ _ 3 (by decide) (by decide) (by decide)
        (fun e => absurd e (by decide)) (fun e => absurd e (by decide))).trans
        (get_flag_stage c _)
    · intro h7
      exact (execute_flag_bit _ _ _ _ 7 (by decide) (by decide) (by decide)
        (fun e => absurd e (by decide)) (fun _ => h7)).trans (get_flag_stage c _)
    · intro _ _ hop
      rw [hop, execute_halt]
      exact (get_flag_congr _ (set_flag (operand_stage c).2 FLAG_HALT) _ rfl).trans
        (get_flag_set_flag_same _ 7 (by decide))

theorem flag_write_sets_witness :
    (opcode_at (alu_state 0x04 0x00 0x80 0x0003 0x0A) = OP_LOAD ∧
      (cpu_step (alu_state 0x04 0x00 0x80 0x0003 0x0A)).regs.FLAGS = 0x0E ∧
      get_flag (cpu_step (alu_state 0x04 0x00 0x80 0x0003 0x0A)) FLAG_CARRY
        = get_flag (alu_state 0x04 0x00 0x80 0x0003 0x0A) FLAG_CARRY) ∧
    (opcode_at (alu_state 0x18 0x01 0x00 0xFFFF 0x08) = OP_ADD ∧
      (cpu_step (alu_state 0x18 0x01 0x00 0xFFFF 0x08)).regs.FLAGS = 0x0B ∧
      get_flag (cpu_step (alu_state 0x18 0x01 0x00 0xFFFF 0x08)) FLAG_OVERFLOW
        = get_flag (alu_state 0x18 0x01 0x00 0xFFFF 0x08) FLAG_OVERFLOW) ∧
    get_flag (cpu_step (alu_state 0x18 0x01 0x00 0xFFFF 0x08)) FLAG_HALT
      = get_flag (alu_state 0x18 0x01 0x00 0xFFFF 0x08) FLAG_HALT ∧
    get_flag (cpu_step (alu_state 0x6C 0x00 0x00 0x0000 0x00)) FLAG_HALT = true :=
  ⟨⟨rfl, rfl, (flag_write_sets (alu_state 0x04 0x00 0x80 0x0003 0x0A)).1
      (by decide) (by decide) (by decide)⟩,
   ⟨rfl, rfl, (flag_write_sets (alu_state 0x18 0x01 0x00 0xFFFF 0x08)).2.1⟩,
   (flag_write_sets (alu_state 0x18 0x01 0x00 0xFFFF 0x08)).2.2.1 (by decide),
   (flag_write_sets (alu_state 0x6C 0x00 0x00 0x0000 0x00)).2.2.2 rfl rfl rfl⟩

/-- Claim C32: `cpu_step` returns the state it was given, whole, when the CPU
is not running or its HALT flag is set; on every other state it adds 1 to the
cycle counter (a `uint64_t`: modulo 2^64, so plainly 1 more unless the
counter holds its largest value). -/
theorem stopped_or_one_cycle (c : CPU) :
    ((c.running = false ∨ get_flag c FLAG_HALT = true) →
      cpu_step c = c ∧ (cpu_step c).regs = c.regs ∧ (cpu_step c).memory = c.memory ∧
      (cpu_step c).running = c.running ∧ (cpu_step c).cycles = c.cycles) ∧
    (c.running = true → get_flag c FLAG_HALT = false →
      (cpu_step c).cycles = (c.cycles + 1) % 2 ^ 64 ∧
      (c.cycles < 2 ^ 64 - 1 → (cpu_step c).cycles = c.cycles + 1)) := by
  constructor
  · intro h
    rw [cpu_step_stopped c h]
    exact ⟨rfl, rfl, rfl, rfl, rfl⟩
  · intro hrun hh
    have hc : (cpu_step c).cycles = (c.cycles + 1) % 2 ^ 64 := by
      rw [cpu_step_stage c hrun hh, execute_cycles]
      unfold operand_stage
      rw [fetch_operand_cycles, fetch_cycles]
    refine ⟨hc, ?_⟩
    intro hlt
    rw [hc]
    exact Nat.mod_eq_of_lt (by omega)

theorem stopped_or_one_cycle_witness :
    cpu_step { alu_state 0x18 0x01 0x00 0x0003 0x00 with running := false }
      = { alu_state 0x18 0x01 0x00 0x0003 0x00 with running := false } ∧
    cpu_step (alu_state 0x18 0x01 0x00 0x0003 0x80) = alu_state 0x18 0x01 0x00 0x0003 0x80 ∧
    (cpu_step (alu_state 0x18 0x01 0x00 0x0003 0x00)).cycles
      = (alu_state 0x18 0x01 0x00 0x0003 0x00).cycles + 1 :=
  ⟨((stopped_or_one_cycle
      { alu_state 0x18 0x01 0x00 0x0003 0x00 with running := false }).1 (Or.inl rfl)).1,
   ((stopped_or_one_cycle (alu_state 0x18 0x01 0x00 0x0003 0x80)).1 (Or.inr rfl)).1,
   ((stopped_or_one_cycle (alu_state 0x18 0x01 0x00 0x0003 0x00)).2 rfl rfl).2 (by decide)⟩

/-- What `getchar` returns: the next input byte, or 255 at end of input. -/
theorem getchar_value (s : CPU) :
    (getchar s).1 = (match s.stdin with
                     | [] => 255
                     | byte :: _ => byte % 256) := by
  unfold getchar
  generalize s.stdin = input
  cases input <;> rfl

/-- After `getchar` the byte it returned is gone from the input. -/
theorem getchar_rest (s : CPU) : (getchar s).2.stdin = s.stdin.tail := by
  unfold getchar
  cases h : s.stdin with
  | nil => simp only [h, List.tail_nil]
  | cons byte rest => rfl

/-- Claim C33: in a running state whose HALT flag is clear and whose
instruction at `PC` is IN with 16-bit operand value `x`, `cpu_step` reads the
byte at address `(0xFF00 + x) mod 2^16`.  For `x` of 0x0100 or more that
address is `x - 0x0100`, in RAM: `A` becomes the memory byte stored there and
nothing of the environment is touched.  For `x` in 1..0xFF `A` becomes 0,
again without touching the environment.  For `x = 0` `A` becomes what
`getchar` returns: the next input byte, or 255 at end of input. -/
theorem in_port_wraps (c : CPU) (hrun : c.running = true)
    (hh : get_flag c FLAG_HALT = false) (hop : opcode_at c = OP_IN)
    (hx : operand_at c < 65536) :
    cpu_step c
      = update_flags
          { (mem_read8 (operand_stage c).2 ((0xFF00 + operand_at c) % 2 ^ 16)).2 with
            regs := { (mem_read8 (operand_stage c).2 ((0xFF00 + operand_at c) % 2 ^ 16)).2.regs with
                      A := (mem_read8 (operand_stage c).2 ((0xFF00 + operand_at c) % 2 ^ 16)).1 } }
          (mem_read8 (operand_stage c).2 ((0xFF00 + operand_at c) % 2 ^ 16)).1 ∧
    (0x0100 ≤ operand_at c →
      (0xFF00 + operand_at c) % 2 ^ 16 = operand_at c - 0x0100 ∧
      operand_at c - 0x0100 < 0xFF00 ∧
      (cpu_step c).regs.A = c.memory (operand_at c - 0x0100) ∧
      cpu_step c
        = update_flags
            { (operand_stage c).2 with
              regs := { (operand_stage c).2.regs with A := c.memory (operand_at c - 0x0100) } }
            (c.memory (operand_at c - 0x0100))) ∧
    (1 ≤ operand_at c → operand_at c ≤ 0xFF →
      (cpu_step c).regs.A = 0 ∧
      cpu_step c
        = update_flags
            { (operand_stage c).2 with regs := { (operand_stage c).2.regs with A := 0 } } 0) ∧
    (operand_at c = 0 →
      (cpu_step c).regs.A = (getchar (operand_stage c).2).1 ∧
      (cpu_step c).stdin = (operand_stage c).2.stdin.tail ∧
      (getchar (operand_stage c).2).1
        = (match (operand_stage c).2.stdin with
           | [] => 255
           | byte :: _ => byte % 256)) := by
  obtain ⟨-, hm, -⟩ := operand_stage_frame c
  have hxe : (operand_stage c).1.operand = operand_at c := rfl
  have hs := cpu_step_stage c hrun hh
  rw [hop, execute_in, hxe] at hs
  have hs' : cpu_step c
      = update_flags
          { (mem_read8 (operand_stage c).2 ((0xFF00 + operand_at c) % 2 ^ 16)).2 with
            regs := { (mem_read8 (operand_stage c).2 ((0xFF00 + operand_at c) % 2 ^ 16)).2.regs with
                      A := (mem_read8 (operand_stage c).2 ((0xFF00 + operand_at c) % 2 ^ 16)).1 } }
          (mem_read8 (operand_stage c).2 ((0xFF00 + operand_at c) % 2 ^ 16)).1 := hs
  refine ⟨hs', ?_, ?_, ?_⟩
  · intro h1
    have e : (0xFF00 + operand_at c) % 2 ^ 16 = operand_at c - 0x0100 := by omega
    have hlt : operand_at c - 0x0100 < 0xFF00 := by omega
    have hread := mem_read8_ram (operand_stage c).2 (operand_at c - 0x0100) hlt
    rw [hm] at hread
    have hfull : cpu_step c
        = update_flags
            { (operand_stage c).2 with
              regs := { (operand_stage c).2.regs with A := c.memory (operand_at c - 0x0100) } }
            (c.memory (operand_at c - 0x0100)) := by
      rw [hs', e, hread]
    refine ⟨e, hlt, ?_, hfull⟩
    rw [hfull]
    simp only [update_flags_A]
  · intro h1 h2
    have hread := (io_window_not_backed (operand_stage c).2
      ((0xFF00 + operand_at c) % 2 ^ 16) 0).2 (by omega)
    have hfull : cpu_step c
        = update_flags
            { (operand_stage c).2 with regs := { (operand_stage c).2.regs with A := 0 } } 0 := by
      rw [hs', hread]
    refine ⟨?_, hfull⟩
    rw [hfull]
    simp only [update_flags_A]
  · intro h0
    have e : (0xFF00 + operand_at c) % 2 ^ 16 = 0xFF00 := by rw [h0]; rfl
    have hread : mem_read8 (operand_stage c).2 0xFF00 = getchar (operand_stage c).2 := by
      unfold mem_read8
      rw [if_pos (by decide), if_pos rfl]
    rw [e, hread] at hs'
    refine ⟨?_, ?_, getchar_value _⟩
    · rw [hs']; simp only [update_flags_A]
    · rw [hs']
      simp only [update_flags_stdin]
      exact getchar_rest _

theorem in_port_wraps_witness :
    (operand_at (input_state 0x70 0x01 0x01 0 0 [0x41]) = 0x0101 ∧
      (cpu_step (input_state 0x70 0x01 0x01 0 0 [0x41])).regs.A
        = (input_state 0x70 0x01 0x01 0 0 [0x41]).memory (0x0101 - 0x0100) ∧
      (cpu_step (input_state 0x70 0x01 0x01 0 0 [0x41])).regs.A = 0x01 ∧
      (cpu_step (input_state 0x70 0x01 0x01 0 0 [0x41])).stdin = [0x41]) ∧
    (operand_at (input_state 0x70 0x05 0x00 7 0 [0x41]) = 5 ∧
      (cpu_step (input_state 0x70 0x05 0x00 7 0 [0x41])).regs.A = 0 ∧
      (cpu_step (input_state 0x70 0x05 0x00 7 0 [0x41])).stdin = [0x41]) ∧
    (operand_at (input_state 0x70 0x00 0x00 7 0 [0x41]) = 0 ∧
      (cpu_step (input_state 0x70 0x00 0x00 7 0 [0x41])).regs.A
        = (getchar (operand_stage (input_state 0x70 0x00 0x00 7 0 [0x41])).2).1 ∧
      (cpu_step (input_state 0x70 0x00 0x00 7 0 [0x41])).regs.A = 0x41 ∧
      (cpu_step (input_state 0x70 0x00 0x00 7 0 [0x41])).stdin = []) :=
  ⟨⟨rfl,
    ((in_port_wraps (input_state 0x70 0x01 0x01 0 0 [0x41]) rfl rfl rfl (by decide)).2.1
      (by decide)).2.2.1,
    rfl, rfl⟩,
   ⟨rfl,
    ((in_port_wraps (input_state 0x70 0x05 0x00 7 0 [0x41]) rfl rfl rfl (by decide)).2.2.1
      (by decide) (by decide)).1,
    rfl⟩,
   ⟨rfl,
    ((in_port_wraps (input_state 0x70 0x00 0x00 7 0 [0x41]) rfl rfl rfl (by decide)).2.2.2
      rfl).1,
    rfl, rfl⟩⟩

end SoftCpu
